import Mathlib

/-! # GraphicsUI (CoreLib/LibUI/LibUI.cpp): clip-rect stack, hit-testing, focus, mouse
dispatch, menus, layout and scroll bar

Shallow embedding of the control-tree machinery of `LibUI.cpp`.

Conventions of the embedding
* C++ `int` is modelled by `Int`; the development covers the runs in which no signed
  overflow (undefined behaviour in C++) occurs.
* A read or write outside an array, or through a null pointer, makes the modelled
  function return `none`.
* Recursion over the control tree that is not structural carries a bound (`fuel`, `depth`);
  `none` is also the bound reached, and the theorems show that a bound covering the tree
  gives a result.
-/

namespace GraphicsUI

/-! ## Rect and ClipRectStack (LibUI.cpp 388-460) -/

/-- Integer rectangle `Rect(x, y, w, h)`. -/
structure Rect where
  x : Int
  y : Int
  w : Int
  h : Int
deriving DecidableEq, Repr

/-- State of a `ClipRectStack`.  `Buffer` is the fixed-capacity array member (its length is
the capacity declared in the header), `StackSize` the number of live entries, and `graphics`
the list of `graphics->SetClipRect(x, y, w, h)` calls issued so far, oldest first. -/
structure ClipRectStack where
  Buffer : List Rect
  StackSize : Nat
  WindowWidth : Int
  WindowHeight : Int
  graphics : List Rect
deriving DecidableEq, Repr

namespace ClipRectStack

/-- The live entries `Buffer[0 .. StackSize-1]`, bottom first. -/
def entries (s : ClipRectStack) : List Rect :=
  s.Buffer.take s.StackSize

/-- `ClipRectStack::PushRect`: `Buffer[StackSize] = nRect; StackSize++; SetClipRect(nRect)`.
Writing at `StackSize >= capacity` is out of bounds. -/
def PushRect (s : ClipRectStack) (nRect : Rect) : Option ClipRectStack :=
  if s.StackSize < s.Buffer.length then
    some { s with
      Buffer := s.Buffer.set s.StackSize nRect
      StackSize := s.StackSize + 1
      graphics := s.graphics ++ [nRect] }
  else
    none

/-- `ClipRectStack::PopRect`: decrement when non-empty, then re-issue the clip command for the
new top, or for the full window when the stack is now empty; returns that rectangle. -/
def PopRect (s : ClipRectStack) : Option (Rect × ClipRectStack) :=
  let n := if s.StackSize ≠ 0 then s.StackSize - 1 else s.StackSize
  if n ≠ 0 then
    match s.Buffer[n - 1]? with
    | some r => some (r, { s with StackSize := n, graphics := s.graphics ++ [r] })
    | none => none
  else
    let rect : Rect := ⟨0, 0, s.WindowWidth, s.WindowHeight⟩
    some (rect, { s with StackSize := n, graphics := s.graphics ++ [rect] })

/-- `ClipRectStack::GetTop`: `Buffer[StackSize-1]` (index `-1` on an empty stack is out of
bounds). -/
def GetTop (s : ClipRectStack) : Option Rect :=
  if s.StackSize = 0 then none else s.Buffer[s.StackSize - 1]?

/-- `ClipRectStack::Clear`: `StackSize = 0` and the clip is reset to the full window. -/
def Clear (s : ClipRectStack) : ClipRectStack :=
  { s with StackSize := 0, graphics := s.graphics ++ [⟨0, 0, s.WindowWidth, s.WindowHeight⟩] }

/-- The rectangle `cRect` that `ClipRectStack::AddRect` computes before pushing it:
the intersection with the current top when the stack is non-empty, then the clamping of a
negative `x` / `y` into the width / height. -/
def AddRect_cRect (s : ClipRectStack) (nRect : Rect) : Option Rect :=
  let c0 : Option Rect :=
    if s.StackSize ≠ 0 then
      match s.Buffer[s.StackSize - 1]? with
      | some top =>
        let nx1 := nRect.x + nRect.w
        let nx2 := top.x + top.w
        let ny1 := nRect.y + nRect.h
        let ny2 := top.y + top.h
        let cx := max nRect.x top.x
        let cy := max nRect.y top.y
        some ⟨cx, cy, min nx1 nx2 - cx, min ny1 ny2 - cy⟩
      | none => none
    else
      some nRect
  match c0 with
  | none => none
  | some c =>
    let c1 : Rect := if c.x < 0 then { c with w := c.w + c.x, x := 0 } else c
    let c2 : Rect := if c1.y < 0 then { c1 with h := c1.h + c1.y, y := 0 } else c1
    some c2

/-- `ClipRectStack::AddRect`. -/
def AddRect (s : ClipRectStack) (nRect : Rect) : Option ClipRectStack :=
  match AddRect_cRect s nRect with
  | some cRect => PushRect s cRect
  | none => none

/-- The call sequence `AddRect(r1); ...; AddRect(rn)`. -/
def AddRects (s : ClipRectStack) : List Rect → Option ClipRectStack
  | [] => some s
  | r :: rs =>
    match AddRect s r with
    | some s1 => AddRects s1 rs
    | none => none

/-- The meet of a list of rectangles: left/top edge the largest, right/bottom edge the
smallest, each attained by a member. -/
def IsMeet (t : Rect) (L : List Rect) : Prop :=
  ((∀ q ∈ L, q.x ≤ t.x) ∧ ∃ q ∈ L, q.x = t.x) ∧
  ((∀ q ∈ L, q.y ≤ t.y) ∧ ∃ q ∈ L, q.y = t.y) ∧
  ((∀ q ∈ L, t.x + t.w ≤ q.x + q.w) ∧ ∃ q ∈ L, q.x + q.w = t.x + t.w) ∧
  ((∀ q ∈ L, t.y + t.h ≤ q.y + q.h) ∧ ∃ q ∈ L, q.y + q.h = t.y + t.h)

end ClipRectStack

/-! ## Control tree (Control / Container) and hit-testing (LibUI.cpp 634-646, 837-840, 1169-1195) -/

/-- The dock-style enumeration of `Control`. -/
inductive DockStyle where
  | dsNone
  | dsLeft
  | dsTop
  | dsRight
  | dsBottom
  | dsFill
deriving DecidableEq, Repr

/-- Padding / margin values (`Padding.Left`, `Padding.Top`, ...). -/
structure MarginValues where
  Left : Int
  Top : Int
  Right : Int
  Bottom : Int
deriving DecidableEq, Repr

/-- A pointer to a control of a tree: the child indices on the way from the control up to
the root (own index in the parent first).  The root is `[]`. -/
abbrev Ptr := List Nat

/-- `ctrl->Parent`: null for the root. -/
def Ptr.Parent : Ptr → Option Ptr
  | [] => none
  | _ :: rest => some rest

/-- The style tag of a `Menu`. -/
inductive MenuStyle where
  | msMainMenu
  | msPopup
deriving DecidableEq, Repr

/-- The layout mode of a `Container` (`ContainerLayoutType`). -/
inductive ContainerLayoutType where
  | None
  | Flow
  | Stack
deriving DecidableEq, Repr

/-- The scalar members of a `Control` that the modelled functions read or write.
`isContainer` tells whether the object is a `Container` (what `dynamic_cast<Container*>`
tests); `TypeTag` is the integer member `Type`; `Activated` is the `Form` member of that name;
`style`, `curSubMenu`, `parentItem`, `enableMouseHover`, `mnemonicKeyVisible` and `Items` are
the `Menu` members and `isButton`, `Selected`, `isSeperator`, `accKey` the `MenuItem` members
of those names; `Margin`, `BackgroundShadow`, `clipDraw` are `Control` members and `layout`,
`AutoWidth`, `AutoHeight`, `drawChildren` are `Container` members.  The members that no
constructor in LibUI.cpp sets start from the value given here. -/
structure ControlData where
  isContainer : Bool
  TypeTag : Nat
  Left : Int
  Top : Int
  Width : Int
  Height : Int
  Visible : Bool
  Enabled : Bool
  TabStop : Bool
  AcceptsFocus : Bool
  EventID : Int
  DockStyle : DockStyle
  Padding : MarginValues
  clientRect : Rect
  Activated : Bool
  style : MenuStyle
  curSubMenu : Option Ptr
  parentItem : Option Ptr
  enableMouseHover : Bool
  mnemonicKeyVisible : Bool
  Items : List Ptr
  isButton : Bool
  Selected : Bool
  isSeperator : Bool := false
  Margin : MarginValues := ⟨0, 0, 0, 0⟩
  BackgroundShadow : Bool := false
  clipDraw : Bool := true
  layout : ContainerLayoutType := .None
  AutoWidth : Bool := false
  AutoHeight : Bool := false
  drawChildren : Bool := true
  accKey : Nat := 0
deriving DecidableEq, Repr

/-- A control together with the child list `controls` it owns (empty for a plain `Control`).
Ownership is exclusive, so a control tree is a tree of values: the `Parent` pointer of a child
is the node that holds it in `controls`. -/
inductive Control where
  | mk (d : ControlData) (controls : List Control)

/-- The scalar members of a control. -/
def Control.d : Control → ControlData
  | .mk d _ => d

/-- `GetChildren()`: the child list. -/
def Control.controls : Control → List Control
  | .mk _ cs => cs

/-- The subtree reached from `c` by the child indices `path`, outermost index first. -/
def Control.getPath : Control → List Nat → Option Control
  | c, [] => some c
  | c, i :: rest =>
    match c.controls[i]? with
    | some child => child.getPath rest
    | none => none

/-- Dereference a pointer in the tree rooted at `root`. -/
def Control.get? (root : Control) (p : Ptr) : Option Control :=
  root.getPath p.reverse

/-- `Control::IsPointInClient`. -/
def IsPointInClient (d : ControlData) (X Y : Int) : Bool :=
  decide (X > 0) && decide (Y > 0) && decide (X < d.Width) && decide (Y < d.Height)

/-- `Control::IsPointInContent` (the base implementation). -/
def IsPointInContent (d : ControlData) (x y : Int) : Bool :=
  decide (x ≥ 0) && decide (y ≥ 0) && decide (x ≤ d.Width) && decide (y ≤ d.Height)

/-- The test `x <= Padding.Left || y <= Padding.Top || x >= Width - Padding.Right ||
y >= Height - Padding.Bottom` of `Container::FindControlAtPosition`. -/
def inPaddingGutter (d : ControlData) (x y : Int) : Bool :=
  decide (x ≤ d.Padding.Left) || decide (y ≤ d.Padding.Top) ||
    decide (x ≥ d.Width - d.Padding.Right) || decide (y ≥ d.Height - d.Padding.Bottom)

/-- The coordinates `(nx - controls[i]->Left, ny - controls[i]->Top)` at which
`Container::FindControlAtPosition` tests the child with members `c`, where `(dx, dy)` is the
parent's `clientRect` origin when the child's `DockStyle` is `dsNone` or `dsFill`. -/
def childCoords (clientRect : Rect) (c : ControlData) (x y : Int) : Int × Int :=
  let dx := if c.DockStyle = .dsNone ∨ c.DockStyle = .dsFill then clientRect.x else 0
  let dy := if c.DockStyle = .dsNone ∨ c.DockStyle = .dsFill then clientRect.y else 0
  let nx := x - dx
  let ny := y - dy
  (nx - c.Left, ny - c.Top)

mutual
/-- The virtual `FindControlAtPosition(x, y)`: `Container::FindControlAtPosition` for a
container and `Control::FindControlAtPosition` for a plain control.  The result is the pointer
of the hit control relative to the control the call is made on (`[]` is `this`), or `none`
for `nullptr`.  `EventGUID` is `Global::EventGUID`. -/
def Control.FindControlAtPosition (EventGUID : Int) : Control → Int → Int → Option Ptr
  | .mk d controls, x, y =>
    if d.isContainer then
      if d.Visible && IsPointInClient d x y then
        if inPaddingGutter d x y then
          some []
        else
          match Control.FindInChildren EventGUID d.clientRect controls 0 x y with
          | some child => some child
          | none => some []
      else
        none
    else
      let rs := decide (x > 0) && decide (y > 0) && decide (x < d.Width) && decide (y < d.Height)
      if rs && d.Visible && IsPointInContent d x y then some [] else none
/-- The loop `for (int i = controls.Count() - 1; i >= 0; i--)` of
`Container::FindControlAtPosition` over the children `controls[i ..]` (the list argument holds
the children from index `i` on): the children of higher index are tried first. -/
def Control.FindInChildren (EventGUID : Int) (clientRect : Rect) :
    List Control → Nat → Int → Int → Option Ptr
  | [], _, _, _ => none
  | c :: cs, i, x, y =>
    match Control.FindInChildren EventGUID clientRect cs (i + 1) x y with
    | some child => some child
    | none =>
      if c.d.EventID ≠ EventGUID then
        match Control.FindControlAtPosition EventGUID c
            (childCoords clientRect c.d x y).1 (childCoords clientRect c.d x y).2 with
        | some child => some (child ++ [i])
        | none => none
      else
        none
end

/-- What the child `c` of a container with client rectangle `clientRect` reports when the
container's `FindControlAtPosition(x, y)` tests it:
`c->FindControlAtPosition(nx - c->Left, ny - c->Top)`. -/
def Control.childHit (EventGUID : Int) (clientRect : Rect) (c : Control) (x y : Int) :
    Option Ptr :=
  Control.FindControlAtPosition EventGUID c
    (childCoords clientRect c.d x y).1 (childCoords clientRect c.d x y).2

/-- The values of the constants `CT_CONTAINER`, `CT_FORM`, `CT_IME_RECEIVER`,
`CT_IMETEXTBOX` and `CT_MENU` (declared in the header). -/
structure TypeConsts where
  CT_CONTAINER : Nat
  CT_FORM : Nat
  CT_IME_RECEIVER : Nat
  CT_IMETEXTBOX : Nat
  CT_MENU : Nat
deriving DecidableEq, Repr

/-- Sample values of the type constants, for the concrete examples: `CT_CONTAINER` is the
sign bit (LibUI.cpp 2809: "A type less then zero means the control is a container"). -/
def sampleConsts : TypeConsts :=
  ⟨2147483648, 2147483651, 1073741824, 1073741829, 2147483655⟩

/-- The members set by the constructor `Control::Control` (LibUI.cpp 466-493); `ct` is the
value of the constant `CT_CONTROL`.  `AcceptsFocus` is initialised in the header; the members
of the subclasses `Form`, `Menu` and `MenuItem` get the values their constructors start from. -/
def Control_ctor (ct : Nat) (AcceptsFocus : Bool) : ControlData :=
  { isContainer := false
    TypeTag := ct
    Left := 0
    Top := 0
    Width := 0
    Height := 0
    Visible := true
    Enabled := true
    TabStop := false
    AcceptsFocus := AcceptsFocus
    EventID := -1
    DockStyle := .dsNone
    Padding := ⟨0, 0, 0, 0⟩
    clientRect := ⟨0, 0, 0, 0⟩
    Activated := false
    style := .msPopup
    curSubMenu := none
    parentItem := none
    enableMouseHover := false
    mnemonicKeyVisible := false
    Items := []
    isButton := false
    Selected := false }

/-- The members set by the constructor `Container::Container` (LibUI.cpp 1197-1204); `ct` is
the value of the constant `CT_CONTAINER`. -/
def Container_ctor (ct : Nat) (AcceptsFocus : Bool) : ControlData :=
  { Control_ctor ct AcceptsFocus with
    isContainer := true
    TypeTag := ct
    TabStop := false
    Padding := ⟨0, 0, 0, 0⟩ }

/-- A plain control positioned with `Posit(l, t, w, h)`. -/
def plainControl (l t w h : Int) : Control :=
  .mk { Control_ctor 0 true with
    Left := l, Top := t, Width := w, Height := h, clientRect := ⟨0, 0, w, h⟩ } []

/-- A container positioned with `Posit(l, t, w, h)` holding the children `cs`. -/
def plainContainer (l t w h : Int) (cs : List Control) : Control :=
  .mk { Container_ctor sampleConsts.CT_CONTAINER true with
    Left := l, Top := t, Width := w, Height := h, clientRect := ⟨0, 0, w, h⟩ } cs

/-- A 100 x 100 container with padding 5 on every side and the client rectangle
`(5, 5, 90, 90)`, holding two undocked children at `(10, 10, 50, 50)` and `(40, 40, 50, 50)`
and, added last, a child docked Top at `(5, 5, 90, 10)`. -/
def paddedHitTree : Control :=
  .mk { (plainContainer 0 0 100 100 []).d with
        Padding := ⟨5, 5, 5, 5⟩, clientRect := ⟨5, 5, 90, 90⟩ }
    [plainControl 10 10 50 50, plainControl 40 40 50 50,
      .mk { (plainControl 5 5 90 10).d with DockStyle := .dsTop } []]

/-! ## Focus navigation (LibUI.cpp 2359-2458)

The functions return `Option (Option Ptr)`: `none` when the call dereferences a null or
dangling pointer, `some none` for a `nullptr` result and `some (some p)` for the control `p`.
The recursion parameter `level` of the source is carried as `32 - level`, the number of
levels left before the guard `if (level == 32) return ctrl;` fires. -/

/-- The first loop of `FindNextFocus`, over the children `controls[i ..]` of the container
`ctrl`: the first child that is `Enabled && Visible` is returned if it is a `TabStop`, and
otherwise searched with the recursive call `recCall`, whose non-null result is returned. -/
def FindNextFocus_children (recCall : Ptr → Option (Option Ptr)) (ctrl : Ptr) :
    List Control → Nat → Option (Option Ptr)
  | [], _ => some none
  | child :: rest, i =>
    if child.d.Enabled && child.d.Visible then
      if child.d.TabStop then
        some (some (i :: ctrl))
      else
        match recCall (i :: ctrl) with
        | none => none
        | some (some tmpRs) => some (some tmpRs)
        | some none => FindNextFocus_children recCall ctrl rest (i + 1)
    else
      FindNextFocus_children recCall ctrl rest (i + 1)

/-- The loop `while (parent->GetChildren().Last() == ctrl) { ctrl = parent;
parent = ctrl->Parent; if (!parent) break; }` of `FindNextFocus`, entered with
`parent = ctrl->Parent`; returns the final `(ctrl, parent)`.  On the root, `parent` is null
and the loop condition dereferences it. -/
def FindNextFocus_up (root : Control) : Ptr → Option (Ptr × Option Ptr)
  | [] => none
  | i :: parent =>
    match root.get? parent with
    | none => none
    | some pc =>
      if pc.controls.length = i + 1 then
        if parent = [] then some ([], none) else FindNextFocus_up root parent
      else
        some (i :: parent, some parent)

/-- The second loop of `FindNextFocus`, over the siblings `parent->GetChildren()[i ..]` that
follow `ctrl`: the first one that is `Enabled && Visible` decides the result. -/
def FindNextFocus_siblings (recCall : Ptr → Option (Option Ptr)) (parent : Ptr) :
    List Control → Nat → Option (Option Ptr)
  | [], _ => some none
  | c :: rest, i =>
    if c.d.Enabled && c.d.Visible then
      if c.d.TabStop then some (some (i :: parent)) else recCall (i :: parent)
    else
      FindNextFocus_siblings recCall parent rest (i + 1)

/-- `FindNextFocus(ctrl, level)` with `left = 32 - level`.  `IndexOf(ctrl)` is the own index
of `ctrl` in its parent (never `-1` in a tree). -/
def FindNextFocus_level (root : Control) : Nat → Ptr → Option (Option Ptr)
  | 0, ctrl => some (some ctrl)
  | left + 1, ctrl =>
    match root.get? ctrl with
    | none => none
    | some c =>
      let down :=
        if c.d.isContainer then
          FindNextFocus_children (FindNextFocus_level root left) ctrl c.controls 0
        else
          some none
      match down with
      | none => none
      | some (some tmpRs) => some (some tmpRs)
      | some none =>
        match FindNextFocus_up root ctrl with
        | none => none
        | some (_, none) => some none
        | some (ctrl1, some parent) =>
          match root.get? parent, ctrl1 with
          | some pc, idx :: _ =>
            FindNextFocus_siblings (FindNextFocus_level root left) parent
              (pc.controls.drop (idx + 1)) (idx + 1)
          | _, _ => none

/-- `FindNextFocus(ctrl)` (default argument `level = 0`). -/
def FindNextFocus (root : Control) (ctrl : Ptr) : Option (Option Ptr) :=
  FindNextFocus_level root 32 ctrl

mutual
/-- `GetLastLeaf(ctn)`, on the subtree of the container `ctn`; the result is relative to
`ctn` (`[]` is `ctn` itself), `none` when a child whose `Type` has the `CT_CONTAINER` bit is
not a `Container` (the `dynamic_cast` yields null, which the recursive call dereferences). -/
def Control.GetLastLeaf (CT_CONTAINER : Nat) : Control → Option Ptr
  | .mk _ controls =>
    if controls.length = 0 then
      some []
    else
      match Control.GetLastLeaf_loop CT_CONTAINER controls 0 with
      | some r => r
      | none => some []
/-- The loop `for (int i = Count() - 1; i >= 0; i--)` of `GetLastLeaf` over the children
`controls[i ..]`, higher indices first; `none` when no child is `Visible && Enabled`. -/
def Control.GetLastLeaf_loop (CT_CONTAINER : Nat) : List Control → Nat → Option (Option Ptr)
  | [], _ => none
  | c :: cs, i =>
    match Control.GetLastLeaf_loop CT_CONTAINER cs (i + 1) with
    | some r => some r
    | none =>
      if c.d.Visible && c.d.Enabled then
        if c.d.TypeTag &&& CT_CONTAINER ≠ 0 then
          if c.d.isContainer then
            match Control.GetLastLeaf CT_CONTAINER c with
            | some r => some (some (r ++ [i]))
            | none => some none
          else
            some none
        else
          some (some [i])
      else
        none
end

/-- `GetLastLeaf(ctn)` for the container at pointer `ctn` of the tree. -/
def GetLastLeaf (CT_CONTAINER : Nat) (root : Control) (ctn : Ptr) : Option Ptr :=
  match root.get? ctn with
  | some c =>
    match c.GetLastLeaf CT_CONTAINER with
    | some r => some (r ++ ctn)
    | none => none
  | none => none

/-- The loop `while (parent && parent->GetChildren().First() == ctrl) { ctrl = parent;
parent = ctrl->Parent; if (!parent) break; }` of `FindPreviousFocus`; returns the final
`(ctrl, parent)`. -/
def FindPreviousFocus_up : Ptr → Ptr × Option Ptr
  | [] => ([], none)
  | i :: parent =>
    if i = 0 then
      if parent = [] then ([], none) else FindPreviousFocus_up parent
    else
      (i :: parent, some parent)

/-- The loop `for (int i = idx - 1; i >= 0; i--)` of `FindPreviousFocus` followed by
`return FindPreviousFocus(parent, level + 1);`.  The argument is `i + 1` for the index `i`
examined next, `0` when the loop is over. -/
def FindPreviousFocus_siblings (CT_CONTAINER : Nat) (root : Control)
    (recCall : Ptr → Option (Option Ptr)) (parent : Ptr) (children : List Control) :
    Nat → Option (Option Ptr)
  | 0 => recCall parent
  | i + 1 =>
    match children[i]? with
    | none => none
    | some c =>
      if c.d.Enabled && c.d.Visible then
        if c.d.TabStop then
          some (some (i :: parent))
        else if c.d.isContainer then
          match GetLastLeaf CT_CONTAINER root (i :: parent) with
          | none => none
          | some last =>
            match root.get? last with
            | none => none
            | some lc =>
              if lc.d.Visible && lc.d.Enabled && lc.d.TabStop then
                some (some last)
              else
                recCall last
        else
          FindPreviousFocus_siblings CT_CONTAINER root recCall parent children i
      else
        FindPreviousFocus_siblings CT_CONTAINER root recCall parent children i

/-- `FindPreviousFocus(ctrl, level)` with `left = 32 - level`. -/
def FindPreviousFocus_level (CT_CONTAINER : Nat) (root : Control) :
    Nat → Ptr → Option (Option Ptr)
  | 0, ctrl => some (some ctrl)
  | left + 1, ctrl =>
    match FindPreviousFocus_up ctrl with
    | (_, none) => some none
    | (ctrl1, some parent) =>
      match root.get? parent, ctrl1 with
      | some pc, idx :: _ =>
        FindPreviousFocus_siblings CT_CONTAINER root
          (FindPreviousFocus_level CT_CONTAINER root left) parent pc.controls idx
      | _, _ => none

/-- `FindPreviousFocus(ctrl)` (default argument `level = 0`). -/
def FindPreviousFocus (CT_CONTAINER : Nat) (root : Control) (ctrl : Ptr) :
    Option (Option Ptr) :=
  FindPreviousFocus_level CT_CONTAINER root 32 ctrl

/-! ### Tab order as the specification words it

These definitions follow the words of the specification (document order, restricted to the
controls that are Enabled, Visible and TabStop and not inside a disabled or invisible
container); they are what the focus functions are compared with. -/

mutual
/-- Pre-order (document order) listing of the pointers of the subtree `c` located at `p`:
a container comes before its children. -/
def spec_preorder : Control → Ptr → List Ptr
  | .mk _ controls, p => p :: spec_preorderList controls p 0
/-- Pre-order listing of the children `controls[i ..]` of the control at `p`. -/
def spec_preorderList : List Control → Ptr → Nat → List Ptr
  | [], _, _ => []
  | c :: cs, p, i => spec_preorder c (i :: p) ++ spec_preorderList cs p (i + 1)
end

/-- Every proper ancestor of `p` is Enabled and Visible. -/
def spec_ancestorsShown (root : Control) : Ptr → Bool
  | [] => true
  | _ :: parent =>
    (match root.get? parent with
      | some pc => pc.d.Enabled && pc.d.Visible
      | none => false) && spec_ancestorsShown root parent

/-- A tab-order candidate: Enabled, Visible and TabStop, and not inside a disabled or
invisible container. -/
def spec_focusable (root : Control) (p : Ptr) : Bool :=
  (match root.get? p with
    | some c => c.d.Enabled && c.d.Visible && c.d.TabStop
    | none => false) && spec_ancestorsShown root p

/-- The first tab-order candidate after `c` in document order, if any. -/
def spec_FindNextFocus (root : Control) (c : Ptr) : Option Ptr :=
  (((spec_preorder root []).dropWhile (fun q => q ≠ c)).drop 1).find? (spec_focusable root)

/-- The tab order: the candidates in document order. -/
def spec_tabOrder (root : Control) : List Ptr :=
  (spec_preorder root []).filter (spec_focusable root)

/-- A button-like leaf: a plain control with `TabStop` set. -/
def tabStopControl : Control :=
  .mk { Control_ctor 0 true with TabStop := true } []

/-- A disabled leaf control. -/
def disabledControl : Control :=
  .mk { Control_ctor 0 true with Enabled := false } []

/-- The tree `root[ panel[ first, disabled ], second ]`: a root container holding a panel
(a non-tab-stop container with a tab-stop control followed by a disabled control) and, after
the panel, another tab-stop control. -/
def focusTree : Control :=
  plainContainer 0 0 100 100
    [plainContainer 0 0 50 50 [tabStopControl, disabledControl], tabStopControl]

/-! ## UIEntry state, focus and mouse dispatch (LibUI.cpp 648-662, 2047-2162, 2262-2307,
2339-2346, 2558-2603)

Virtual methods of the controls and event callbacks are parameters (`Virtuals`): the
development holds for every override.  `this` of the `UIEntry` is the root pointer `[]`. -/

/-- Replace the scalar members `d` of the node reached by `path` (outermost index first) by
`f d`; the tree is unchanged when the path leads nowhere. -/
def Control.modifyPath (f : ControlData → ControlData) : Control → List Nat → Control
  | .mk d cs, [] => .mk (f d) cs
  | .mk d cs, i :: rest =>
    match cs[i]? with
    | some child => .mk d (cs.set i (Control.modifyPath f child rest))
    | none => .mk d cs

/-- Write to members of the control `p`: `p->member = ...`. -/
def Control.modify (root : Control) (p : Ptr) (f : ControlData → ControlData) : Control :=
  Control.modifyPath f root p.reverse

/-- The state that input dispatch and focus handling read and write: the control tree of the
`UIEntry`, the `Global::` pointers and counters, the `UIEntry` members, and the file-level
pointer `lastFocusedCtrl`. -/
structure UIState where
  root : Control
  PointedComponent : Option Ptr
  MouseCaptureControl : Option Ptr
  MouseDownControl : Option Ptr
  EventGUID : Int
  MouseInputConsumed : Bool
  FocusedControl : Option Ptr
  ActiveForm : Option Ptr
  Forms : List Ptr
  ImeTextBox : Option Ptr
  Popups : List Ptr
  lastFocusedCtrl : Option Ptr

/-- The arguments of a mouse event (`UIMouseEventArgs`). -/
structure UIMouseEventArgs where
  X : Int
  Y : Int
  Delta : Int
  Shift : Nat
deriving DecidableEq, Repr

/-- The virtual methods and event callbacks that the modelled functions call.  Each takes
the receiving control and the call arguments and transforms the state; the mouse handlers
also return their `bool` result.  `PositMenuItems` and `ShowMnemonicKey` are the `Menu`
functions of those names, which lay out and re-measure the items through the font backend. -/
structure Virtuals where
  FindControlAtPosition : UIState → Int → Int → Option Ptr
  DoMouseDown : Ptr → Int → Int → Nat → UIState → Bool × UIState
  DoMouseUp : Ptr → Int → Int → Nat → UIState → Bool × UIState
  OnMouseDown : UIMouseEventArgs → UIState → UIState
  OnMouseUp : UIMouseEventArgs → UIState → UIState
  LostFocus : Ptr → Option Ptr → UIState → UIState
  KillFocus : Ptr → UIState → UIState
  OnShow : Ptr → UIState → UIState
  HandleMessage : Ptr → Nat → UIState → UIState
  DoFocusChange : Ptr → UIState → UIState
  SetFocus : Ptr → UIState → UIState
  OnPopup : Ptr → UIState → UIState
  OnMenuClosed : Ptr → UIState → UIState
  PositMenuItems : Ptr → UIState → UIState
  ShowMnemonicKey : Ptr → Bool → UIState → UIState

/-- The message type `MSG_UI_FORM_ACTIVATE`. -/
def MSG_UI_FORM_ACTIVATE : Nat := 15

/-- The message type `MSG_UI_FORM_DEACTIVATE`. -/
def MSG_UI_FORM_DEACTIVATE : Nat := 16

/-- `Control::IsChildOf(ctrl)`: `ctrl` is reached by following `Parent` from the control. -/
def Ptr.IsChildOf : Ptr → Ptr → Bool
  | [], _ => false
  | _ :: parent, ctrl => parent == ctrl || Ptr.IsChildOf parent ctrl

/-- `Control::ReleaseMouse` called on the control `self`. -/
def ReleaseMouse (self : Ptr) (s : UIState) : UIState :=
  if s.MouseCaptureControl = some self then { s with MouseCaptureControl := none } else s

/-- `UIEntry::DeactivateAllForms`, over the list `forms` of the forms still to visit. -/
def DeactivateAllForms_loop : List Ptr → Control → Control
  | [], root => root
  | form :: rest, root =>
    DeactivateAllForms_loop rest (root.modify form (fun d => { d with Activated := false }))

/-- `UIEntry::DeactivateAllForms`. -/
def DeactivateAllForms (s : UIState) : UIState :=
  { s with root := DeactivateAllForms_loop s.Forms s.root }

/-- The loop `while (Target && !Target->AcceptsFocus) Target = Target->Parent;` of
`UIEntry::SetFocusedControl`, started at a non-null `Target`. -/
def SetFocusedControl_resolve (root : Control) : Ptr → Option (Option Ptr)
  | [] =>
    match root.get? [] with
    | some c => some (if c.d.AcceptsFocus then some [] else none)
    | none => none
  | i :: parent =>
    match root.get? (i :: parent) with
    | some c =>
      if c.d.AcceptsFocus then some (some (i :: parent))
      else SetFocusedControl_resolve root parent
    | none => none

/-- The loop `while (parent) { if (parent->Type == CT_FORM) { ...; break; }
parent = parent->Parent; }` of `UIEntry::SetFocusedControl`: the form found, if any. -/
def SetFocusedControl_findForm (K : TypeConsts) (root : Control) : Ptr → Option (Option Ptr)
  | [] =>
    match root.get? [] with
    | some c => some (if c.d.TypeTag = K.CT_FORM then some [] else none)
    | none => none
  | i :: parent =>
    match root.get? (i :: parent) with
    | some c =>
      if c.d.TypeTag = K.CT_FORM then some (some (i :: parent))
      else SetFocusedControl_findForm K root parent
    | none => none

/-- `UIEntry::SetFocusedControl`, first part: `if (FocusedControl) {
FocusedControl->LostFocus(Target); KillFocus(); } if (!FocusedControl) KillFocus();`. -/
def SetFocusedControl_leave (V : Virtuals) (s : UIState) (Target : Option Ptr) : UIState :=
  let s1 :=
    match s.FocusedControl with
    | some fc => V.KillFocus [] (V.LostFocus fc Target s)
    | none => s
  if s1.FocusedControl = none then V.KillFocus [] s1 else s1

/-- `UIEntry::SetFocusedControl`, second part: the search for a form on the parent chain of
`Target`, `ShowWindow` on the form found (passed as `showWindow`), and otherwise
`DeactivateAllForms(); ActiveForm = nullptr;`. -/
def SetFocusedControl_forms (K : TypeConsts) (showWindow : Ptr → UIState → Option UIState)
    (s2 : UIState) (Target : Option Ptr) : Option UIState :=
  match Target with
  | none => some { DeactivateAllForms s2 with ActiveForm := none }
  | some t =>
    match SetFocusedControl_findForm K s2.root t with
    | none => none
    | some (some form) => showWindow form s2
    | some none => some { DeactivateAllForms s2 with ActiveForm := none }

/-- `UIEntry::SetFocusedControl`, last part: `FocusedControl = Target;`, the call
`Target->Parent->DoFocusChange()` and the update of `ImeMessageHandler.TextBox`. -/
def SetFocusedControl_enter (K : TypeConsts) (V : Virtuals) (s3 : UIState)
    (Target : Option Ptr) : Option UIState :=
  let s4 := { s3 with FocusedControl := Target }
  let s5 :=
    match Target with
    | some (_ :: parent) => V.DoFocusChange parent s4
    | _ => s4
  match Target with
  | some t =>
    match s5.root.get? t with
    | some c =>
      if c.d.TypeTag &&& K.CT_IME_RECEIVER ≠ 0 then
        if c.d.TypeTag = K.CT_IMETEXTBOX then some { s5 with ImeTextBox := some t }
        else some { s5 with ImeTextBox := some t }
      else
        some { s5 with ImeTextBox := none }
    | none => none
  | none => some { s5 with ImeTextBox := none }

/-- The body of `UIEntry::SetFocusedControl` after the loop that resolves `Target`, with the
call `this->ShowWindow(form)` passed as `showWindow`. -/
def SetFocusedControl_body (K : TypeConsts) (V : Virtuals)
    (showWindow : Ptr → UIState → Option UIState) (s : UIState) (Target : Option Ptr) :
    Option UIState :=
  if s.FocusedControl = Target then
    some s
  else
    match SetFocusedControl_forms K showWindow (SetFocusedControl_leave V s Target) Target with
    | none => none
    | some s3 => SetFocusedControl_enter K V s3 Target

/-- `UIEntry::HandleMessage`: on `MSG_UI_FORM_DEACTIVATE`, `KillFocus(); SetFocusedControl(0);`
(with a null target `SetFocusedControl` never reaches `ShowWindow`). -/
def UIEntry_HandleMessage (K : TypeConsts) (V : Virtuals) (msgType : Nat) (s : UIState) :
    Option UIState :=
  if msgType = MSG_UI_FORM_DEACTIVATE then
    SetFocusedControl_body K V (fun _ _ => none) (V.KillFocus [] s) none
  else
    some s

/-- `UIEntry::ShowWindow(Form)`.  When `Form` is not in `Forms`, the local `form` is added to
the list uninitialised (`none`). -/
def ShowWindow (K : TypeConsts) (V : Virtuals) (Form : Ptr) (s : UIState) : Option UIState :=
  if some Form = s.ActiveForm then
    some { s with root := s.root.modify Form (fun d => { d with Activated := true }) }
  else if Form ∈ s.Forms then
    let s1 := { s with Forms := s.Forms.erase Form ++ [Form] }
    match s1.root.get? Form with
    | none => none
    | some fc =>
      let s2 := if !fc.d.Visible then V.OnShow Form s1 else s1
      let s3 := { s2 with root := s2.root.modify Form (fun d => { d with Visible := true }) }
      let s4 := DeactivateAllForms s3
      let s7 : Option UIState :=
        if s4.ActiveForm ≠ some Form then
          let s5 : Option UIState :=
            match s4.ActiveForm with
            | some af => some (V.HandleMessage af MSG_UI_FORM_DEACTIVATE s4)
            | none => UIEntry_HandleMessage K V MSG_UI_FORM_DEACTIVATE s4
          match s5 with
          | some s5 => some (V.HandleMessage Form MSG_UI_FORM_ACTIVATE { s5 with ActiveForm := some Form })
          | none => none
        else
          some s4
      match s7 with
      | some s7 =>
        some { s7 with
          ActiveForm := some Form
          root := s7.root.modify Form (fun d => { d with Activated := true }) }
      | none => none
  else
    none

/-- `UIEntry::SetFocusedControl(Target)`. -/
def SetFocusedControl (K : TypeConsts) (V : Virtuals) (s : UIState) (Target : Option Ptr) :
    Option UIState :=
  match Target with
  | none => SetFocusedControl_body K V (ShowWindow K V) s none
  | some t =>
    match SetFocusedControl_resolve s.root t with
    | none => none
    | some Target1 => SetFocusedControl_body K V (ShowWindow K V) s Target1

/-- An entry of the `controlStack` list: a control of the ancestor chain and the event
coordinates translated into its space. -/
structure MouseMessageStack where
  Ctrl : Ptr
  X : Int
  Y : Int
deriving DecidableEq, Repr

/-- The first loop of `BroadcastMouseMessage`: `ctrlToBroadcast` followed by its successive
parents; the last element is the root. -/
def BroadcastMouseMessage_stack : Ptr → List Ptr
  | [] => [[]]
  | i :: parent => (i :: parent) :: BroadcastMouseMessage_stack parent

/-- The second loop of `BroadcastMouseMessage`: the coordinates stored for the stack entry
`ctrl`, obtained from those of its parent entry (the root entry starts from `(X, Y)`) by
subtracting `Left` / `Top` and, for `dsNone` / `dsFill`, the parent's `ClientRect()` origin. -/
def BroadcastMouseMessage_coords (root : Control) (X Y : Int) : Ptr → Option (Int × Int)
  | [] => some (X, Y)
  | i :: parent =>
    match BroadcastMouseMessage_coords root X Y parent, root.get? (i :: parent),
        root.get? parent with
    | some (cx, cy), some ctrl, some par =>
      let cx1 := cx - ctrl.d.Left
      let cy1 := cy - ctrl.d.Top
      if ctrl.d.DockStyle = .dsNone ∨ ctrl.d.DockStyle = .dsFill then
        some (cx1 - par.d.clientRect.x, cy1 - par.d.clientRect.y)
      else
        some (cx1, cy1)
    | _, _, _ => none

/-- The stack entries `stack[0 .. Count-2]` with their coordinates, for the given controls. -/
def BroadcastMouseMessage_items (root : Control) (X Y : Int) :
    List Ptr → Option (List MouseMessageStack)
  | [] => some []
  | p :: rest =>
    match BroadcastMouseMessage_coords root X Y p, BroadcastMouseMessage_items root X Y rest with
    | some (cx, cy), some items => some (⟨p, cx, cy⟩ :: items)
    | _, _ => none

/-- The last loop of `BroadcastMouseMessage`:
`for (i = 0; i < stack.Count() - 1; i++) if (f(stack[i].Ctrl, stack[i].X, stack[i].Y)) break;`.
Besides the state it returns the calls of `f` made, in order, with their results. -/
def BroadcastMouseMessage_dispatch {α : Type} (f : Ptr → Int → Int → α → Bool × α) :
    List MouseMessageStack → α → List (MouseMessageStack × Bool) × α
  | [], a => ([], a)
  | m :: rest, a =>
    if (f m.Ctrl m.X m.Y a).1 then
      ([(m, true)], (f m.Ctrl m.X m.Y a).2)
    else
      ((m, false) :: (BroadcastMouseMessage_dispatch f rest (f m.Ctrl m.X m.Y a).2).1,
        (BroadcastMouseMessage_dispatch f rest (f m.Ctrl m.X m.Y a).2).2)

/-- `BroadcastMouseMessage(stack, X, Y, f)`, reading the globals and the tree of `s`; `a` is
the state that `f` works on.  Returns the calls of `f` made and the final state. -/
def BroadcastMouseMessage {α : Type} (s : UIState) (X Y : Int)
    (f : Ptr → Int → Int → α → Bool × α) (a : α) :
    Option (List (MouseMessageStack × Bool) × α) :=
  let ctrlToBroadcast :=
    match s.MouseCaptureControl with
    | some c => some c
    | none => s.PointedComponent
  match ctrlToBroadcast with
  | none => some ([], a)
  | some c =>
    match BroadcastMouseMessage_items s.root X Y (BroadcastMouseMessage_stack c).dropLast with
    | some items => some (BroadcastMouseMessage_dispatch f items a)
    | none => none

/-- The loop `for (int i = Forms.Count() - 1; i >= 0; i--)` of `UIEntry::DoMouseDown` over the
forms listed from the last one: the first visible, enabled form that is, or contains, the
pointed component. -/
def DoMouseDown_findForm (s : UIState) : List Ptr → Option (Option Ptr)
  | [] => some none
  | curForm :: rest =>
    match s.root.get? curForm with
    | none => none
    | some fc =>
      if fc.d.Visible && fc.d.Enabled &&
          (some curForm == s.PointedComponent ||
            (match s.PointedComponent with
              | some pc => pc.IsChildOf curForm
              | none => false)) then
        some (some curForm)
      else
        DoMouseDown_findForm s rest

/-- `UIEntry::DoMouseDown` up to and including `Global::EventGUID++`. -/
def UIEntry_DoMouseDown_prologue (K : TypeConsts) (V : Virtuals) (s : UIState) (X Y : Int) :
    Option UIState :=
  let s0 := { s with MouseInputConsumed := true }
  let s1 := { s0 with PointedComponent := V.FindControlAtPosition s0 X Y }
  let s2 : Option UIState :=
    if s1.MouseCaptureControl = none then
      let sd := DeactivateAllForms s1
      match DoMouseDown_findForm sd sd.Forms.reverse with
      | none => none
      | some (some curForm) => ShowWindow K V curForm sd
      | some none =>
        match sd.ActiveForm with
        | some _ =>
          match SetFocusedControl K V sd none with
          | some sf => some { sf with ActiveForm := none }
          | none => none
        | none => some { sd with ActiveForm := none }
    else
      some s1
  match s2 with
  | none => none
  | some s2 =>
    some { s2 with
      MouseDownControl :=
        (match s2.MouseCaptureControl with
          | some c => some c
          | none => s2.PointedComponent)
      EventGUID := s2.EventGUID + 1 }

/-- The callback that `UIEntry::DoMouseDown` passes to `BroadcastMouseMessage`; the captured
`processed` flag is the second component of the state. -/
def DoMouseDown_lambda (V : Virtuals) (Shift : Nat) (ctrl : Ptr) (x y : Int)
    (a : UIState × Bool) : Bool × (UIState × Bool) :=
  ((V.DoMouseDown ctrl x y Shift a.1).1,
    ((V.DoMouseDown ctrl x y Shift a.1).2, a.2 || (V.DoMouseDown ctrl x y Shift a.1).1))

/-- `UIEntry::DoMouseDown(X, Y, Shift)`: the `DoMouseDown` calls made along the chain, in
order, and the final state (the function itself returns `false`). -/
def UIEntry_DoMouseDown (K : TypeConsts) (V : Virtuals) (s : UIState) (X Y : Int)
    (Shift : Nat) : Option (List (MouseMessageStack × Bool) × UIState) :=
  match UIEntry_DoMouseDown_prologue K V s X Y with
  | none => none
  | some s3 =>
    match BroadcastMouseMessage s3 X Y (DoMouseDown_lambda V Shift) (s3, false) with
    | none => none
    | some (calls, (s4, processed)) =>
      let s5 : Option UIState :=
        if !processed && s4.MouseCaptureControl = none && s4.PointedComponent = some [] then
          match SetFocusedControl K V { s4 with MouseCaptureControl := some [] } (some []) with
          | some sf => some (V.OnMouseDown ⟨X, Y, 0, Shift⟩ sf)
          | none => none
        else
          some s4
      match s5 with
      | some s5 => some (calls, { s5 with MouseInputConsumed := false })
      | none => none

/-- The callback that `UIEntry::DoMouseUp` passes to `BroadcastMouseMessage`. -/
def DoMouseUp_lambda (V : Virtuals) (Shift : Nat) (ctrl : Ptr) (x y : Int)
    (a : UIState × Bool) : Bool × (UIState × Bool) :=
  ((V.DoMouseUp ctrl x y Shift a.1).1,
    ((V.DoMouseUp ctrl x y Shift a.1).2, a.2 || (V.DoMouseUp ctrl x y Shift a.1).1))

/-- `UIEntry::DoMouseUp(X, Y, Shift)`: the `DoMouseUp` calls made along the chain, in order,
and the final state (the function itself returns `false`). -/
def UIEntry_DoMouseUp (V : Virtuals) (s : UIState) (X Y : Int) (Shift : Nat) :
    Option (List (MouseMessageStack × Bool) × UIState) :=
  let s1 := { s with PointedComponent := V.FindControlAtPosition s X Y }
  let s2 := { s1 with EventGUID := s1.EventGUID + 1, MouseInputConsumed := true }
  match BroadcastMouseMessage s2 X Y (DoMouseUp_lambda V Shift) (s2, false) with
  | none => none
  | some (calls, (s3, processed)) =>
    let s4 :=
      if s3.MouseCaptureControl = some [] ∨ processed = false then
        ReleaseMouse [] (V.OnMouseUp ⟨X, Y, 0, Shift⟩ s3)
      else
        s3
    some (calls, { s4 with MouseInputConsumed := false })

/-- Virtual methods as the base classes implement them when no event has a subscriber:
`Control::DoMouseDown` / `Control::DoMouseUp` with the control disabled for focus return
`false` and leave the state alone, the hit test reports `hit`, and the focus callbacks do
nothing. -/
def idleVirtuals (hit : Option Ptr) : Virtuals :=
  { FindControlAtPosition := fun _ _ _ => hit
    DoMouseDown := fun _ _ _ _ s => (false, s)
    DoMouseUp := fun _ _ _ _ s => (false, s)
    OnMouseDown := fun _ s => s
    OnMouseUp := fun _ s => s
    LostFocus := fun _ _ s => s
    KillFocus := fun _ s => s
    OnShow := fun _ s => s
    HandleMessage := fun _ _ s => s
    DoFocusChange := fun _ s => s
    SetFocus := fun p s => { s with FocusedControl := some p }
    OnPopup := fun _ s => s
    OnMenuClosed := fun _ s => s
    PositMenuItems := fun _ s => s
    ShowMnemonicKey := fun _ _ s => s }

/-- As `idleVirtuals`, but the mouse handlers of the control `consumer` return `true`
(as `Button::DoMouseDown` / `Button::DoMouseUp` do). -/
def consumingVirtuals (hit : Option Ptr) (consumer : Ptr) : Virtuals :=
  { idleVirtuals hit with
    DoMouseDown := fun c _ _ _ s => (c == consumer, s)
    DoMouseUp := fun c _ _ _ s => (c == consumer, s) }

/-- The tree `root[ panel[ button ] ]`: a root container holding a panel that holds one
plain control. -/
def nestedTree : Control :=
  plainContainer 0 0 200 200 [plainContainer 10 10 100 100 [plainControl 5 5 20 20]]

/-- A state over `nestedTree` with no focus, no forms, and the given mouse capture. -/
def nestedState (capture : Option Ptr) : UIState :=
  { root := nestedTree
    PointedComponent := none
    MouseCaptureControl := capture
    MouseDownControl := none
    EventGUID := 0
    MouseInputConsumed := false
    FocusedControl := none
    ActiveForm := none
    Forms := []
    ImeTextBox := none
    Popups := []
    lastFocusedCtrl := none }

/-- The trees `a` and `b` have the same controls (the same pointers are valid) and each
control has the same `AcceptsFocus` and `Type` in both. -/
def sameFocusData (a b : Control) : Prop :=
  ∀ p : Ptr, (a.get? p).map (fun c => (c.d.AcceptsFocus, c.d.TypeTag)) =
    (b.get? p).map (fun c => (c.d.AcceptsFocus, c.d.TypeTag))

/-- The callbacks reached from `SetFocusedControl` neither create or destroy controls nor
change `AcceptsFocus` or `Type` of any control; `LostFocus` and `KillFocus` leave the list
`Forms` alone; `DoFocusChange` leaves `FocusedControl` alone. -/
structure Virtuals.keepFocusData (V : Virtuals) : Prop where
  lostFocus : ∀ p t s, sameFocusData s.root (V.LostFocus p t s).root ∧
    (V.LostFocus p t s).Forms = s.Forms
  killFocus : ∀ p s, sameFocusData s.root (V.KillFocus p s).root ∧
    (V.KillFocus p s).Forms = s.Forms
  onShow : ∀ p s, sameFocusData s.root (V.OnShow p s).root
  handleMessage : ∀ p m s, sameFocusData s.root (V.HandleMessage p m s).root
  doFocusChange : ∀ p s, sameFocusData s.root (V.DoFocusChange p s).root ∧
    (V.DoFocusChange p s).FocusedControl = s.FocusedControl

/-- The control `p` exists in the tree and has `AcceptsFocus` set. -/
def acceptsFocus (root : Control) (p : Ptr) : Prop :=
  ∃ c, root.get? p = some c ∧ c.d.AcceptsFocus = true

/-- A state with no focus over the tree `root[ panel[ label ] ]` in which the label does
not accept focus while the panel and the root do. -/
def labelState : UIState :=
  { nestedState none with
    root := plainContainer 0 0 200 200
      [plainContainer 10 10 100 100
        [.mk { Control_ctor 0 false with Left := 5, Top := 5, Width := 20, Height := 20 } []]] }

/-! ## Menu: popup, close and submenu chaining (LibUI.cpp 518-547, 4864-4891, 5042-5091)

`SetFocus()` is a virtual method (`Menu::SetFocus`, `ComboBox::SetFocus` override
`Control::SetFocus`) and is called through `Virtuals.SetFocus`. -/

/-- `Control::GetRelativePos(nullptr)`: the sum, over the control and each of its ancestors,
of `(Left, Top)`, plus the `ClientRect()` origin of the parent of every control on the chain
whose `DockStyle` is `dsFill` or `dsNone`. -/
def Control_GetRelativePos (root : Control) : Ptr → Option (Int × Int)
  | [] =>
    match root.get? [] with
    | some c => some (c.d.Left, c.d.Top)
    | none => none
  | i :: parent =>
    match root.get? (i :: parent), root.get? parent, Control_GetRelativePos root parent with
    | some c, some par, some (px, py) =>
      if c.d.DockStyle = .dsFill ∨ c.d.DockStyle = .dsNone then
        some (c.d.Left + par.d.clientRect.x + px, c.d.Top + par.d.clientRect.y + py)
      else
        some (c.d.Left + px, c.d.Top + py)
    | _, _, _ => none

/-- The loop `for (i = 0; i < Items.Count(); i++) Items[i]->Selected = false;`. -/
def Menu_clearSelected : List Ptr → Control → Control
  | [], root => root
  | item :: rest, root =>
    Menu_clearSelected rest (root.modify item (fun d => { d with Selected := false }))

/-- `Menu::Popup(x, y)` inside `if (!Visible)`, from `Left = x;` on: the position, flipped to
stay inside the `UIEntry`, then `Visible = true; SetFocus(); Popups.Add(this);
Global::MouseCaptureControl = this;`. -/
def Menu_Popup_show (V : Virtuals) (self : Ptr) (x y : Int) (s4 : UIState) : Option UIState :=
  let s5 := { s4 with root := s4.root.modify self (fun d => { d with Left := x, Top := y }) }
  match Control_GetRelativePos s5.root self, s5.root.get? self, s5.root.get? [] with
  | some (ax, ay), some c5, some entry =>
    let s6 :=
      if ax + c5.d.Width > entry.d.Width then
        { s5 with root := s5.root.modify self (fun d => { d with Left := d.Left - d.Width }) }
      else s5
    let s7 :=
      if ay + c5.d.Height > entry.d.Height then
        { s6 with root := s6.root.modify self (fun d => { d with Top := d.Top - d.Height }) }
      else s6
    let s8 := { s7 with root := s7.root.modify self (fun d => { d with Visible := true }) }
    let s9 := V.SetFocus self s8
    some { s9 with Popups := s9.Popups ++ [self], MouseCaptureControl := some self }
  | _, _, _ => none

/-- `Menu::Popup(x, y)`. -/
def Menu_Popup (V : Virtuals) (self : Ptr) (x y : Int) (s : UIState) : Option UIState :=
  match s.root.get? self with
  | none => none
  | some c =>
    if c.d.Visible = false then
      let s1 := if c.d.parentItem = none then { s with lastFocusedCtrl := s.FocusedControl } else s
      let s3 := V.PositMenuItems self (V.OnPopup self s1)
      match s3.root.get? self with
      | none => none
      | some c3 =>
        Menu_Popup_show V self x y { s3 with root := Menu_clearSelected c3.d.Items s3.root }
    else
      some s

/-- `Menu::CloseMenu()` inside `if (Visible)`, the part that restores the focus and resets
the parent item: `if ((!parentItem || parentItem->isButton) && lastFocusedCtrl)
lastFocusedCtrl->SetFocus(); if (parentItem && parentItem->isButton)
parentItem->Selected = false;`. -/
def Menu_CloseMenu_restore (V : Virtuals) (self : Ptr) (s2 : UIState) : Option UIState :=
  match s2.root.get? self with
  | none => none
  | some c =>
    -- `!parentItem || parentItem->isButton`
    let cond : Option Bool :=
      match c.d.parentItem with
      | none => some true
      | some item =>
        match s2.root.get? item with
        | some ic => some ic.d.isButton
        | none => none
    match cond with
    | none => none
    | some b =>
      let s3 :=
        if b then
          match s2.lastFocusedCtrl with
          | some lf => V.SetFocus lf s2
          | none => s2
        else s2
      match s3.root.get? self with
      | none => none
      | some c3 =>
        match c3.d.parentItem with
        | none => some s3
        | some item3 =>
          match s3.root.get? item3 with
          | none => none
          | some ic3 =>
            if ic3.d.isButton then
              some { s3 with
                root := s3.root.modify item3 (fun d => { d with Selected := false }) }
            else
              some s3

/-- `Menu::CloseMenu()`: `if (parentItem) { Control * parent = parentItem->Parent;
if (parent) ((Menu*)parent)->curSubMenu = 0; }`. -/
def Menu_CloseMenu_resetParent (parentItem : Option Ptr) (s4 : UIState) : UIState :=
  match parentItem with
  | some item =>
    match item.Parent with
    | some parent =>
      { s4 with root := s4.root.modify parent (fun d => { d with curSubMenu := none }) }
    | none => s4
  | none => s4

/-- `Menu::CloseMenu()` inside `if (Visible)`, the last part: the parent menu's `curSubMenu`
is reset, `enableMouseHover = false; curSubMenu = nullptr; ReleaseMouse();
Popups.Remove(this);` and the capture is cleared when a child of the menu holds it. -/
def Menu_CloseMenu_detach (self : Ptr) (s4 : UIState) : Option UIState :=
  match s4.root.get? self with
  | none => none
  | some c =>
    let s5 := Menu_CloseMenu_resetParent c.d.parentItem s4
    let s6 := { s5 with
      root := s5.root.modify self
        (fun d => { d with enableMouseHover := false, curSubMenu := none }) }
    let s7 := ReleaseMouse self s6
    let s8 := { s7 with Popups := s7.Popups.erase self }
    match s8.MouseCaptureControl with
    | some cap =>
      if cap.IsChildOf self then some { s8 with MouseCaptureControl := none } else some s8
    | none => some s8

/-- `Menu::CloseMenu()`. -/
def Menu_CloseMenu (V : Virtuals) (self : Ptr) (s : UIState) : Option UIState :=
  match s.root.get? self with
  | none => none
  | some c =>
    if c.d.Visible then
      let s1 := { s with root := s.root.modify self (fun d => { d with Visible := false }) }
      match Menu_CloseMenu_restore V self (V.OnMenuClosed self s1) with
      | none => none
      | some s4 => Menu_CloseMenu_detach self s4
    else
      some s

/-- `Menu::CloseSubMenu()` after `curSubMenu->CloseSubMenu(); curSubMenu->CloseMenu();`:
`curSubMenu = 0; ReleaseMouse();` and then the capture for a popup menu, or the mnemonic keys
hidden for a main menu. -/
def Menu_CloseSubMenu_finish (V : Virtuals) (self : Ptr) (s2 : UIState) : Option UIState :=
  let s3 := { s2 with root := s2.root.modify self (fun d => { d with curSubMenu := none }) }
  let s4 := ReleaseMouse self s3
  match s4.root.get? self with
  | none => none
  | some c =>
    if c.d.style ≠ .msMainMenu then
      some { s4 with MouseCaptureControl := some self }
    else if c.d.mnemonicKeyVisible then
      some (V.ShowMnemonicKey self false s4)
    else
      some s4

/-- `Menu::CloseSubMenu()`.  The first argument bounds the depth of the recursion through
`curSubMenu->CloseSubMenu()`; `none` also stands for a recursion that exceeds it. -/
def Menu_CloseSubMenu (V : Virtuals) : Nat → Ptr → UIState → Option UIState
  | 0, _, _ => none
  | depth + 1, self, s =>
    match s.root.get? self with
    | none => none
    | some c =>
      match c.d.curSubMenu with
      | none => some s
      | some sub =>
        match Menu_CloseSubMenu V depth sub s with
        | none => none
        | some s1 =>
          -- `curSubMenu->CloseMenu()` reads the member again
          match s1.root.get? self with
          | none => none
          | some c1 =>
            match c1.d.curSubMenu with
            | none => none
            | some sub1 =>
              match Menu_CloseMenu V sub1 s1 with
              | none => none
              | some s2 => Menu_CloseSubMenu_finish V self s2

/-- `Menu::PopupSubMenu(subMenu, x, y)`. -/
def Menu_PopupSubMenu (V : Virtuals) (depth : Nat) (self subMenu : Ptr) (x y : Int)
    (s : UIState) : Option UIState :=
  match s.root.get? subMenu, s.root.get? self with
  | some sc, some c =>
    if sc.d.Visible = false ∨ some subMenu ≠ c.d.curSubMenu then
      let closed : Option UIState :=
        if c.d.curSubMenu ≠ none then Menu_CloseSubMenu V depth self s else some s
      match closed with
      | none => none
      | some s1 =>
        match Menu_Popup V subMenu x y s1 with
        | none => none
        | some s2 =>
          match s2.root.get? self with
          | none => none
          | some _ =>
            some { s2 with
              root := s2.root.modify self (fun d => { d with curSubMenu := some subMenu }) }
    else
      some s
  | _, _ => none

/-- A menu with the given members: a container whose `Type` is `CT_MENU`. -/
def menuControl (style : MenuStyle) (Visible : Bool) (curSubMenu parentItem : Option Ptr)
    (cs : List Control) : Control :=
  .mk { Container_ctor sampleConsts.CT_MENU true with
    style := style, Visible := Visible, curSubMenu := curSubMenu, parentItem := parentItem,
    Width := 80, Height := 60, clientRect := ⟨0, 0, 80, 60⟩ } cs

/-- A state over the tree `root[ menu[ item0[ subA ], item1[ subB ] ] ]`: the popup menu
`menu` (pointer `[0]`) has two items, each owning a submenu; `subA` (pointer `[0, 0, 0]`) is
open under `menu` and listed in `Popups`, `subB` (pointer `[0, 1, 0]`) is closed. -/
def menuState : UIState :=
  { nestedState none with
    root := plainContainer 0 0 640 480
      [menuControl .msPopup true (some [0, 0, 0]) none
        [plainContainer 0 0 80 20 [menuControl .msPopup true none (some [0, 0]) []],
         plainContainer 0 20 80 20 [menuControl .msPopup false none (some [1, 0]) []]]]
    Popups := [[0], [0, 0, 0]]
    MouseCaptureControl := some [0, 0, 0] }

/-- What a step from state `a` to state `b` leaves alone: no control is created or destroyed
and every `Type` is kept; every `Menu` keeps its `parentItem`, keeps `Visible` unless it is
listed in `Wvis`, and keeps `curSubMenu` unless it is listed in `Wcur`; and the number of
occurrences in `Popups` of every pointer not listed in `Wpop` is kept. -/
def menuKept (K : TypeConsts) (Wvis Wcur Wpop : List Ptr) (a b : UIState) : Prop :=
  (∀ q : Ptr, (b.root.get? q).map (fun c => c.d.TypeTag) =
    (a.root.get? q).map (fun c => c.d.TypeTag)) ∧
  (∀ (q : Ptr) (ca cb : Control), a.root.get? q = some ca → b.root.get? q = some cb →
    ca.d.TypeTag = K.CT_MENU →
      cb.d.parentItem = ca.d.parentItem ∧ (q ∉ Wvis → cb.d.Visible = ca.d.Visible) ∧
        (q ∉ Wcur → cb.d.curSubMenu = ca.d.curSubMenu)) ∧
  (∀ q : Ptr, q ∉ Wpop → b.Popups.count q = a.Popups.count q)

/-- The callbacks reached from the menu functions neither create nor destroy controls, keep
every `Type`, keep `parentItem`, `Visible` and `curSubMenu` of every `Menu`, and keep
`Popups`. -/
structure Virtuals.keepMenus (V : Virtuals) (K : TypeConsts) : Prop where
  setFocus : ∀ p s, menuKept K [] [] [] s (V.SetFocus p s)
  onPopup : ∀ p s, menuKept K [] [] [] s (V.OnPopup p s)
  onMenuClosed : ∀ p s, menuKept K [] [] [] s (V.OnMenuClosed p s)
  positMenuItems : ∀ p s, menuKept K [] [] [] s (V.PositMenuItems p s)
  showMnemonicKey : ∀ p v s, menuKept K [] [] [] s (V.ShowMnemonicKey p v s)

/-- The menus `L` are the submenus open below the menu `g`, outermost first: each is the
`curSubMenu` of the one before it (of `g` for the first), the last one has no open submenu,
and the parent item of each, if any, is an existing item of the menu it is open under. -/
inductive OpenChain (K : TypeConsts) (root : Control) : Ptr → List Ptr → Prop where
  | nil (g : Ptr) (c : Control) : root.get? g = some c → c.d.TypeTag = K.CT_MENU →
      c.d.curSubMenu = none → OpenChain K root g []
  | cons (g h : Ptr) (L : List Ptr) (c : Control) : root.get? g = some c →
      c.d.TypeTag = K.CT_MENU → c.d.curSubMenu = some h →
      (∀ (ch : Control) (item : Ptr), root.get? h = some ch → ch.d.parentItem = some item →
        (root.get? item).isSome = true ∧ item.Parent = some g) →
      OpenChain K root h L → OpenChain K root g (h :: L)

/-- The state `menuState` with the submenu `subA` (pointer `[0, 0, 0]`) focused, the menu
`[0]` recorded in `lastFocusedCtrl`, and the member `isButton` of the parent item of `subA`
(pointer `[0, 0]`) set to `isButton`. -/
def closeState (isButton : Bool) : UIState :=
  { menuState with
    root := menuState.root.modify [0, 0] (fun d => { d with isButton := isButton })
    FocusedControl := some [0, 0, 0]
    lastFocusedCtrl := some [0] }

/-- The value of `!parentItem || parentItem->isButton` for the menu with members `c` in the
state `s`; `none` when `parentItem` dangles. -/
def Menu_restoreCondition (s : UIState) (c : Control) : Option Bool :=
  match c.d.parentItem with
  | none => some true
  | some item =>
    match s.root.get? item with
    | some ic => some ic.d.isButton
    | none => none


/-! ## Menu keyboard navigation (LibUI.cpp 5242-5334) -/

/-- The key codes `Keys::Up`, `Keys::Down`, `Keys::Space`, `Keys::Return` and the shift-state
bit `SS_ALT`, which the header declares. -/
structure KeyConsts where
  Up : Nat
  Down : Nat
  Space : Nat
  Return : Nat
  SS_ALT : Nat

/-- Sample values of the key constants (the virtual-key codes named in the comments of
LibUI.cpp: `VK_UP`, `VK_DOWN`, `VK_SPACE`, `VK_RETURN`). -/
def sampleKeys : KeyConsts :=
  ⟨38, 40, 32, 13, 4⟩

/-- The C++ operator `%` on `int`: the quotient is truncated towards zero. -/
def cmod (a b : Int) : Int := Int.tmod a b

/-- The element `Items[i]` of a list for an `int` index; `none` outside the list. -/
def itemAt (Items : List Ptr) (i : Int) : Option Ptr :=
  if i < 0 then none else Items[i.toNat]?

/-- `Menu::GetSelectedItemID`, from index `i` on over the items still to test. -/
def Menu_GetSelectedItemID_loop (root : Control) : List Ptr → Int → Option Int
  | [], _ => some (-1)
  | item :: rest, i =>
    match root.get? item with
    | none => none
    | some ic =>
      if ic.d.Selected && ic.d.Enabled && ic.d.Visible && !ic.d.isSeperator then
        some i
      else
        Menu_GetSelectedItemID_loop root rest (i + 1)

/-- `Menu::GetSelectedItemID` for the menu with item list `Items`. -/
def Menu_GetSelectedItemID (root : Control) (Items : List Ptr) : Option Int :=
  Menu_GetSelectedItemID_loop root Items 0

/-- The loop `while (nxt != id && tc) { if (!Items[nxt]->IsSeperator() && Items[nxt]->Visible
&& Items[nxt]->Enabled) { Items[nxt]->Selected = true; break; } nxt = next(nxt); tc--; }` of
`Menu::DoKeyDown`, where `next` is `nxt++; nxt %= Items.Count();` for Down and the decrement
with wrap-around for Up.  The result is the value of `nxt` after the loop and the tree. -/
def Menu_DoKeyDown_scan (Items : List Ptr) (id : Int) (next : Int → Int) (root : Control) :
    Nat → Int → Option (Int × Control)
  | 0, nxt => some (nxt, root)
  | tc + 1, nxt =>
    if nxt = id then
      some (nxt, root)
    else
      match itemAt Items nxt with
      | none => none
      | some item =>
        match root.get? item with
        | none => none
        | some ic =>
          if !ic.d.isSeperator && ic.d.Visible && ic.d.Enabled then
            some (nxt, root.modify item (fun d => { d with Selected := true }))
          else
            Menu_DoKeyDown_scan Items id next root tc (next nxt)

/-- The step `nxt++; nxt %= Items.Count();` of the Down loop. -/
def Menu_DoKeyDown_inc (count : Int) (nxt : Int) : Int :=
  cmod (nxt + 1) count

/-- The step `nxt--; if (nxt < 0) nxt += Items.Count(); nxt %= Items.Count();` of the Up
loop. -/
def Menu_DoKeyDown_dec (count : Int) (nxt : Int) : Int :=
  let n1 := nxt - 1
  let n2 := if n1 < 0 then n1 + count else n1
  cmod n2 count

/-- The statement `Items[id]->Selected = true;`. -/
def Menu_selectItem (Items : List Ptr) (id : Int) (root : Control) : Option Control :=
  match itemAt Items id with
  | none => none
  | some item =>
    match root.get? item with
    | none => none
    | some _ => some (root.modify item (fun d => { d with Selected := true }))

/-- The block `if (Key == Keys::Up || Key == Keys::Down) { ... }` of `Menu::DoKeyDown` up to
its `return true;`, for `Key == Keys::Down` when `down` holds and `Key == Keys::Up`
otherwise: every item is deselected, the loop looks for the item to select, and the item `id`
is selected again when the loop came back to it.  A remainder by `Items.Count() == 0` is
undefined. -/
def Menu_DoKeyDown_vertical (Items : List Ptr) (down : Bool) (id : Int) (root : Control) :
    Option Control :=
  let root1 := Menu_clearSelected Items root
  let count : Int := Items.length
  if count = 0 then
    none
  else if down then
    match Menu_DoKeyDown_scan Items id (Menu_DoKeyDown_inc count) root1 Items.length
        (cmod (id + 1) count) with
    | none => none
    | some (nxt, root2) =>
      if nxt = id then Menu_selectItem Items id root2 else some root2
  else
    let n1 := id - 1
    let n2 := if n1 < 0 then n1 + count else n1
    match Menu_DoKeyDown_scan Items id (Menu_DoKeyDown_dec count) root1 Items.length
        (cmod n2 count) with
    | none => none
    | some (nxt, root2) =>
      if nxt = id ∧ id ≠ -1 then Menu_selectItem Items id root2 else some root2


/-- The pointer `parentMainMenu` that `Menu::DoKeyDown` computes for a popup menu with members
`c`: the parent of `parentItem` when that is a `Menu` of style `msMainMenu`, else null.  The
outer `none` is a dangling `parentItem`. -/
def Menu_parentMainMenu (K : TypeConsts) (root : Control) (c : Control) : Option (Option Ptr) :=
  match c.d.parentItem with
  | none => some none
  | some item =>
    match root.get? item with
    | none => none
    | some _ =>
      match item.Parent with
      | none => some none
      | some par =>
        match root.get? par with
        | none => none
        | some pc =>
          if pc.d.TypeTag = K.CT_MENU ∧ pc.d.style = .msMainMenu then some (some par)
          else some none

/-- `Menu::DoKeyDown(Key, Shift)` on the menu `self`.  The branches for the keys other than
Up and Down (letters and digits, Space and Return, Right and Left, and every key of a menu
that is not of style `msPopup`) are the parameter `otherKeys`; they are entered with the
state reached so far. -/
def Menu_DoKeyDown (Keys : KeyConsts) (K : TypeConsts) (V : Virtuals)
    (otherKeys : Ptr → Nat → UIState → Option (Bool × UIState))
    (self : Ptr) (Key Shift : Nat) (s : UIState) : Option (Bool × UIState) :=
  match s.root.get? self with
  | none => none
  | some c =>
    if !c.d.Enabled || !c.d.Visible then
      some (false, s)
    else
      let s1 := if Shift &&& Keys.SS_ALT ≠ 0 then V.ShowMnemonicKey self true s else s
      if (65 ≤ Key ∧ Key ≤ 90) ∨ (48 ≤ Key ∧ Key ≤ 57) then
        otherKeys self Key s1
      else
        match s1.root.get? self with
        | none => none
        | some c1 =>
          match Menu_GetSelectedItemID s1.root c1.d.Items with
          | none => none
          | some id =>
            if Key = Keys.Space ∨ Key = Keys.Return then
              otherKeys self Key s1
            else if c1.d.style = .msPopup then
              match Menu_parentMainMenu K s1.root c1 with
              | none => none
              | some _ =>
                if Key = Keys.Up ∨ Key = Keys.Down then
                  match Menu_DoKeyDown_vertical c1.d.Items (decide (Key = Keys.Down)) id
                      s1.root with
                  | none => none
                  | some root2 => some (true, { s1 with root := root2 })
                else
                  otherKeys self Key s1
            else
              otherKeys self Key s1

/-- The item `item` can take the selection: it is a live control that is not a separator and
is Visible and Enabled (the test of the loops of `Menu::DoKeyDown`). -/
def selectable (root : Control) (item : Ptr) : Bool :=
  match root.get? item with
  | some ic => !ic.d.isSeperator && ic.d.Visible && ic.d.Enabled
  | none => false

/-- The item `item` has `Selected` set. -/
def isSelected (root : Control) (item : Ptr) : Bool :=
  match root.get? item with
  | some ic => ic.d.Selected
  | none => false

/-- The index `k` places after (`down`) or before (not `down`) the index `id`, in cyclic
order over `n` indices. -/
def cyclicIndex (down : Bool) (n id k : Nat) : Nat :=
  if down then (id + k) % n else (id + n - k) % n

/-- The members of a control that `Menu::DoKeyDown` reads. -/
def menuView (d : ControlData) :
    Bool × Bool × Bool × Bool × MenuStyle × List Ptr × Option Ptr × Nat :=
  (d.Enabled, d.Visible, d.Selected, d.isSeperator, d.style, d.Items, d.parentItem, d.TypeTag)

/-- A popup menu with three items for the examples: item 0 is selected, item 1 is a
separator, item 2 is an ordinary item. -/
def keyMenuState : UIState :=
  { nestedState none with
    root := plainContainer 0 0 640 480
      [.mk { (menuControl .msPopup true none none []).d with Items := [[0, 0], [1, 0], [2, 0]] }
        [.mk { (plainControl 0 0 80 20).d with Selected := true } [],
         .mk { (plainControl 0 20 80 5).d with isSeperator := true } [],
         plainControl 0 25 80 20]] }


/-! ## Menu::GetItem (LibUI.cpp 4978-4993) -/

/-- The exception that `Menu::GetItem` throws. -/
inductive CoreLibException where
  | IndexOutofRangeException
deriving DecidableEq, Repr

/-- `Menu::GetItem(id)`: `if (id < Items.Count()) return Items[id]; else throw
CoreLib::IndexOutofRangeException();`.  The result is the item returned or the exception
thrown; `none` is a read outside the array. -/
def Menu_GetItem (Items : List Ptr) (id : Int) : Option (Except CoreLibException Ptr) :=
  if id < Items.length then
    match itemAt Items id with
    | some item => some (.ok item)
    | none => none
  else
    some (.error .IndexOutofRangeException)


/-! ## ScrollBar::SetValue / SetPosition (LibUI.cpp 3700-3746) -/

/-- The members of the `Slider` control of a `ScrollBar` that `SetValue` writes. -/
structure SliderData where
  Left : Int
  Top : Int
  Width : Int
  Height : Int
  Visible : Bool
deriving DecidableEq, Repr

/-- The members of a `ScrollBar` that `SetValue` reads or writes.  `horizontal` is the test
`Orientation == SO_HORIZONTAL`. -/
structure ScrollBar where
  horizontal : Bool
  Width : Int
  Height : Int
  Min : Int
  Max : Int
  Position : Int
  PageSize : Int
  Slider : SliderData
deriving DecidableEq, Repr

/-- `ScrollBar::SetValue(AMin, AMax, APos, pageSize)`.  `SCROLLBAR_BUTTON_SIZE` is the global
of that name; `OnChanged` is what the `MSG_UI_CHANGED` broadcast or one `OnChanged.Invoke`
does to the scroll bar; `geometry FreeSlide AMin AMax APos pageSize` is the pair
`(slideSize, spos)` that the source computes in floating point from these values and the line
height, `spos` before `Global::SCROLLBAR_BUTTON_SIZE` is added. -/
def ScrollBar.SetValue (SCROLLBAR_BUTTON_SIZE : Int) (OnChanged : ScrollBar → ScrollBar)
    (geometry : Int → Int → Int → Int → Int → Int × Int)
    (sb : ScrollBar) (AMin AMax APos pageSize : Int) : ScrollBar :=
  let FreeSlide :=
    if sb.horizontal then sb.Width - SCROLLBAR_BUTTON_SIZE * 2
    else sb.Height - SCROLLBAR_BUTTON_SIZE * 2
  if AMin ≥ 0 ∧ AMax > AMin ∧ APos ≥ AMin ∧ APos ≤ AMax then
    let Changed := decide (AMin ≠ sb.Min ∨ AMax ≠ sb.Max ∨ APos ≠ sb.Position)
    let sb1 := { sb with Min := AMin, Max := AMax, Position := APos }
    let sb2 := if Changed then OnChanged (OnChanged sb1) else sb1
    let sb3 := { sb2 with PageSize := pageSize }
    let g := geometry FreeSlide AMin AMax APos sb3.PageSize
    let slideSize := g.1
    let spos := g.2 + SCROLLBAR_BUTTON_SIZE
    let slider :=
      if sb3.horizontal then { sb3.Slider with Left := spos, Width := slideSize }
      else { sb3.Slider with Top := spos, Height := slideSize }
    { sb3 with Slider := { slider with Visible := true } }
  else
    { sb with Slider := { sb.Slider with Visible := false }, Min := 0, Max := 0, Position := 0 }

/-- `ScrollBar::SetPosition(APos)`: `SetValue(Min, Max, APos, PageSize)`. -/
def ScrollBar.SetPosition (SCROLLBAR_BUTTON_SIZE : Int) (OnChanged : ScrollBar → ScrollBar)
    (geometry : Int → Int → Int → Int → Int → Int × Int)
    (sb : ScrollBar) (APos : Int) : ScrollBar :=
  ScrollBar.SetValue SCROLLBAR_BUTTON_SIZE OnChanged geometry sb sb.Min sb.Max APos sb.PageSize

/-- A vertical scroll bar with range `[0, 100]` at position 50. -/
def sampleScrollBar : ScrollBar :=
  { horizontal := false, Width := 17, Height := 200, Min := 0, Max := 100, Position := 50,
    PageSize := 10, Slider := ⟨0, 70, 17, 20, true⟩ }


/-- A clip-rect stack of capacity 4 over a 100 x 100 window holding the one rectangle
`(0, 0, 10, 10)`. -/
def sampleClipStack : ClipRectStack :=
  { Buffer := [⟨0, 0, 10, 10⟩, ⟨0, 0, 0, 0⟩, ⟨0, 0, 0, 0⟩, ⟨0, 0, 0, 0⟩]
    StackSize := 1
    WindowWidth := 100
    WindowHeight := 100
    graphics := [] }


/-! ## Control::~Control (LibUI.cpp 500-511) -/

/-- The destructor `Control::~Control` of the control `self`.  `entry` tells whether
`GetEntry()` is non-null, that is, whether the control belongs to the `UIEntry` whose members
the state holds. -/
def Control_dtor (self : Ptr) (entry : Bool) (s : UIState) : UIState :=
  let s1 :=
    if s.PointedComponent = some self then { s with PointedComponent := self.Parent } else s
  let s2 :=
    if s1.MouseCaptureControl = some self then { s1 with MouseCaptureControl := none } else s1
  let s3 :=
    if entry = true ∧ s2.FocusedControl = some self then { s2 with FocusedControl := none }
    else s2
  if s3.lastFocusedCtrl = some self then { s3 with lastFocusedCtrl := none } else s3


/-! ## Control::Draw and the clip-rect stack (LibUI.cpp 842-862) -/

/-- What `Control::Draw` does to the clip-rect stack of the entry: for a control with
`BackgroundShadow` and `clipDraw` set, `R = clipRects->PopRect();` before the shadow is drawn
and `clipRects->PushRect(R);` after it.  The other statements of `Control::Draw` write the
absolute-position cache and the draw-command buffer only. -/
def Control_Draw_clip (d : ControlData) (clipRects : ClipRectStack) : Option ClipRectStack :=
  if d.BackgroundShadow then
    if d.clipDraw then
      match ClipRectStack.PopRect clipRects with
      | some (R, c1) => ClipRectStack.PushRect c1 R
      | none => none
    else
      some clipRects
  else
    some clipRects

/-- The clip-rect stack as `Container::DrawChildren` leaves it when it calls `Draw` on a
child with `clipDraw` set: the clip rectangle of the container, `(0, 0, 100, 100)`, and above
it the one of the child, `(10, 10, 50, 50)`. -/
def drawClipStack : ClipRectStack :=
  { Buffer := [⟨0, 0, 100, 100⟩, ⟨10, 10, 50, 50⟩, ⟨0, 0, 0, 0⟩, ⟨0, 0, 0, 0⟩]
    StackSize := 2
    WindowWidth := 100
    WindowHeight := 100
    graphics := [] }

/-- A control at `(10, 10, 50, 50)` with `BackgroundShadow` set (and `clipDraw`). -/
def shadowControl : ControlData :=
  { (plainControl 10 10 50 50).d with BackgroundShadow := true, clipDraw := true }


/-! ## Layout: Control::Posit, SizeChanged and Container::ArrangeControls
(LibUI.cpp 620-627, 676-684, 1327-1426)

`Control::SizeChanged` raises `MSG_UI_RESIZE` and `OnResize`; in this section these events
have no subscriber.

`Posit` and `SizeChanged` are virtual, and `Container::ArrangeControls` calls
`controls[i]->Posit(...)` on children of any class.  That call is the parameter `posit` of the
loops, of `Container_ArrangeControls` and of `Container_SizeChanged` and `Container_Posit`
(the methods as they run on an object of class `Container`): a statement about a container
that is to hold whatever the classes of its children are is made over an arbitrary `posit`,
and what it needs of the children is a hypothesis on `posit` (`PositKeeps`, `PositSized`,
`PositStable`, `PositReturns`).  One function stands for the call on every child; it may
do on each child what the `Posit` of the class of that child does.

`Control.SizeChanged` and `Control.Posit` are the instance for a tree in which every object is
of class `Control` or of class `Container`: there the virtual call `SizeChanged()` is
`Container::SizeChanged` for a container and `Control::SizeChanged` for a plain control, and
`Posit` is `Control::Posit`.  The overrides of the subclasses are not part of this instance:
`ToolStrip::SizeChanged` (LibUI.cpp 6245) sets `Width` and `Height` from the buttons,
`CustomTextBox::Posit` (3349) and `ComboBox::Posit` (4417) keep a height of their own, and
`Label`, `Form`, `ScrollBar`, `ListBox`, `ComboBox`, `TabControl`, `VScrollPanel`,
`ScrollPanel` and `UIEntry` have a `SizeChanged` of their own.  The recursion over the control
tree is bounded by `fuel`, the number of nested `SizeChanged` calls still allowed; `none` is
the bound reached. -/

/-- Modelled from the spec: `MarginValues::Horizontal()` is declared in the header, which is
not part of these sources; the client rectangle is the bounds minus the padding on both
sides, so it is `Left + Right`. -/
def MarginValues.Horizontal (m : MarginValues) : Int := m.Left + m.Right

/-- Modelled from the spec: `MarginValues::Vertical()`, declared in the header like
`Horizontal()`: `Top + Bottom`. -/
def MarginValues.Vertical (m : MarginValues) : Int := m.Top + m.Bottom

/-- The member writes of `Control::Posit(ALeft, ATop, AWidth, AHeight)` before it calls
`SizeChanged()`. -/
def Control.setBounds (c : Control) (l t w h : Int) : Control :=
  .mk { c.d with Left := l, Top := t, Height := h, Width := w } c.controls

/-- The body of the first loop of `Container::ArrangeControls` for the child `c`: a visible
child docked Top, Bottom, Left or Right is positioned on its side of the remaining client
rectangle `clientRect`, which shrinks by the height or width the child has after that; any
other child is skipped.  `posit` is the call `controls[i]->Posit(...)`.  The result is the
remaining rectangle and the child. -/
def ArrangeControls_dockOne (posit : Control → Int → Int → Int → Int → Option Control)
    (clientRect : Rect) (c : Control) : Option (Rect × Control) :=
  if !c.d.Visible then
    some (clientRect, c)
  else
    match c.d.DockStyle with
    | .dsTop =>
      match posit c clientRect.x clientRect.y clientRect.w c.d.Height with
      | some c1 =>
        some ({ clientRect with
                y := clientRect.y + c1.d.Height, h := clientRect.h - c1.d.Height }, c1)
      | none => none
    | .dsBottom =>
      match posit c clientRect.x (clientRect.y + clientRect.h - c.d.Height) clientRect.w
          c.d.Height with
      | some c1 => some ({ clientRect with h := clientRect.h - c1.d.Height }, c1)
      | none => none
    | .dsLeft =>
      match posit c clientRect.x clientRect.y c.d.Width clientRect.h with
      | some c1 =>
        some ({ clientRect with
                x := clientRect.x + c1.d.Width, w := clientRect.w - c1.d.Width }, c1)
      | none => none
    | .dsRight =>
      match posit c (clientRect.x + clientRect.w - c.d.Width) clientRect.y c.d.Width
          clientRect.h with
      | some c1 => some ({ clientRect with w := clientRect.w - c1.d.Width }, c1)
      | none => none
    | _ => some (clientRect, c)

/-- The first loop of `Container::ArrangeControls`, over the children in order.  The result
is the remaining client rectangle and the children. -/
def ArrangeControls_dock (posit : Control → Int → Int → Int → Int → Option Control) :
    Rect → List Control → Option (Rect × List Control)
  | clientRect, [] => some (clientRect, [])
  | clientRect, c :: rest =>
    match ArrangeControls_dockOne posit clientRect c with
    | none => none
    | some (clientRect1, c1) =>
      match ArrangeControls_dock posit clientRect1 rest with
      | some (clientRect2, rest1) => some (clientRect2, c1 :: rest1)
      | none => none

/-- The body of the second loop of `Container::ArrangeControls`: a child with
`DockStyle == dsFill` gets `Posit(0, 0, clientRect.w, clientRect.h)`. -/
def ArrangeControls_fillOne (posit : Control → Int → Int → Int → Int → Option Control)
    (clientRect : Rect) (c : Control) : Option Control :=
  if c.d.DockStyle = .dsFill then posit c 0 0 clientRect.w clientRect.h else some c

/-- The second loop of `Container::ArrangeControls`, over the children in order. -/
def ArrangeControls_fill (posit : Control → Int → Int → Int → Int → Option Control)
    (clientRect : Rect) : List Control → Option (List Control)
  | [] => some []
  | c :: rest =>
    match ArrangeControls_fillOne posit clientRect c with
    | none => none
    | some c1 =>
      match ArrangeControls_fill posit clientRect rest with
      | some rest1 => some (c1 :: rest1)
      | none => none

/-- The body of the third loop of `Container::ArrangeControls`, run when `layout` is `Flow`
or `Stack`: a child with `DockStyle == dsNone` is placed at `(layoutX, layoutY)`, after a new
row is started for `Stack` or when the child does not fit in `clientRect.w`; for `Stack` the
child is positioned with the width `stackWidth`, the value of `Width - Padding.Horizontal()`.
The result is the new `(layoutX, layoutY, maxHeight)` and the child. -/
def ArrangeControls_flowOne (posit : Control → Int → Int → Int → Int → Option Control)
    (layout : ContainerLayoutType) (stackWidth : Int) (clientRect : Rect)
    (layoutX layoutY maxHeight : Int) (c : Control) : Option ((Int × Int × Int) × Control) :=
  if c.d.DockStyle = .dsNone then
    let newLine : Bool :=
      decide (layout = .Stack) ||
        (decide (layoutX > 0) &&
          decide (layoutX + c.d.Width + c.d.Margin.Left > clientRect.w))
    let layoutY1 := if newLine then layoutY + maxHeight else layoutY
    let layoutX1 := if newLine then 0 else layoutX
    let maxHeight1 := if newLine then 0 else maxHeight
    let c1 : Control :=
      .mk { c.d with Left := layoutX1 + c.d.Margin.Left, Top := layoutY1 + c.d.Margin.Top }
        c.controls
    let positioned : Option Control :=
      if layout = .Stack then posit c1 c1.d.Left c1.d.Top stackWidth c1.d.Height
      else some c1
    match positioned with
    | none => none
    | some c2 =>
      some ((layoutX1 + (c2.d.Width + c2.d.Margin.Horizontal), layoutY1,
        max maxHeight1 (c2.d.Height + c2.d.Margin.Vertical)), c2)
  else
    some ((layoutX, layoutY, maxHeight), c)

/-- The third loop of `Container::ArrangeControls`, over the children in order, from the
values `layoutX`, `layoutY`, `maxHeight` reached so far. -/
def ArrangeControls_flow (posit : Control → Int → Int → Int → Int → Option Control)
    (layout : ContainerLayoutType) (stackWidth : Int) (clientRect : Rect) :
    Int → Int → Int → List Control → Option (List Control)
  | _, _, _, [] => some []
  | layoutX, layoutY, maxHeight, c :: rest =>
    match ArrangeControls_flowOne posit layout stackWidth clientRect layoutX layoutY maxHeight
        c with
    | none => none
    | some ((layoutX1, layoutY1, maxHeight1), c2) =>
      match ArrangeControls_flow posit layout stackWidth clientRect layoutX1 layoutY1
          maxHeight1 rest with
      | some rest1 => some (c2 :: rest1)
      | none => none

/-- The last loop of `Container::ArrangeControls`, run for `AutoWidth || AutoHeight`: the
largest right and bottom edge `(nWidth, nHeight)` over the children (margin included), less
the dock-consumed offset of `clientRect`. -/
def ArrangeControls_auto (clientRect : Rect) : Int → Int → List Control → Int × Int
  | nWidth, nHeight, [] => (nWidth, nHeight)
  | nWidth, nHeight, c :: rest =>
    let cw0 := c.d.Width + c.d.Left + c.d.Margin.Right
    let ch0 := c.d.Height + c.d.Top + c.d.Margin.Bottom
    let ch := if c.d.DockStyle = .dsLeft ∨ c.d.DockStyle = .dsRight then ch0 - clientRect.y
      else ch0
    let cw := if c.d.DockStyle = .dsTop ∨ c.d.DockStyle = .dsBottom then cw0 - clientRect.x
      else cw0
    ArrangeControls_auto clientRect (if cw > nWidth then cw else nWidth)
      (if ch > nHeight then ch else nHeight) rest

/-- `Container::ArrangeControls(initalClientRect)` on the container with members `d` and
children `controls`. -/
def Container_ArrangeControls (posit : Control → Int → Int → Int → Int → Option Control)
    (d : ControlData) (controls : List Control) (initalClientRect : Rect) : Option Control :=
  let clientRect0 : Rect :=
    { x := initalClientRect.x + d.Padding.Left
      y := initalClientRect.y + d.Padding.Top
      w := initalClientRect.w - d.Padding.Horizontal
      h := initalClientRect.h - d.Padding.Vertical }
  match ArrangeControls_dock posit clientRect0 controls with
  | none => none
  | some (clientRect, controls1) =>
    match ArrangeControls_fill posit clientRect controls1 with
    | none => none
    | some controls2 =>
      let flowed : Option (List Control) :=
        if d.layout = .Flow ∨ d.layout = .Stack then
          ArrangeControls_flow posit d.layout (d.Width - d.Padding.Horizontal) clientRect
            0 0 0 controls2
        else
          some controls2
      match flowed with
      | none => none
      | some controls3 =>
        let d1 := { d with clientRect := clientRect }
        if d.AutoWidth ∨ d.AutoHeight then
          let n := ArrangeControls_auto clientRect 0 0 controls3
          let nWidth := n.1 + d.Padding.Horizontal
          let nHeight := n.2 + d.Padding.Vertical
          let d2 := if d.AutoWidth then { d1 with Width := nWidth } else d1
          let d3 := if d.AutoHeight then { d2 with Height := nHeight } else d2
          some (.mk d3 controls3)
        else
          some (.mk d1 controls3)

/-- `Container::SizeChanged()` (LibUI.cpp 1422-1426) on an object of class `Container` with
members `c.d` and children `c.controls`: `Control::SizeChanged()` sets
`clientRect = Rect(0, 0, Width, Height)`, then `ArrangeControls(Rect(0, 0, Width, Height))`
runs.  `posit` is the virtual call `controls[i]->Posit(...)` on a child. -/
def Container_SizeChanged (posit : Control → Int → Int → Int → Int → Option Control)
    (c : Control) : Option Control :=
  Container_ArrangeControls posit { c.d with clientRect := ⟨0, 0, c.d.Width, c.d.Height⟩ }
    c.controls ⟨0, 0, c.d.Width, c.d.Height⟩

/-- `Posit(ALeft, ATop, AWidth, AHeight)` on an object of class `Container`: `Control::Posit`
(LibUI.cpp 620-627; `Container` does not override it) writes the bounds and calls the virtual
`SizeChanged()`, which is `Container::SizeChanged`. -/
def Container_Posit (posit : Control → Int → Int → Int → Int → Option Control)
    (c : Control) (l t w h : Int) : Option Control :=
  Container_SizeChanged posit (c.setBounds l t w h)

/-- The virtual `SizeChanged()` in a tree of objects of class `Control` and `Container`:
`Control::SizeChanged` sets `clientRect = Rect(0, 0, Width, Height)`; `Container::SizeChanged`
does that and then runs `ArrangeControls(Rect(0, 0, Width, Height))`, in which
`controls[i]->Posit(l, t, w, h)` sets the bounds of the child and calls its
`SizeChanged()`. -/
def Control.SizeChanged : Nat → Control → Option Control
  | 0, _ => none
  | fuel + 1, .mk d controls =>
    let d1 := { d with clientRect := ⟨0, 0, d.Width, d.Height⟩ }
    if d.isContainer then
      Container_ArrangeControls
        (fun c l t w h => Control.SizeChanged fuel (c.setBounds l t w h))
        d1 controls ⟨0, 0, d1.Width, d1.Height⟩
    else
      some (.mk d1 controls)

/-- `Control::Posit(ALeft, ATop, AWidth, AHeight)` in a tree of objects of class `Control`
and `Container`. -/
def Control.Posit (fuel : Nat) (c : Control) (l t w h : Int) : Option Control :=
  Control.SizeChanged fuel (c.setBounds l t w h)

/-- A container holding a single child docked Top with height 20, with padding 10 on every
side. -/
def dockTree : Control :=
  .mk { (plainContainer 0 0 0 0 []).d with Padding := ⟨10, 10, 10, 10⟩ }
    [.mk { (plainControl 0 0 50 20).d with DockStyle := .dsTop } []]


/-- The control tree `c` is less than `fuel` levels deep: `fuel` nested `SizeChanged` calls
reach every control of it. -/
def Control.fits (fuel : Nat) (c : Control) : Prop :=
  ∀ (path : List Nat) (n : Control), c.getPath path = some n → path.length < fuel

/-- Neither the control nor any control below it is an auto-sized container. -/
def Control.noAutoSize (c : Control) : Prop :=
  ∀ (path : List Nat) (n : Control), c.getPath path = some n →
    n.d.AutoWidth = false ∧ n.d.AutoHeight = false


/-- A container with padding `p` on every side holding a child docked Top with height 20
followed by a child docked Left with width 20. -/
def dockTwoTree (p : Int) : Control :=
  .mk { (plainContainer 0 0 0 0 []).d with Padding := ⟨p, p, p, p⟩ }
    ([{ (plainControl 0 0 50 20).d with DockStyle := .dsTop },
      { (plainControl 0 0 20 50).d with DockStyle := .dsLeft }].map
        (fun dc => Control.mk dc []))


/-- The call `posit` behaves on the control `c` as `Posit` does on a control that is not
auto-sized: when it returns, the control has the bounds it was given, only `clientRect` has
changed besides, and the same call on the result changes nothing. -/
def PositStable (posit : Control → Int → Int → Int → Int → Option Control) (c : Control) :
    Prop :=
  ∀ (l t w h : Int) (r : Control), posit c l t w h = some r →
    r.d = { c.d with Left := l, Top := t, Height := h, Width := w,
                     clientRect := r.d.clientRect } ∧
    posit r l t w h = some r

/-- The child `c` is one that the docking loop of `ArrangeControls` positions: visible and
docked Top, Bottom, Left or Right. -/
def isDocked (c : Control) : Prop :=
  c.d.Visible = true ∧
    (c.d.DockStyle = .dsTop ∨ c.d.DockStyle = .dsBottom ∨ c.d.DockStyle = .dsLeft ∨
      c.d.DockStyle = .dsRight)

/-- A container with `AutoWidth` set that holds one child with the bounds
`(5, 5, 40, 10)`. -/
def autoTree : Control :=
  .mk { (plainContainer 0 0 0 0 []).d with AutoWidth := true } [plainControl 5 5 40 10]


/-- One loop of `ArrangeControls` took the child `a` to `b`: `DockStyle` and `Visible` are
kept, and a child that the loop does not touch is unchanged. -/
def LayoutStep (touched : Control → Prop) (a b : Control) : Prop :=
  b.d.DockStyle = a.d.DockStyle ∧ b.d.Visible = a.d.Visible ∧ (¬ touched a → b = a)


/-- A container with padding 2 and stack layout holding a child docked Top, a child docked
Left, three undocked children and a child that fills the rest. -/
def mixedTree : Control :=
  .mk { (plainContainer 0 0 0 0 []).d with Padding := ⟨2, 2, 2, 2⟩, layout := .Stack }
    ([{ (plainControl 0 0 50 20).d with DockStyle := .dsTop },
      { (plainControl 0 0 30 20).d with DockStyle := .dsLeft },
      (plainControl 5 5 40 10).d, (plainControl 5 5 40 10).d, (plainControl 1 1 40 10).d,
      { (plainControl 0 0 30 20).d with DockStyle := .dsFill }].map
        (fun dc => Control.mk dc []))


/-! ## Menu::Popup: the state before the position is written (LibUI.cpp 5042-5052) -/

/-- `Menu::Popup` on a hidden menu up to, and without, `Left = x;`: the recording of the
focused control, `OnPopup.Invoke(this); PositMenuItems();` and the loop that clears
`Selected` on the items. -/
def Menu_Popup_prepared (V : Virtuals) (self : Ptr) (s : UIState) : Option UIState :=
  match s.root.get? self with
  | none => none
  | some c =>
    let s1 := if c.d.parentItem = none then { s with lastFocusedCtrl := s.FocusedControl } else s
    let s3 := V.PositMenuItems self (V.OnPopup self s1)
    match s3.root.get? self with
    | none => none
    | some c3 => some { s3 with root := Menu_clearSelected c3.d.Items s3.root }

/-- A state over the tree `root[ form[ menu ] ]`: the root is 100 wide, the form has been
moved to `Left = -50` (half of it is off the left edge), and the hidden popup menu `menu`
(pointer `[0, 0]`) is 30 wide. -/
def popupState : UIState :=
  { nestedState none with
    root := plainContainer 0 0 100 100
      [plainContainer (-50) 0 100 100
        [.mk { Container_ctor sampleConsts.CT_MENU true with
          style := .msPopup, Visible := false, Width := 30, Height := 20,
          clientRect := ⟨0, 0, 30, 20⟩ } []]] }


/-! ## The offset of a control inside the root, in the words of the specification -/

/-- The sum, over the control and each of its non-root ancestors `n`, of `n`'s `(Left, Top)`
plus the client-rect origin of `n`'s parent when `n`'s `DockStyle` is `dsNone` or `dsFill`. -/
def spec_chainOffset (root : Control) : Ptr → Option (Int × Int)
  | [] => some (0, 0)
  | i :: parent =>
    match root.get? (i :: parent), root.get? parent, spec_chainOffset root parent with
    | some n, some par, some (ox, oy) =>
      let origin : Int × Int :=
        if n.d.DockStyle = .dsNone ∨ n.d.DockStyle = .dsFill then
          (par.d.clientRect.x, par.d.clientRect.y)
        else (0, 0)
      some (ox + (n.d.Left + origin.1), oy + (n.d.Top + origin.2))
    | _, _, _ => none


/-- A dialog `root[ edit, label1, ..., label33 ]`: a tab-stop edit box followed by 33 enabled,
visible controls that are not tab stops. -/
def labelRowTree : Control :=
  plainContainer 0 0 400 700
    (.mk { Control_ctor 0 true with TabStop := true, Width := 100, Height := 20 } [] ::
      List.replicate 33 (plainControl 0 0 100 20))


/-! ## Menu::DoKeyDown: access keys and activation (LibUI.cpp 5256-5279, 5569-5587, 5626)

`MenuItem::Hit` (LibUI.cpp 5871-5895) opens the item's submenu or closes the popup menus and
invokes `OnClick`; it tests none of `Enabled`, `Visible`, `IsSeperator()`.  It is the
parameter `Hit` of the branches below, which return the calls of `Hit` they make. -/

/-- The loop of `MenuItem::SetText` over the characters `text[i], text[i + 1]`: the access
key found so far. -/
def MenuItem_SetText_scan : List Nat → Nat → Nat
  | a :: b :: rest, accKey =>
    MenuItem_SetText_scan (b :: rest) (if a = 38 ∧ b ≠ 38 then b else accKey)
  | _, accKey => accKey

/-- The value of `accKey` after `MenuItem::SetText(text)`: the character after the last
single `&`, in upper case. -/
def MenuItem_SetText_accKey (text : List Nat) : Nat :=
  let accKey := MenuItem_SetText_scan text 0
  if 97 ≤ accKey ∧ accKey ≤ 122 then accKey + 65 - 97 else accKey

/-- The loop `for (i ...) if (Items[i]->GetAccessKey() == Key)` of `Menu::DoKeyDown`: the
first item whose access key is `Key`. -/
def Menu_DoKeyDown_findAccessKey (root : Control) (Key : Nat) : List Ptr → Option (Option Ptr)
  | [] => some none
  | item :: rest =>
    match root.get? item with
    | none => none
    | some ic =>
      if ic.d.accKey = Key then some (some item) else Menu_DoKeyDown_findAccessKey root Key rest

/-- The branch `if ((Key >= 'A' && Key <= 'Z') || (Key >= '0' && Key <= '9'))` of
`Menu::DoKeyDown`: the result, the state, and the items `Hit(MouseUp)` was called on. -/
def Menu_DoKeyDown_accessKey (Hit : Ptr → UIState → Option UIState) (self : Ptr) (Key : Nat)
    (s : UIState) : Option ((Bool × UIState) × List Ptr) :=
  match s.root.get? self with
  | none => none
  | some c =>
    let s1 := { s with root := Menu_clearSelected c.d.Items s.root }
    match Menu_DoKeyDown_findAccessKey s1.root Key c.d.Items with
    | none => none
    | some none => some ((false, s1), [])
    | some (some item) =>
      match Hit item s1 with
      | none => none
      | some s2 =>
        some ((true, { s2 with root := s2.root.modify item (fun d => { d with Selected := true }) }),
          [item])

/-- The branch `if (Key == Keys::Space || Key == Keys::Return)` of `Menu::DoKeyDown`, entered
with `id = GetSelectedItemID()`: the result, the state, and the items `Hit(MouseUp)` was
called on. -/
def Menu_DoKeyDown_activate (Hit : Ptr → UIState → Option UIState) (self : Ptr) (s : UIState) :
    Option ((Bool × UIState) × List Ptr) :=
  match s.root.get? self with
  | none => none
  | some c =>
    match Menu_GetSelectedItemID s.root c.d.Items with
    | none => none
    | some id =>
      if id ≥ 0 then
        match itemAt c.d.Items id with
        | none => none
        | some item =>
          match s.root.get? item with
          | none => none
          | some ic =>
            if ic.d.Selected && ic.d.Enabled && !ic.d.isSeperator then
              match Hit item s with
              | none => none
              | some s2 => some ((true, s2), [item])
            else some ((false, s), [])
      else some ((false, s), [])

/-- The branches of `Menu::DoKeyDown` for letters, digits, Space and Return, as the
parameter `otherKeys` of `Menu_DoKeyDown` expects them. -/
def Menu_DoKeyDown_hitKeys (Keys : KeyConsts) (Hit : Ptr → UIState → Option UIState)
    (self : Ptr) (Key : Nat) (s : UIState) : Option (Bool × UIState) :=
  if (65 ≤ Key ∧ Key ≤ 90) ∨ (48 ≤ Key ∧ Key ≤ 57) then
    (Menu_DoKeyDown_accessKey Hit self Key s).map Prod.fst
  else if Key = Keys.Space ∨ Key = Keys.Return then
    (Menu_DoKeyDown_activate Hit self s).map Prod.fst
  else some (false, s)

/-- A popup menu `File` with the items `&Open` and `&Save`; `&Save` is disabled and
selected. -/
def accessKeyMenuState : UIState :=
  { nestedState none with
    root := plainContainer 0 0 640 480
      [.mk { (menuControl .msPopup true none none []).d with Items := [[0, 0], [1, 0]] }
        [.mk { (plainControl 0 0 80 20).d with
            accKey := MenuItem_SetText_accKey [38, 79, 112, 101, 110] } [],
         .mk { (plainControl 0 20 80 20).d with
            accKey := MenuItem_SetText_accKey [38, 83, 97, 118, 101],
            Enabled := false, Selected := true } []]] }


/-! ## UIEntry::DoMouseMove: leave and enter (LibUI.cpp 2164-2186)

`DoMouseLeave` and `DoMouseEnter` are virtual; the loops below return the controls they are
called on, in call order. -/

/-- The loop `while (cur && !pointedComp->IsChildOf((Container*)cur)) { cur->DoMouseLeave();
cur = cur->Parent; }` entered with the non-null `cur`: the controls left and the final `cur`
(`none` is null). -/
def DoMouseMove_leave (pointedComp : Ptr) : Ptr → List Ptr × Option Ptr
  | [] =>
    if pointedComp.IsChildOf [] then ([], some []) else ([[]], none)
  | i :: parent =>
    if pointedComp.IsChildOf (i :: parent) then ([], some (i :: parent))
    else
      ((i :: parent) :: (DoMouseMove_leave pointedComp parent).1,
        (DoMouseMove_leave pointedComp parent).2)

/-- The loop `while (cur2 != cur) { cur2->DoMouseEnter(); cur2 = cur2->Parent; }` entered with
the non-null `cur2`: the controls entered; `none` when `cur2` becomes null while `cur` is not
(the call dereferences it). -/
def DoMouseMove_enter (cur : Option Ptr) : Ptr → Option (List Ptr)
  | [] =>
    if some [] = cur then some []
    else if cur = none then some [[]] else none
  | i :: parent =>
    if some (i :: parent) = cur then some []
    else
      match DoMouseMove_enter cur parent with
      | some l => some ((i :: parent) :: l)
      | none => none

/-- The part of `UIEntry::DoMouseMove` that updates `Global::PointedComponent`, for the
control `pointedComp` found by `FindControlAtPosition(X, Y)`: the controls `DoMouseLeave` and
`DoMouseEnter` are called on, and the state.  `none` is a call through a null pointer. -/
def UIEntry_DoMouseMove_track (s : UIState) (pointedComp : Option Ptr) :
    Option (List Ptr × List Ptr × UIState) :=
  let s0 := { s with MouseInputConsumed := true }
  if pointedComp ≠ s0.PointedComponent then
    if s0.MouseCaptureControl = none then
      let left : Option (List Ptr × Option Ptr) :=
        match s0.PointedComponent, pointedComp with
        | none, _ => some ([], none)
        | some cur, some pc => some (DoMouseMove_leave pc cur)
        | some _, none => none
      match left with
      | none => none
      | some (leaves, cur) =>
        let entered : Option (List Ptr) :=
          match pointedComp with
          | some cur2 => DoMouseMove_enter cur cur2
          | none => if cur = none then some [] else none
        match entered with
        | none => none
        | some enters => some (leaves, enters, { s0 with PointedComponent := pointedComp })
    else some ([], [], s0)
  else some ([], [], s0)

/-- The controls on the parent chain from `p` up to, but not including, the lowest common
ancestor-or-self of `p` and `q`. -/
def spec_chainBelowCommon (p q : Ptr) : List Ptr :=
  (BroadcastMouseMessage_stack p).takeWhile (fun a => !decide (a ∈ BroadcastMouseMessage_stack q))


/-! ## Flow and stack layout in the words of the specification -/

/-- The rule for starting a new row before the child `c`: the mode is Stack, or the child's
width plus its left margin exceeds the remaining row width (client width minus row offset).
With `positive` set the second alternative also asks for a positive row offset. -/
def spec_newRow (positive stack : Bool) (clientWidth rowOffset : Int) (c : Control) : Bool :=
  stack ||
    ((!positive || decide (rowOffset > 0)) &&
      decide (c.d.Width + c.d.Margin.Left > clientWidth - rowOffset))

/-- The placed children `cs` follow the rows of the specification from the row offset, row top
and row height reached so far: each `dsNone` child sits at `Left = rowOffset + Margin.Left`,
`Top = rowTop + Margin.Top` after a new row is started where `spec_newRow` says so (row offset
0, row top increased by the height of the row before, row height 0); the row offset advances
by the child's width plus horizontal margin and the row height is the maximum of height plus
vertical margin over the children of the row. -/
def spec_flowRows (positive stack : Bool) (clientWidth : Int) :
    Int → Int → Int → List Control → Bool
  | _, _, _, [] => true
  | rowOffset, rowTop, rowHeight, c :: rest =>
    if c.d.DockStyle = .dsNone then
      let newRow := spec_newRow positive stack clientWidth rowOffset c
      let rowOffset1 := if newRow then 0 else rowOffset
      let rowTop1 := if newRow then rowTop + rowHeight else rowTop
      let rowHeight1 := if newRow then 0 else rowHeight
      decide (c.d.Left = rowOffset1 + c.d.Margin.Left) &&
        decide (c.d.Top = rowTop1 + c.d.Margin.Top) &&
        spec_flowRows positive stack clientWidth
          (rowOffset1 + (c.d.Width + c.d.Margin.Horizontal)) rowTop1
          (max rowHeight1 (c.d.Height + c.d.Margin.Vertical)) rest
    else
      spec_flowRows positive stack clientWidth rowOffset rowTop rowHeight rest

/-- A flow container 40 wide holding a child of width 0 and height 10 followed by a child 50
wide and 10 high. -/
def flowTree : Control :=
  .mk { (plainContainer 0 0 40 100 []).d with layout := .Flow }
    [plainControl 0 0 0 10, plainControl 0 0 50 10]

/-- One loop of `ArrangeControls` took the child `a` to `b`: `DockStyle`, `Visible` and
`Margin` are kept, and a child that the loop does not touch is unchanged. -/
def LayoutKept (touched : Control → Prop) (a b : Control) : Prop :=
  b.d.DockStyle = a.d.DockStyle ∧ b.d.Visible = a.d.Visible ∧ b.d.Margin = a.d.Margin ∧
    (¬ touched a → b = a)

/-- What every `Posit` keeps: the call `posit` returns a control at the position it was
given, with the `DockStyle`, `Visible` and `Margin` it had. -/
def PositKeeps (posit : Control → Int → Int → Int → Int → Option Control) : Prop :=
  ∀ (c : Control) (l t w h : Int) (r : Control), posit c l t w h = some r →
    r.d.Left = l ∧ r.d.Top = t ∧ r.d.DockStyle = c.d.DockStyle ∧ r.d.Visible = c.d.Visible ∧
      r.d.Margin = c.d.Margin

/-- The call `posit` leaves the control `c` with the width and height it is given, as
`Control::Posit` does on a control whose `SizeChanged()` does not assign `Width` or `Height`.
(An auto-sized container and a `ToolStrip` assign them in `SizeChanged()`; `ComboBox::Posit`
and `CustomTextBox::Posit` pass a height of their own on.) -/
def PositSized (posit : Control → Int → Int → Int → Int → Option Control) (c : Control) :
    Prop :=
  ∀ (l t w h : Int) (r : Control), posit c l t w h = some r → r.d.Width = w ∧ r.d.Height = h

/-- Every `Posit` call on the child `c` returns, whatever values the members of the child
have. -/
def PositReturns (posit : Control → Int → Int → Int → Int → Option Control) (c : Control) :
    Prop :=
  ∀ (d1 : ControlData) (l t w h : Int), ∃ r, posit (.mk d1 c.controls) l t w h = some r

/-- A container with padding 10 on every side holding a single child docked Top with height
20: a container with `AutoHeight` whose own child is 50 high. -/
def autoTopTree : Control :=
  .mk { (plainContainer 0 0 0 0 []).d with Padding := ⟨10, 10, 10, 10⟩ }
    [.mk { (plainContainer 0 0 50 20 []).d with DockStyle := .dsTop, AutoHeight := true }
      [plainControl 0 0 30 50]]

/-- A container 100 x 40 holding a child docked Top with height 10, a container with
`AutoHeight` whose own child is 50 high, followed by a plain control docked Left with width
20. -/
def autoDockTwoTree : Control :=
  plainContainer 0 0 100 40
    [.mk { (plainContainer 0 0 100 10 []).d with DockStyle := .dsTop, AutoHeight := true }
      [plainControl 0 0 20 50],
     .mk { (plainControl 0 0 20 50).d with DockStyle := .dsLeft } []]


/-! ## Docked strips in the words of the specification -/

/-- The rectangle `(Left, Top, Width, Height)` of a control. -/
def Control.bounds (c : Control) : Rect :=
  ⟨c.d.Left, c.d.Top, c.d.Width, c.d.Height⟩

/-- The rectangle `a` lies inside the rectangle `b`. -/
def Rect.inside (a b : Rect) : Prop :=
  b.x ≤ a.x ∧ b.y ≤ a.y ∧ a.x + a.w ≤ b.x + b.w ∧ a.y + a.h ≤ b.y + b.h

/-- The rectangles `a` and `b` overlap: they have a point in common (a rectangle holds the
points `x ≤ px < x + w`, `y ≤ py < y + h`). -/
def Rect.overlaps (a b : Rect) : Prop :=
  max a.x b.x < min (a.x + a.w) (b.x + b.w) ∧ max a.y b.y < min (a.y + a.h) (b.y + b.h)

/-- The child is docked to a side: its `DockStyle` is Top, Bottom, Left or Right. -/
def dockStyled (c : Control) : Prop :=
  c.d.DockStyle = .dsTop ∨ c.d.DockStyle = .dsBottom ∨ c.d.DockStyle = .dsLeft ∨
    c.d.DockStyle = .dsRight

/-- The width a child takes off the client rectangle: its `Width` when docked Left or
Right. -/
def spec_dockedWidth (c : Control) : Int :=
  if c.d.DockStyle = .dsLeft ∨ c.d.DockStyle = .dsRight then c.d.Width else 0

/-- The height a child takes off the client rectangle: its `Height` when docked Top or
Bottom. -/
def spec_dockedHeight (c : Control) : Int :=
  if c.d.DockStyle = .dsTop ∨ c.d.DockStyle = .dsBottom then c.d.Height else 0

/-- A container 100 x 40 holding one child docked Top with height 10: a container with
`AutoHeight` whose own child is 50 high. -/
def autoDockTree : Control :=
  plainContainer 0 0 100 40
    [.mk { (plainContainer 0 0 100 10 []).d with DockStyle := .dsTop, AutoHeight := true }
      [plainControl 0 0 20 50]]

instance Rect.instDecidableInside (a b : Rect) : Decidable (a.inside b) := by
  unfold Rect.inside
  infer_instance

instance Rect.instDecidableOverlaps (a b : Rect) : Decidable (a.overlaps b) := by
  unfold Rect.overlaps
  infer_instance

end GraphicsUI

namespace GameEngine

/-! # GameEngine: key-frame search and bone ordering (Skeleton.h, Skeleton.cpp)

`Time` and the query time are `float` values.  `BinarySearchForKeyFrame` only compares them
(`>` and `==`), so a `float` is modelled by what its comparisons see: it is NaN, or a number
from a linear order (the numbers and the two infinities, `-0` and `+0` being one number).
A comparison with NaN is false.  `int` values are integers; an addition that leaves the range
of `int` is undefined and gives `none`, as does a read outside a list. -/

/-- A `float` as the comparisons see it: NaN, or a number `v` from the linear order `α`. -/
inductive FloatVal (α : Type) where
  | nan : FloatVal α
  | num (v : α) : FloatVal α
  deriving DecidableEq

/-- The comparison `a > b` of two `float` values: false when one of them is NaN. -/
def FloatVal.gt {α : Type} [LinearOrder α] : FloatVal α → FloatVal α → Bool
  | .num a, .num b => decide (a > b)
  | _, _ => false

/-- The comparison `a == b` of two `float` values: false when one of them is NaN. -/
def FloatVal.eq {α : Type} [LinearOrder α] : FloatVal α → FloatVal α → Bool
  | .num a, .num b => decide (a = b)
  | _, _ => false

/-- The comparison `a < b` of two `float` values: false when one of them is NaN. -/
def FloatVal.lt {α : Type} [LinearOrder α] : FloatVal α → FloatVal α → Bool
  | .num a, .num b => decide (a < b)
  | _, _ => false

/-- The comparison `a <= b` of two `float` values: false when one of them is NaN. -/
def FloatVal.le {α : Type} [LinearOrder α] : FloatVal α → FloatVal α → Bool
  | .num a, .num b => decide (a ≤ b)
  | _, _ => false

/-- `KeyFrames[i].Time` for the list `Times` of the `Time` members of `KeyFrames`. -/
def keyTime {α : Type} (Times : List α) (i : Int) : Option α :=
  if i < 0 then none else Times[i.toNat]?

/-- The loop `while (begin < end)` of `BinarySearchForKeyFrame` from the values `first` of
`begin` and `last` of `end`: `(true, mid)` when the loop returns `mid`, `(false, begin)` when
it ends.  `mid = (begin + end) >> 1`; `fuel` bounds the number of iterations. -/
def BinarySearchForKeyFrame_loop {α : Type} [LinearOrder α] (Times : List (FloatVal α))
    (time : FloatVal α) : Nat → Int → Int → Option (Bool × Int)
  | 0, _, _ => none
  | fuel + 1, first, last =>
    if first < last then
      if first + last ≥ 2 ^ 31 then none
      else
        let mid := (first + last) / 2
        match keyTime Times mid with
        | none => none
        | some k =>
          if k.gt time then BinarySearchForKeyFrame_loop Times time fuel first mid
          else if k.eq time then some (true, mid)
          else BinarySearchForKeyFrame_loop Times time fuel (mid + 1) last
    else some (false, first)

/-- `BinarySearchForKeyFrame(KeyFrames, time)`. -/
def BinarySearchForKeyFrame {α : Type} [LinearOrder α] (fuel : Nat)
    (Times : List (FloatVal α)) (time : FloatVal α) : Option Int :=
  match BinarySearchForKeyFrame_loop Times time fuel 0 Times.length with
  | none => none
  | some (true, mid) => some mid
  | some (false, first) =>
    let begin1 : Int := if first ≥ Times.length then Times.length - 1 else first
    match keyTime Times begin1 with
    | none => none
    | some k =>
      let begin2 := if k.gt time then begin1 - 1 else begin1
      some (if begin2 < 0 then 0 else begin2)


/-! ## Skeleton::TopologySort (Skeleton.h 101-115, Skeleton.cpp 48-85)

`BoneTransformation` and `Matrix4` values are only copied; they are the type parameters `T`
and `M`.  Bone indices held in `workList`, `visitedBones` and `boneMapping` are values of the
loop counters and are natural numbers; `ParentId` is an `int`. -/

/-- `class Bone`. -/
structure Bone (T : Type) where
  ParentId : Int
  Name : String
  BindPose : T

/-- `class Skeleton`; `BoneMapping` lists the entries of the dictionary in enumeration
order. -/
structure Skeleton (T M : Type) where
  Name : String
  Bones : List (Bone T)
  InversePose : List M
  BoneMapping : List (String × Int)

/-- Modelled from the spec: `CoreLib::HashSet<int>::Contains`, on the set given as the list
of its members. -/
def HashSet_Contains (s : List Nat) (x : Int) : Bool :=
  s.any (fun v => decide ((v : Int) = x))

/-- Modelled from the spec: `CoreLib::HashSet<int>::Add`, which inserts a value that is not
in the set and returns whether it did. -/
def HashSet_Add (s : List Nat) (x : Nat) : Bool × List Nat :=
  if x ∈ s then (false, s) else (true, x :: s)

/-- Modelled from the spec: the read `dict[key]()` of a `CoreLib::Dictionary<int, int>`, on
the dictionary given as the list of its assignments, latest first; `none` is the exception
for a key that is not present. -/
def Dictionary_get (dict : List (Nat × Nat)) (key : Int) : Option Nat :=
  match dict.find? (fun e => decide ((e.1 : Int) = key)) with
  | some e => some e.2
  | none => none

/-- Modelled from the spec: the assignment `dict[key] = value` of a
`CoreLib::Dictionary<int, int>`. -/
def Dictionary_set (dict : List (Nat × Nat)) (key value : Nat) : List (Nat × Nat) :=
  (key, value) :: dict

/-- The first loop of `TopologySort` over the bones `Bones[i ..]`: the bones without parent
are added to `visitedBones` and `workList`. -/
def TopologySort_roots {T : Type} : List (Bone T) → Nat → List Nat × List Nat →
    List Nat × List Nat
  | [], _, acc => acc
  | b :: rest, i, (workList, visitedBones) =>
    if b.ParentId = -1 then
      TopologySort_roots rest (i + 1) (workList ++ [i], (HashSet_Add visitedBones i).2)
    else
      TopologySort_roots rest (i + 1) (workList, visitedBones)

/-- The inner loop of `TopologySort` over the bones `Bones[j ..]`: a bone whose parent has
been visited is added to `visitedBones` and, when it was not in the set, to `workList`. -/
def TopologySort_visit {T : Type} : List (Bone T) → Nat → List Nat × List Nat →
    List Nat × List Nat
  | [], _, acc => acc
  | b :: rest, j, (workList, visitedBones) =>
    if HashSet_Contains visitedBones b.ParentId then
      if (HashSet_Add visitedBones j).1 then
        TopologySort_visit rest (j + 1) (workList ++ [j], (HashSet_Add visitedBones j).2)
      else
        TopologySort_visit rest (j + 1) (workList, (HashSet_Add visitedBones j).2)
    else
      TopologySort_visit rest (j + 1) (workList, visitedBones)

/-- The local variables of `TopologySort` during its main loop; `Bones` and `InversePose` are
the members of `result`. -/
structure SortState (T M : Type) where
  workList : List Nat
  visitedBones : List Nat
  boneMapping : List (Nat × Nat)
  Bones : List (Bone T)
  InversePose : List M

/-- The main loop `for (int i = 0; i < workList.Count(); i++)` of `TopologySort` from the
value `i` of the counter; `fuel` bounds the number of iterations. -/
def TopologySort_loop {T M : Type} (self : Skeleton T M) :
    Nat → Nat → SortState T M → Option (SortState T M)
  | 0, _, _ => none
  | fuel + 1, i, st =>
    if i < st.workList.length then
      match st.workList[i]? with
      | none => none
      | some originalBoneId =>
        match self.Bones[originalBoneId]?, self.InversePose[originalBoneId]? with
        | some bone, some pose =>
          TopologySort_loop self fuel (i + 1)
            { workList := (TopologySort_visit self.Bones 0 (st.workList, st.visitedBones)).1
              visitedBones := (TopologySort_visit self.Bones 0 (st.workList, st.visitedBones)).2
              boneMapping := Dictionary_set st.boneMapping originalBoneId st.Bones.length
              Bones := st.Bones ++ [bone]
              InversePose := st.InversePose ++ [pose] }
        | _, _ => none
    else some st

/-- The loop `for (auto & bone : result.Bones) bone.ParentId = bone.ParentId == -1 ? -1 :
boneMapping[bone.ParentId]();`. -/
def TopologySort_remap {T : Type} (boneMapping : List (Nat × Nat)) :
    List (Bone T) → Option (List (Bone T))
  | [] => some []
  | bone :: rest =>
    let ParentId : Option Int :=
      if bone.ParentId = -1 then some (-1)
      else
        match Dictionary_get boneMapping bone.ParentId with
        | some v => some (v : Int)
        | none => none
    match ParentId, TopologySort_remap boneMapping rest with
    | some p, some rest1 => some ({ bone with ParentId := p } :: rest1)
    | _, _ => none

/-- The loop `for (auto & mapping : BoneMapping) result.BoneMapping[mapping.Key] =
boneMapping[mapping.Value]();`. -/
def TopologySort_names (boneMapping : List (Nat × Nat)) :
    List (String × Int) → Option (List (String × Int))
  | [] => some []
  | mapping :: rest =>
    match Dictionary_get boneMapping mapping.2, TopologySort_names boneMapping rest with
    | some v, some rest1 => some ((mapping.1, (v : Int)) :: rest1)
    | _, _ => none

/-- `Skeleton::TopologySort()`. -/
def Skeleton.TopologySort {T M : Type} (fuel : Nat) (self : Skeleton T M) :
    Option (Skeleton T M) :=
  let start := TopologySort_roots self.Bones 0 ([], [])
  match TopologySort_loop self fuel 0
      { workList := start.1, visitedBones := start.2, boneMapping := [], Bones := [],
        InversePose := [] } with
  | none => none
  | some st =>
    match TopologySort_remap st.boneMapping st.Bones,
        TopologySort_names st.boneMapping self.BoneMapping with
    | some bones, some names =>
      some { Name := "", Bones := bones, InversePose := st.InversePose, BoneMapping := names }
    | _, _ => none

/-- Following `ParentId` from the bone `j` reaches a bone without parent (`ParentId == -1`)
within `steps` bones.  With `steps = Bones.Count()` this holds for every bone exactly when
the links form a forest: every `ParentId` is -1 or a valid index, and there is no cycle. -/
def spec_reachesRoot {T : Type} (Bones : List (Bone T)) : Nat → Nat → Bool
  | 0, _ => false
  | steps + 1, j =>
    match Bones[j]? with
    | none => false
    | some b =>
      if b.ParentId = -1 then true
      else if b.ParentId < 0 then false
      else spec_reachesRoot Bones steps b.ParentId.toNat

/-- A skeleton of four bones stored children first: `hand` (parent `arm`), `arm` (parent
`spine`), `head` (parent `spine`) and the root `spine`. -/
def sampleSkeleton : Skeleton Nat Nat :=
  { Name := "sample"
    Bones := [⟨1, "hand", 10⟩, ⟨3, "arm", 11⟩, ⟨3, "head", 12⟩, ⟨-1, "spine", 13⟩]
    InversePose := [20, 21, 22, 23]
    BoneMapping := [("hand", 0), ("arm", 1), ("head", 2), ("spine", 3)] }

/-- The invariant of `workList` (`W`) and `visitedBones` (`V`) in `TopologySort`: they hold the
same bones, `workList` has no bone twice and only bones of the skeleton, and the parent of
every bone in `workList` stands before it. -/
def SortGood {T : Type} (Bones : List (Bone T)) (W V : List Nat) : Prop :=
  (∀ x, x ∈ V ↔ x ∈ W) ∧ W.Nodup ∧ (∀ x ∈ W, x < Bones.length) ∧
  (∀ (k x : Nat) (b : Bone T), W[k]? = some x → Bones[x]? = some b →
    b.ParentId = -1 ∨ ∃ k1 y, k1 < k ∧ W[k1]? = some y ∧ (y : Int) = b.ParentId)

/-- The invariant of the main loop of `TopologySort` before the iteration `i`: the first `i`
bones of `workList` have been copied to the result in that order and `boneMapping` gives
their new indices; when the loop is about to end, every bone whose parent has been visited
has been visited; every bone without parent has been visited. -/
def SortInv {T M : Type} (self : Skeleton T M) (i : Nat) (st : SortState T M) : Prop :=
  SortGood self.Bones st.workList st.visitedBones ∧
  i ≤ st.workList.length ∧ st.Bones.length = i ∧ st.InversePose.length = i ∧
  (∀ (k x : Nat), k < i → st.workList[k]? = some x →
    st.Bones[k]? = self.Bones[x]? ∧ st.InversePose[k]? = self.InversePose[x]? ∧
      Dictionary_get st.boneMapping (x : Int) = some k) ∧
  (i = st.workList.length → ∀ (j : Nat) (b : Bone T), self.Bones[j]? = some b →
    HashSet_Contains st.visitedBones b.ParentId = true → j ∈ st.visitedBones) ∧
  (∀ (j : Nat) (b : Bone T), self.Bones[j]? = some b → b.ParentId = -1 →
    j ∈ st.visitedBones)

end GameEngine

/-! # Theorems -/

namespace GraphicsUI

namespace ClipRectStack

theorem PushRect_eq (s : ClipRectStack) (r : Rect) (h : s.StackSize < s.Buffer.length) :
    PushRect s r = some { s with
      Buffer := s.Buffer.set s.StackSize r
      StackSize := s.StackSize + 1
      graphics := s.graphics ++ [r] } := by
  simp [PushRect, h]

theorem GetTop_after_push (s : ClipRectStack) (r : Rect) (g : List Rect)
    (h : s.StackSize < s.Buffer.length) :
    GetTop { s with
      Buffer := s.Buffer.set s.StackSize r
      StackSize := s.StackSize + 1
      graphics := g } = some r := by
  simp [GetTop, h]

theorem entries_after_push (s : ClipRectStack) (r : Rect) (g : List Rect)
    (h : s.StackSize < s.Buffer.length) :
    entries { s with
      Buffer := s.Buffer.set s.StackSize r
      StackSize := s.StackSize + 1
      graphics := g } = entries s ++ [r] := by
  simp only [entries]
  rw [List.take_succ, List.set_take, List.set_eq_of_length_le (by simp)]
  simp [h]

theorem take_set_self (l : List Rect) (n : Nat) (r : Rect) :
    (l.set n r).take n = l.take n := by
  rw [List.set_take, List.set_eq_of_length_le (by simp)]

theorem getLast_entries (s : ClipRectStack) (h : s.StackSize ≤ s.Buffer.length)
    (h0 : s.StackSize ≠ 0) :
    (entries s).getLast? = s.Buffer[s.StackSize - 1]? := by
  simp only [entries]
  rw [List.getLast?_eq_getElem?, List.length_take, Nat.min_eq_left h,
    List.getElem?_take_of_lt (by omega)]

/-- PopRect undoes a push: the entries are those before the push, and the rectangle returned
(and issued as the last clip command) is the previous top, or the full window. -/
theorem PopRect_after_push (s : ClipRectStack) (r : Rect) (g : List Rect)
    (h : s.StackSize < s.Buffer.length) :
    ∃ p, PopRect { s with
        Buffer := s.Buffer.set s.StackSize r
        StackSize := s.StackSize + 1
        graphics := g } = some p ∧
      entries p.2 = entries s ∧
      p.1 = (entries s).getLast?.getD ⟨0, 0, s.WindowWidth, s.WindowHeight⟩ ∧
      p.2.graphics = g ++ [p.1] := by
  by_cases h0 : s.StackSize = 0
  · refine ⟨((⟨0, 0, s.WindowWidth, s.WindowHeight⟩ : Rect), { s with
        Buffer := s.Buffer.set s.StackSize r
        StackSize := 0
        graphics := g ++ [⟨0, 0, s.WindowWidth, s.WindowHeight⟩] }), ?_, ?_, ?_, ?_⟩
    · simp [PopRect, h0]
    · simp [entries, h0]
    · simp [entries, h0]
    · rfl
  · have hget : (s.Buffer.set s.StackSize r)[s.StackSize - 1]? = s.Buffer[s.StackSize - 1]? := by
      rw [List.getElem?_set_ne (by omega)]
    obtain ⟨t, ht⟩ : ∃ t, s.Buffer[s.StackSize - 1]? = some t := by
      rw [List.getElem?_eq_getElem (by omega)]
      exact ⟨_, rfl⟩
    refine ⟨(t, { s with
        Buffer := s.Buffer.set s.StackSize r
        StackSize := s.StackSize
        graphics := g ++ [t] }), ?_, ?_, ?_, ?_⟩
    · simp only [PopRect]
      simp [h0, hget, ht]
    · simp [entries, take_set_self]
    · rw [getLast_entries s (Nat.le_of_lt h) h0, ht]
      rfl
    · rfl

theorem AddRect_cRect_isSome (s : ClipRectStack) (r : Rect) (h : s.StackSize ≤ s.Buffer.length) :
    ∃ c, AddRect_cRect s r = some c := by
  by_cases h0 : s.StackSize = 0
  · simp [AddRect_cRect, h0]
  · obtain ⟨t, ht⟩ : ∃ t, s.Buffer[s.StackSize - 1]? = some t := by
      rw [List.getElem?_eq_getElem (by omega)]
      exact ⟨_, rfl⟩
    simp [AddRect_cRect, h0, ht]

theorem AddRect_eq_push (s : ClipRectStack) (r : Rect) (h : s.StackSize < s.Buffer.length) :
    ∃ c, AddRect_cRect s r = some c ∧ AddRect s r = some { s with
      Buffer := s.Buffer.set s.StackSize c
      StackSize := s.StackSize + 1
      graphics := s.graphics ++ [c] } := by
  obtain ⟨c, hc⟩ := AddRect_cRect_isSome s r (Nat.le_of_lt h)
  exact ⟨c, hc, by simp [AddRect, hc, PushRect, h]⟩

/-- The rectangle pushed by AddRect on a non-empty stack whose top `t` has non-negative
origin, for an input with non-negative origin: the plain max/min intersection. -/
theorem AddRect_cRect_nonneg (s : ClipRectStack) (r t : Rect) (ht : GetTop s = some t)
    (hrx : 0 ≤ r.x) (hry : 0 ≤ r.y) :
    AddRect_cRect s r = some ⟨max r.x t.x, max r.y t.y,
      min (r.x + r.w) (t.x + t.w) - max r.x t.x, min (r.y + r.h) (t.y + t.h) - max r.y t.y⟩ := by
  have h0 : s.StackSize ≠ 0 := by
    intro h0
    simp [GetTop, h0] at ht
  have hb : s.Buffer[s.StackSize - 1]? = some t := by
    simpa [GetTop, h0] using ht
  have h1 : ¬ (max r.x t.x < 0) := by
    have := le_max_left r.x t.x
    omega
  have h2 : ¬ (max r.y t.y < 0) := by
    have := le_max_left r.y t.y
    omega
  simp [AddRect_cRect, h0, hb, h1, h2]

theorem isMeet_singleton (r : Rect) : IsMeet r [r] := by
  simp [IsMeet]

theorem max_attained (f : Rect → Int) (L : List Rect) (a : Int) (r : Rect)
    (h : (∀ q ∈ L, f q ≤ a) ∧ ∃ q ∈ L, f q = a) :
    (∀ q ∈ L ++ [r], f q ≤ max (f r) a) ∧ ∃ q ∈ L ++ [r], f q = max (f r) a := by
  obtain ⟨hall, q0, hq0, hq0a⟩ := h
  constructor
  · intro q hq
    rcases List.mem_append.1 hq with hq | hq
    · exact le_trans (hall q hq) (le_max_right _ _)
    · simp only [List.mem_singleton] at hq
      subst hq
      exact le_max_left _ _
  · rcases le_total (f r) a with hle | hle
    · exact ⟨q0, List.mem_append_left _ hq0, by rw [max_eq_right hle]; exact hq0a⟩
    · exact ⟨r, by simp, by rw [max_eq_left hle]⟩

theorem min_attained (f : Rect → Int) (L : List Rect) (a : Int) (r : Rect)
    (h : (∀ q ∈ L, a ≤ f q) ∧ ∃ q ∈ L, f q = a) :
    (∀ q ∈ L ++ [r], min (f r) a ≤ f q) ∧ ∃ q ∈ L ++ [r], f q = min (f r) a := by
  obtain ⟨hall, q0, hq0, hq0a⟩ := h
  constructor
  · intro q hq
    rcases List.mem_append.1 hq with hq | hq
    · exact le_trans (min_le_right _ _) (hall q hq)
    · simp only [List.mem_singleton] at hq
      subst hq
      exact min_le_left _ _
  · rcases le_total (f r) a with hle | hle
    · exact ⟨r, by simp, by rw [min_eq_left hle]⟩
    · exact ⟨q0, List.mem_append_left _ hq0, by rw [min_eq_right hle]; exact hq0a⟩

theorem isMeet_step (t r : Rect) (L : List Rect) (h : IsMeet t L) :
    IsMeet ⟨max r.x t.x, max r.y t.y,
      min (r.x + r.w) (t.x + t.w) - max r.x t.x, min (r.y + r.h) (t.y + t.h) - max r.y t.y⟩
      (L ++ [r]) := by
  obtain ⟨hx, hy, hw, hh⟩ := h
  refine ⟨max_attained (fun q => q.x) L t.x r hx, max_attained (fun q => q.y) L t.y r hy, ?_, ?_⟩
  · have := min_attained (fun q => q.x + q.w) L (t.x + t.w) r hw
    simpa using this
  · have := min_attained (fun q => q.y + q.h) L (t.y + t.h) r hh
    simpa using this

theorem AddRects_meet (rs : List Rect) :
    ∀ (s : ClipRectStack) (t : Rect) (L : List Rect), GetTop s = some t → IsMeet t L →
      0 ≤ t.x → 0 ≤ t.y → s.StackSize + rs.length ≤ s.Buffer.length →
      (∀ q ∈ rs, 0 ≤ q.x ∧ 0 ≤ q.y) →
      ∃ s1 t1, AddRects s rs = some s1 ∧ GetTop s1 = some t1 ∧ IsMeet t1 (L ++ rs) := by
  induction rs with
  | nil =>
    intro s t L ht hm _ _ _ _
    exact ⟨s, t, rfl, ht, by simpa using hm⟩
  | cons r rs ih =>
    intro s t L ht hm htx hty hlen hpos
    have hroom : s.StackSize < s.Buffer.length := by
      simp only [List.length_cons] at hlen
      omega
    have hr := hpos r (by simp)
    obtain ⟨c, hc, hadd⟩ := AddRect_eq_push s r hroom
    rw [AddRect_cRect_nonneg s r t ht hr.1 hr.2] at hc
    have hc1 := (Option.some.inj hc).symm
    have hget := GetTop_after_push s c (s.graphics ++ [c]) hroom
    have hm1 := isMeet_step t r L hm
    rw [← hc1] at hm1
    have hcx : 0 ≤ c.x := by
      rw [hc1]
      exact le_trans hr.1 (le_max_left _ _)
    have hcy : 0 ≤ c.y := by
      rw [hc1]
      exact le_trans hr.2 (le_max_left _ _)
    obtain ⟨s1, t1, h1, h2, h3⟩ := ih _ c (L ++ [r]) hget hm1 hcx hcy
      (by simp only [List.length_cons] at hlen; simp; omega)
      (fun q hq => hpos q (by simp [hq]))
    refine ⟨s1, t1, ?_, h2, by simpa using h3⟩
    simp only [AddRects, hadd]
    exact h1

end ClipRectStack

namespace ClipRectStack

/-- C1: after Clear() and AddRect(r1), ..., AddRect(rn) for a non-empty sequence of
rectangles with non-negative x and y that fits in the buffer, every call succeeds and the
top entry is the intersection of all of them: its x is the largest xi, its y the largest yi,
its x + w the smallest xi + wi and its y + h the smallest yi + hi (each bound is attained by
one of the rectangles). -/
theorem AddRects_top_is_intersection (s0 : ClipRectStack) (r : Rect) (rs : List Rect)
    (hcap : (r :: rs).length ≤ s0.Buffer.length)
    (hpos : ∀ q ∈ r :: rs, 0 ≤ q.x ∧ 0 ≤ q.y) :
    ∃ s t, AddRects (Clear s0) (r :: rs) = some s ∧ GetTop s = some t ∧
      ((∀ q ∈ r :: rs, q.x ≤ t.x) ∧ ∃ q ∈ r :: rs, q.x = t.x) ∧
      ((∀ q ∈ r :: rs, q.y ≤ t.y) ∧ ∃ q ∈ r :: rs, q.y = t.y) ∧
      ((∀ q ∈ r :: rs, t.x + t.w ≤ q.x + q.w) ∧ ∃ q ∈ r :: rs, q.x + q.w = t.x + t.w) ∧
      ((∀ q ∈ r :: rs, t.y + t.h ≤ q.y + q.h) ∧ ∃ q ∈ r :: rs, q.y + q.h = t.y + t.h) := by
  have hr := hpos r (by simp)
  have hlen : 1 + rs.length ≤ s0.Buffer.length := by
    simp only [List.length_cons] at hcap
    omega
  have hroom : (Clear s0).StackSize < (Clear s0).Buffer.length := by
    simp only [Clear]
    omega
  have hx : ¬ (r.x < 0) := by omega
  have hy : ¬ (r.y < 0) := by omega
  have hadd : AddRect (Clear s0) r = some { Clear s0 with
      Buffer := (Clear s0).Buffer.set (Clear s0).StackSize r
      StackSize := (Clear s0).StackSize + 1
      graphics := (Clear s0).graphics ++ [r] } := by
    obtain ⟨c, hc, hadd⟩ := AddRect_eq_push (Clear s0) r hroom
    have : c = r := by
      simp [AddRect_cRect, Clear, hx, hy] at hc
      exact hc.symm
    rw [this] at hadd
    exact hadd
  have hget := GetTop_after_push (Clear s0) r ((Clear s0).graphics ++ [r]) hroom
  obtain ⟨s1, t1, h1, h2, h3⟩ := AddRects_meet rs _ r [r] hget (isMeet_singleton r) hr.1 hr.2
    (by simp only [Clear, List.length_set]; omega)
    (fun q hq => hpos q (by simp [hq]))
  refine ⟨s1, t1, ?_, h2, ?_⟩
  · simp only [AddRects, hadd]
    exact h1
  · simpa [IsMeet] using h3

/-- Witness for C1: three overlapping rectangles pushed on a four-slot stack. -/
theorem AddRects_top_is_intersection_witness :
    ∃ s t, AddRects (Clear ⟨List.replicate 4 ⟨0, 0, 0, 0⟩, 2, 640, 480, []⟩)
        [⟨0, 0, 50, 50⟩, ⟨25, 10, 50, 50⟩, ⟨5, 30, 40, 40⟩] = some s ∧ GetTop s = some t ∧
      ((∀ q ∈ ([⟨0, 0, 50, 50⟩, ⟨25, 10, 50, 50⟩, ⟨5, 30, 40, 40⟩] : List Rect), q.x ≤ t.x) ∧
        ∃ q ∈ ([⟨0, 0, 50, 50⟩, ⟨25, 10, 50, 50⟩, ⟨5, 30, 40, 40⟩] : List Rect), q.x = t.x) ∧
      ((∀ q ∈ ([⟨0, 0, 50, 50⟩, ⟨25, 10, 50, 50⟩, ⟨5, 30, 40, 40⟩] : List Rect), q.y ≤ t.y) ∧
        ∃ q ∈ ([⟨0, 0, 50, 50⟩, ⟨25, 10, 50, 50⟩, ⟨5, 30, 40, 40⟩] : List Rect), q.y = t.y) ∧
      ((∀ q ∈ ([⟨0, 0, 50, 50⟩, ⟨25, 10, 50, 50⟩, ⟨5, 30, 40, 40⟩] : List Rect),
          t.x + t.w ≤ q.x + q.w) ∧
        ∃ q ∈ ([⟨0, 0, 50, 50⟩, ⟨25, 10, 50, 50⟩, ⟨5, 30, 40, 40⟩] : List Rect),
          q.x + q.w = t.x + t.w) ∧
      ((∀ q ∈ ([⟨0, 0, 50, 50⟩, ⟨25, 10, 50, 50⟩, ⟨5, 30, 40, 40⟩] : List Rect),
          t.y + t.h ≤ q.y + q.h) ∧
        ∃ q ∈ ([⟨0, 0, 50, 50⟩, ⟨25, 10, 50, 50⟩, ⟨5, 30, 40, 40⟩] : List Rect),
          q.y + q.h = t.y + t.h) :=
  AddRects_top_is_intersection ⟨List.replicate 4 ⟨0, 0, 0, 0⟩, 2, 640, 480, []⟩
    ⟨0, 0, 50, 50⟩ [⟨25, 10, 50, 50⟩, ⟨5, 30, 40, 40⟩] (by decide) (by decide)

/-- C2 (as stated, refuted): after Clear(), PushRect({0,0,50,50}), PushRect({25,25,50,50})
the top entry is the pushed rectangle {25,25,50,50} itself, not the intersection
{25,25,25,25}. -/
theorem PushRect_scenario_not_intersection :
    ((PushRect (Clear ⟨List.replicate 4 ⟨0, 0, 0, 0⟩, 0, 640, 480, []⟩) ⟨0, 0, 50, 50⟩).bind
        (fun s1 => (PushRect s1 ⟨25, 25, 50, 50⟩).bind GetTop)) = some ⟨25, 25, 50, 50⟩ ∧
    ((PushRect (Clear ⟨List.replicate 4 ⟨0, 0, 0, 0⟩, 0, 640, 480, []⟩) ⟨0, 0, 50, 50⟩).bind
        (fun s1 => (PushRect s1 ⟨25, 25, 50, 50⟩).bind GetTop)) ≠ some ⟨25, 25, 25, 25⟩ := by
  decide

/-- C2 (amended): PushRect stores its argument unchanged: on every stack with a free slot,
after PushRect(r) the top entry is r itself and r is the clip command issued, whatever the
previous top was.  The intersection with the current top is what AddRect does: after Clear(),
AddRect({0,0,50,50}), AddRect({25,25,50,50}) the top entry is {25,25,25,25}. -/
theorem PushRect_top_is_argument (S : ClipRectStack) (r : Rect)
    (hroom : S.StackSize < S.Buffer.length) :
    (∃ s1, PushRect S r = some s1 ∧ GetTop s1 = some r ∧ s1.graphics = S.graphics ++ [r] ∧
      entries s1 = entries S ++ [r]) ∧
    (2 ≤ S.Buffer.length →
      ∃ s1 s2, AddRect (Clear S) ⟨0, 0, 50, 50⟩ = some s1 ∧
        AddRect s1 ⟨25, 25, 50, 50⟩ = some s2 ∧ GetTop s2 = some ⟨25, 25, 25, 25⟩) := by
  constructor
  · exact ⟨_, PushRect_eq S r hroom, GetTop_after_push S r _ hroom, rfl,
      entries_after_push S r _ hroom⟩
  · intro h2
    have hroom0 : (Clear S).StackSize < (Clear S).Buffer.length := by
      simp only [Clear]
      omega
    obtain ⟨c, hc, hadd⟩ := AddRect_eq_push (Clear S) ⟨0, 0, 50, 50⟩ hroom0
    have hc0 : c = ⟨0, 0, 50, 50⟩ := by
      simp [AddRect_cRect, Clear] at hc
      exact hc.symm
    subst hc0
    have hget := GetTop_after_push (Clear S) ⟨0, 0, 50, 50⟩
      ((Clear S).graphics ++ [⟨0, 0, 50, 50⟩]) hroom0
    have hroom1 : (Clear S).StackSize + 1 < ((Clear S).Buffer.set (Clear S).StackSize
        ⟨0, 0, 50, 50⟩).length := by
      simp only [Clear, List.length_set]
      omega
    obtain ⟨c2, hc2, hadd2⟩ := AddRect_eq_push { Clear S with
        Buffer := (Clear S).Buffer.set (Clear S).StackSize ⟨0, 0, 50, 50⟩
        StackSize := (Clear S).StackSize + 1
        graphics := (Clear S).graphics ++ [⟨0, 0, 50, 50⟩] } ⟨25, 25, 50, 50⟩ hroom1
    rw [AddRect_cRect_nonneg _ ⟨25, 25, 50, 50⟩ ⟨0, 0, 50, 50⟩ hget (by decide) (by decide)]
      at hc2
    refine ⟨_, _, hadd, hadd2, ?_⟩
    rw [GetTop_after_push _ _ _ hroom1, ← Option.some.inj hc2]
    decide

/-- Witness for C2 (amended): a stack holding one entry, with room for more. -/
theorem PushRect_top_is_argument_witness :
    (∃ s1, PushRect ⟨List.replicate 4 ⟨0, 0, 50, 50⟩, 1, 640, 480, []⟩ ⟨25, 25, 50, 50⟩ = some s1 ∧
      GetTop s1 = some ⟨25, 25, 50, 50⟩ ∧
      s1.graphics =
        (⟨List.replicate 4 ⟨0, 0, 50, 50⟩, 1, 640, 480, []⟩ : ClipRectStack).graphics ++
          [⟨25, 25, 50, 50⟩] ∧
      entries s1 =
        entries ⟨List.replicate 4 ⟨0, 0, 50, 50⟩, 1, 640, 480, []⟩ ++ [⟨25, 25, 50, 50⟩]) ∧
    (2 ≤ (⟨List.replicate 4 ⟨0, 0, 50, 50⟩, 1, 640, 480, []⟩ : ClipRectStack).Buffer.length →
      ∃ s1 s2, AddRect (Clear ⟨List.replicate 4 ⟨0, 0, 50, 50⟩, 1, 640, 480, []⟩)
          ⟨0, 0, 50, 50⟩ = some s1 ∧
        AddRect s1 ⟨25, 25, 50, 50⟩ = some s2 ∧ GetTop s2 = some ⟨25, 25, 25, 25⟩) :=
  PushRect_top_is_argument ⟨List.replicate 4 ⟨0, 0, 50, 50⟩, 1, 640, 480, []⟩ ⟨25, 25, 50, 50⟩
    (by decide)

end ClipRectStack

namespace ClipRectStack

/-- C3: on every stack state S with a free slot and every rectangle r, PushRect(r) followed
by PopRect(), and likewise AddRect(r) followed by PopRect(), leaves the entries equal to
those of S; that PopRect returns, and issues as its clip command, the top of S, or the full
window rectangle (0,0,WindowWidth,WindowHeight) when S is empty.  PopRect() on an empty
stack leaves it empty and returns (and issues) the full window rectangle. -/
theorem PopRect_restores_previous_top (S : ClipRectStack) (r : Rect)
    (hroom : S.StackSize < S.Buffer.length) :
    (∃ s1 p, PushRect S r = some s1 ∧ PopRect s1 = some p ∧ entries p.2 = entries S ∧
      p.1 = (entries S).getLast?.getD ⟨0, 0, S.WindowWidth, S.WindowHeight⟩ ∧
      p.2.graphics.getLast? = some p.1) ∧
    (∃ s1 p, AddRect S r = some s1 ∧ PopRect s1 = some p ∧ entries p.2 = entries S ∧
      p.1 = (entries S).getLast?.getD ⟨0, 0, S.WindowWidth, S.WindowHeight⟩ ∧
      p.2.graphics.getLast? = some p.1) ∧
    (S.StackSize = 0 → ∃ p, PopRect S = some p ∧ entries p.2 = [] ∧ p.2.StackSize = 0 ∧
      p.1 = ⟨0, 0, S.WindowWidth, S.WindowHeight⟩ ∧ p.2.graphics.getLast? = some p.1) := by
  refine ⟨?_, ?_, ?_⟩
  · obtain ⟨p, hp, he, hv, hg⟩ := PopRect_after_push S r (S.graphics ++ [r]) hroom
    exact ⟨_, p, PushRect_eq S r hroom, hp, he, hv, by simp [hg]⟩
  · obtain ⟨c, _, hadd⟩ := AddRect_eq_push S r hroom
    obtain ⟨p, hp, he, hv, hg⟩ := PopRect_after_push S c (S.graphics ++ [c]) hroom
    exact ⟨_, p, hadd, hp, he, hv, by simp [hg]⟩
  · intro h0
    refine ⟨((⟨0, 0, S.WindowWidth, S.WindowHeight⟩ : Rect), { S with
        StackSize := 0
        graphics := S.graphics ++ [⟨0, 0, S.WindowWidth, S.WindowHeight⟩] }), ?_, ?_, rfl, rfl, ?_⟩
    · simp [PopRect, h0]
    · simp [entries]
    · simp

/-- Witness for C3: a stack holding two entries, with room for more. -/
theorem PopRect_restores_previous_top_witness :
    (∃ s1 p, PushRect ⟨[⟨0, 0, 50, 50⟩, ⟨10, 10, 20, 20⟩, ⟨0, 0, 0, 0⟩], 2, 640, 480, []⟩
        ⟨15, 15, 30, 30⟩ = some s1 ∧ PopRect s1 = some p ∧
      entries p.2 = entries ⟨[⟨0, 0, 50, 50⟩, ⟨10, 10, 20, 20⟩, ⟨0, 0, 0, 0⟩], 2, 640, 480, []⟩ ∧
      p.1 = (entries ⟨[⟨0, 0, 50, 50⟩, ⟨10, 10, 20, 20⟩, ⟨0, 0, 0, 0⟩], 2, 640, 480,
        []⟩).getLast?.getD ⟨0, 0, 640, 480⟩ ∧
      p.2.graphics.getLast? = some p.1) ∧
    (∃ s1 p, AddRect ⟨[⟨0, 0, 50, 50⟩, ⟨10, 10, 20, 20⟩, ⟨0, 0, 0, 0⟩], 2, 640, 480, []⟩
        ⟨15, 15, 30, 30⟩ = some s1 ∧ PopRect s1 = some p ∧
      entries p.2 = entries ⟨[⟨0, 0, 50, 50⟩, ⟨10, 10, 20, 20⟩, ⟨0, 0, 0, 0⟩], 2, 640, 480, []⟩ ∧
      p.1 = (entries ⟨[⟨0, 0, 50, 50⟩, ⟨10, 10, 20, 20⟩, ⟨0, 0, 0, 0⟩], 2, 640, 480,
        []⟩).getLast?.getD ⟨0, 0, 640, 480⟩ ∧
      p.2.graphics.getLast? = some p.1) ∧
    ((2 : Nat) = 0 → ∃ p,
      PopRect ⟨[⟨0, 0, 50, 50⟩, ⟨10, 10, 20, 20⟩, ⟨0, 0, 0, 0⟩], 2, 640, 480, []⟩ = some p ∧
      entries p.2 = [] ∧ p.2.StackSize = 0 ∧
      p.1 = ⟨0, 0, 640, 480⟩ ∧ p.2.graphics.getLast? = some p.1) :=
  PopRect_restores_previous_top
    ⟨[⟨0, 0, 50, 50⟩, ⟨10, 10, 20, 20⟩, ⟨0, 0, 0, 0⟩], 2, 640, 480, []⟩ ⟨15, 15, 30, 30⟩
    (by decide)

end ClipRectStack

/-! ## Hit-testing -/

theorem FindInChildren_none (G : Int) (R : Rect) (x y : Int) (cs : List Control) :
    ∀ (i : Nat), (∀ (j : Nat) (cj : Control), cs[j]? = some cj →
        Control.childHit G R cj x y = none) →
      Control.FindInChildren G R cs i x y = none := by
  induction cs with
  | nil => intro i _; simp [Control.FindInChildren]
  | cons c cs ih =>
    intro i hnone
    have h1 := ih (i + 1) (fun j cj hj => hnone (j + 1) cj (by simpa using hj))
    have h2 := hnone 0 c (by simp)
    simp only [Control.childHit] at h2
    simp only [Control.FindInChildren, h1, h2]
    split <;> rfl

theorem FindInChildren_ne_none (G : Int) (R : Rect) (x y : Int) (l : List Control) :
    ∀ (n m : Nat) (cm : Control) (hm : Ptr),
      l[m]? = some cm → cm.d.EventID ≠ G → Control.childHit G R cm x y = some hm →
      Control.FindInChildren G R l n x y ≠ none := by
  induction l with
  | nil => intro n m cm hm h0; simp at h0
  | cons a l ihl =>
    intro n m cm hm h0 he hhit0
    simp only [Control.FindInChildren]
    cases m with
    | zero =>
      have ha : a = cm := by simpa using h0
      subst ha
      cases hr2 : Control.FindInChildren G R l (n + 1) x y with
      | some v => simp
      | none =>
        simp only [Control.childHit] at hhit0
        simp [he, hhit0]
    | succ m1 =>
      have := ihl (n + 1) m1 cm hm (by simpa using h0) he hhit0
      cases hr2 : Control.FindInChildren G R l (n + 1) x y with
      | some v => simp
      | none => exact absurd hr2 this

theorem FindInChildren_some (G : Int) (R : Rect) (x y : Int) (cs : List Control) :
    ∀ (i : Nat) (r : Ptr), Control.FindInChildren G R cs i x y = some r →
      ∃ (k : Nat) (c : Control) (h : Ptr), cs[k]? = some c ∧ c.d.EventID ≠ G ∧
        Control.childHit G R c x y = some h ∧ r = h ++ [i + k] ∧
        ∀ (j : Nat) (cj : Control), k < j → cs[j]? = some cj → cj.d.EventID ≠ G →
          Control.childHit G R cj x y = none := by
  induction cs with
  | nil => intro i r h; simp [Control.FindInChildren] at h
  | cons c cs ih =>
    intro i r h
    simp only [Control.FindInChildren] at h
    cases hrest : Control.FindInChildren G R cs (i + 1) x y with
    | some r1 =>
      rw [hrest] at h
      obtain ⟨k, ck, hk, hk1, hk2, hk3, hk4, hk5⟩ := ih (i + 1) r1 hrest
      refine ⟨k + 1, ck, hk, by simpa using hk1, hk2, hk3, ?_, ?_⟩
      · have : r = r1 := by simpa using h.symm
        rw [this, hk4]
        congr 2
        omega
      · intro j cj hj hcj hev
        obtain ⟨j1, rfl⟩ : ∃ j1, j = j1 + 1 := ⟨j - 1, by omega⟩
        exact hk5 j1 cj (by omega) (by simpa using hcj) hev
    | none =>
      rw [hrest] at h
      by_cases hev : c.d.EventID = G
      · simp [hev] at h
      · simp only [ne_eq, hev, not_false_eq_true, if_true] at h
        cases hc : Control.FindControlAtPosition G c (childCoords R c.d x y).1
            (childCoords R c.d x y).2 with
        | none => simp [hc] at h
        | some hh =>
          rw [hc] at h
          refine ⟨0, c, hh, by simp, hev, hc, by simpa using h.symm, ?_⟩
          intro j cj hj hcj hevj
          obtain ⟨j1, rfl⟩ : ∃ j1, j = j1 + 1 := ⟨j - 1, by omega⟩
          have hcj1 : cs[j1]? = some cj := by simpa using hcj
          cases hq : Control.childHit G R cj x y with
          | none => rfl
          | some v => exact absurd hrest (FindInChildren_ne_none G R x y cs (i + 1) j1 cj v hcj1 hevj hq)

theorem Container_Find_eq (G : Int) (d : ControlData) (controls : List Control) (x y : Int)
    (hc : d.isContainer = true) (hv : d.Visible = true) (hin : IsPointInClient d x y = true)
    (hg : inPaddingGutter d x y = false) :
    Control.FindControlAtPosition G (.mk d controls) x y =
      match Control.FindInChildren G d.clientRect controls 0 x y with
      | some child => some child
      | none => some [] := by
  simp [Control.FindControlAtPosition, hc, hv, hin, hg]

/-- The three cases of `Container::FindControlAtPosition(x, y)`, with what a child reports
written as `Control.childHit`. -/
theorem Container_FindControlAtPosition_childHit (G : Int) (d : ControlData)
    (controls : List Control) (x y : Int)
    (hc : d.isContainer = true) (hev : ∀ c ∈ controls, c.d.EventID ≠ G) :
    ((d.Visible = false ∨ IsPointInClient d x y = false) →
        Control.FindControlAtPosition G (.mk d controls) x y = none) ∧
    (d.Visible = true → IsPointInClient d x y = true → inPaddingGutter d x y = true →
        Control.FindControlAtPosition G (.mk d controls) x y = some []) ∧
    (d.Visible = true → IsPointInClient d x y = true → inPaddingGutter d x y = false →
      (∀ (k : Nat) (c : Control) (h : Ptr), controls[k]? = some c →
        Control.childHit G d.clientRect c x y = some h →
        (∀ (j : Nat) (cj : Control), k < j → controls[j]? = some cj →
          Control.childHit G d.clientRect cj x y = none) →
        Control.FindControlAtPosition G (.mk d controls) x y = some (h ++ [k])) ∧
      (∀ (i j : Nat) (ci cj : Control) (hi hj : Ptr), i < j →
        controls[i]? = some ci → controls[j]? = some cj →
        Control.childHit G d.clientRect ci x y = some hi →
        Control.childHit G d.clientRect cj x y = some hj →
        ∃ (k : Nat) (h : Ptr), j ≤ k ∧
          Control.FindControlAtPosition G (.mk d controls) x y = some (h ++ [k]))) := by
  refine ⟨?_, ?_, ?_⟩
  · rintro (hv | hin)
    · simp [Control.FindControlAtPosition, hc, hv]
    · simp [Control.FindControlAtPosition, hc, hin]
  · intro hv hin hg
    simp [Control.FindControlAtPosition, hc, hv, hin, hg]
  · intro hv hin hg
    have hmem : ∀ (j : Nat) (cj : Control), controls[j]? = some cj → cj.d.EventID ≠ G :=
      fun j cj hj => hev cj (List.getElem?_mem hj)
    -- a hit anywhere makes the loop return the hit of the last child that reports one
    have key : ∀ (j : Nat) (cj : Control) (hj : Ptr), controls[j]? = some cj →
        Control.childHit G d.clientRect cj x y = some hj →
        ∃ (k : Nat) (c : Control) (h : Ptr), j ≤ k ∧ controls[k]? = some c ∧
          Control.childHit G d.clientRect c x y = some h ∧
          (∀ (m : Nat) (cm : Control), k < m → controls[m]? = some cm →
            Control.childHit G d.clientRect cm x y = none) ∧
          Control.FindControlAtPosition G (.mk d controls) x y = some (h ++ [k]) := by
      intro j cj hj hcj hhit
      have hne := FindInChildren_ne_none G d.clientRect x y controls 0 j cj hj hcj
        (hmem j cj hcj) hhit
      obtain ⟨r, hr⟩ : ∃ r, Control.FindInChildren G d.clientRect controls 0 x y = some r := by
        cases hq : Control.FindInChildren G d.clientRect controls 0 x y with
        | none => exact absurd hq hne
        | some v => exact ⟨v, rfl⟩
      obtain ⟨k, c, h, hk, _, hk2, hk3, hk4⟩ :=
        FindInChildren_some G d.clientRect x y controls 0 r hr
      refine ⟨k, c, h, ?_, hk, hk2, fun m cm hm hcm => hk4 m cm hm hcm (hmem m cm hcm), ?_⟩
      · by_contra hlt
        have := hk4 j cj (by omega) hcj (hmem j cj hcj)
        rw [this] at hhit
        exact Option.noConfusion hhit
      · rw [Container_Find_eq G d controls x y hc hv hin hg, hr, hk3]
        simp
    constructor
    · intro k c h hk hhit hlater
      obtain ⟨k1, c1, h1, hle, hk1, hhit1, _, hres⟩ := key k c h hk hhit
      have hkk : k1 = k := by
        by_contra hne
        have := hlater k1 c1 (by omega) hk1
        rw [this] at hhit1
        exact Option.noConfusion hhit1
      subst hkk
      have hcc : c1 = c := by
        rw [hk1] at hk
        exact Option.some.inj hk
      subst hcc
      rw [hhit1] at hhit
      rw [hres, Option.some.inj hhit]
    · intro i j ci cj hi hj _ _ hcj _ hhitj
      obtain ⟨k1, _, h1, hle, _, _, _, hres⟩ := key j cj hj hcj hhitj
      exact ⟨k1, h1, hle, hres⟩

/-- C4: `Container::FindControlAtPosition(x, y)` (children's `EventID` differing from
`Global::EventGUID`, as the constructor's `EventID = -1` and the counter starting at 0 ensure)
returns null when the container is invisible or the point is not inside its bounds; returns
the container itself when the point lies in the padding gutter; and otherwise returns the hit
reported by the child of highest index that reports one - the children are tried from
last-added to first-added - where the child `c` is tested at `(x - dx - c.Left,
y - dy - c.Top)` with `(dx, dy)` the origin of the container's client rectangle when the
child's `DockStyle` is `dsNone` or `dsFill` and `(0, 0)` when it is docked to a side; so of
two siblings that both report a hit, the earlier-added one never wins. -/
theorem Container_FindControlAtPosition_order (G : Int) (d : ControlData)
    (controls : List Control) (x y : Int)
    (hc : d.isContainer = true) (hev : ∀ c ∈ controls, c.d.EventID ≠ G) :
    ((d.Visible = false ∨ IsPointInClient d x y = false) →
        Control.FindControlAtPosition G (.mk d controls) x y = none) ∧
    (d.Visible = true → IsPointInClient d x y = true → inPaddingGutter d x y = true →
        Control.FindControlAtPosition G (.mk d controls) x y = some []) ∧
    (d.Visible = true → IsPointInClient d x y = true → inPaddingGutter d x y = false →
      (∀ (k : Nat) (c : Control) (h : Ptr), controls[k]? = some c →
        Control.FindControlAtPosition G c
          (x - (if c.d.DockStyle = .dsNone ∨ c.d.DockStyle = .dsFill then d.clientRect.x
            else 0) - c.d.Left)
          (y - (if c.d.DockStyle = .dsNone ∨ c.d.DockStyle = .dsFill then d.clientRect.y
            else 0) - c.d.Top) = some h →
        (∀ (j : Nat) (cj : Control), k < j → controls[j]? = some cj →
          Control.FindControlAtPosition G cj
            (x - (if cj.d.DockStyle = .dsNone ∨ cj.d.DockStyle = .dsFill then d.clientRect.x
              else 0) - cj.d.Left)
            (y - (if cj.d.DockStyle = .dsNone ∨ cj.d.DockStyle = .dsFill then d.clientRect.y
              else 0) - cj.d.Top) = none) →
        Control.FindControlAtPosition G (.mk d controls) x y = some (h ++ [k])) ∧
      (∀ (i j : Nat) (ci cj : Control) (hi hj : Ptr), i < j →
        controls[i]? = some ci → controls[j]? = some cj →
        Control.FindControlAtPosition G ci
          (x - (if ci.d.DockStyle = .dsNone ∨ ci.d.DockStyle = .dsFill then d.clientRect.x
            else 0) - ci.d.Left)
          (y - (if ci.d.DockStyle = .dsNone ∨ ci.d.DockStyle = .dsFill then d.clientRect.y
            else 0) - ci.d.Top) = some hi →
        Control.FindControlAtPosition G cj
          (x - (if cj.d.DockStyle = .dsNone ∨ cj.d.DockStyle = .dsFill then d.clientRect.x
            else 0) - cj.d.Left)
          (y - (if cj.d.DockStyle = .dsNone ∨ cj.d.DockStyle = .dsFill then d.clientRect.y
            else 0) - cj.d.Top) = some hj →
        ∃ (k : Nat) (h : Ptr), j ≤ k ∧
          Control.FindControlAtPosition G (.mk d controls) x y = some (h ++ [k]))) :=
  Container_FindControlAtPosition_childHit G d controls x y hc hev

/-- Witness for C4: a 100 x 100 container with padding 5 and client rectangle (5, 5, 90, 90)
holding two undocked children at (10, 10, 50, 50) and (40, 40, 50, 50) and, added last, a
child docked Top at (5, 5, 90, 10).  The point (30, 30) is tested at (25, 25) on the docked
child and at (-15, -15) on the second child, which both miss, and at (15, 15) on the first
child, which is returned; untranslated, the point would lie in the second child.  The point
(8, 8) is tested on the docked child at (3, 3), without the client-rectangle offset, and that
child is returned. -/
theorem Container_FindControlAtPosition_order_witness :
    paddedHitTree.d.isContainer = true ∧
    (∀ c ∈ paddedHitTree.controls, c.d.EventID ≠ 0) ∧
    Control.FindControlAtPosition 0 paddedHitTree 30 30 = some [0] ∧
    Control.FindControlAtPosition 0 paddedHitTree 8 8 = some [2] :=
  ⟨by decide, by decide,
    ((Container_FindControlAtPosition_order 0 paddedHitTree.d paddedHitTree.controls 30 30
      (by decide) (by decide)).2.2 (by decide) (by decide) (by decide)).1 0
      (plainControl 10 10 50 50) [] rfl (by decide) (by
        intro j cj hj hcj
        have hlen : paddedHitTree.controls.length = 3 := rfl
        have hlt := (List.getElem?_eq_some_iff.1 hcj).1
        have hj12 : j = 1 ∨ j = 2 := by omega
        rcases hj12 with rfl | rfl
        · have hc1 : cj = plainControl 40 40 50 50 := (Option.some.inj hcj).symm
          subst hc1
          decide
        · have hc2 : cj = Control.mk { (plainControl 5 5 90 10).d with DockStyle := .dsTop } [] :=
            (Option.some.inj hcj).symm
          subst hc2
          decide),
    ((Container_FindControlAtPosition_order 0 paddedHitTree.d paddedHitTree.controls 8 8
      (by decide) (by decide)).2.2 (by decide) (by decide) (by decide)).1 2
      (Control.mk { (plainControl 5 5 90 10).d with DockStyle := .dsTop } []) [] rfl
      (by decide) (by
        intro j cj hj hcj
        have hlen : paddedHitTree.controls.length = 3 := rfl
        have hlt := (List.getElem?_eq_some_iff.1 hcj).1
        omega)⟩

/-! ## Pointers and the ancestor chain -/

theorem getPath_append (c : Control) (l : List Nat) (i : Nat) :
    c.getPath (l ++ [i]) = (c.getPath l).bind (fun n => n.controls[i]?) := by
  induction l generalizing c with
  | nil =>
    simp only [List.nil_append, Control.getPath, Option.some_bind]
    cases h : c.controls[i]? with
    | none => rfl
    | some child => simp [Control.getPath]
  | cons j l ih =>
    simp only [List.cons_append, Control.getPath]
    cases h : c.controls[j]? with
    | none => rfl
    | some child => exact ih child

theorem get?_cons (root : Control) (i : Nat) (parent : Ptr) :
    root.get? (i :: parent) = (root.get? parent).bind (fun n => n.controls[i]?) := by
  simp only [Control.get?, List.reverse_cons]
  exact getPath_append root parent.reverse i

theorem get?_nil (root : Control) : root.get? [] = some root := rfl

theorem get?_parent_isSome (root : Control) (i : Nat) (parent : Ptr)
    (h : (root.get? (i :: parent)).isSome = true) : (root.get? parent).isSome = true := by
  rw [get?_cons] at h
  cases hp : root.get? parent with
  | none => simp [hp] at h
  | some n => rfl

theorem coords_isSome (root : Control) (X Y : Int) (p : Ptr) :
    (root.get? p).isSome = true → (BroadcastMouseMessage_coords root X Y p).isSome = true := by
  induction p with
  | nil => intro _; rfl
  | cons i parent ih =>
    intro h
    have hp := get?_parent_isSome root i parent h
    obtain ⟨c, hc⟩ := Option.isSome_iff_exists.1 h
    obtain ⟨par, hpar⟩ := Option.isSome_iff_exists.1 hp
    obtain ⟨xy, hxy⟩ := Option.isSome_iff_exists.1 (ih hp)
    simp only [BroadcastMouseMessage_coords, hc, hpar, hxy]
    split <;> rfl

theorem stack_valid (root : Control) (p : Ptr) :
    (root.get? p).isSome = true →
      ∀ q ∈ BroadcastMouseMessage_stack p, (root.get? q).isSome = true := by
  induction p with
  | nil =>
    intro _ q hq
    simp only [BroadcastMouseMessage_stack, List.mem_singleton] at hq
    subst hq
    rfl
  | cons i parent ih =>
    intro h q hq
    simp only [BroadcastMouseMessage_stack, List.mem_cons] at hq
    rcases hq with hq | hq
    · subst hq
      exact h
    · exact ih (get?_parent_isSome root i parent h) q hq

theorem items_isSome (root : Control) (X Y : Int) (l : List Ptr) :
    (∀ q ∈ l, (root.get? q).isSome = true) →
      ∃ items, BroadcastMouseMessage_items root X Y l = some items ∧
        items.map (fun m => m.Ctrl) = l := by
  induction l with
  | nil => intro _; exact ⟨[], rfl, rfl⟩
  | cons p rest ih =>
    intro h
    obtain ⟨items, hitems, hmap⟩ := ih (fun q hq => h q (List.mem_cons_of_mem _ hq))
    obtain ⟨xy, hxy⟩ := Option.isSome_iff_exists.1 (coords_isSome root X Y p (h p (by simp)))
    refine ⟨⟨p, xy.1, xy.2⟩ :: items, ?_, by simp [hmap]⟩
    simp only [BroadcastMouseMessage_items, hxy, hitems]

/-! ## The dispatch loop -/

theorem dispatch_invariant {α : Type} (P : α → Prop) (f : Ptr → Int → Int → α → Bool × α)
    (hf : ∀ c x y a, P a → P (f c x y a).2) :
    ∀ (items : List MouseMessageStack) (a : α), P a →
      P (BroadcastMouseMessage_dispatch f items a).2 := by
  intro items
  induction items with
  | nil => intro a ha; exact ha
  | cons m rest ih =>
    intro a ha
    simp only [BroadcastMouseMessage_dispatch]
    split
    · exact hf _ _ _ _ ha
    · exact ih _ (hf _ _ _ _ ha)

/-- The calls made by the dispatch loop are an initial segment of the stack entries, in stack
order; every call but the last returned `false`; the loop stops before the end of the stack
only after a call that returned `true`. -/
theorem dispatch_calls {α : Type} (f : Ptr → Int → Int → α → Bool × α) :
    ∀ (items : List MouseMessageStack) (a : α),
      (BroadcastMouseMessage_dispatch f items a).1.map (fun c => c.1) =
        items.take (BroadcastMouseMessage_dispatch f items a).1.length ∧
      (∀ c ∈ (BroadcastMouseMessage_dispatch f items a).1.dropLast, c.2 = false) ∧
      ((BroadcastMouseMessage_dispatch f items a).1.length < items.length →
        ∃ c, (BroadcastMouseMessage_dispatch f items a).1.getLast? = some c ∧ c.2 = true) := by
  intro items
  induction items with
  | nil => intro a; simp [BroadcastMouseMessage_dispatch]
  | cons m rest ih =>
    intro a
    simp only [BroadcastMouseMessage_dispatch]
    split
    · simp
    · obtain ⟨h1, h2, h3⟩ := ih (f m.Ctrl m.X m.Y a).2
      refine ⟨by simp [h1], ?_, ?_⟩
      · intro c hc
        cases hd : (BroadcastMouseMessage_dispatch f rest (f m.Ctrl m.X m.Y a).2).1 with
        | nil => simp [hd] at hc
        | cons c1 cs =>
          rw [hd, List.dropLast_cons₂] at hc
          rcases List.mem_cons.1 hc with hc | hc
          · rw [hc]
          · exact h2 c (by rw [hd]; exact hc)
      · intro hlt
        simp only [List.length_cons, Nat.add_lt_add_iff_right] at hlt
        obtain ⟨c, hc, hct⟩ := h3 hlt
        refine ⟨c, ?_, hct⟩
        cases hd : (BroadcastMouseMessage_dispatch f rest (f m.Ctrl m.X m.Y a).2).1 with
        | nil => simp [hd] at hc
        | cons c1 cs =>
          rw [hd] at hc
          simpa [List.getLast?_cons_cons] using hc

/-! ## Mouse capture across DoMouseUp -/

/-- C7 (as stated, refuted): a descendant control (the button of `nestedTree`) holds the
capture; `UIEntry::DoMouseUp` runs with handlers that never touch the capture (they return
`false`, as `Control::DoMouseUp` does); afterwards the capture is still held by the button,
not null. -/
theorem DoMouseUp_descendant_capture_survives :
    (UIEntry_DoMouseUp (idleVirtuals (some [])) (nestedState (some [0, 0])) 5 5 0).map
        (fun r => r.2.MouseCaptureControl) = some (some [0, 0]) ∧
    (UIEntry_DoMouseUp (consumingVirtuals (some []) [0, 0]) (nestedState (some [0, 0]))
        5 5 0).map (fun r => r.2.MouseCaptureControl) = some (some [0, 0]) := by
  decide

/-- C7 (amended): in a `UIEntry::DoMouseUp` call during which no handler sets the mouse
capture (each handler leaves it as it is or releases it), `UIEntry::DoMouseUp` releases only
the capture of the root itself: afterwards `Global::MouseCaptureControl` is null when the
capture was null or held by the root before the call; otherwise it is null or still the
descendant that held it, and it is that descendant whenever no handler releases it. -/
theorem DoMouseUp_releases_root_capture (V : Virtuals) (s : UIState) (X Y : Int) (Shift : Nat)
    (hUp : ∀ c x y sh w, (V.DoMouseUp c x y sh w).2.MouseCaptureControl = w.MouseCaptureControl ∨
      (V.DoMouseUp c x y sh w).2.MouseCaptureControl = none)
    (hOn : ∀ e w, (V.OnMouseUp e w).MouseCaptureControl = w.MouseCaptureControl ∨
      (V.OnMouseUp e w).MouseCaptureControl = none)
    (hvalid : ∀ c, (match s.MouseCaptureControl with
        | some c => some c
        | none => V.FindControlAtPosition s X Y) = some c → (s.root.get? c).isSome = true) :
    ∃ calls s1, UIEntry_DoMouseUp V s X Y Shift = some (calls, s1) ∧
      ((s.MouseCaptureControl = none ∨ s.MouseCaptureControl = some []) →
        s1.MouseCaptureControl = none) ∧
      (s1.MouseCaptureControl = none ∨ s1.MouseCaptureControl = s.MouseCaptureControl) ∧
      ((∀ c x y sh w, (V.DoMouseUp c x y sh w).2.MouseCaptureControl = w.MouseCaptureControl) →
        (∀ e w, (V.OnMouseUp e w).MouseCaptureControl = w.MouseCaptureControl) →
        s.MouseCaptureControl ≠ some [] → s1.MouseCaptureControl = s.MouseCaptureControl) := by
  -- the state handed to BroadcastMouseMessage
  obtain ⟨s2, hs2, hcap2, hroot2, hpt2⟩ : ∃ s2 : UIState,
      s2 = { s with
        PointedComponent := V.FindControlAtPosition s X Y
        EventGUID := s.EventGUID + 1
        MouseInputConsumed := true } ∧
      s2.MouseCaptureControl = s.MouseCaptureControl ∧ s2.root = s.root ∧
      s2.PointedComponent = V.FindControlAtPosition s X Y := ⟨_, rfl, rfl, rfl, rfl⟩
  have hdef : UIEntry_DoMouseUp V s X Y Shift =
      match BroadcastMouseMessage s2 X Y (DoMouseUp_lambda V Shift) (s2, false) with
      | none => none
      | some (calls, (s3, processed)) =>
        some (calls, { (if s3.MouseCaptureControl = some [] ∨ processed = false then
            ReleaseMouse [] (V.OnMouseUp ⟨X, Y, 0, Shift⟩ s3) else s3) with
          MouseInputConsumed := false }) := by
    rw [hs2]
    rfl
  -- the broadcast is defined and keeps the capture (or releases it)
  have hb : ∃ calls a, BroadcastMouseMessage s2 X Y (DoMouseUp_lambda V Shift) (s2, false) =
        some (calls, a) ∧
      (a.1.MouseCaptureControl = none ∨ a.1.MouseCaptureControl = s.MouseCaptureControl) ∧
      ((∀ c x y sh w, (V.DoMouseUp c x y sh w).2.MouseCaptureControl =
          w.MouseCaptureControl) → a.1.MouseCaptureControl = s.MouseCaptureControl) ∧
      (s.MouseCaptureControl = some [] → a = (s2, false)) := by
    simp only [BroadcastMouseMessage, hcap2, hpt2, hroot2]
    cases htarget : (match s.MouseCaptureControl with
        | some c => some c
        | none => V.FindControlAtPosition s X Y) with
    | none =>
      refine ⟨[], (s2, false), rfl, Or.inr hcap2, fun _ => hcap2, fun _ => rfl⟩
    | some c =>
      have hv := hvalid c htarget
      obtain ⟨items, hitems, hmap⟩ := items_isSome s.root X Y
        (BroadcastMouseMessage_stack c).dropLast
        (fun q hq => stack_valid s.root c hv q (List.mem_of_mem_dropLast hq))
      simp only [hitems]
      refine ⟨_, _, rfl, ?_, ?_, ?_⟩
      · exact dispatch_invariant
          (fun a : UIState × Bool => a.1.MouseCaptureControl = none ∨
            a.1.MouseCaptureControl = s.MouseCaptureControl)
          (DoMouseUp_lambda V Shift)
          (fun c x y a ha => by
            simp only [DoMouseUp_lambda]
            rcases hUp c x y Shift a.1 with h | h
            · rw [h]; exact ha
            · exact Or.inl h)
          items (s2, false) (Or.inr hcap2)
      · intro hkeep
        exact dispatch_invariant
          (fun a : UIState × Bool => a.1.MouseCaptureControl = s.MouseCaptureControl)
          (DoMouseUp_lambda V Shift)
          (fun c x y a ha => by
            simp only [DoMouseUp_lambda]
            rw [hkeep c x y Shift a.1]; exact ha)
          items (s2, false) hcap2
      · intro hroot
        rw [hroot] at htarget
        have hc : c = [] := by
          simpa using htarget.symm
        subst hc
        have : items = [] := by
          simpa [BroadcastMouseMessage_stack] using hmap
        subst this
        rfl
  obtain ⟨calls, a, hbc, hinv, hkeep, hrootcase⟩ := hb
  rw [hdef, hbc]
  refine ⟨calls, _, rfl, ?_, ?_, ?_⟩
  · rintro (hnone | hroot)
    · have ha : a.1.MouseCaptureControl = none := by
        rcases hinv with h | h
        · exact h
        · rw [h, hnone]
      simp only []
      split
      · have hon := hOn ⟨X, Y, 0, Shift⟩ a.1
        rw [ha] at hon
        simp only [or_self] at hon
        simp [ReleaseMouse, hon]
      · exact ha
    · have ha := hrootcase hroot
      subst ha
      have hc : s2.MouseCaptureControl = some [] := by rw [hcap2, hroot]
      simp only [hc, true_or, if_true]
      rcases hOn ⟨X, Y, 0, Shift⟩ s2 with h | h
      · simp [ReleaseMouse, h, hc]
      · simp [ReleaseMouse, h]
  · simp only []
    split
    · rcases hOn ⟨X, Y, 0, Shift⟩ a.1 with h | h
      · by_cases hr : (V.OnMouseUp ⟨X, Y, 0, Shift⟩ a.1).MouseCaptureControl = some []
        · simp [ReleaseMouse, hr]
        · simp only [ReleaseMouse, hr, if_false]
          rw [h]
          exact hinv
      · simp [ReleaseMouse, h]
    · exact hinv
  · intro hk1 hk2 hne
    have ha := hkeep hk1
    simp only []
    have hne2 : ¬ (a.1.MouseCaptureControl = some []) := by rw [ha]; exact hne
    split
    · have hr : ¬ ((V.OnMouseUp ⟨X, Y, 0, Shift⟩ a.1).MouseCaptureControl = some []) := by
        rw [hk2]; exact hne2
      simp only [ReleaseMouse, hr, if_false]
      rw [hk2, ha]
    · exact ha

/-- Witness for C7 (amended): the root holds the capture; after `DoMouseUp` it is null. -/
theorem DoMouseUp_releases_root_capture_witness :
    ∃ calls s1, UIEntry_DoMouseUp (idleVirtuals (some [0, 0])) (nestedState (some [])) 5 5 0 =
        some (calls, s1) ∧ s1.MouseCaptureControl = none :=
  let ⟨calls, s1, h, h1, _, _⟩ :=
    DoMouseUp_releases_root_capture (idleVirtuals (some [0, 0])) (nestedState (some [])) 5 5 0
      (fun _ _ _ _ _ => Or.inl rfl) (fun _ _ => Or.inl rfl)
      (fun c hc => by
        have : c = [] := by simpa [nestedState] using hc.symm
        subst this
        rfl)
  ⟨calls, s1, h, h1 (Or.inr rfl)⟩

/-! ## Order of the DoMouseDown calls -/

theorem stack_ne_nil (p : Ptr) : BroadcastMouseMessage_stack p ≠ [] := by
  cases p <;> simp [BroadcastMouseMessage_stack]

/-- The stack without its last entry (the root): entry `k` is the `k`-th ancestor of the
control, `p.drop k`, for `k` below the depth of `p`. -/
theorem stack_dropLast (p : Ptr) :
    (BroadcastMouseMessage_stack p).dropLast = (List.range p.length).map (fun k => p.drop k) := by
  induction p with
  | nil => rfl
  | cons i parent ih =>
    rw [BroadcastMouseMessage_stack, List.dropLast_cons_of_ne_nil (stack_ne_nil parent), ih,
      List.length_cons, List.range_succ_eq_map]
    simp [Function.comp_def]

/-- C8 (as stated, refuted): the pointed control is the button of `nestedTree` (root, panel,
button).  With handlers that all return `false` the `DoMouseDown` calls are made to the button
first and then to the panel - from the target outward, the root never being called - and when
the button's handler returns `true` the panel, an outer ancestor, receives nothing. -/
theorem DoMouseDown_innermost_first :
    (UIEntry_DoMouseDown sampleConsts (idleVirtuals (some [0, 0]))
        (nestedState none) 20 20 0).map (fun r => r.1.map (fun c => c.1.Ctrl)) =
      some [[0, 0], [0]] ∧
    (UIEntry_DoMouseDown sampleConsts (consumingVirtuals (some [0, 0]) [0, 0])
        (nestedState none) 20 20 0).map (fun r => r.1.map (fun c => c.1.Ctrl)) =
      some [[0, 0]] := by
  decide

/-- C8 (amended): `UIEntry::DoMouseDown` builds the chain from the capture control (if set,
otherwise the pointed control) up to the root and invokes `DoMouseDown` along it starting
from that target and proceeding outward: the `k`-th call goes to the `k`-th ancestor of the
target (the target itself for `k = 0`), the root is never called through the chain, every
call before the last returned `false`, and the calls stop short of the root's child only
after a handler returned `true` - so no control farther out receives the event. -/
theorem DoMouseDown_dispatch_order (K : TypeConsts) (V : Virtuals) (s s3 : UIState)
    (X Y : Int) (Shift : Nat) (target : Ptr)
    (hpro : UIEntry_DoMouseDown_prologue K V s X Y = some s3)
    (htarget : (match s3.MouseCaptureControl with
        | some c => some c
        | none => s3.PointedComponent) = some target)
    (hvalid : (s3.root.get? target).isSome = true) :
    ∃ calls a, BroadcastMouseMessage s3 X Y (DoMouseDown_lambda V Shift) (s3, false) =
        some (calls, a) ∧
      (∀ r, UIEntry_DoMouseDown K V s X Y Shift = some r → r.1 = calls) ∧
      calls.length ≤ target.length ∧
      calls.map (fun c => c.1.Ctrl) = (List.range calls.length).map (fun k => target.drop k) ∧
      (∀ c ∈ calls, c.1.Ctrl ≠ []) ∧
      (∀ c ∈ calls.dropLast, c.2 = false) ∧
      (calls.length < target.length → ∃ c, calls.getLast? = some c ∧ c.2 = true) := by
  obtain ⟨items, hitems, hmap⟩ := items_isSome s3.root X Y
    (BroadcastMouseMessage_stack target).dropLast
    (fun q hq => stack_valid s3.root target hvalid q (List.mem_of_mem_dropLast hq))
  have hlen : items.length = target.length := by
    have := congrArg List.length hmap
    simpa [stack_dropLast] using this
  obtain ⟨h1, h2, h3⟩ := dispatch_calls (DoMouseDown_lambda V Shift) items (s3, false)
  have hb : BroadcastMouseMessage s3 X Y (DoMouseDown_lambda V Shift) (s3, false) =
      some (BroadcastMouseMessage_dispatch (DoMouseDown_lambda V Shift) items (s3, false)) := by
    simp only [BroadcastMouseMessage, htarget, hitems]
  have hle : (BroadcastMouseMessage_dispatch (DoMouseDown_lambda V Shift) items
      (s3, false)).1.length ≤ target.length := by
    have := congrArg List.length h1
    rw [List.length_map, List.length_take] at this
    omega
  have hctrl : (BroadcastMouseMessage_dispatch (DoMouseDown_lambda V Shift) items
      (s3, false)).1.map (fun c => c.1.Ctrl) =
      (List.range (BroadcastMouseMessage_dispatch (DoMouseDown_lambda V Shift) items
        (s3, false)).1.length).map (fun k => target.drop k) := by
    have := congrArg (List.map (fun m : MouseMessageStack => m.Ctrl)) h1
    rw [List.map_map, List.map_take, hmap, stack_dropLast, ← List.map_take,
      List.take_range, Nat.min_eq_left hle] at this
    exact this
  refine ⟨_, _, hb, ?_, hle, hctrl, ?_, h2, ?_⟩
  · intro r hr
    simp only [UIEntry_DoMouseDown, hpro, hb] at hr
    split at hr
    · rw [← Option.some.inj hr]
    · exact Option.noConfusion hr
  · intro c hc
    have hmem : c.1.Ctrl ∈ (BroadcastMouseMessage_dispatch (DoMouseDown_lambda V Shift) items
        (s3, false)).1.map (fun c => c.1.Ctrl) := List.mem_map_of_mem _ hc
    rw [hctrl] at hmem
    obtain ⟨k, hk, hk2⟩ := List.mem_map.1 hmem
    rw [← hk2]
    have hk3 : k < target.length := by
      have := List.mem_range.1 hk
      omega
    intro h0
    have := congrArg List.length h0
    simp at this
    omega
  · intro hlt
    exact h3 (by omega)

/-- Witness for C8 (amended): the button of `nestedTree` is the pointed control. -/
theorem DoMouseDown_dispatch_order_witness :
    ∃ calls a, BroadcastMouseMessage
        { nestedState none with
          PointedComponent := some [0, 0]
          MouseDownControl := some [0, 0]
          EventGUID := 1
          MouseInputConsumed := true } 20 20
        (DoMouseDown_lambda (idleVirtuals (some [0, 0])) 0)
        ({ nestedState none with
          PointedComponent := some [0, 0]
          MouseDownControl := some [0, 0]
          EventGUID := 1
          MouseInputConsumed := true }, false) = some (calls, a) ∧
      calls.length ≤ 2 ∧
      calls.map (fun c => c.1.Ctrl) = (List.range calls.length).map (fun k => [0, 0].drop k) ∧
      (∀ c ∈ calls, c.1.Ctrl ≠ []) :=
  let ⟨calls, a, h, _, h1, h2, h3, _, _⟩ :=
    DoMouseDown_dispatch_order sampleConsts (idleVirtuals (some [0, 0]))
      (nestedState none)
      { nestedState none with
        PointedComponent := some [0, 0]
        MouseDownControl := some [0, 0]
        EventGUID := 1
        MouseInputConsumed := true } 20 20 0 [0, 0] rfl rfl rfl
  ⟨calls, a, h, h1, h2, h3⟩

/-! ## Focus: SetFocusedControl -/

theorem sameFocusData_refl (a : Control) : sameFocusData a a := fun _ => rfl

theorem sameFocusData_trans {a b c : Control} (h1 : sameFocusData a b) (h2 : sameFocusData b c) :
    sameFocusData a c := fun p => (h1 p).trans (h2 p)

theorem sameFocusData_symm {a b : Control} (h : sameFocusData a b) : sameFocusData b a :=
  fun p => (h p).symm

theorem modifyPath_getPath_d (f : ControlData → ControlData) :
    ∀ (q : List Nat) (c : Control) (p : List Nat),
      ((Control.modifyPath f c p).getPath q).map Control.d =
        (c.getPath q).map (fun n => if q = p then f n.d else n.d) := by
  intro q
  induction q with
  | nil =>
    intro c p
    cases c with
    | mk d cs =>
      cases p with
      | nil => simp [Control.modifyPath, Control.getPath, Control.d]
      | cons i rest =>
        simp only [Control.modifyPath]
        split <;> simp [Control.getPath, Control.d]
  | cons j q ih =>
    intro c p
    cases c with
    | mk d cs =>
      cases p with
      | nil => simp [Control.modifyPath, Control.getPath, Control.controls]
      | cons i rest =>
        simp only [Control.modifyPath]
        cases hi : cs[i]? with
        | none =>
          simp only [Control.getPath, Control.controls]
          by_cases hji : j = i
          · subst hji
            simp [hi]
          · have : ¬ (j :: q = i :: rest) := by
              intro h
              exact hji (List.cons.inj h).1
            simp [this]
        | some child =>
          simp only [Control.getPath, Control.controls]
          by_cases hji : j = i
          · subst hji
            have hlt : j < cs.length := (List.getElem?_eq_some_iff.1 hi).1
            rw [List.getElem?_set_self hlt, hi]
            simp only [List.cons.injEq, true_and]
            exact ih child rest
          · have : ¬ (j :: q = i :: rest) := by
              intro h
              exact hji (List.cons.inj h).1
            rw [List.getElem?_set_ne (fun h => hji h.symm)]
            simp [this]

theorem modify_get?_d (root : Control) (p q : Ptr) (f : ControlData → ControlData) :
    ((root.modify p f).get? q).map Control.d =
      (root.get? q).map (fun n => if q = p then f n.d else n.d) := by
  simp only [Control.modify, Control.get?]
  rw [modifyPath_getPath_d f q.reverse root p.reverse]
  simp [List.reverse_inj]

theorem sameFocusData_modify (root : Control) (p : Ptr) (f : ControlData → ControlData)
    (hf : ∀ d, (f d).AcceptsFocus = d.AcceptsFocus ∧ (f d).TypeTag = d.TypeTag) :
    sameFocusData root (root.modify p f) := by
  intro q
  have h := modify_get?_d root p q f
  cases h1 : (root.modify p f).get? q with
  | none =>
    rw [h1] at h
    cases h2 : root.get? q with
    | none => rfl
    | some n => rw [h2] at h; simp at h
  | some m =>
    rw [h1] at h
    cases h2 : root.get? q with
    | none => rw [h2] at h; simp at h
    | some n =>
      rw [h2] at h
      simp only [Option.map_some', Option.some.injEq] at h
      simp only [Option.map_some', Option.some.injEq, Prod.mk.injEq]
      rw [h]
      split
      · exact ⟨(hf n.d).1.symm, (hf n.d).2.symm⟩
      · exact ⟨rfl, rfl⟩

theorem sameFocusData_valid {a b : Control} (h : sameFocusData a b) (p : Ptr) :
    (a.get? p).isSome = (b.get? p).isSome := by
  have := congrArg Option.isSome (h p)
  simpa using this

theorem sameFocusData_get {a b : Control} (h : sameFocusData a b) (p : Ptr) (c : Control)
    (hc : a.get? p = some c) :
    ∃ c1, b.get? p = some c1 ∧ c1.d.AcceptsFocus = c.d.AcceptsFocus ∧
      c1.d.TypeTag = c.d.TypeTag := by
  have := h p
  rw [hc] at this
  cases hb : b.get? p with
  | none => rw [hb] at this; simp at this
  | some c1 =>
    rw [hb] at this
    simp only [Option.map_some', Option.some.injEq, Prod.mk.injEq] at this
    exact ⟨c1, rfl, this.1.symm, this.2.symm⟩

theorem DeactivateAllForms_loop_same (forms : List Ptr) :
    ∀ root, sameFocusData root (DeactivateAllForms_loop forms root) := by
  induction forms with
  | nil => intro root; exact sameFocusData_refl root
  | cons form rest ih =>
    intro root
    exact sameFocusData_trans
      (sameFocusData_modify root form (fun d => { d with Activated := false })
        (fun _ => ⟨rfl, rfl⟩))
      (ih (root.modify form (fun d => { d with Activated := false })))

theorem findForm_congr (K : TypeConsts) {a b : Control} (h : sameFocusData a b) (t : Ptr) :
    SetFocusedControl_findForm K a t = SetFocusedControl_findForm K b t := by
  induction t with
  | nil =>
    simp only [SetFocusedControl_findForm]
    cases ha : a.get? [] with
    | none =>
      have := sameFocusData_valid h []
      rw [ha] at this
      cases hb : b.get? [] with
      | none => rfl
      | some c => rw [hb] at this; simp at this
    | some c =>
      obtain ⟨c1, hc1, _, hty⟩ := sameFocusData_get h [] c ha
      simp [hc1, hty]
  | cons i parent ih =>
    simp only [SetFocusedControl_findForm]
    cases ha : a.get? (i :: parent) with
    | none =>
      have := sameFocusData_valid h (i :: parent)
      rw [ha] at this
      cases hb : b.get? (i :: parent) with
      | none => rfl
      | some c => rw [hb] at this; simp at this
    | some c =>
      obtain ⟨c1, hc1, _, hty⟩ := sameFocusData_get h (i :: parent) c ha
      simp [hc1, hty, ih]

/-- On a valid pointer the form search is defined; a form it finds is an ancestor-or-self of
the pointer whose `Type` is `CT_FORM`. -/
theorem findForm_spec (K : TypeConsts) (root : Control) (t : Ptr)
    (hv : (root.get? t).isSome = true) :
    ∃ r, SetFocusedControl_findForm K root t = some r ∧
      ∀ f, r = some f → ∃ k c, k ≤ t.length ∧ f = t.drop k ∧ root.get? f = some c ∧
        c.d.TypeTag = K.CT_FORM := by
  induction t with
  | nil =>
    simp only [SetFocusedControl_findForm, get?_nil]
    refine ⟨_, rfl, ?_⟩
    intro f hf
    split at hf
    · rename_i hty
      refine ⟨0, root, le_refl _, ?_, ?_, hty⟩
      · simpa using (Option.some.inj hf).symm
      · rw [← Option.some.inj hf]; rfl
    · exact Option.noConfusion hf
  | cons i parent ih =>
    obtain ⟨c, hc⟩ := Option.isSome_iff_exists.1 hv
    simp only [SetFocusedControl_findForm, hc]
    by_cases hty : c.d.TypeTag = K.CT_FORM
    · simp only [hty, if_true]
      refine ⟨_, rfl, ?_⟩
      intro f hf
      have hf1 : f = i :: parent := (Option.some.inj hf).symm
      exact ⟨0, c, Nat.zero_le _, by simpa using hf1, by rw [hf1]; exact hc, hty⟩
    · simp only [hty, if_false]
      obtain ⟨r, hr, hspec⟩ := ih (get?_parent_isSome root i parent hv)
      refine ⟨r, hr, ?_⟩
      intro f hf
      obtain ⟨k, c1, hk, hk1, hk2, hk3⟩ := hspec f hf
      exact ⟨k + 1, c1, by simp; omega, by simpa using hk1, hk2, hk3⟩

/-- On a valid pointer the loop that resolves the focus target is defined, and it yields the
nearest control on the parent chain that accepts focus, or null when none does. -/
theorem resolve_spec (root : Control) (t : Ptr) (hv : (root.get? t).isSome = true) :
    ∃ T, SetFocusedControl_resolve root t = some T ∧
      (∀ p, T = some p → ∃ k, k ≤ t.length ∧ p = t.drop k ∧ acceptsFocus root p ∧
        ∀ j, j < k → ¬ acceptsFocus root (t.drop j)) ∧
      (T = none → ∀ k, k ≤ t.length → ¬ acceptsFocus root (t.drop k)) := by
  induction t with
  | nil =>
    simp only [SetFocusedControl_resolve, get?_nil]
    refine ⟨_, rfl, ?_, ?_⟩
    · intro p hp
      split at hp
      · rename_i hacc
        have hp1 : p = [] := (Option.some.inj hp).symm
        subst hp1
        exact ⟨0, le_refl _, rfl, ⟨root, rfl, hacc⟩, fun j hj => absurd hj (Nat.not_lt_zero j)⟩
      · exact Option.noConfusion hp
    · intro hnone k hk
      split at hnone
      · exact Option.noConfusion hnone
      · rename_i hacc
        rintro ⟨c, hc, hc2⟩
        have hk0 : k = 0 := by simpa using hk
        subst hk0
        simp only [List.drop_zero, get?_nil, Option.some.injEq] at hc
        subst hc
        exact hacc hc2
  | cons i parent ih =>
    obtain ⟨c, hc⟩ := Option.isSome_iff_exists.1 hv
    simp only [SetFocusedControl_resolve, hc]
    by_cases hacc : c.d.AcceptsFocus = true
    · simp only [hacc, if_true]
      refine ⟨_, rfl, ?_, fun h => Option.noConfusion h⟩
      intro p hp
      have hp1 : p = i :: parent := (Option.some.inj hp).symm
      subst hp1
      exact ⟨0, Nat.zero_le _, rfl, ⟨c, hc, hacc⟩, fun j hj => absurd hj (Nat.not_lt_zero j)⟩
    · simp only [hacc, Bool.false_eq_true, if_false]
      obtain ⟨T, hT, h1, h2⟩ := ih (get?_parent_isSome root i parent hv)
      have hself : ¬ acceptsFocus root (i :: parent) := by
        rintro ⟨c1, hc1, hc2⟩
        rw [hc] at hc1
        rw [Option.some.inj hc1] at hacc
        exact hacc hc2
      refine ⟨T, hT, ?_, ?_⟩
      · intro p hp
        obtain ⟨k, hk, hk1, hk2, hk3⟩ := h1 p hp
        refine ⟨k + 1, by simp; omega, by simpa using hk1, hk2, ?_⟩
        intro j hj
        cases j with
        | zero => simpa using hself
        | succ j1 => simpa using hk3 j1 (by omega)
      · intro hnone k hk
        cases k with
        | zero => simpa using hself
        | succ k1 =>
          simpa using h2 hnone k1 (by simp at hk; omega)

theorem leave_spec (V : Virtuals) (hV : V.keepFocusData) (s : UIState) (Target : Option Ptr) :
    sameFocusData s.root (SetFocusedControl_leave V s Target).root ∧
      (SetFocusedControl_leave V s Target).Forms = s.Forms := by
  have h1 : ∀ s1 : UIState, sameFocusData s.root s1.root ∧ s1.Forms = s.Forms →
      sameFocusData s.root (if s1.FocusedControl = none then V.KillFocus [] s1 else s1).root ∧
      (if s1.FocusedControl = none then V.KillFocus [] s1 else s1).Forms = s.Forms := by
    intro s1 hs1
    split
    · exact ⟨sameFocusData_trans hs1.1 (hV.killFocus [] s1).1,
        (hV.killFocus [] s1).2.trans hs1.2⟩
    · exact hs1
  simp only [SetFocusedControl_leave]
  cases hfc : s.FocusedControl with
  | none => exact h1 s ⟨sameFocusData_refl _, rfl⟩
  | some fc =>
    exact h1 _ ⟨sameFocusData_trans (hV.lostFocus fc Target s).1 (hV.killFocus [] _).1,
      (hV.killFocus [] _).2.trans (hV.lostFocus fc Target s).2⟩

theorem enter_spec (K : TypeConsts) (V : Virtuals) (hV : V.keepFocusData) (s3 : UIState)
    (Target : Option Ptr) (hvalid : ∀ t, Target = some t → (s3.root.get? t).isSome = true) :
    ∃ s1, SetFocusedControl_enter K V s3 Target = some s1 ∧
      sameFocusData s3.root s1.root ∧ s1.FocusedControl = Target := by
  cases Target with
  | none => exact ⟨_, rfl, sameFocusData_refl _, rfl⟩
  | some t =>
    have hv := hvalid t rfl
    -- the state after the call of DoFocusChange
    obtain ⟨s5, hs5, hsame, hfoc⟩ : ∃ s5 : UIState,
        s5 = (match (some t : Option Ptr) with
          | some (_ :: parent) => V.DoFocusChange parent { s3 with FocusedControl := some t }
          | _ => { s3 with FocusedControl := some t }) ∧
        sameFocusData s3.root s5.root ∧ s5.FocusedControl = some t := by
      refine ⟨_, rfl, ?_, ?_⟩
      · cases t with
        | nil => exact sameFocusData_refl _
        | cons i parent =>
          exact (hV.doFocusChange parent { s3 with FocusedControl := some (i :: parent) }).1
      · cases t with
        | nil => rfl
        | cons i parent =>
          exact (hV.doFocusChange parent { s3 with FocusedControl := some (i :: parent) }).2
    have hv5 : (s5.root.get? t).isSome = true := by
      rw [← sameFocusData_valid hsame t]; exact hv
    obtain ⟨c, hc⟩ := Option.isSome_iff_exists.1 hv5
    have hdef : SetFocusedControl_enter K V s3 (some t) =
        match s5.root.get? t with
        | some c =>
          if c.d.TypeTag &&& K.CT_IME_RECEIVER ≠ 0 then
            if c.d.TypeTag = K.CT_IMETEXTBOX then some { s5 with ImeTextBox := some t }
            else some { s5 with ImeTextBox := some t }
          else
            some { s5 with ImeTextBox := none }
        | none => none := by
      rw [hs5]
      rfl
    rw [hdef, hc]
    simp only []
    split
    · split
      · exact ⟨_, rfl, hsame, hfoc⟩
      · exact ⟨_, rfl, hsame, hfoc⟩
    · exact ⟨_, rfl, hsame, hfoc⟩

theorem DeactivateAllForms_same (s : UIState) :
    sameFocusData s.root (DeactivateAllForms s).root :=
  DeactivateAllForms_loop_same s.Forms s.root

theorem forms_spec (K : TypeConsts) (showWindow : Ptr → UIState → Option UIState)
    (s2 : UIState) (Target : Option Ptr)
    (hvalid : ∀ t, Target = some t → (s2.root.get? t).isSome = true)
    (hsw : ∀ t form, Target = some t →
      SetFocusedControl_findForm K s2.root t = some (some form) →
      ∃ s3, showWindow form s2 = some s3 ∧ sameFocusData s2.root s3.root) :
    ∃ s3, SetFocusedControl_forms K showWindow s2 Target = some s3 ∧
      sameFocusData s2.root s3.root := by
  cases Target with
  | none => exact ⟨_, rfl, DeactivateAllForms_same s2⟩
  | some t =>
    obtain ⟨r, hr, _⟩ := findForm_spec K s2.root t (hvalid t rfl)
    simp only [SetFocusedControl_forms, hr]
    cases r with
    | none => exact ⟨_, rfl, DeactivateAllForms_same s2⟩
    | some form => exact hsw t form rfl hr

theorem body_spec (K : TypeConsts) (V : Virtuals) (hV : V.keepFocusData)
    (showWindow : Ptr → UIState → Option UIState) (s : UIState) (Target : Option Ptr)
    (hvalid : ∀ t, Target = some t → (s.root.get? t).isSome = true)
    (hsw : ∀ t form s2, Target = some t → sameFocusData s.root s2.root → s2.Forms = s.Forms →
      SetFocusedControl_findForm K s.root t = some (some form) →
      ∃ s3, showWindow form s2 = some s3 ∧ sameFocusData s2.root s3.root) :
    ∃ s1, SetFocusedControl_body K V showWindow s Target = some s1 ∧
      sameFocusData s.root s1.root ∧ s1.FocusedControl = Target := by
  simp only [SetFocusedControl_body]
  by_cases heq : s.FocusedControl = Target
  · simp only [heq, if_true]
    exact ⟨s, rfl, sameFocusData_refl _, heq⟩
  · simp only [heq, if_false]
    obtain ⟨hl1, hl2⟩ := leave_spec V hV s Target
    have hvalid2 : ∀ t, Target = some t →
        ((SetFocusedControl_leave V s Target).root.get? t).isSome = true := by
      intro t ht
      rw [← sameFocusData_valid hl1 t]
      exact hvalid t ht
    obtain ⟨s3, hs3, hsame3⟩ := forms_spec K showWindow (SetFocusedControl_leave V s Target)
      Target hvalid2
      (fun t form ht hff => hsw t form _ ht hl1 hl2 (by rw [findForm_congr K hl1 t]; exact hff))
    rw [hs3]
    have hvalid3 : ∀ t, Target = some t → (s3.root.get? t).isSome = true := by
      intro t ht
      rw [← sameFocusData_valid hsame3 t]
      exact hvalid2 t ht
    obtain ⟨s1, hs1, hsame1, hfoc⟩ := enter_spec K V hV s3 Target hvalid3
    exact ⟨s1, hs1, sameFocusData_trans hl1 (sameFocusData_trans hsame3 hsame1), hfoc⟩

theorem HandleMessage_spec (K : TypeConsts) (V : Virtuals) (hV : V.keepFocusData)
    (m : Nat) (s : UIState) :
    ∃ s1, UIEntry_HandleMessage K V m s = some s1 ∧ sameFocusData s.root s1.root := by
  simp only [UIEntry_HandleMessage]
  split
  · obtain ⟨s1, hs1, hsame, _⟩ := body_spec K V hV (fun _ _ => none) (V.KillFocus [] s) none
      (fun t ht => Option.noConfusion ht) (fun t form s2 ht => Option.noConfusion ht)
    exact ⟨s1, hs1, sameFocusData_trans (hV.killFocus [] s).1 hsame⟩
  · exact ⟨s, rfl, sameFocusData_refl _⟩

theorem ShowWindow_spec (K : TypeConsts) (V : Virtuals) (hV : V.keepFocusData) (Form : Ptr)
    (s : UIState) (hreg : Form ∈ s.Forms ∨ some Form = s.ActiveForm)
    (hvalid : (s.root.get? Form).isSome = true) :
    ∃ s1, ShowWindow K V Form s = some s1 ∧ sameFocusData s.root s1.root := by
  by_cases hact : some Form = s.ActiveForm
  · simp only [ShowWindow, hact, if_true]
    exact ⟨_, rfl, sameFocusData_modify s.root Form _ (fun _ => ⟨rfl, rfl⟩)⟩
  · have hmem : Form ∈ s.Forms := by
      rcases hreg with h | h
      · exact h
      · exact absurd h hact
    obtain ⟨fc, hfc⟩ := Option.isSome_iff_exists.1 hvalid
    -- the state after OnShow, `Form->Visible = true` and DeactivateAllForms
    obtain ⟨s4, hs4, hsame4⟩ : ∃ s4 : UIState,
        s4 = DeactivateAllForms
          { (if (!fc.d.Visible) = true then
                V.OnShow Form { s with Forms := s.Forms.erase Form ++ [Form] }
              else { s with Forms := s.Forms.erase Form ++ [Form] }) with
            root := (if (!fc.d.Visible) = true then
                V.OnShow Form { s with Forms := s.Forms.erase Form ++ [Form] }
              else { s with Forms := s.Forms.erase Form ++ [Form] }).root.modify Form
                (fun d => { d with Visible := true }) } ∧
        sameFocusData s.root s4.root := by
      refine ⟨_, rfl, ?_⟩
      refine sameFocusData_trans ?_ (DeactivateAllForms_same _)
      refine sameFocusData_trans ?_ (sameFocusData_modify _ Form _ (fun _ => ⟨rfl, rfl⟩))
      split
      · exact hV.onShow Form { s with Forms := s.Forms.erase Form ++ [Form] }
      · exact sameFocusData_refl _
    -- the state after the two HandleMessage calls
    have h7 : ∃ s7, (if s4.ActiveForm ≠ some Form then
          match (match s4.ActiveForm with
            | some af => some (V.HandleMessage af MSG_UI_FORM_DEACTIVATE s4)
            | none => UIEntry_HandleMessage K V MSG_UI_FORM_DEACTIVATE s4) with
          | some s5 =>
            some (V.HandleMessage Form MSG_UI_FORM_ACTIVATE { s5 with ActiveForm := some Form })
          | none => none
        else some s4) = some s7 ∧ sameFocusData s4.root s7.root := by
      split
      · cases haf : s4.ActiveForm with
        | some af =>
          exact ⟨_, rfl, sameFocusData_trans (hV.handleMessage af MSG_UI_FORM_DEACTIVATE s4)
            (hV.handleMessage Form MSG_UI_FORM_ACTIVATE
              { V.HandleMessage af MSG_UI_FORM_DEACTIVATE s4 with ActiveForm := some Form })⟩
        | none =>
          obtain ⟨s5, hs5, hsame5⟩ := HandleMessage_spec K V hV MSG_UI_FORM_DEACTIVATE s4
          simp only [hs5]
          exact ⟨_, rfl, sameFocusData_trans hsame5
            (hV.handleMessage Form MSG_UI_FORM_ACTIVATE { s5 with ActiveForm := some Form })⟩
      · exact ⟨s4, rfl, sameFocusData_refl _⟩
    obtain ⟨s7, hs7, hsame7⟩ := h7
    have hdef : ShowWindow K V Form s =
        match (if s4.ActiveForm ≠ some Form then
          match (match s4.ActiveForm with
            | some af => some (V.HandleMessage af MSG_UI_FORM_DEACTIVATE s4)
            | none => UIEntry_HandleMessage K V MSG_UI_FORM_DEACTIVATE s4) with
          | some s5 =>
            some (V.HandleMessage Form MSG_UI_FORM_ACTIVATE { s5 with ActiveForm := some Form })
          | none => none
        else some s4) with
        | some s7 =>
          some { s7 with
            ActiveForm := some Form
            root := s7.root.modify Form (fun d => { d with Activated := true }) }
        | none => none := by
      simp only [ShowWindow, hact, if_false, hmem, if_true, hfc]
      rw [hs4]
    rw [hdef, hs7]
    exact ⟨_, rfl, sameFocusData_trans hsame4 (sameFocusData_trans hsame7
      (sameFocusData_modify _ Form _ (fun _ => ⟨rfl, rfl⟩)))⟩

theorem acceptsFocus_congr {a b : Control} (h : sameFocusData a b) (p : Ptr)
    (hp : acceptsFocus a p) : acceptsFocus b p := by
  obtain ⟨c, hc, hacc⟩ := hp
  obtain ⟨c1, hc1, hacc1, _⟩ := sameFocusData_get h p c hc
  exact ⟨c1, hc1, by rw [hacc1]; exact hacc⟩

/-- C9: `UIEntry::SetFocusedControl(t)` returns, and afterwards `FocusedControl` is the
nearest control on the chain t, t.Parent, t.Parent.Parent, ... that has `AcceptsFocus` set,
or null when no control on the chain accepts focus or when t is null; hence `FocusedControl`
is then null or a control that satisfies `AcceptsFocus`.  (The callbacks invoked on the way
keep the controls' `AcceptsFocus` and `Type`, `DoFocusChange` does not move the focus, and
the forms on the chain are registered in `Forms`.) -/
theorem SetFocusedControl_nearest_acceptor (K : TypeConsts) (V : Virtuals) (s : UIState)
    (t : Ptr) (hV : V.keepFocusData) (hvalid : (s.root.get? t).isSome = true)
    (hforms : ∀ (k : Nat) (c : Control), k ≤ t.length → s.root.get? (t.drop k) = some c →
      c.d.TypeTag = K.CT_FORM → t.drop k ∈ s.Forms) :
    (∃ s1, SetFocusedControl K V s (some t) = some s1 ∧
      (∀ p, s1.FocusedControl = some p →
        ∃ k, k ≤ t.length ∧ p = t.drop k ∧ acceptsFocus s.root p ∧ acceptsFocus s1.root p ∧
          ∀ j, j < k → ¬ acceptsFocus s.root (t.drop j)) ∧
      (s1.FocusedControl = none → ∀ k, k ≤ t.length → ¬ acceptsFocus s.root (t.drop k))) ∧
    (∃ s0, SetFocusedControl K V s none = some s0 ∧ s0.FocusedControl = none) := by
  constructor
  · obtain ⟨T, hT, hsome, hnone⟩ := resolve_spec s.root t hvalid
    have hTvalid : ∀ q, T = some q → (s.root.get? q).isSome = true := by
      intro q hq
      obtain ⟨_, _, _, ⟨c, hc, _⟩, _⟩ := hsome q hq
      simp [hc]
    obtain ⟨s1, hs1, hsame, hfoc⟩ := body_spec K V hV (ShowWindow K V) s T hTvalid
      (by
        intro q form s2 hq hsame2 hforms2 hfind
        obtain ⟨k0, hk0, hqk, _, _⟩ := hsome q hq
        obtain ⟨r, hr, hspec⟩ := findForm_spec K s.root q (hTvalid q hq)
        rw [hfind] at hr
        obtain ⟨k1, c, hk1, hfk, hget, hty⟩ := hspec form (Option.some.inj hr).symm
        have hform : form = t.drop (k0 + k1) := by
          rw [hfk, hqk, List.drop_drop]
        have hle : k0 + k1 ≤ t.length := by
          rw [hqk, List.length_drop] at hk1
          omega
        have hmem : form ∈ s.Forms := by
          rw [hform]
          exact hforms (k0 + k1) c hle (by rw [← hform]; exact hget) hty
        exact ShowWindow_spec K V hV form s2 (Or.inl (by rw [hforms2]; exact hmem))
          (by rw [← sameFocusData_valid hsame2 form]; simp [hget]))
    refine ⟨s1, ?_, ?_, ?_⟩
    · simp only [SetFocusedControl, hT]
      exact hs1
    · intro p hp
      rw [hfoc] at hp
      obtain ⟨k, hk, hpk, hacc, hmin⟩ := hsome p hp
      exact ⟨k, hk, hpk, hacc, acceptsFocus_congr hsame p hacc, hmin⟩
    · intro hp
      rw [hfoc] at hp
      exact hnone hp
  · obtain ⟨s0, hs0, _, hfoc⟩ := body_spec K V hV (ShowWindow K V) s none
      (fun q hq => Option.noConfusion hq) (fun q form s2 hq => Option.noConfusion hq)
    exact ⟨s0, by simp only [SetFocusedControl]; exact hs0, hfoc⟩

theorem idleVirtuals_keepFocusData (hit : Option Ptr) : (idleVirtuals hit).keepFocusData :=
  { lostFocus := fun _ _ s => ⟨sameFocusData_refl s.root, rfl⟩
    killFocus := fun _ s => ⟨sameFocusData_refl s.root, rfl⟩
    onShow := fun _ s => sameFocusData_refl s.root
    handleMessage := fun _ _ s => sameFocusData_refl s.root
    doFocusChange := fun _ s => ⟨sameFocusData_refl s.root, rfl⟩ }

/-- Witness for C9: focus is requested for a label that does not accept focus inside a panel
that does. -/
theorem SetFocusedControl_nearest_acceptor_witness :
    (∃ s1, SetFocusedControl sampleConsts (idleVirtuals none) labelState
        (some [0, 0]) = some s1 ∧
      (∀ p, s1.FocusedControl = some p →
        ∃ k, k ≤ [0, 0].length ∧ p = [0, 0].drop k ∧ acceptsFocus labelState.root p ∧
          acceptsFocus s1.root p ∧
          ∀ j, j < k → ¬ acceptsFocus labelState.root ([0, 0].drop j)) ∧
      (s1.FocusedControl = none →
        ∀ k, k ≤ [0, 0].length → ¬ acceptsFocus labelState.root ([0, 0].drop k))) ∧
    (∃ s0, SetFocusedControl sampleConsts (idleVirtuals none) labelState
        none = some s0 ∧ s0.FocusedControl = none) :=
  SetFocusedControl_nearest_acceptor sampleConsts (idleVirtuals none)
    labelState [0, 0] (idleVirtuals_keepFocusData none) rfl
    (fun k c hk hget hty => by
      have hk2 : k ≤ 2 := hk
      interval_cases k
      · have hc : some c = labelState.root.get? [0, 0] := hget.symm
        have := Option.some.inj hc
        subst this
        exact absurd hty (by decide)
      · have hc : some c = labelState.root.get? [0] := hget.symm
        have := Option.some.inj hc
        subst this
        exact absurd hty (by decide)
      · have hc : some c = labelState.root.get? [] := hget.symm
        have := Option.some.inj hc
        subst this
        exact absurd hty (by decide))

/-! ## Focus navigation -/

/-- C5 (evaluation at the failing input): in `focusTree` = root[ panel[ first, disabled ],
second ] the first control after `first` in document order that is Enabled, Visible and a
TabStop is `second`, the next sibling of the panel; `FindNextFocus(first)` returns null,
because `first` is not the last child of the panel and the loop over its later siblings
finds none that qualifies. -/
theorem FindNextFocus_misses_ancestor_sibling :
    FindNextFocus focusTree [0, 0] = some none ∧
    spec_FindNextFocus focusTree [0, 0] = some [1] ∧
    spec_tabOrder focusTree = [[0, 0], [1]] := by
  decide

/-- C6 (evaluation at the failing input): in `focusTree` the control `second` is Enabled,
Visible and a TabStop and is not the first in tab order; `FindPreviousFocus(second)` is
`first`, and `FindNextFocus(first)` is null rather than `second`. -/
theorem FindNextFocus_FindPreviousFocus_not_inverse :
    spec_tabOrder focusTree = [[0, 0], [1]] ∧
    FindPreviousFocus sampleConsts.CT_CONTAINER focusTree [1] = some (some [0, 0]) ∧
    FindNextFocus focusTree [0, 0] = some none ∧
    (FindPreviousFocus sampleConsts.CT_CONTAINER focusTree [1]).bind
      (fun r => r.bind (fun p => (FindNextFocus focusTree p).bind id)) ≠ some [1] := by
  decide

/-! ## Menus: what the menu functions leave alone -/

theorem menuKept_get {K : TypeConsts} {Wv Wc Wp : List Ptr} {a b : UIState}
    (h : menuKept K Wv Wc Wp a b) (q : Ptr) (ca : Control) (hq : a.root.get? q = some ca) :
    ∃ cb, b.root.get? q = some cb ∧ cb.d.TypeTag = ca.d.TypeTag := by
  have := h.1 q
  rw [hq] at this
  cases hb : b.root.get? q with
  | none => rw [hb] at this; simp at this
  | some cb =>
    rw [hb] at this
    exact ⟨cb, rfl, by simpa using this⟩

theorem menuKept_get_back {K : TypeConsts} {Wv Wc Wp : List Ptr} {a b : UIState}
    (h : menuKept K Wv Wc Wp a b) (q : Ptr) (cb : Control) (hq : b.root.get? q = some cb) :
    ∃ ca, a.root.get? q = some ca ∧ cb.d.TypeTag = ca.d.TypeTag := by
  have := h.1 q
  rw [hq] at this
  cases ha : a.root.get? q with
  | none => rw [ha] at this; simp at this
  | some ca =>
    rw [ha] at this
    exact ⟨ca, rfl, by simpa using this⟩

theorem menuKept_refl (K : TypeConsts) (Wv Wc Wp : List Ptr) (a : UIState) :
    menuKept K Wv Wc Wp a a := by
  refine ⟨fun _ => rfl, ?_, fun _ _ => rfl⟩
  intro q ca cb ha hb _
  rw [ha] at hb
  rw [← Option.some.inj hb]
  exact ⟨rfl, fun _ => rfl, fun _ => rfl⟩

theorem menuKept_trans {K : TypeConsts} {Wv1 Wc1 Wp1 Wv2 Wc2 Wp2 : List Ptr}
    (Wv Wc Wp : List Ptr) {a b c : UIState}
    (h1 : menuKept K Wv1 Wc1 Wp1 a b) (h2 : menuKept K Wv2 Wc2 Wp2 b c)
    (hv1 : Wv1 ⊆ Wv) (hv2 : Wv2 ⊆ Wv) (hc1 : Wc1 ⊆ Wc) (hc2 : Wc2 ⊆ Wc)
    (hp1 : Wp1 ⊆ Wp) (hp2 : Wp2 ⊆ Wp) :
    menuKept K Wv Wc Wp a c := by
  refine ⟨fun q => (h2.1 q).trans (h1.1 q), ?_, ?_⟩
  · intro q ca cc ha hc hty
    obtain ⟨cb, hb, htyb⟩ := menuKept_get h1 q ca ha
    obtain ⟨e1, e2, e3⟩ := h1.2.1 q ca cb ha hb hty
    obtain ⟨f1, f2, f3⟩ := h2.2.1 q cb cc hb hc (by rw [htyb]; exact hty)
    refine ⟨f1.trans e1, ?_, ?_⟩
    · intro hq
      exact (f2 (fun h => hq (hv2 h))).trans (e2 (fun h => hq (hv1 h)))
    · intro hq
      exact (f3 (fun h => hq (hc2 h))).trans (e3 (fun h => hq (hc1 h)))
  · intro q hq
    exact (h2.2.2 q (fun h => hq (hp2 h))).trans (h1.2.2 q (fun h => hq (hp1 h)))

theorem menuKept_mono {K : TypeConsts} {Wv1 Wc1 Wp1 : List Ptr} (Wv Wc Wp : List Ptr)
    {a b : UIState} (h1 : menuKept K Wv1 Wc1 Wp1 a b)
    (hv1 : Wv1 ⊆ Wv) (hc1 : Wc1 ⊆ Wc) (hp1 : Wp1 ⊆ Wp) : menuKept K Wv Wc Wp a b :=
  menuKept_trans Wv Wc Wp h1 (menuKept_refl K [] [] [] b) hv1 (List.nil_subset _) hc1
    (List.nil_subset _) hp1 (List.nil_subset _)

/-- A write `p->member = ...` that keeps `Type` and `parentItem`, and keeps `Visible` /
`curSubMenu` unless `p` is listed for it, while `Popups` keeps the counts outside `Wp`. -/
theorem menuKept_modify (K : TypeConsts) (Wv Wc Wp : List Ptr) (a b : UIState) (p : Ptr)
    (f : ControlData → ControlData) (hroot : b.root = a.root.modify p f)
    (hpop : ∀ q : Ptr, q ∉ Wp → b.Popups.count q = a.Popups.count q)
    (hT : ∀ d, (f d).TypeTag = d.TypeTag) (hP : ∀ d, (f d).parentItem = d.parentItem)
    (hV : p ∈ Wv ∨ ∀ d, (f d).Visible = d.Visible)
    (hC : p ∈ Wc ∨ ∀ d, (f d).curSubMenu = d.curSubMenu) :
    menuKept K Wv Wc Wp a b := by
  have key : ∀ (q : Ptr) (ca cb : Control), a.root.get? q = some ca → b.root.get? q = some cb →
      cb.d = if q = p then f ca.d else ca.d := by
    intro q ca cb ha hb
    have h := modify_get?_d a.root p q f
    rw [← hroot, hb, ha] at h
    simpa using h
  refine ⟨?_, ?_, hpop⟩
  · intro q
    have h := modify_get?_d a.root p q f
    rw [← hroot] at h
    cases ha : a.root.get? q with
    | none =>
      rw [ha] at h
      cases hb : b.root.get? q with
      | none => rfl
      | some cb => rw [hb] at h; simp at h
    | some ca =>
      rw [ha] at h
      cases hb : b.root.get? q with
      | none => rw [hb] at h; simp at h
      | some cb =>
        have hk := key q ca cb ha hb
        simp only [Option.map_some', Option.some.injEq]
        rw [hk]
        split
        · exact hT ca.d
        · rfl
  · intro q ca cb ha hb _
    have hk := key q ca cb ha hb
    rw [hk]
    by_cases hqp : q = p
    · rw [if_pos hqp]
      refine ⟨hP ca.d, ?_, ?_⟩
      · intro hq
        rcases hV with hV | hV
        · exact absurd (hqp ▸ hV) hq
        · exact hV ca.d
      · intro hq
        rcases hC with hC | hC
        · exact absurd (hqp ▸ hC) hq
        · exact hC ca.d
    · rw [if_neg hqp]
      exact ⟨rfl, fun _ => rfl, fun _ => rfl⟩

/-- A step that writes neither the tree nor `Popups`. -/
theorem menuKept_fields (K : TypeConsts) (Wv Wc Wp : List Ptr) (a b : UIState)
    (hroot : b.root = a.root) (hpop : b.Popups = a.Popups) : menuKept K Wv Wc Wp a b := by
  refine ⟨fun q => by rw [hroot], ?_, fun q _ => by rw [hpop]⟩
  intro q ca cb ha hb _
  rw [hroot, ha] at hb
  rw [← Option.some.inj hb]
  exact ⟨rfl, fun _ => rfl, fun _ => rfl⟩

theorem Menu_clearSelected_kept (K : TypeConsts) (items : List Ptr) :
    ∀ (a b : UIState), b.root = Menu_clearSelected items a.root → b.Popups = a.Popups →
      menuKept K [] [] [] a b := by
  induction items with
  | nil => intro a b hroot hpop; exact menuKept_fields K [] [] [] a b hroot hpop
  | cons item rest ih =>
    intro a b hroot hpop
    have h1 : menuKept K [] [] [] a
        { a with root := a.root.modify item (fun d => { d with Selected := false }) } :=
      menuKept_modify K [] [] [] a _ item (fun d => { d with Selected := false }) rfl
        (fun _ _ => rfl) (fun _ => rfl) (fun _ => rfl) (Or.inr (fun _ => rfl))
        (Or.inr (fun _ => rfl))
    have h2 := ih { a with root := a.root.modify item (fun d => { d with Selected := false }) }
      b hroot hpop
    exact menuKept_trans [] [] [] h1 h2 (List.Subset.refl _) (List.Subset.refl _)
      (List.Subset.refl _) (List.Subset.refl _) (List.Subset.refl _) (List.Subset.refl _)

theorem GetRelativePos_isSome (root : Control) (p : Ptr) :
    (root.get? p).isSome = true → (Control_GetRelativePos root p).isSome = true := by
  induction p with
  | nil => intro _; simp [Control_GetRelativePos, get?_nil]
  | cons i parent ih =>
    intro h
    have hp := get?_parent_isSome root i parent h
    obtain ⟨c, hc⟩ := Option.isSome_iff_exists.1 h
    obtain ⟨par, hpar⟩ := Option.isSome_iff_exists.1 hp
    obtain ⟨xy, hxy⟩ := Option.isSome_iff_exists.1 (ih hp)
    simp only [Control_GetRelativePos, hc, hpar, hxy]
    split <;> rfl

theorem modify_get_self (root : Control) (p : Ptr) (f : ControlData → ControlData)
    (c : Control) (hc : root.get? p = some c) :
    ∃ c1, (root.modify p f).get? p = some c1 ∧ c1.d = f c.d := by
  have h := modify_get?_d root p p f
  rw [hc] at h
  cases h1 : (root.modify p f).get? p with
  | none => rw [h1] at h; simp at h
  | some c1 =>
    rw [h1] at h
    exact ⟨c1, rfl, by simpa using h⟩

/-- A conditional write to geometry members of `self` leaves the menu members alone. -/
theorem menuKept_geometry (K : TypeConsts) (cond : Prop) [Decidable cond] (t : UIState)
    (self : Ptr) (f : ControlData → ControlData) (hT : ∀ d, (f d).TypeTag = d.TypeTag)
    (hP : ∀ d, (f d).parentItem = d.parentItem) (hV : ∀ d, (f d).Visible = d.Visible)
    (hC : ∀ d, (f d).curSubMenu = d.curSubMenu) :
    menuKept K [] [] [] t (if cond then { t with root := t.root.modify self f } else t) := by
  by_cases h : cond
  · rw [if_pos h]
    exact menuKept_modify K [] [] [] t _ self f rfl (fun _ _ => rfl) hT hP (Or.inr hV) (Or.inr hC)
  · rw [if_neg h]
    exact menuKept_refl K [] [] [] t

theorem menuKept_nil_trans {K : TypeConsts} {Wv Wc Wp : List Ptr} {a b c : UIState}
    (h1 : menuKept K [] [] [] a b) (h2 : menuKept K Wv Wc Wp b c) : menuKept K Wv Wc Wp a c :=
  menuKept_trans Wv Wc Wp h1 h2 (List.nil_subset _) (List.Subset.refl _) (List.nil_subset _)
    (List.Subset.refl _) (List.nil_subset _) (List.Subset.refl _)

theorem menuKept_trans_nil {K : TypeConsts} {Wv Wc Wp : List Ptr} {a b c : UIState}
    (h1 : menuKept K Wv Wc Wp a b) (h2 : menuKept K [] [] [] b c) : menuKept K Wv Wc Wp a c :=
  menuKept_trans Wv Wc Wp h1 h2 (List.Subset.refl _) (List.nil_subset _) (List.Subset.refl _)
    (List.nil_subset _) (List.Subset.refl _) (List.nil_subset _)

/-- The end of `Menu::Popup`: `Popups.Add(this); Global::MouseCaptureControl = this;`. -/
theorem menuKept_addPopup (K : TypeConsts) (self : Ptr) (t : UIState) :
    menuKept K [] [] [self] t
      { t with Popups := t.Popups ++ [self], MouseCaptureControl := some self } := by
  refine ⟨fun _ => rfl, ?_, ?_⟩
  · intro q ca cb ha hb _
    have hb1 : t.root.get? q = some cb := hb
    rw [ha] at hb1
    rw [← Option.some.inj hb1]
    exact ⟨rfl, fun _ => rfl, fun _ => rfl⟩
  · intro q hq
    have hne : q ≠ self := fun h => hq (List.mem_singleton.2 h)
    show List.count q (t.Popups ++ [self]) = _
    rw [List.count_append, List.count_singleton]
    simp [Ne.symm hne]

theorem Menu_Popup_show_spec (K : TypeConsts) (V : Virtuals) (hV : V.keepMenus K) (self : Ptr)
    (x y : Int) (s4 : UIState)
    (hself : ∃ c, s4.root.get? self = some c ∧ c.d.TypeTag = K.CT_MENU) :
    ∃ s1, Menu_Popup_show V self x y s4 = some s1 ∧ menuKept K [self] [] [self] s4 s1 ∧
      ∃ c, s1.root.get? self = some c ∧ c.d.Visible = true := by
  obtain ⟨c4, hc4, hty4⟩ := hself
  have hk5 : menuKept K [] [] [] s4
      { s4 with root := s4.root.modify self (fun d => { d with Left := x, Top := y }) } :=
    menuKept_modify K [] [] [] s4 _ self _ rfl (fun _ _ => rfl) (fun _ => rfl) (fun _ => rfl)
      (Or.inr (fun _ => rfl)) (Or.inr (fun _ => rfl))
  obtain ⟨c5, hc5, hty5⟩ := menuKept_get hk5 self c4 hc4
  obtain ⟨⟨ax, ay⟩, hrel⟩ := Option.isSome_iff_exists.1
    (GetRelativePos_isSome _ self (by rw [hc5]; rfl))
  unfold Menu_Popup_show
  simp only []
  split
  · rename_i ax1 ay1 c51 entry1 hrel1 hc51 hentry1
    refine ⟨_, rfl, ?_, ?_⟩
    · refine menuKept_trans [self] [] [self] (b := V.SetFocus self _) ?_
        (menuKept_addPopup K self _) (List.Subset.refl _) (List.nil_subset _)
        (List.Subset.refl _) (List.Subset.refl _) (List.nil_subset _) (List.Subset.refl _)
      refine menuKept_trans_nil ?_ (hV.setFocus self _)
      refine menuKept_nil_trans ?_ (menuKept_modify K [self] [] [] _ _ self
        (fun d => { d with Visible := true }) rfl (fun _ _ => rfl) (fun _ => rfl)
        (fun _ => rfl) (Or.inl (List.mem_singleton.2 rfl)) (Or.inr (fun _ => rfl)))
      refine menuKept_nil_trans ?_ (menuKept_geometry K _ _ self
        (fun d => { d with Top := d.Top - d.Height }) (fun _ => rfl) (fun _ => rfl)
        (fun _ => rfl) (fun _ => rfl))
      refine menuKept_nil_trans ?_ (menuKept_geometry K _ _ self
        (fun d => { d with Left := d.Left - d.Width }) (fun _ => rfl) (fun _ => rfl)
        (fun _ => rfl) (fun _ => rfl))
      exact hk5
    · -- `Visible = true` is written last and `SetFocus` keeps it
      have hk67 : ∀ t : UIState, menuKept K [] [] []
          { s4 with root := s4.root.modify self (fun d => { d with Left := x, Top := y }) } t →
          ∃ c, (V.SetFocus self { t with
              root := t.root.modify self (fun d => { d with Visible := true }) }).root.get? self =
            some c ∧ c.d.Visible = true := by
        intro t ht
        obtain ⟨c7, hc7, hty7⟩ := menuKept_get ht self c5 hc5
        obtain ⟨c8, hc8, hd8⟩ := modify_get_self t.root self
          (fun d => { d with Visible := true }) c7 hc7
        have hk9 := hV.setFocus self
          { t with root := t.root.modify self (fun d => { d with Visible := true }) }
        obtain ⟨c9, hc9, _⟩ := menuKept_get hk9 self c8 hc8
        have hty8 : c8.d.TypeTag = K.CT_MENU := by
          rw [hd8]
          show c7.d.TypeTag = K.CT_MENU
          rw [hty7, hty5, hty4]
        refine ⟨c9, hc9, ?_⟩
        rw [(hk9.2.1 self c8 c9 hc8 hc9 hty8).2.1 (List.not_mem_nil _), hd8]
      exact hk67 _ (menuKept_nil_trans (menuKept_geometry K _ _ self
        (fun d => { d with Left := d.Left - d.Width }) (fun _ => rfl) (fun _ => rfl)
        (fun _ => rfl) (fun _ => rfl)) (menuKept_geometry K _ _ self
        (fun d => { d with Top := d.Top - d.Height }) (fun _ => rfl) (fun _ => rfl)
        (fun _ => rfl) (fun _ => rfl)))
  · rename_i hno
    exact (hno ax ay c5 _ hrel hc5 rfl).elim

theorem ReleaseMouse_root (self : Ptr) (s : UIState) : (ReleaseMouse self s).root = s.root := by
  unfold ReleaseMouse
  split <;> rfl

theorem ReleaseMouse_Popups (self : Ptr) (s : UIState) :
    (ReleaseMouse self s).Popups = s.Popups := by
  unfold ReleaseMouse
  split <;> rfl

theorem Menu_Popup_spec (K : TypeConsts) (V : Virtuals) (hV : V.keepMenus K) (self : Ptr)
    (x y : Int) (s : UIState)
    (hself : ∃ c, s.root.get? self = some c ∧ c.d.TypeTag = K.CT_MENU) :
    ∃ s1, Menu_Popup V self x y s = some s1 ∧ menuKept K [self] [] [self] s s1 ∧
      ∃ c, s1.root.get? self = some c ∧ c.d.Visible = true := by
  obtain ⟨c, hc, hty⟩ := hself
  unfold Menu_Popup
  simp only [hc]
  by_cases hvis : c.d.Visible = false
  · simp only [hvis, if_true]
    have hk1 : menuKept K [] [] [] s
        (if c.d.parentItem = none then { s with lastFocusedCtrl := s.FocusedControl } else s) := by
      split
      · exact menuKept_fields K [] [] [] _ _ rfl rfl
      · exact menuKept_refl K [] [] [] s
    have hk3 : menuKept K [] [] [] s (V.PositMenuItems self (V.OnPopup self
        (if c.d.parentItem = none then { s with lastFocusedCtrl := s.FocusedControl }
          else s))) :=
      menuKept_nil_trans hk1 (menuKept_nil_trans (hV.onPopup self _) (hV.positMenuItems self _))
    obtain ⟨c3, hc3, hty3⟩ := menuKept_get hk3 self c hc
    simp only [hc3]
    have hk4 := Menu_clearSelected_kept K c3.d.Items
      (V.PositMenuItems self (V.OnPopup self
        (if c.d.parentItem = none then { s with lastFocusedCtrl := s.FocusedControl } else s)))
      { (V.PositMenuItems self (V.OnPopup self
          (if c.d.parentItem = none then { s with lastFocusedCtrl := s.FocusedControl }
            else s))) with
        root := Menu_clearSelected c3.d.Items (V.PositMenuItems self (V.OnPopup self
          (if c.d.parentItem = none then { s with lastFocusedCtrl := s.FocusedControl }
            else s))).root } rfl rfl
    have hk34 := menuKept_nil_trans hk3 hk4
    obtain ⟨c4, hc4, hty4⟩ := menuKept_get hk34 self c hc
    obtain ⟨s1, hs1, hk, hv⟩ := Menu_Popup_show_spec K V hV self x y _
      ⟨c4, hc4, by rw [hty4]; exact hty⟩
    exact ⟨s1, hs1, menuKept_nil_trans hk34 hk, hv⟩
  · have hvt : c.d.Visible = true := by simpa using hvis
    simp only [hvt]
    exact ⟨s, rfl, menuKept_refl K _ _ _ s, c, hc, hvt⟩

theorem Menu_CloseMenu_restore_spec (K : TypeConsts) (V : Virtuals) (hV : V.keepMenus K)
    (self : Ptr) (s2 : UIState) (c : Control) (hc : s2.root.get? self = some c)
    (hty : c.d.TypeTag = K.CT_MENU)
    (hitem : ∀ item, c.d.parentItem = some item → (s2.root.get? item).isSome = true) :
    ∃ s4, Menu_CloseMenu_restore V self s2 = some s4 ∧ menuKept K [] [] [] s2 s4 := by
  unfold Menu_CloseMenu_restore
  simp only [hc]
  -- the value of `!parentItem || parentItem->isButton`
  obtain ⟨b, hb⟩ : ∃ b, (match c.d.parentItem with
      | none => some true
      | some item =>
        match s2.root.get? item with
        | some ic => some ic.d.isButton
        | none => none) = some b := by
    cases hp : c.d.parentItem with
    | none => exact ⟨true, rfl⟩
    | some item =>
      obtain ⟨ic, hic⟩ := Option.isSome_iff_exists.1 (hitem item hp)
      exact ⟨ic.d.isButton, by simp only [hic]⟩
  simp only [hb]
  have hk3 : menuKept K [] [] [] s2
      (if b = true then
        match s2.lastFocusedCtrl with
        | some lf => V.SetFocus lf s2
        | none => s2
      else s2) := by
    split
    · split
      · exact hV.setFocus _ s2
      · exact menuKept_refl K _ _ _ s2
    · exact menuKept_refl K _ _ _ s2
  generalize (if b = true then
        match s2.lastFocusedCtrl with
        | some lf => V.SetFocus lf s2
        | none => s2
      else s2) = s3 at hk3
  obtain ⟨c3, hc3, hty3⟩ := menuKept_get hk3 self c hc
  simp only [hc3]
  have hp3 : c3.d.parentItem = c.d.parentItem := (hk3.2.1 self c c3 hc hc3 hty).1
  cases hp : c3.d.parentItem with
  | none => exact ⟨s3, rfl, hk3⟩
  | some item3 =>
    simp only []
    have hv : (s2.root.get? item3).isSome = true := hitem item3 (by rw [← hp3]; exact hp)
    obtain ⟨ic, hic⟩ := Option.isSome_iff_exists.1 hv
    obtain ⟨ic3, hic3, _⟩ := menuKept_get hk3 item3 ic hic
    simp only [hic3]
    split
    · exact ⟨_, rfl, menuKept_nil_trans hk3 (menuKept_modify K [] [] [] s3 _ item3
        (fun d => { d with Selected := false }) rfl (fun _ _ => rfl) (fun _ => rfl)
        (fun _ => rfl) (Or.inr (fun _ => rfl)) (Or.inr (fun _ => rfl)))⟩
    · exact ⟨s3, rfl, hk3⟩

theorem Menu_CloseMenu_resetParent_spec (K : TypeConsts) (Wc : List Ptr)
    (parentItem : Option Ptr) (s4 : UIState)
    (hWpar : ∀ item par, parentItem = some item → item.Parent = some par → par ∈ Wc) :
    menuKept K [] Wc [] s4 (Menu_CloseMenu_resetParent parentItem s4) ∧
      (Menu_CloseMenu_resetParent parentItem s4).Popups = s4.Popups := by
  cases parentItem with
  | none => exact ⟨menuKept_refl K _ _ _ s4, rfl⟩
  | some item =>
    cases hpar : item.Parent with
    | none =>
      have h : Menu_CloseMenu_resetParent (some item) s4 = s4 := by
        simp only [Menu_CloseMenu_resetParent, hpar]
      rw [h]
      exact ⟨menuKept_refl K _ _ _ s4, rfl⟩
    | some parent =>
      have h : Menu_CloseMenu_resetParent (some item) s4 =
          { s4 with root := s4.root.modify parent (fun d => { d with curSubMenu := none }) } := by
        simp only [Menu_CloseMenu_resetParent, hpar]
      rw [h]
      exact ⟨menuKept_modify K [] Wc [] s4 _ parent (fun d => { d with curSubMenu := none })
        rfl (fun _ _ => rfl) (fun _ => rfl) (fun _ => rfl) (Or.inr (fun _ => rfl))
        (Or.inl (hWpar item parent rfl hpar)), rfl⟩

/-- `ReleaseMouse(); Popups.Remove(this);` of `Menu::CloseMenu`. -/
theorem menuKept_removePopup (K : TypeConsts) (self : Ptr) (s6 : UIState) :
    menuKept K [] [] [self] s6
      { ReleaseMouse self s6 with Popups := (ReleaseMouse self s6).Popups.erase self } ∧
    ({ ReleaseMouse self s6 with
      Popups := (ReleaseMouse self s6).Popups.erase self } : UIState).Popups.count self =
      s6.Popups.count self - 1 := by
  refine ⟨⟨?_, ?_, ?_⟩, ?_⟩
  · intro q
    show ((ReleaseMouse self s6).root.get? q).map _ = _
    rw [ReleaseMouse_root]
  · intro q ca cb ha hb _
    have hb1 : (ReleaseMouse self s6).root.get? q = some cb := hb
    rw [ReleaseMouse_root, ha] at hb1
    rw [← Option.some.inj hb1]
    exact ⟨rfl, fun _ => rfl, fun _ => rfl⟩
  · intro q hq
    have hne : q ≠ self := fun h => hq (List.mem_singleton.2 h)
    show List.count q ((ReleaseMouse self s6).Popups.erase self) = _
    rw [ReleaseMouse_Popups, List.count_erase_of_ne hne]
  · show List.count self ((ReleaseMouse self s6).Popups.erase self) = _
    rw [ReleaseMouse_Popups, List.count_erase_self]

theorem Menu_CloseMenu_detach_spec (K : TypeConsts) (self : Ptr) (s4 : UIState) (Wc : List Ptr)
    (c : Control) (hc : s4.root.get? self = some c) (hWself : self ∈ Wc)
    (hWpar : ∀ item par, c.d.parentItem = some item → item.Parent = some par → par ∈ Wc) :
    ∃ s1, Menu_CloseMenu_detach self s4 = some s1 ∧ menuKept K [] Wc [self] s4 s1 ∧
      s1.Popups.count self = s4.Popups.count self - 1 := by
  unfold Menu_CloseMenu_detach
  simp only [hc]
  obtain ⟨hk5, hpop5⟩ := Menu_CloseMenu_resetParent_spec K Wc c.d.parentItem s4 hWpar
  generalize Menu_CloseMenu_resetParent c.d.parentItem s4 = s5 at hk5 hpop5
  have hk6 : menuKept K [] Wc [] s5
      { s5 with
        root := s5.root.modify self
          (fun d => { d with enableMouseHover := false, curSubMenu := none }) } :=
    menuKept_modify K [] Wc [] s5 _ self _ rfl (fun _ _ => rfl) (fun _ => rfl) (fun _ => rfl)
      (Or.inr (fun _ => rfl)) (Or.inl hWself)
  have hpop6 : ({ s5 with
        root := s5.root.modify self
          (fun d => { d with enableMouseHover := false, curSubMenu := none }) } :
      UIState).Popups = s4.Popups := hpop5
  generalize ({ s5 with
        root := s5.root.modify self
          (fun d => { d with enableMouseHover := false, curSubMenu := none }) } : UIState) = s6
    at hk6 hpop6
  obtain ⟨hk8, hcount8⟩ := menuKept_removePopup K self s6
  rw [hpop6] at hcount8
  have hk48 : menuKept K [] Wc [self] s4
      { ReleaseMouse self s6 with Popups := (ReleaseMouse self s6).Popups.erase self } :=
    menuKept_trans [] Wc [self] (menuKept_trans [] Wc [] hk5 hk6 (List.Subset.refl _)
      (List.Subset.refl _) (List.Subset.refl _) (List.Subset.refl _) (List.Subset.refl _)
      (List.Subset.refl _)) hk8 (List.Subset.refl _) (List.Subset.refl _)
      (List.Subset.refl _) (List.nil_subset _) (List.nil_subset _) (List.Subset.refl _)
  split
  · split
    · exact ⟨_, rfl, menuKept_trans_nil hk48 (menuKept_fields K [] [] [] _ _ rfl rfl),
        hcount8⟩
    · exact ⟨_, rfl, hk48, hcount8⟩
  · exact ⟨_, rfl, hk48, hcount8⟩

theorem Menu_CloseSubMenu_finish_spec (K : TypeConsts) (V : Virtuals) (hV : V.keepMenus K)
    (self : Ptr) (s2 : UIState) (hself : (s2.root.get? self).isSome = true) :
    ∃ s1, Menu_CloseSubMenu_finish V self s2 = some s1 ∧ menuKept K [] [self] [] s2 s1 := by
  unfold Menu_CloseSubMenu_finish
  simp only []
  have hk3 : menuKept K [] [self] [] s2
      { s2 with root := s2.root.modify self (fun d => { d with curSubMenu := none }) } :=
    menuKept_modify K [] [self] [] s2 _ self _ rfl (fun _ _ => rfl) (fun _ => rfl)
      (fun _ => rfl) (Or.inr (fun _ => rfl)) (Or.inl (List.mem_singleton.2 rfl))
  have hk4 : menuKept K [] [self] [] s2 (ReleaseMouse self
      { s2 with root := s2.root.modify self (fun d => { d with curSubMenu := none }) }) :=
    menuKept_trans_nil hk3 (menuKept_fields K [] [] [] _ _ (ReleaseMouse_root _ _)
      (ReleaseMouse_Popups _ _))
  generalize (ReleaseMouse self
      { s2 with root := s2.root.modify self (fun d => { d with curSubMenu := none }) }) = s4
    at hk4
  obtain ⟨c2, hc2⟩ := Option.isSome_iff_exists.1 hself
  obtain ⟨c4, hc4, _⟩ := menuKept_get hk4 self c2 hc2
  simp only [hc4]
  split
  · exact ⟨_, rfl, menuKept_trans_nil hk4 (menuKept_fields K [] [] [] _ _ rfl rfl)⟩
  · split
    · exact ⟨_, rfl, menuKept_trans_nil hk4 (hV.showMnemonicKey self false s4)⟩
    · exact ⟨s4, rfl, hk4⟩

theorem Menu_CloseMenu_spec (K : TypeConsts) (V : Virtuals) (hV : V.keepMenus K) (self : Ptr)
    (s : UIState) (Wc : List Ptr) (c : Control) (hc : s.root.get? self = some c)
    (hty : c.d.TypeTag = K.CT_MENU)
    (hitem : ∀ item, c.d.parentItem = some item → (s.root.get? item).isSome = true)
    (hWself : self ∈ Wc)
    (hWpar : ∀ item par, c.d.parentItem = some item → item.Parent = some par → par ∈ Wc) :
    ∃ s1, Menu_CloseMenu V self s = some s1 ∧ menuKept K [self] Wc [self] s s1 ∧
      (∃ c1, s1.root.get? self = some c1 ∧ c1.d.Visible = false) ∧
      (c.d.Visible = true → s1.Popups.count self = s.Popups.count self - 1) := by
  unfold Menu_CloseMenu
  simp only [hc]
  by_cases hvis : c.d.Visible = true
  · simp only [hvis, if_true]
    -- `Visible = false; OnMenuClosed.Invoke(this);`
    have hk1 : menuKept K [self] [] [] s
        { s with root := s.root.modify self (fun d => { d with Visible := false }) } :=
      menuKept_modify K [self] [] [] s _ self _ rfl (fun _ _ => rfl) (fun _ => rfl)
        (fun _ => rfl) (Or.inl (List.mem_singleton.2 rfl)) (Or.inr (fun _ => rfl))
    obtain ⟨c1, hc1, hd1⟩ := modify_get_self s.root self (fun d => { d with Visible := false })
      c hc
    have hk2 := hV.onMenuClosed self
      { s with root := s.root.modify self (fun d => { d with Visible := false }) }
    have hty1 : c1.d.TypeTag = K.CT_MENU := by rw [hd1]; exact hty
    obtain ⟨c2, hc2, hty2⟩ := menuKept_get hk2 self c1 hc1
    obtain ⟨hp2, hv2, _⟩ := hk2.2.1 self c1 c2 hc1 hc2 hty1
    have hpar2 : c2.d.parentItem = c.d.parentItem := by rw [hp2, hd1]
    have hvis2 : c2.d.Visible = false := by rw [hv2 (List.not_mem_nil _), hd1]
    have hk12 := menuKept_trans_nil hk1 hk2
    obtain ⟨s4, hs4, hk4⟩ := Menu_CloseMenu_restore_spec K V hV self _ c2 hc2
      (by rw [hty2]; exact hty1)
      (by
        intro item hitem2
        obtain ⟨ic, hic⟩ := Option.isSome_iff_exists.1 (hitem item (by rw [← hpar2]; exact hitem2))
        obtain ⟨ic2, hic2, _⟩ := menuKept_get hk12 item ic hic
        rw [hic2]; rfl)
    rw [hs4]
    simp only []
    obtain ⟨c4, hc4, hty4⟩ := menuKept_get hk4 self c2 hc2
    obtain ⟨hp4, hv4, _⟩ := hk4.2.1 self c2 c4 hc2 hc4 (by rw [hty2]; exact hty1)
    have hpar4 : c4.d.parentItem = c.d.parentItem := by rw [hp4, hpar2]
    obtain ⟨s1, hs1, hk5, hcount⟩ := Menu_CloseMenu_detach_spec K self s4 Wc c4 hc4 hWself
      (fun item par hi hp => hWpar item par (by rw [← hpar4]; exact hi) hp)
    have hk14 := menuKept_trans_nil hk12 hk4
    refine ⟨s1, hs1, ?_, ?_, ?_⟩
    · exact menuKept_trans [self] Wc [self] hk14 hk5 (List.Subset.refl _) (List.nil_subset _)
        (List.nil_subset _) (List.Subset.refl _) (List.nil_subset _) (List.Subset.refl _)
    · obtain ⟨c5, hc5, _⟩ := menuKept_get hk5 self c4 hc4
      refine ⟨c5, hc5, ?_⟩
      rw [(hk5.2.1 self c4 c5 hc4 hc5 (by rw [hty4, hty2]; exact hty1)).2.1
        (List.not_mem_nil _), hv4 (List.not_mem_nil _)]
      exact hvis2
    · intro _
      rw [hcount, hk14.2.2 self (List.not_mem_nil _)]
  · have hvf : c.d.Visible = false := by simpa using hvis
    simp only [hvf]
    exact ⟨s, rfl, menuKept_refl K _ _ _ s, ⟨c, hc, hvf⟩, fun h => absurd h (by simp)⟩

/-- A chain of open submenus is still one after a step that keeps `curSubMenu` of its menus. -/
theorem OpenChain_kept {K : TypeConsts} {Wv Wc Wp : List Ptr} {a b : UIState}
    (hk : menuKept K Wv Wc Wp a b) :
    ∀ (L : List Ptr) (g : Ptr), OpenChain K a.root g L → (∀ q ∈ g :: L, q ∉ Wc) →
      OpenChain K b.root g L := by
  intro L
  induction L with
  | nil =>
    intro g h hW
    cases h with
    | nil _ c hc hty hcur =>
      obtain ⟨cb, hcb, htyb⟩ := menuKept_get hk g c hc
      refine OpenChain.nil g cb hcb (by rw [htyb]; exact hty) ?_
      rw [(hk.2.1 g c cb hc hcb hty).2.2 (hW g (List.mem_cons_self _ _))]
      exact hcur
  | cons h L ih =>
    intro g hch hW
    cases hch with
    | cons _ _ _ c hc hty hcur hwire hrest =>
      obtain ⟨cb, hcb, htyb⟩ := menuKept_get hk g c hc
      refine OpenChain.cons g h L cb hcb (by rw [htyb]; exact hty) ?_ ?_
        (ih h hrest (fun q hq => hW q (List.mem_cons_of_mem _ hq)))
      · rw [(hk.2.1 g c cb hc hcb hty).2.2 (hW g (List.mem_cons_self _ _))]
        exact hcur
      · intro chb item hchb hpi
        obtain ⟨cha, hcha, htya⟩ := menuKept_get_back hk h chb hchb
        have hmenu : cha.d.TypeTag = K.CT_MENU := by
          cases hrest with
          | nil _ c1 hc1 hty1 _ => rw [hcha] at hc1; rw [Option.some.inj hc1]; exact hty1
          | cons _ _ _ c1 hc1 hty1 _ _ _ => rw [hcha] at hc1; rw [Option.some.inj hc1]; exact hty1
        have hpa : cha.d.parentItem = some item := by
          rw [← (hk.2.1 h cha chb hcha hchb hmenu).1]; exact hpi
        obtain ⟨hv, hp⟩ := hwire cha item hcha hpa
        obtain ⟨ic, hic⟩ := Option.isSome_iff_exists.1 hv
        obtain ⟨icb, hicb, _⟩ := menuKept_get hk item ic hic
        exact ⟨by rw [hicb]; rfl, hp⟩

theorem OpenChain_head {K : TypeConsts} {root : Control} {g : Ptr} {L : List Ptr}
    (h : OpenChain K root g L) : ∃ c, root.get? g = some c ∧ c.d.TypeTag = K.CT_MENU ∧
      c.d.curSubMenu = L.head? := by
  cases h with
  | nil _ c hc hty hcur => exact ⟨c, hc, hty, hcur⟩
  | cons _ _ _ c hc hty hcur _ _ => exact ⟨c, hc, hty, hcur⟩

/-- `Menu::CloseSubMenu()` on a menu `g` below which the submenus `L` are open: the call
returns once the recursion may go deeper than `L` is long; it writes `Visible` and `Popups`
only for the menus of `L` and `curSubMenu` only for `g` and the menus of `L`; and the
submenu that was open directly under `g` is hidden and taken off `Popups` once. -/
theorem Menu_CloseSubMenu_spec (K : TypeConsts) (V : Virtuals) (hV : V.keepMenus K) :
    ∀ (L : List Ptr) (g : Ptr) (a : UIState) (depth : Nat), OpenChain K a.root g L →
      (g :: L).Nodup → L.length < depth →
      ∃ b, Menu_CloseSubMenu V depth g a = some b ∧ menuKept K L (g :: L) L a b ∧
        ∀ (h : Ptr) (c0 : Control), L.head? = some h → a.root.get? h = some c0 →
          (∃ c1, b.root.get? h = some c1 ∧ c1.d.Visible = false) ∧
          (c0.d.Visible = true → b.Popups.count h = a.Popups.count h - 1) := by
  intro L
  induction L with
  | nil =>
    intro g a depth hch _ hdepth
    obtain ⟨d, rfl⟩ : ∃ d, depth = d + 1 := ⟨depth - 1, by simp at hdepth; omega⟩
    cases hch with
    | nil _ c hc hty hcur =>
      refine ⟨a, ?_, menuKept_refl K _ _ _ a, ?_⟩
      · simp only [Menu_CloseSubMenu, hc, hcur]
      · intro h c0 hh
        simp at hh
  | cons h L ih =>
    intro g a depth hch hnodup hdepth
    obtain ⟨d, rfl⟩ : ∃ d, depth = d + 1 := ⟨depth - 1, by simp at hdepth; omega⟩
    have hgL : g ∉ h :: L := (List.nodup_cons.1 hnodup).1
    have hnodup1 : (h :: L).Nodup := (List.nodup_cons.1 hnodup).2
    have hhL : h ∉ L := (List.nodup_cons.1 hnodup1).1
    cases hch with
    | cons _ _ _ c hc hty hcur hwire hrest =>
      obtain ⟨a1, ha1, hk1, _⟩ := ih h a d hrest hnodup1
        (by simp only [List.length_cons] at hdepth; omega)
      -- `curSubMenu` of `g` is read again after the recursive call
      obtain ⟨c1, hc1, hty1⟩ := menuKept_get hk1 g c hc
      have hcur1 : c1.d.curSubMenu = some h := by
        rw [(hk1.2.1 g c c1 hc hc1 hty).2.2 hgL]; exact hcur
      obtain ⟨ch, hch0, htyh, _⟩ := OpenChain_head hrest
      obtain ⟨ch1, hch1, htyh1⟩ := menuKept_get hk1 h ch hch0
      obtain ⟨hp1, hv1, _⟩ := hk1.2.1 h ch ch1 hch0 hch1 htyh
      obtain ⟨a2, ha2, hk2, hvis2, hcount2⟩ := Menu_CloseMenu_spec K V hV h a1 [h, g] ch1 hch1
        (by rw [htyh1]; exact htyh)
        (by
          intro item hi
          obtain ⟨hv, _⟩ := hwire ch item hch0 (by rw [← hp1]; exact hi)
          obtain ⟨ic, hic⟩ := Option.isSome_iff_exists.1 hv
          obtain ⟨ic1, hic1, _⟩ := menuKept_get hk1 item ic hic
          rw [hic1]; rfl)
        (List.mem_cons_self _ _)
        (by
          intro item par hi hp
          obtain ⟨_, hpg⟩ := hwire ch item hch0 (by rw [← hp1]; exact hi)
          rw [hpg] at hp
          rw [← Option.some.inj hp]
          simp)
      obtain ⟨cg2, hcg2, _⟩ := menuKept_get hk2 g c1 hc1
      obtain ⟨b, hb, hk3⟩ := Menu_CloseSubMenu_finish_spec K V hV g a2 (by rw [hcg2]; rfl)
      refine ⟨b, ?_, ?_, ?_⟩
      · simp only [Menu_CloseSubMenu, hc, hcur, ha1, hc1, hcur1, ha2]
        exact hb
      · have hk12 : menuKept K (h :: L) (g :: h :: L) (h :: L) a a2 :=
          menuKept_trans (h :: L) (g :: h :: L) (h :: L) hk1 hk2
            (List.subset_cons_self _ _)
            (fun q hq => by simp at hq; simp [hq])
            (List.subset_cons_self _ _)
            (fun q hq => by
              simp only [List.mem_cons, List.mem_singleton, List.not_mem_nil, or_false] at hq
              rcases hq with hq | hq <;> simp [hq])
            (List.subset_cons_self _ _)
            (fun q hq => by simp at hq; simp [hq])
        exact menuKept_trans (h :: L) (g :: h :: L) (h :: L) hk12 hk3
          (List.Subset.refl _) (List.nil_subset _) (List.Subset.refl _)
          (fun q hq => by simp at hq; simp [hq])
          (List.Subset.refl _) (List.nil_subset _)
      · intro h1 c0 hh hc0
        have hh1 : h1 = h := by simpa using hh.symm
        subst hh1
        rw [hch0] at hc0
        have hcc : c0 = ch := (Option.some.inj hc0).symm
        subst hcc
        obtain ⟨c2, hc2, hv2⟩ := hvis2
        obtain ⟨c3, hc3, hty3⟩ := menuKept_get hk3 h1 c2 hc2
        obtain ⟨c2b, hc2b, hty2b⟩ := menuKept_get hk2 h1 ch1 hch1
        have hty2 : c2.d.TypeTag = K.CT_MENU := by
          rw [hc2] at hc2b
          rw [Option.some.inj hc2b, hty2b, htyh1]
          exact htyh
        refine ⟨⟨c3, hc3, ?_⟩, ?_⟩
        · rw [(hk3.2.1 h1 c2 c3 hc2 hc3 hty2).2.1 (List.not_mem_nil _)]
          exact hv2
        · intro hv0
          have hv1' : ch1.d.Visible = true := by rw [hv1 hhL]; exact hv0
          rw [hk3.2.2 h1 (List.not_mem_nil _), hcount2 hv1', hk1.2.2 h1 hhL]

theorem idleVirtuals_keepMenus (hit : Option Ptr) (K : TypeConsts) :
    (idleVirtuals hit).keepMenus K := by
  refine ⟨?_, fun _ s => menuKept_refl K _ _ _ s, fun _ s => menuKept_refl K _ _ _ s,
    fun _ s => menuKept_refl K _ _ _ s, fun _ _ s => menuKept_refl K _ _ _ s⟩
  intro p s
  refine ⟨fun _ => rfl, ?_, fun _ _ => rfl⟩
  intro q ca cb ha hb _
  have hb1 : s.root.get? q = some cb := hb
  rw [ha] at hb1
  rw [← Option.some.inj hb1]
  exact ⟨rfl, fun _ => rfl, fun _ => rfl⟩

/-- C10: for every menu `m` (below which the open submenus form a chain, each wired to an item
of the menu it is open under) and every submenu `sub`, `m.PopupSubMenu(sub, x, y)` returns,
and afterwards `m.curSubMenu` is exactly `sub` and `sub` is Visible; a different submenu
`old` that was open under `m` before the call (it was `m.curSubMenu`, Visible and listed once
in `Popups`) has been closed: it is no longer Visible and no longer in `Popups`.  (The
callbacks invoked on the way leave the menus' `Visible`, `curSubMenu`, `parentItem` and the
list `Popups` alone.) -/
theorem PopupSubMenu_single_open (K : TypeConsts) (V : Virtuals) (s : UIState) (m sub : Ptr)
    (x y : Int) (L : List Ptr) (depth : Nat) (hV : V.keepMenus K)
    (hchain : OpenChain K s.root m L) (hnodup : (m :: L).Nodup)
    (hsub : ∃ c, s.root.get? sub = some c ∧ c.d.TypeTag = K.CT_MENU)
    (hdepth : L.length < depth) :
    ∃ s1, Menu_PopupSubMenu V depth m sub x y s = some s1 ∧
      (∃ c, s1.root.get? m = some c ∧ c.d.curSubMenu = some sub) ∧
      (∃ c, s1.root.get? sub = some c ∧ c.d.Visible = true) ∧
      ∀ (old : Ptr) (cm c0 : Control), s.root.get? m = some cm → cm.d.curSubMenu = some old →
        old ≠ sub → s.root.get? old = some c0 → c0.d.Visible = true →
        s.Popups.count old ≤ 1 →
          (∃ c, s1.root.get? old = some c ∧ c.d.Visible = false) ∧ old ∉ s1.Popups := by
  obtain ⟨cm, hcm, htym, hcurm⟩ := OpenChain_head hchain
  obtain ⟨csub, hcsub, htysub⟩ := hsub
  unfold Menu_PopupSubMenu
  simp only [hcsub, hcm]
  by_cases hcond : csub.d.Visible = false ∨ some sub ≠ cm.d.curSubMenu
  · rw [if_pos hcond]
    -- the state after `if (curSubMenu) CloseSubMenu();`
    obtain ⟨s1, hs1, hk1, hhead⟩ : ∃ s1,
        (if cm.d.curSubMenu ≠ none then Menu_CloseSubMenu V depth m s else some s) = some s1 ∧
        menuKept K L (m :: L) L s s1 ∧
        ∀ (h : Ptr) (c0 : Control), L.head? = some h → s.root.get? h = some c0 →
          (∃ c1, s1.root.get? h = some c1 ∧ c1.d.Visible = false) ∧
          (c0.d.Visible = true → s1.Popups.count h = s.Popups.count h - 1) := by
      cases L with
      | nil =>
        refine ⟨s, ?_, menuKept_refl K _ _ _ s, ?_⟩
        · rw [hcurm]; rfl
        · intro h c0 hh
          simp at hh
      | cons old L1 =>
        obtain ⟨b, hb, hkb, hhb⟩ := Menu_CloseSubMenu_spec K V hV (old :: L1) m s depth hchain
          hnodup hdepth
        refine ⟨b, ?_, hkb, hhb⟩
        rw [hcurm]
        simp only [List.head?_cons, ne_eq, not_false_eq_true, if_true, reduceCtorEq]
        exact hb
    rw [hs1]
    simp only []
    obtain ⟨csub1, hcsub1, htysub1⟩ := menuKept_get hk1 sub csub hcsub
    obtain ⟨s2, hs2, hk2, csub2, hcsub2, hvis2⟩ := Menu_Popup_spec K V hV sub x y s1
      ⟨csub1, hcsub1, by rw [htysub1]; exact htysub⟩
    rw [hs2]
    simp only []
    obtain ⟨cm1, hcm1, htym1⟩ := menuKept_get hk1 m cm hcm
    obtain ⟨cm2, hcm2, htym2⟩ := menuKept_get hk2 m cm1 hcm1
    simp only [hcm2]
    -- the last write, `curSubMenu = subMenu`
    have hk3 : menuKept K [] [m] [] s2
        { s2 with root := s2.root.modify m (fun d => { d with curSubMenu := some sub }) } :=
      menuKept_modify K [] [m] [] s2 _ m _ rfl (fun _ _ => rfl) (fun _ => rfl) (fun _ => rfl)
        (Or.inr (fun _ => rfl)) (Or.inl (List.mem_singleton.2 rfl))
    refine ⟨_, rfl, ?_, ?_, ?_⟩
    · obtain ⟨c3, hc3, hd3⟩ := modify_get_self s2.root m
        (fun d => { d with curSubMenu := some sub }) cm2 hcm2
      exact ⟨c3, hc3, by rw [hd3]⟩
    · obtain ⟨c3, hc3, _⟩ := menuKept_get hk3 sub csub2 hcsub2
      have hty2 : csub2.d.TypeTag = K.CT_MENU := by
        obtain ⟨c2b, hc2b, hty2b⟩ := menuKept_get hk2 sub csub1 hcsub1
        rw [hcsub2] at hc2b
        rw [Option.some.inj hc2b, hty2b, htysub1]
        exact htysub
      refine ⟨c3, hc3, ?_⟩
      rw [(hk3.2.1 sub csub2 c3 hcsub2 hc3 hty2).2.1 (List.not_mem_nil _)]
      exact hvis2
    · intro old cm0 c0 hcm0 hcur0 hne hc0 hv0 hcount
      have hcmm : cm0 = cm := (Option.some.inj hcm0).symm
      subst hcmm
      have hhd : L.head? = some old := by rw [← hcurm]; exact hcur0
      obtain ⟨⟨c1, hc1, hv1⟩, hcnt1⟩ := hhead old c0 hhd hc0
      -- `old` is a menu of the chain
      have htyold : c0.d.TypeTag = K.CT_MENU := by
        cases hchain with
        | nil _ _ _ _ _ => simp at hhd
        | cons _ h1 L1 _ _ _ _ _ hrest =>
          have hh : h1 = old := by simpa using hhd
          subst hh
          obtain ⟨ch, hch, htyh, _⟩ := OpenChain_head hrest
          rw [hc0] at hch
          rw [Option.some.inj hch]
          exact htyh
      have hty1 : c1.d.TypeTag = K.CT_MENU := by
        obtain ⟨c1b, hc1b, hty1b⟩ := menuKept_get hk1 old c0 hc0
        rw [hc1] at hc1b
        rw [Option.some.inj hc1b, hty1b]
        exact htyold
      have hnot : old ∉ [sub] := by
        simp only [List.mem_singleton]
        exact hne
      obtain ⟨c2, hc2, hty2⟩ := menuKept_get hk2 old c1 hc1
      obtain ⟨c3, hc3, _⟩ := menuKept_get hk3 old c2 hc2
      refine ⟨⟨c3, hc3, ?_⟩, ?_⟩
      · rw [(hk3.2.1 old c2 c3 hc2 hc3 (by rw [hty2]; exact hty1)).2.1 (List.not_mem_nil _),
          (hk2.2.1 old c1 c2 hc1 hc2 hty1).2.1 hnot]
        exact hv1
      · have hz : List.count old s2.Popups = 0 := by
          rw [hk2.2.2 old hnot, hcnt1 hv0]
          omega
        exact List.count_eq_zero.1 hz
  · rw [if_neg hcond]
    have hvis : csub.d.Visible = true := by
      by_contra h
      exact hcond (Or.inl (by simpa using h))
    have hcur : cm.d.curSubMenu = some sub := by
      by_contra h
      exact hcond (Or.inr (fun h1 => h h1.symm))
    refine ⟨s, rfl, ⟨cm, hcm, hcur⟩, ⟨csub, hcsub, hvis⟩, ?_⟩
    intro old cm0 c0 hcm0 hcur0 hne
    rw [← Option.some.inj hcm0, hcur] at hcur0
    exact absurd (Option.some.inj hcur0).symm hne

theorem PopupSubMenu_single_open_witness :
    ∃ s1, Menu_PopupSubMenu (idleVirtuals none) 2 [0] [0, 1, 0] 70 10 menuState = some s1 ∧
      (∃ c, s1.root.get? [0] = some c ∧ c.d.curSubMenu = some [0, 1, 0]) ∧
      (∃ c, s1.root.get? [0, 1, 0] = some c ∧ c.d.Visible = true) ∧
      ∀ (old : Ptr) (cm c0 : Control), menuState.root.get? [0] = some cm →
        cm.d.curSubMenu = some old → old ≠ [0, 1, 0] → menuState.root.get? old = some c0 →
        c0.d.Visible = true → menuState.Popups.count old ≤ 1 →
          (∃ c, s1.root.get? old = some c ∧ c.d.Visible = false) ∧ old ∉ s1.Popups :=
  PopupSubMenu_single_open sampleConsts (idleVirtuals none) menuState [0] [0, 1, 0] 70 10
    [[0, 0, 0]] 2 (idleVirtuals_keepMenus none sampleConsts)
    (OpenChain.cons [0] [0, 0, 0] [] _ rfl rfl rfl
      (fun ch item hch hpi => by
        have hc : some ch = menuState.root.get? [0, 0, 0] := hch.symm
        have := Option.some.inj hc
        subst this
        have hi : some item = some [0, 0] := hpi.symm
        have := Option.some.inj hi
        subst this
        exact ⟨rfl, rfl⟩)
      (OpenChain.nil [0, 0, 0] _ rfl rfl rfl))
    (by decide) ⟨_, rfl, rfl⟩ (by decide)

/-- What `Menu::CloseMenu` does to the focus in its middle part: when it returns, the value
`b` of `!parentItem || parentItem->isButton` is defined, and `FocusedControl` is what
`lastFocusedCtrl->SetFocus()` left when `b` holds and a control is recorded, and untouched
otherwise. -/
theorem Menu_CloseMenu_restore_focus (V : Virtuals) (self : Ptr) (s2 s4 : UIState) (c : Control)
    (hc : s2.root.get? self = some c) (h : Menu_CloseMenu_restore V self s2 = some s4) :
    ∃ b, Menu_restoreCondition s2 c = some b ∧
      s4.FocusedControl =
        (if b then
          match s2.lastFocusedCtrl with
          | some lf => V.SetFocus lf s2
          | none => s2
        else s2).FocusedControl := by
  unfold Menu_CloseMenu_restore at h
  simp only [hc] at h
  unfold Menu_restoreCondition
  generalize (match c.d.parentItem with
    | none => some true
    | some item =>
      match s2.root.get? item with
      | some ic => some ic.d.isButton
      | none => none) = cond at h
  cases cond with
  | none => simp at h
  | some b =>
    refine ⟨b, rfl, ?_⟩
    simp only [] at h
    generalize (if b = true then
      match s2.lastFocusedCtrl with
      | some lf => V.SetFocus lf s2
      | none => s2
      else s2) = s3 at h
    split at h
    · simp at h
    · split at h
      · rw [← Option.some.inj h]
      · split at h
        · simp at h
        · split at h
          · rw [← Option.some.inj h]
          · rw [← Option.some.inj h]

theorem Menu_CloseMenu_detach_focus (self : Ptr) (s4 s1 : UIState)
    (h : Menu_CloseMenu_detach self s4 = some s1) : s1.FocusedControl = s4.FocusedControl := by
  unfold Menu_CloseMenu_detach at h
  split at h
  · simp at h
  · have hr : ∀ (p : Option Ptr) (t : UIState),
        (Menu_CloseMenu_resetParent p t).FocusedControl = t.FocusedControl := by
      intro p t
      unfold Menu_CloseMenu_resetParent
      split
      · split <;> rfl
      · rfl
    have hm : ∀ t : UIState, (ReleaseMouse self t).FocusedControl = t.FocusedControl := by
      intro t
      unfold ReleaseMouse
      split <;> rfl
    simp only [] at h
    split at h
    · split at h
      · rw [← Option.some.inj h]
        show (ReleaseMouse self _).FocusedControl = _
        rw [hm]
        exact hr _ _
      · rw [← Option.some.inj h]
        show (ReleaseMouse self _).FocusedControl = _
        rw [hm]
        exact hr _ _
    · rw [← Option.some.inj h]
      show (ReleaseMouse self _).FocusedControl = _
      rw [hm]
      exact hr _ _

theorem Menu_restoreCondition_iff (s : UIState) (c : Control) (b : Bool)
    (h : Menu_restoreCondition s c = some b) :
    b = true ↔ (c.d.parentItem = none ∨
      ∃ item ic, c.d.parentItem = some item ∧ s.root.get? item = some ic ∧
        ic.d.isButton = true) := by
  unfold Menu_restoreCondition at h
  cases hp : c.d.parentItem with
  | none =>
    rw [hp] at h
    simp only [Option.some.injEq] at h
    simp [← h]
  | some item =>
    rw [hp] at h
    simp only [] at h
    cases hi : s.root.get? item with
    | none => rw [hi] at h; simp at h
    | some ic =>
      rw [hi] at h
      simp only [Option.some.injEq] at h
      constructor
      · intro hb
        exact Or.inr ⟨item, ic, rfl, hi, by rw [h]; exact hb⟩
      · rintro (h0 | ⟨item1, ic1, h1, h2, h3⟩)
        · simp at h0
        · have : item1 = item := (Option.some.inj h1).symm
          subst this
          rw [hi] at h2
          rw [← h, Option.some.inj h2]
          exact h3

theorem Menu_restoreCondition_congr (a b : UIState) (ca cb : Control)
    (hp : cb.d.parentItem = ca.d.parentItem)
    (hb : ∀ q, (b.root.get? q).map (fun n => n.d.isButton) =
      (a.root.get? q).map (fun n => n.d.isButton)) :
    Menu_restoreCondition b cb = Menu_restoreCondition a ca := by
  unfold Menu_restoreCondition
  rw [hp]
  cases ca.d.parentItem with
  | none => rfl
  | some item =>
    have h := hb item
    simp only []
    cases h1 : b.root.get? item with
    | none =>
      cases h2 : a.root.get? item with
      | none => rfl
      | some ia => rw [h1, h2] at h; simp at h
    | some ib =>
      cases h2 : a.root.get? item with
      | none => rw [h1, h2] at h; simp at h
      | some ia =>
        rw [h1, h2] at h
        simp only [Option.map_some', Option.some.injEq] at h
        simp only [h]

theorem isButton_modify (root : Control) (p : Ptr) (f : ControlData → ControlData)
    (hf : ∀ d, (f d).isButton = d.isButton) (q : Ptr) :
    ((root.modify p f).get? q).map (fun n => n.d.isButton) =
      (root.get? q).map (fun n => n.d.isButton) := by
  have h := congrArg (Option.map (fun d : ControlData => d.isButton)) (modify_get?_d root p q f)
  simp only [Option.map_map] at h
  rw [show (fun n : Control => n.d.isButton) = (fun d : ControlData => d.isButton) ∘ Control.d
    from rfl, h]
  congr 1
  funext n
  simp only [Function.comp]
  split
  · exact hf _
  · rfl

/-- C11 (the claim as written fails): closing the visible submenu `subA`, whose parent item
is not button-style, does not restore the recorded control `[0]` (the focus stays where it
was), while with a button-style parent item the same call does restore it. -/
theorem CloseMenu_plain_item_keeps_focus :
    (closeState false).lastFocusedCtrl = some [0] ∧
    ((closeState false).root.get? [0, 0]).map (fun c => c.d.isButton) = some false ∧
    (Menu_CloseMenu (idleVirtuals none) [0, 0, 0] (closeState false)).map
      (fun s => s.FocusedControl) = some (some [0, 0, 0]) ∧
    (Menu_CloseMenu (idleVirtuals none) [0, 0, 0] (closeState true)).map
      (fun s => s.FocusedControl) = some (some [0]) := by
  refine ⟨rfl, rfl, rfl, rfl⟩

/-- C11 (amended): `Menu::CloseMenu()` on a visible menu returns, and it restores the focus
to the control recorded in `lastFocusedCtrl` exactly when one is recorded and the menu has no
parent item or its parent item is button-style (`isButton` is true); when the parent item is
not button-style, or nothing is recorded, `FocusedControl` is left as it was.  (The handler
of `OnMenuClosed` leaves the focus, the recorded control and the items' `isButton` alone, and
`SetFocus` on a control makes it the focused one.) -/
theorem CloseMenu_restores_focus (K : TypeConsts) (V : Virtuals) (s : UIState) (self : Ptr)
    (c : Control) (hV : V.keepMenus K)
    (hfoc : ∀ p t, (V.OnMenuClosed p t).FocusedControl = t.FocusedControl)
    (hlast : ∀ p t, (V.OnMenuClosed p t).lastFocusedCtrl = t.lastFocusedCtrl)
    (hbtn : ∀ p t q, ((V.OnMenuClosed p t).root.get? q).map (fun n => n.d.isButton) =
      (t.root.get? q).map (fun n => n.d.isButton))
    (hset : ∀ p t, (V.SetFocus p t).FocusedControl = some p)
    (hc : s.root.get? self = some c) (hty : c.d.TypeTag = K.CT_MENU)
    (hvis : c.d.Visible = true)
    (hitem : ∀ item, c.d.parentItem = some item → (s.root.get? item).isSome = true) :
    ∃ s1, Menu_CloseMenu V self s = some s1 ∧
      (∀ lf, s.lastFocusedCtrl = some lf →
        (c.d.parentItem = none ∨ ∃ item ic, c.d.parentItem = some item ∧
          s.root.get? item = some ic ∧ ic.d.isButton = true) →
        s1.FocusedControl = some lf) ∧
      ((s.lastFocusedCtrl = none ∨ ∃ item ic, c.d.parentItem = some item ∧
          s.root.get? item = some ic ∧ ic.d.isButton = false) →
        s1.FocusedControl = s.FocusedControl) := by
  obtain ⟨s1, hs1, _⟩ := Menu_CloseMenu_spec K V hV self s
    (self :: (c.d.parentItem.bind Ptr.Parent).toList) c hc hty hitem
    (List.mem_cons_self _ _)
    (fun item par hi hp => by simp [hi, hp])
  refine ⟨s1, hs1, ?_⟩
  have h := hs1
  unfold Menu_CloseMenu at h
  simp only [hc, hvis, if_true] at h
  -- the state in which the focus is restored
  have hk1 : menuKept K [self] [] [] s
      { s with root := s.root.modify self (fun d => { d with Visible := false }) } :=
    menuKept_modify K [self] [] [] s _ self _ rfl (fun _ _ => rfl) (fun _ => rfl)
      (fun _ => rfl) (Or.inl (List.mem_singleton.2 rfl)) (Or.inr (fun _ => rfl))
  have hk2 := menuKept_trans_nil hk1 (hV.onMenuClosed self
    { s with root := s.root.modify self (fun d => { d with Visible := false }) })
  obtain ⟨c2, hc2, _⟩ := menuKept_get hk2 self c hc
  have hp2 : c2.d.parentItem = c.d.parentItem := (hk2.2.1 self c c2 hc hc2 hty).1
  have hcond : Menu_restoreCondition (V.OnMenuClosed self
      { s with root := s.root.modify self (fun d => { d with Visible := false }) }) c2 =
      Menu_restoreCondition s c := by
    refine Menu_restoreCondition_congr _ _ _ _ hp2 ?_
    intro q
    rw [hbtn]
    exact isButton_modify s.root self (fun d => { d with Visible := false }) (fun _ => rfl) q
  split at h
  · simp at h
  · rename_i s4 hs4
    obtain ⟨b, hb, hf4⟩ := Menu_CloseMenu_restore_focus V self _ s4 c2 hc2 hs4
    rw [hcond] at hb
    have hiff := Menu_restoreCondition_iff s c b hb
    have hf1 := Menu_CloseMenu_detach_focus self s4 s1 h
    rw [hlast] at hf4
    constructor
    · intro lf hlf hcase
      have hbt : b = true := hiff.2 hcase
      rw [hf1, hf4, hbt, hlf]
      simp only [if_true]
      exact hset _ _
    · rintro (hnone | ⟨item, ic, hi, hget, hbut⟩)
      · rw [hf1, hf4, hnone]
        cases b <;> exact hfoc _ _
      · have hbf : b = false := by
          cases b with
          | false => rfl
          | true =>
            rcases hiff.1 rfl with h0 | ⟨item1, ic1, h1, h2, h3⟩
            · rw [hi] at h0; simp at h0
            · rw [hi] at h1
              have := Option.some.inj h1
              subst this
              rw [hget] at h2
              rw [Option.some.inj h2, h3] at hbut
              simp at hbut
        rw [hf1, hf4, hbf]
        simp only [Bool.false_eq_true, if_false]
        exact hfoc _ _

theorem CloseMenu_restores_focus_witness :
    ∃ c, (closeState true).root.get? [0, 0, 0] = some c ∧
      ∃ s1, Menu_CloseMenu (idleVirtuals none) [0, 0, 0] (closeState true) = some s1 ∧
        (∀ lf, (closeState true).lastFocusedCtrl = some lf →
          (c.d.parentItem = none ∨ ∃ item ic, c.d.parentItem = some item ∧
            (closeState true).root.get? item = some ic ∧ ic.d.isButton = true) →
          s1.FocusedControl = some lf) ∧
        (((closeState true).lastFocusedCtrl = none ∨ ∃ item ic, c.d.parentItem = some item ∧
            (closeState true).root.get? item = some ic ∧ ic.d.isButton = false) →
          s1.FocusedControl = (closeState true).FocusedControl) :=
  ⟨_, rfl, CloseMenu_restores_focus sampleConsts (idleVirtuals none) (closeState true)
    [0, 0, 0] _ (idleVirtuals_keepMenus none sampleConsts) (fun _ _ => rfl) (fun _ _ => rfl)
    (fun _ _ _ => rfl) (fun _ _ => rfl) rfl rfl rfl
    (fun item hi => by
      have h : some item = some [0, 0] := hi.symm
      have := Option.some.inj h
      subst this
      rfl)⟩

theorem Menu_clearSelected_get (items : List Ptr) :
    ∀ (root : Control) (q : Ptr),
      ((Menu_clearSelected items root).get? q).map Control.d =
        (root.get? q).map
          (fun n => if q ∈ items then { n.d with Selected := false } else n.d) := by
  induction items with
  | nil =>
    intro root q
    simp [Menu_clearSelected]
  | cons item rest ih =>
    intro root q
    have h1 := ih (root.modify item (fun d => { d with Selected := false })) q
    have h2 := modify_get?_d root item q (fun d => { d with Selected := false })
    show ((Menu_clearSelected rest _).get? q).map Control.d = _
    rw [h1]
    have h3 : ((root.modify item (fun d => { d with Selected := false })).get? q).map
        (fun n => if q ∈ rest then { n.d with Selected := false } else n.d) =
        (((root.modify item (fun d => { d with Selected := false })).get? q).map
          Control.d).map (fun d => if q ∈ rest then { d with Selected := false } else d) := by
      rw [Option.map_map]
      rfl
    rw [h3, h2, Option.map_map]
    congr 1
    funext n
    simp only [Function.comp, List.mem_cons]
    by_cases hq : q = item
    · simp [hq]
    · simp [hq]

/-- The tree after `Items[j]->Selected = true` following the loop that clears `Selected`:
each control keeps its members except `Selected`, which is set for the item `sel` alone among
the items. -/
theorem Menu_select_get (items : List Ptr) (root : Control) (sel q : Ptr) :
    (((Menu_clearSelected items root).modify sel
      (fun d => { d with Selected := true })).get? q).map Control.d =
      (root.get? q).map (fun n =>
        if q = sel then { n.d with Selected := true }
        else if q ∈ items then { n.d with Selected := false } else n.d) := by
  rw [modify_get?_d]
  have h := Menu_clearSelected_get items root q
  have h3 : ((Menu_clearSelected items root).get? q).map
      (fun n => if q = sel then { n.d with Selected := true } else n.d) =
      (((Menu_clearSelected items root).get? q).map Control.d).map
        (fun d => if q = sel then { d with Selected := true } else d) := by
    rw [Option.map_map]
    rfl
  rw [h3, h, Option.map_map]
  congr 1
  funext n
  simp only [Function.comp]
  by_cases hq : q = sel
  · subst hq
    by_cases hm : q ∈ items <;> simp [hm]
  · simp [hq]

theorem selectable_clearSelected (items : List Ptr) (root : Control) (q : Ptr) :
    selectable (Menu_clearSelected items root) q = selectable root q := by
  have h := Menu_clearSelected_get items root q
  unfold selectable
  cases h1 : (Menu_clearSelected items root).get? q with
  | none =>
    cases h2 : root.get? q with
    | none => rfl
    | some n => rw [h1, h2] at h; simp at h
  | some m =>
    cases h2 : root.get? q with
    | none => rw [h1, h2] at h; simp at h
    | some n =>
      rw [h1, h2] at h
      simp only [Option.map_some', Option.some.injEq] at h
      show (!m.d.isSeperator && m.d.Visible && m.d.Enabled) =
        (!n.d.isSeperator && n.d.Visible && n.d.Enabled)
      rw [h]
      split <;> rfl

theorem itemAt_cast (items : List Ptr) (p : Nat) : itemAt items (p : Int) = items[p]? := by
  unfold itemAt
  rw [if_neg (by omega)]
  simp

theorem Menu_DoKeyDown_inc_cast (n p : Nat) :
    Menu_DoKeyDown_inc (n : Int) (p : Int) = (((p + 1) % n : Nat) : Int) := by
  unfold Menu_DoKeyDown_inc cmod
  rw [Int.ofNat_tmod]
  rfl

theorem Menu_DoKeyDown_dec_cast (n p : Nat) (hp : p < n) :
    Menu_DoKeyDown_dec (n : Int) (p : Int) = ((if p = 0 then n - 1 else p - 1 : Nat) : Int) := by
  unfold Menu_DoKeyDown_dec cmod
  simp only []
  by_cases h0 : p = 0
  · subst h0
    have h1 : ((0 : Nat) : Int) - 1 + (n : Int) = ((n - 1 : Nat) : Int) := by omega
    rw [if_pos (by omega), if_pos rfl, h1, ← Int.ofNat_tmod, Nat.mod_eq_of_lt (by omega)]
  · have h1 : (p : Int) - 1 = ((p - 1 : Nat) : Int) := by omega
    rw [if_neg (by omega), if_neg h0, h1, ← Int.ofNat_tmod, Nat.mod_eq_of_lt (by omega)]

theorem selectable_of_get (root : Control) (item : Ptr) (ic : Control)
    (h : root.get? item = some ic) :
    selectable root item = (!ic.d.isSeperator && ic.d.Visible && ic.d.Enabled) := by
  unfold selectable
  rw [h]

/-- The search loop of `Menu::DoKeyDown`, started at the position `pos k` of an enumeration
`pos 1, pos 2, ...` of the indices that `next` walks through and that reaches `id` at
`pos Items.Count()`: it stops at the first position from `k` on whose item can take the
selection, which it selects, or at `id`. -/
theorem Menu_DoKeyDown_scan_spec (items : List Ptr) (idN : Nat) (next : Int → Int)
    (root : Control) (pos : Nat → Nat)
    (hvalid : ∀ item ∈ items, (root.get? item).isSome = true)
    (hlt : ∀ k, pos k < items.length)
    (hnext : ∀ k, 1 ≤ k → k < items.length → next (pos k : Int) = (pos (k + 1) : Int))
    (hend : pos items.length = idN)
    (hne : ∀ k, 1 ≤ k → k < items.length → pos k ≠ idN) :
    ∀ (m k : Nat), k + m = items.length → 1 ≤ k →
      ∃ kk, k ≤ kk ∧ kk ≤ items.length ∧
        (∀ k1, k ≤ k1 → k1 < kk → ∀ item, items[pos k1]? = some item →
          selectable root item = false) ∧
        (kk < items.length → ∀ item, items[pos kk]? = some item →
          selectable root item = true) ∧
        ∃ item, items[pos kk]? = some item ∧
          Menu_DoKeyDown_scan items (idN : Int) next root (m + 1) (pos k : Int) =
            some ((pos kk : Int),
              if kk = items.length then root
              else root.modify item (fun d => { d with Selected := true })) := by
  intro m
  induction m with
  | zero =>
    intro k hk h1
    have hkn : k = items.length := by omega
    subst hkn
    refine ⟨items.length, le_refl _, le_refl _, ?_, ?_, ?_⟩
    · intro k1 h2 h3
      omega
    · intro h2
      omega
    · refine ⟨items.get ⟨pos items.length, hlt _⟩, ?_, ?_⟩
      · rw [List.getElem?_eq_getElem (hlt _)]
        rfl
      · unfold Menu_DoKeyDown_scan
        rw [if_pos (by rw [hend]), if_pos rfl]
  | succ m ih =>
    intro k hk h1
    have hkn : k < items.length := by omega
    have hitem : items[pos k]? = some (items.get ⟨pos k, hlt k⟩) := by
      rw [List.getElem?_eq_getElem (hlt _)]
      rfl
    obtain ⟨ic, hic⟩ := Option.isSome_iff_exists.1
      (hvalid (items.get ⟨pos k, hlt k⟩) (List.get_mem _ _ _))
    have hsel := selectable_of_get root _ ic hic
    have hidne : ¬ ((pos k : Int) = (idN : Int)) := by
      intro h
      exact hne k h1 hkn (by exact_mod_cast h)
    unfold Menu_DoKeyDown_scan
    rw [if_neg hidne, itemAt_cast, hitem]
    simp only [hic]
    by_cases hs : (!ic.d.isSeperator && ic.d.Visible && ic.d.Enabled) = true
    · rw [if_pos hs]
      refine ⟨k, le_refl _, le_of_lt hkn, ?_, ?_, ?_⟩
      · intro k1 h2 h3
        omega
      · intro _ item hi
        rw [hitem] at hi
        rw [← Option.some.inj hi, hsel]
        exact hs
      · refine ⟨_, hitem, ?_⟩
        rw [if_neg (by omega)]
    · rw [if_neg hs, hnext k h1 hkn]
      obtain ⟨kk, h2, h3, h4, h5, h6⟩ := ih (k + 1) (by omega) (by omega)
      refine ⟨kk, by omega, h3, ?_, h5, h6⟩
      intro k1 h7 h8 item hi
      by_cases hk1 : k1 = k
      · subst hk1
        rw [hitem] at hi
        rw [← Option.some.inj hi, hsel]
        simpa using hs
      · exact h4 k1 (by omega) h8 item hi

theorem mod_two_ranges (a n : Nat) (h : a < 2 * n) :
    a % n = if a < n then a else a - n := by
  split
  · exact Nat.mod_eq_of_lt (by assumption)
  · rw [Nat.mod_eq_sub_mod (by omega), Nat.mod_eq_of_lt (by omega)]

theorem cyclicIndex_lt (down : Bool) (n id k : Nat) (hn : 0 < n) :
    cyclicIndex down n id k < n := by
  unfold cyclicIndex
  split <;> exact Nat.mod_lt _ hn

theorem cyclicIndex_end (down : Bool) (n id : Nat) (hid : id < n) :
    cyclicIndex down n id n = id := by
  unfold cyclicIndex
  split
  · rw [mod_two_ranges _ _ (by omega)]
    split <;> omega
  · rw [mod_two_ranges _ _ (by omega)]
    split <;> omega

theorem cyclicIndex_ne (down : Bool) (n id k : Nat) (hid : id < n) (h1 : 1 ≤ k) (hk : k < n) :
    cyclicIndex down n id k ≠ id := by
  unfold cyclicIndex
  split
  · rw [mod_two_ranges _ _ (by omega)]
    split <;> omega
  · rw [mod_two_ranges _ _ (by omega)]
    split <;> omega

theorem cyclicIndex_inc (n id k : Nat) :
    Menu_DoKeyDown_inc (n : Int) (cyclicIndex true n id k : Int) =
      (cyclicIndex true n id (k + 1) : Int) := by
  rw [Menu_DoKeyDown_inc_cast]
  unfold cyclicIndex
  simp only [if_true]
  rw [Nat.mod_add_mod, Nat.add_assoc]

theorem cyclicIndex_dec (n id k : Nat) (hid : id < n) (hk : k < n) :
    Menu_DoKeyDown_dec (n : Int) (cyclicIndex false n id k : Int) =
      (cyclicIndex false n id (k + 1) : Int) := by
  rw [Menu_DoKeyDown_dec_cast n _ (cyclicIndex_lt false n id k (by omega))]
  unfold cyclicIndex
  simp only [Bool.false_eq_true, if_false]
  rw [mod_two_ranges (id + n - k) n (by omega), mod_two_ranges (id + n - (k + 1)) n (by omega)]
  congr 1
  split_ifs <;> omega

theorem cyclicIndex_zero (down : Bool) (n id : Nat) (hid : id < n) :
    cyclicIndex down n id 0 = id := by
  unfold cyclicIndex
  split
  · exact Nat.mod_eq_of_lt hid
  · rw [mod_two_ranges _ _ (by omega)]
    split <;> omega

theorem Menu_clearSelected_valid (items : List Ptr) (root : Control) (q : Ptr) :
    ((Menu_clearSelected items root).get? q).isSome = (root.get? q).isSome := by
  have h := congrArg Option.isSome (Menu_clearSelected_get items root q)
  simpa using h

theorem Menu_selectItem_cast (items : List Ptr) (p : Nat) (item : Ptr) (root : Control)
    (hi : items[p]? = some item) (hv : (root.get? item).isSome = true) :
    Menu_selectItem items (p : Int) root =
      some (root.modify item (fun d => { d with Selected := true })) := by
  obtain ⟨ic, hic⟩ := Option.isSome_iff_exists.1 hv
  unfold Menu_selectItem
  rw [itemAt_cast, hi]
  simp only [hic]

/-- After the loop that clears `Selected` and the statement that selects `sel`, an item of
the list has `Selected` set exactly when it is `sel`. -/
theorem isSelected_after (items : List Ptr) (root : Control) (sel q : Ptr) (hq : q ∈ items)
    (hv : (root.get? q).isSome = true) :
    isSelected ((Menu_clearSelected items root).modify sel
      (fun d => { d with Selected := true })) q = true ↔ q = sel := by
  have h := Menu_select_get items root sel q
  obtain ⟨n, hn⟩ := Option.isSome_iff_exists.1 hv
  rw [hn] at h
  unfold isSelected
  cases h1 : ((Menu_clearSelected items root).modify sel
      (fun d => { d with Selected := true })).get? q with
  | none => rw [h1] at h; simp at h
  | some m =>
    rw [h1] at h
    simp only [Option.map_some', Option.some.injEq] at h
    show m.d.Selected = true ↔ q = sel
    rw [h]
    by_cases hqs : q = sel
    · simp [hqs]
    · simp [hqs, hq]

/-- The Up/Down block of `Menu::DoKeyDown` on a list of distinct live items of which the item
`id` is the starting point: it returns, and `Selected` ends up set for exactly one item, the
one `k` places after (Down) or before (Up) `id` in cyclic order, where `k` is the least number
of places from 1 on at which the item can take the selection, or the full round back to
`id`. -/
theorem Menu_DoKeyDown_vertical_spec (items : List Ptr) (root : Control) (down : Bool)
    (idN : Nat) (hvalid : ∀ item ∈ items, (root.get? item).isSome = true)
    (hnodup : items.Nodup) (hid : idN < items.length) :
    ∃ k root2, Menu_DoKeyDown_vertical items down (idN : Int) root = some root2 ∧
      1 ≤ k ∧ k ≤ items.length ∧
      (∀ k1, 1 ≤ k1 → k1 < k → ∀ item,
        items[cyclicIndex down items.length idN k1]? = some item →
          selectable root item = false) ∧
      (k < items.length → ∀ item, items[cyclicIndex down items.length idN k]? = some item →
        selectable root item = true) ∧
      (∀ (i : Nat) (item : Ptr), items[i]? = some item →
        (isSelected root2 item = true ↔ i = cyclicIndex down items.length idN k)) := by
  have hn : 0 < items.length := by omega
  have hvalid1 : ∀ item ∈ items,
      ((Menu_clearSelected items root).get? item).isSome = true := by
    intro item hi
    rw [Menu_clearSelected_valid]
    exact hvalid item hi
  have hnext : ∀ k, 1 ≤ k → k < items.length →
      (if down then Menu_DoKeyDown_inc (items.length : Int)
        else Menu_DoKeyDown_dec (items.length : Int))
        (cyclicIndex down items.length idN k : Int) =
        (cyclicIndex down items.length idN (k + 1) : Int) := by
    intro k _ hk
    cases down with
    | true => exact cyclicIndex_inc _ _ _
    | false => exact cyclicIndex_dec _ _ _ hid hk
  obtain ⟨kk, h1, h2, h3, h4, item, hitem, hscan⟩ :=
    Menu_DoKeyDown_scan_spec items idN
      (if down then Menu_DoKeyDown_inc (items.length : Int)
        else Menu_DoKeyDown_dec (items.length : Int))
      (Menu_clearSelected items root) (cyclicIndex down items.length idN) hvalid1
      (fun k => cyclicIndex_lt down _ _ k hn) hnext (cyclicIndex_end down _ _ hid)
      (fun k hk1 hk => cyclicIndex_ne down _ _ k hid hk1 hk)
      (items.length - 1) 1 (by omega) (le_refl _)
  have hm : items.length - 1 + 1 = items.length := by omega
  rw [hm] at hscan
  have hcount : ¬ ((items.length : Int) = 0) := by omega
  have hitemv : ((Menu_clearSelected items root).get? item).isSome = true :=
    hvalid1 item (List.getElem?_mem hitem)
  -- the tree after the statement that follows the loop
  have hfinish : ∀ (extra : Prop) [Decidable extra], extra →
      (if (cyclicIndex down items.length idN kk : Int) = (idN : Int) ∧ extra then
        Menu_selectItem items (idN : Int)
          (if kk = items.length then Menu_clearSelected items root
            else (Menu_clearSelected items root).modify item
              (fun d => { d with Selected := true }))
        else some (if kk = items.length then Menu_clearSelected items root
            else (Menu_clearSelected items root).modify item
              (fun d => { d with Selected := true }))) =
        some ((Menu_clearSelected items root).modify item
          (fun d => { d with Selected := true })) := by
    intro extra _ hextra
    by_cases hkk : kk = items.length
    · have hpos : cyclicIndex down items.length idN kk = idN := by
        rw [hkk]
        exact cyclicIndex_end down _ _ hid
      rw [if_pos ⟨by rw [hpos], hextra⟩, if_pos hkk]
      rw [hpos] at hitem
      exact Menu_selectItem_cast items idN item _ hitem hitemv
    · have hpos : cyclicIndex down items.length idN kk ≠ idN :=
        cyclicIndex_ne down _ _ kk hid h1 (by omega)
      rw [if_neg (fun h => hpos (by exact_mod_cast h.1)), if_neg hkk]
  refine ⟨kk, (Menu_clearSelected items root).modify item
    (fun d => { d with Selected := true }), ?_, h1, h2, ?_, ?_, ?_⟩
  · unfold Menu_DoKeyDown_vertical
    simp only []
    rw [if_neg hcount]
    cases down with
    | true =>
      simp only [if_true] at hscan ⊢
      have h0 : cmod ((idN : Int) + 1) (items.length : Int) =
          (cyclicIndex true items.length idN 1 : Int) := by
        have := cyclicIndex_inc items.length idN 0
        rw [cyclicIndex_zero true _ _ hid] at this
        exact this
      rw [h0, hscan]
      simp only []
      have := hfinish True trivial
      simp only [and_true] at this
      exact this
    | false =>
      simp only [Bool.false_eq_true, if_false] at hscan ⊢
      have h0 : cmod (if (idN : Int) - 1 < 0 then (idN : Int) - 1 + (items.length : Int)
          else (idN : Int) - 1) (items.length : Int) =
          (cyclicIndex false items.length idN 1 : Int) := by
        have := cyclicIndex_dec items.length idN 0 hid hn
        rw [cyclicIndex_zero false _ _ hid] at this
        exact this
      rw [h0, hscan]
      simp only []
      exact hfinish ((idN : Int) ≠ -1) (by omega)
  · intro k1 hk1 hk2 it hit
    rw [← selectable_clearSelected items root it]
    exact h3 k1 hk1 hk2 it hit
  · intro hk it hit
    rw [← selectable_clearSelected items root it]
    exact h4 hk it hit
  · intro i it hit
    rw [isSelected_after items root item it (List.getElem?_mem hit)
      (hvalid it (List.getElem?_mem hit))]
    have hi : i < items.length := (List.getElem?_eq_some_iff.1 hit).1
    have hj : cyclicIndex down items.length idN kk < items.length :=
      cyclicIndex_lt down _ _ kk hn
    have e1 : items[i] = it := (List.getElem?_eq_some_iff.1 hit).2
    have e2 : items[cyclicIndex down items.length idN kk] = item :=
      (List.getElem?_eq_some_iff.1 hitem).2
    rw [← e1, ← e2]
    exact hnodup.getElem_inj_iff

theorem Menu_GetSelectedItemID_loop_congr (a b : Control)
    (h : ∀ q, (b.get? q).map (fun n => menuView n.d) = (a.get? q).map (fun n => menuView n.d)) :
    ∀ (items : List Ptr) (i : Int),
      Menu_GetSelectedItemID_loop b items i = Menu_GetSelectedItemID_loop a items i := by
  intro items
  induction items with
  | nil => intro i; rfl
  | cons item rest ih =>
    intro i
    have hq := h item
    unfold Menu_GetSelectedItemID_loop
    cases hb : b.get? item with
    | none =>
      cases ha : a.get? item with
      | none => rfl
      | some na => rw [hb, ha] at hq; simp at hq
    | some nb =>
      cases ha : a.get? item with
      | none => rw [hb, ha] at hq; simp at hq
      | some na =>
        rw [hb, ha] at hq
        simp only [Option.map_some', Option.some.injEq, menuView, Prod.mk.injEq] at hq
        obtain ⟨e1, e2, e3, e4, _⟩ := hq
        simp only [e1, e2, e3, e4, ih]

theorem Menu_GetSelectedItemID_loop_spec (root : Control) :
    ∀ (items : List Ptr) (i0 id : Int), 0 ≤ i0 →
      Menu_GetSelectedItemID_loop root items i0 = some id → id ≠ -1 →
        i0 ≤ id ∧ ∃ item, items[(id - i0).toNat]? = some item ∧
          selectable root item = true ∧ isSelected root item = true := by
  intro items
  induction items with
  | nil =>
    intro i0 id _ h hne
    simp only [Menu_GetSelectedItemID_loop, Option.some.injEq] at h
    exact absurd h.symm hne
  | cons item rest ih =>
    intro i0 id h0 h hne
    unfold Menu_GetSelectedItemID_loop at h
    cases hi : root.get? item with
    | none => rw [hi] at h; simp at h
    | some ic =>
      rw [hi] at h
      simp only [] at h
      split at h
      · rename_i hsel
        have hid : i0 = id := Option.some.inj h
        subst hid
        simp only [Bool.and_eq_true, Bool.not_eq_true'] at hsel
        refine ⟨le_refl _, item, by simp, ?_, ?_⟩
        · rw [selectable_of_get root item ic hi]
          simp [hsel.1.1.2, hsel.1.2, hsel.2]
        · unfold isSelected
          rw [hi]
          exact hsel.1.1.1
      · obtain ⟨h1, it, h2, h3, h4⟩ := ih (i0 + 1) id (by omega) h hne
        refine ⟨by omega, it, ?_, h3, h4⟩
        have e : (id - i0).toNat = (id - (i0 + 1)).toNat + 1 := by omega
        rw [e, List.getElem?_cons_succ]
        exact h2

theorem selectable_congr (a b : Control) (q : Ptr)
    (h : (b.get? q).map (fun n => menuView n.d) = (a.get? q).map (fun n => menuView n.d)) :
    selectable b q = selectable a q := by
  unfold selectable
  cases hb : b.get? q with
  | none =>
    cases ha : a.get? q with
    | none => rfl
    | some na => rw [hb, ha] at h; simp at h
  | some nb =>
    cases ha : a.get? q with
    | none => rw [hb, ha] at h; simp at h
    | some na =>
      rw [hb, ha] at h
      simp only [Option.map_some', Option.some.injEq, menuView, Prod.mk.injEq] at h
      obtain ⟨e1, e2, _, e4, _⟩ := h
      simp only [e1, e2, e4]

theorem menuView_valid (a b : Control) (q : Ptr)
    (h : (b.get? q).map (fun n => menuView n.d) = (a.get? q).map (fun n => menuView n.d)) :
    (b.get? q).isSome = (a.get? q).isSome := by
  have := congrArg Option.isSome h
  simpa using this

theorem Menu_parentMainMenu_isSome (K : TypeConsts) (root : Control) (c : Control)
    (h : ∀ item, c.d.parentItem = some item → (root.get? item).isSome = true) :
    (Menu_parentMainMenu K root c).isSome = true := by
  unfold Menu_parentMainMenu
  cases hp : c.d.parentItem with
  | none => rfl
  | some item =>
    have hv := h item hp
    obtain ⟨ic, hic⟩ := Option.isSome_iff_exists.1 hv
    simp only [hic]
    cases item with
    | nil => rfl
    | cons i par =>
      have hpar := get?_parent_isSome root i par hv
      obtain ⟨pc, hpc⟩ := Option.isSome_iff_exists.1 hpar
      simp only [Ptr.Parent, hpc]
      split <;> rfl

/-- C12: in a visible, enabled popup menu whose `GetSelectedItemID()` is `id >= 0`,
`Menu::DoKeyDown` with Down (respectively Up) returns `true` and leaves exactly one item with
`Selected` set: the item `k` places after (respectively before) `id` in cyclic index order,
where `k >= 1` is the least number of places at which the item is non-separator, Visible and
Enabled; no item strictly between qualifies, and `k` is the full round (the item `id` itself)
when no other item qualifies.  (The items are distinct live controls, and showing the
mnemonic keys leaves the members read here alone.) -/
theorem DoKeyDown_moves_selection (Keys : KeyConsts) (K : TypeConsts) (V : Virtuals)
    (otherKeys : Ptr → Nat → UIState → Option (Bool × UIState)) (s : UIState) (self : Ptr)
    (c : Control) (Key Shift id : Nat)
    (hframe : ∀ p v t q, ((V.ShowMnemonicKey p v t).root.get? q).map (fun n => menuView n.d) =
      (t.root.get? q).map (fun n => menuView n.d))
    (hc : s.root.get? self = some c) (hen : c.d.Enabled = true) (hvis : c.d.Visible = true)
    (hstyle : c.d.style = .msPopup)
    (hparent : ∀ item, c.d.parentItem = some item → (s.root.get? item).isSome = true)
    (hitems : ∀ item ∈ c.d.Items, (s.root.get? item).isSome = true)
    (hnodup : c.d.Items.Nodup)
    (hid : Menu_GetSelectedItemID s.root c.d.Items = some (id : Int))
    (hkey : Key = Keys.Down ∨ Key = Keys.Up)
    (hletter : ¬ ((65 ≤ Key ∧ Key ≤ 90) ∨ (48 ≤ Key ∧ Key ≤ 57)))
    (hspace : Key ≠ Keys.Space) (hreturn : Key ≠ Keys.Return) :
    ∃ s1 k, Menu_DoKeyDown Keys K V otherKeys self Key Shift s = some (true, s1) ∧
      1 ≤ k ∧ k ≤ c.d.Items.length ∧
      (∀ (i : Nat) (item : Ptr), c.d.Items[i]? = some item →
        (isSelected s1.root item = true ↔
          i = cyclicIndex (decide (Key = Keys.Down)) c.d.Items.length id k)) ∧
      (∀ item, c.d.Items[cyclicIndex (decide (Key = Keys.Down)) c.d.Items.length id k]? =
        some item → selectable s.root item = true) ∧
      (∀ k1, 1 ≤ k1 → k1 < k → ∀ item,
        c.d.Items[cyclicIndex (decide (Key = Keys.Down)) c.d.Items.length id k1]? =
          some item → selectable s.root item = false) := by
  -- the state after `if (Shift & SS_ALT) ShowMnemonicKey(true);`
  obtain ⟨t, ht, hview⟩ : ∃ t : UIState,
      (if Shift &&& Keys.SS_ALT ≠ 0 then V.ShowMnemonicKey self true s else s) = t ∧
      ∀ q, (t.root.get? q).map (fun n => menuView n.d) =
        (s.root.get? q).map (fun n => menuView n.d) := by
    refine ⟨_, rfl, ?_⟩
    intro q
    split
    · exact hframe _ _ _ _
    · rfl
  obtain ⟨c1, hc1, hv1⟩ : ∃ c1, t.root.get? self = some c1 ∧ menuView c1.d = menuView c.d := by
    have h := hview self
    rw [hc] at h
    cases h1 : t.root.get? self with
    | none => rw [h1] at h; simp at h
    | some c1 =>
      rw [h1] at h
      exact ⟨c1, rfl, by simpa using h⟩
  simp only [menuView, Prod.mk.injEq] at hv1
  obtain ⟨_, _, _, _, hst1, hit1, hpar1, _⟩ := hv1
  -- what `GetSelectedItemID` says about the item `id`
  obtain ⟨_, item0, hitem0, hsel0, _⟩ := Menu_GetSelectedItemID_loop_spec s.root c.d.Items 0
    (id : Int) (le_refl _) hid (by omega)
  have hidx : ((id : Int) - 0).toNat = id := by omega
  rw [hidx] at hitem0
  have hidlt : id < c.d.Items.length := (List.getElem?_eq_some_iff.1 hitem0).1
  obtain ⟨k, root2, hvert, hk1, hk2, hbefore, hat, hselected⟩ :=
    Menu_DoKeyDown_vertical_spec c.d.Items t.root (decide (Key = Keys.Down)) id
      (fun item hi => by rw [menuView_valid s.root t.root item (hview item)]; exact hitems item hi)
      hnodup hidlt
  refine ⟨{ t with root := root2 }, k, ?_, hk1, hk2, hselected, ?_, ?_⟩
  · unfold Menu_DoKeyDown
    simp only [hc, hen, hvis, Bool.not_true, Bool.or_self, Bool.false_eq_true, if_false]
    rw [ht, if_neg hletter]
    simp only [hc1, hit1]
    have hid1 : Menu_GetSelectedItemID t.root c.d.Items = some (id : Int) := by
      unfold Menu_GetSelectedItemID at hid ⊢
      rw [Menu_GetSelectedItemID_loop_congr s.root t.root hview]
      exact hid
    rw [hid1]
    simp only []
    rw [if_neg (by
      rintro (h | h)
      · exact hspace h
      · exact hreturn h), if_pos (by rw [hst1]; exact hstyle)]
    obtain ⟨pm, hpm⟩ := Option.isSome_iff_exists.1 (Menu_parentMainMenu_isSome K t.root c1
      (fun item hi => by
        rw [menuView_valid s.root t.root item (hview item)]
        exact hparent item (by rw [← hpar1]; exact hi)))
    rw [hpm]
    simp only []
    rw [if_pos (by
      rcases hkey with h | h
      · exact Or.inr h
      · exact Or.inl h), hvert]
  · intro item hi
    by_cases hkn : k < c.d.Items.length
    · rw [← selectable_congr s.root t.root item (hview item)]
      exact hat hkn item hi
    · have hke : k = c.d.Items.length := by omega
      rw [hke, cyclicIndex_end _ _ _ hidlt, hitem0] at hi
      rw [← Option.some.inj hi]
      exact hsel0
  · intro k1 h1 h2 item hi
    rw [← selectable_congr s.root t.root item (hview item)]
    exact hbefore k1 h1 h2 item hi

theorem DoKeyDown_moves_selection_witness :
    ∃ c, keyMenuState.root.get? [0] = some c ∧
      ∃ s1 k, Menu_DoKeyDown sampleKeys sampleConsts (idleVirtuals none) (fun _ _ _ => none)
          [0] 40 0 keyMenuState = some (true, s1) ∧
        1 ≤ k ∧ k ≤ c.d.Items.length ∧
        (∀ (i : Nat) (item : Ptr), c.d.Items[i]? = some item →
          (isSelected s1.root item = true ↔
            i = cyclicIndex (decide (40 = sampleKeys.Down)) c.d.Items.length 0 k)) ∧
        (∀ item, c.d.Items[cyclicIndex (decide (40 = sampleKeys.Down)) c.d.Items.length 0 k]? =
          some item → selectable keyMenuState.root item = true) ∧
        (∀ k1, 1 ≤ k1 → k1 < k → ∀ item,
          c.d.Items[cyclicIndex (decide (40 = sampleKeys.Down)) c.d.Items.length 0 k1]? =
            some item → selectable keyMenuState.root item = false) :=
  ⟨_, rfl, DoKeyDown_moves_selection sampleKeys sampleConsts (idleVirtuals none)
    (fun _ _ _ => none) keyMenuState [0] _ 40 0 0 (fun _ _ _ _ => rfl) rfl rfl rfl rfl
    (fun item h => by cases h)
    (fun item hi => by
      have h2 : item ∈ [[0, 0], [1, 0], [2, 0]] := hi
      simp only [List.mem_cons, List.mem_singleton, List.not_mem_nil, or_false] at h2
      rcases h2 with h | h | h <;> subst h <;> rfl)
    (by
      show [[0, 0], [1, 0], [2, 0]].Nodup
      decide)
    rfl (Or.inl rfl) (by decide) (by decide) (by decide)⟩

/-- C17 (the code misses the case): on a menu with two items `Menu::GetItem` returns the item
for `id = 1` and throws `IndexOutofRangeException` for `id = 2`, but for `id = -1` the test
`id < Items.Count()` passes and `Items[-1]` is read: no exception is thrown by `GetItem`. -/
theorem GetItem_negative_id_not_signalled :
    Menu_GetItem [[0, 0], [1, 0]] 1 = some (.ok [1, 0]) ∧
    Menu_GetItem [[0, 0], [1, 0]] 2 = some (.error .IndexOutofRangeException) ∧
    Menu_GetItem [[0, 0], [1, 0]] (-1) = none ∧
    Menu_GetItem [[0, 0], [1, 0]] (-1) ≠ some (.error .IndexOutofRangeException) := by
  refine ⟨rfl, rfl, rfl, ?_⟩
  intro h
  have h2 : Menu_GetItem [[0, 0], [1, 0]] (-1) = none := rfl
  rw [h2] at h
  cases h

/-- C16 (the claim as written fails): on a scroll bar with range `[0, 100]`,
`SetPosition(150)` does not leave `Position = 100` and `Max = 100`: it resets `Min`, `Max`
and `Position` to 0 and hides the slider. -/
theorem SetPosition_out_of_range_resets :
    (ScrollBar.SetPosition 17 (fun sb => sb) (fun _ _ _ _ _ => (20, 0)) sampleScrollBar
      150).Position = 0 ∧
    (ScrollBar.SetPosition 17 (fun sb => sb) (fun _ _ _ _ _ => (20, 0)) sampleScrollBar
      150).Max = 0 ∧
    sampleScrollBar.Max = 100 := by
  refine ⟨rfl, rfl, rfl⟩

/-- C16 (amended): `ScrollBar::SetPosition(p)` with `p` outside the range `[Min, Max]`
returns without signalling an error, and afterwards `Min`, `Max` and `Position` are all 0
and the slider is hidden; the other members are untouched and no change notification is
sent. -/
theorem SetPosition_out_of_range (B : Int) (OnChanged : ScrollBar → ScrollBar)
    (geometry : Int → Int → Int → Int → Int → Int × Int) (sb : ScrollBar) (p : Int)
    (h : p < sb.Min ∨ p > sb.Max) :
    ScrollBar.SetPosition B OnChanged geometry sb p =
      { sb with Slider := { sb.Slider with Visible := false }, Min := 0, Max := 0,
                Position := 0 } := by
  unfold ScrollBar.SetPosition ScrollBar.SetValue
  simp only []
  rw [if_neg]
  intro ⟨_, _, h3, h4⟩
  omega

theorem SetPosition_out_of_range_witness :
    ScrollBar.SetPosition 17 (fun sb => sb) (fun _ _ _ _ _ => (20, 0)) sampleScrollBar (-5) =
      { sampleScrollBar with Slider := { sampleScrollBar.Slider with Visible := false },
                             Min := 0, Max := 0, Position := 0 } :=
  SetPosition_out_of_range 17 (fun sb => sb) (fun _ _ _ _ _ => (20, 0)) sampleScrollBar (-5)
    (Or.inl (by decide))

theorem AddRect_cRect_extent (s : ClipRectStack) (r c : Rect)
    (hc : ClipRectStack.AddRect_cRect s r = some c) :
    0 ≤ c.x ∧ 0 ≤ c.y ∧
    (∀ t, ClipRectStack.GetTop s = some t →
      (0 ≤ c.w ↔ max (max r.x t.x) 0 ≤ min (r.x + r.w) (t.x + t.w)) ∧
      (0 ≤ c.h ↔ max (max r.y t.y) 0 ≤ min (r.y + r.h) (t.y + t.h))) ∧
    (s.StackSize = 0 →
      (0 ≤ c.w ↔ max r.x 0 ≤ r.x + r.w) ∧ (0 ≤ c.h ↔ max r.y 0 ≤ r.y + r.h)) := by
  unfold ClipRectStack.AddRect_cRect at hc
  by_cases h0 : s.StackSize = 0
  · simp only [h0, ne_eq, not_true_eq_false, if_false, Option.some.injEq] at hc
    subst hc
    refine ⟨?_, ?_, ?_, ?_⟩
    · split <;> split <;> (try dsimp only at *) <;> omega
    · split <;> split <;> (try dsimp only at *) <;> omega
    · intro t ht
      simp [ClipRectStack.GetTop, h0] at ht
    · intro _
      constructor
      · split <;> split <;> (try dsimp only at *) <;> omega
      · split <;> split <;> (try dsimp only at *) <;> omega
  · simp only [ne_eq, h0, not_false_eq_true, if_true] at hc
    cases hb : s.Buffer[s.StackSize - 1]? with
    | none => rw [hb] at hc; simp at hc
    | some top =>
      rw [hb] at hc
      simp only [Option.some.injEq] at hc
      subst hc
      refine ⟨?_, ?_, ?_, ?_⟩
      · split <;> split <;> (try dsimp only at *) <;> omega
      · split <;> split <;> (try dsimp only at *) <;> omega
      · intro t ht
        have ht2 : s.Buffer[s.StackSize - 1]? = some t := by
          simpa [ClipRectStack.GetTop, h0] using ht
        rw [hb] at ht2
        have := Option.some.inj ht2
        subst this
        constructor
        · split <;> split <;> (try dsimp only at *) <;> omega
        · split <;> split <;> (try dsimp only at *) <;> omega
      · intro h
        exact absurd h h0

/-- C20 (the claim as written fails): with `(0, 0, 10, 10)` on top of the stack,
`AddRect(Rect(20, 20, 5, 5))`, an input that does not overlap the top, pushes and issues as
clip region the rectangle `(20, 20, -10, -10)`, whose `w` and `h` are negative. -/
theorem AddRect_pushes_negative_extent :
    (ClipRectStack.AddRect sampleClipStack ⟨20, 20, 5, 5⟩).bind ClipRectStack.GetTop =
      some ⟨20, 20, -10, -10⟩ ∧
    (ClipRectStack.AddRect sampleClipStack ⟨20, 20, 5, 5⟩).map (fun s => s.graphics) =
      some [⟨20, 20, -10, -10⟩] := by
  refine ⟨rfl, rfl⟩

/-- C20 (amended): on a stack with a free slot `ClipRectStack::AddRect` returns, and the
rectangle `c` it pushes and issues as clip region has `x >= 0` and `y >= 0`; its `w` is
`>= 0` exactly when the horizontal extents of the input and of the current top (when there
is one) and the half-line `x >= 0` have a point in common, and likewise its `h`; no clamping
of `w` and `h` takes place. -/
theorem AddRect_pushed_extent (s : ClipRectStack) (r : Rect)
    (h : s.StackSize < s.Buffer.length) :
    ∃ c s1, ClipRectStack.AddRect s r = some s1 ∧ ClipRectStack.GetTop s1 = some c ∧
      s1.graphics = s.graphics ++ [c] ∧ 0 ≤ c.x ∧ 0 ≤ c.y ∧
      (∀ t, ClipRectStack.GetTop s = some t →
        (0 ≤ c.w ↔ max (max r.x t.x) 0 ≤ min (r.x + r.w) (t.x + t.w)) ∧
        (0 ≤ c.h ↔ max (max r.y t.y) 0 ≤ min (r.y + r.h) (t.y + t.h))) ∧
      (s.StackSize = 0 →
        (0 ≤ c.w ↔ max r.x 0 ≤ r.x + r.w) ∧ (0 ≤ c.h ↔ max r.y 0 ≤ r.y + r.h)) := by
  obtain ⟨c, hc, hadd⟩ := ClipRectStack.AddRect_eq_push s r h
  obtain ⟨h1, h2, h3, h4⟩ := AddRect_cRect_extent s r c hc
  exact ⟨c, _, hadd, ClipRectStack.GetTop_after_push s c _ h, rfl, h1, h2, h3, h4⟩

theorem AddRect_pushed_extent_witness :
    ∃ c s1, ClipRectStack.AddRect sampleClipStack ⟨5, -3, 20, 8⟩ = some s1 ∧
      ClipRectStack.GetTop s1 = some c ∧
      s1.graphics = sampleClipStack.graphics ++ [c] ∧ 0 ≤ c.x ∧ 0 ≤ c.y ∧
      (∀ t, ClipRectStack.GetTop sampleClipStack = some t →
        (0 ≤ c.w ↔ max (max (5 : Int) t.x) 0 ≤ min (5 + 20) (t.x + t.w)) ∧
        (0 ≤ c.h ↔ max (max (-3 : Int) t.y) 0 ≤ min (-3 + 8) (t.y + t.h))) ∧
      (sampleClipStack.StackSize = 0 →
        (0 ≤ c.w ↔ max (5 : Int) 0 ≤ 5 + 20) ∧ (0 ≤ c.h ↔ max (-3 : Int) 0 ≤ -3 + 8)) :=
  AddRect_pushed_extent sampleClipStack ⟨5, -3, 20, 8⟩ (by decide)

theorem Ptr_Parent_ne_self (p : Ptr) : p.Parent ≠ some p := by
  cases p with
  | nil => simp [Ptr.Parent]
  | cons i rest =>
    intro h
    have h1 : rest = i :: rest := Option.some.inj h
    have h2 := congrArg List.length h1
    simp at h2

/-- C15: after the destructor of a control `c` owned by the `UIEntry` has run, from any
state, none of `Global::PointedComponent`, `Global::MouseCaptureControl` and the entry's
`FocusedControl` refers to `c` (nor does `lastFocusedCtrl`). -/
theorem Control_dtor_clears_references (c : Ptr) (s : UIState) :
    (Control_dtor c true s).PointedComponent ≠ some c ∧
    (Control_dtor c true s).MouseCaptureControl ≠ some c ∧
    (Control_dtor c true s).FocusedControl ≠ some c ∧
    (Control_dtor c true s).lastFocusedCtrl ≠ some c := by
  unfold Control_dtor
  simp only [true_and]
  refine ⟨?_, ?_, ?_, ?_⟩
  · split_ifs <;> first | exact Ptr_Parent_ne_self c | assumption
  · split_ifs <;> first | (intro h; cases h) | assumption
  · split_ifs <;> first | (intro h; cases h) | assumption
  · split_ifs <;> first | (intro h; cases h) | assumption

/-- C18 (the code misses the claim): `Control::Draw` on a control with `BackgroundShadow`
and clipped drawing, entered with the clip rectangles `(0, 0, 100, 100)` and, on top,
`(10, 10, 50, 50)`, returns with the same depth but with the top entry replaced by a copy of
the entry below it: `PopRect` returns the new top, not the rectangle it popped, and that is
what `PushRect(R)` pushes back.  Without `BackgroundShadow` the stack is left as it was. -/
theorem Control_Draw_replaces_top_clip :
    ClipRectStack.entries drawClipStack = [⟨0, 0, 100, 100⟩, ⟨10, 10, 50, 50⟩] ∧
    (Control_Draw_clip shadowControl drawClipStack).map ClipRectStack.entries =
      some [⟨0, 0, 100, 100⟩, ⟨0, 0, 100, 100⟩] ∧
    (Control_Draw_clip (plainControl 10 10 50 50).d drawClipStack).map ClipRectStack.entries =
      some [⟨0, 0, 100, 100⟩, ⟨10, 10, 50, 50⟩] := by
  refine ⟨rfl, rfl, rfl⟩

/-- `Container::ArrangeControls` writes `clientRect` and, for an auto-sized container,
`Width` / `Height`, and no other member of the container. -/
theorem Container_ArrangeControls_data
    (posit : Control → Int → Int → Int → Int → Option Control) (d : ControlData)
    (cs : List Control) (init : Rect) (r : Control)
    (h : Container_ArrangeControls posit d cs init = some r) :
    r.d = { d with clientRect := r.d.clientRect, Width := r.d.Width, Height := r.d.Height } ∧
    (d.AutoWidth = false → r.d.Width = d.Width) ∧
    (d.AutoHeight = false → r.d.Height = d.Height) := by
  unfold Container_ArrangeControls at h
  simp only [] at h
  split at h
  · simp at h
  · split at h
    · simp at h
    · split at h
      · simp at h
      · split at h
        · have hr := Option.some.inj h
          subst hr
          by_cases hw : d.AutoWidth = true <;> by_cases hh : d.AutoHeight = true <;>
            simp [hw, hh, Control.d]
        · have hr := Option.some.inj h
          subst hr
          rename_i hauto
          simp only [not_or, Bool.not_eq_true] at hauto
          simp [Control.d]

theorem SizeChanged_data (fuel : Nat) (x r : Control)
    (h : Control.SizeChanged fuel x = some r) :
    r.d = { x.d with clientRect := r.d.clientRect, Width := r.d.Width, Height := r.d.Height } ∧
    ((x.d.isContainer = true → x.d.AutoWidth = false) → r.d.Width = x.d.Width) ∧
    ((x.d.isContainer = true → x.d.AutoHeight = false) → r.d.Height = x.d.Height) := by
  cases fuel with
  | zero => simp [Control.SizeChanged] at h
  | succ n =>
    cases x with
    | mk d cs =>
      unfold Control.SizeChanged at h
      simp only [] at h
      by_cases hc : d.isContainer = true
      · rw [if_pos hc] at h
        obtain ⟨h1, h2, h3⟩ := Container_ArrangeControls_data _ _ _ _ _ h
        refine ⟨h1, ?_, ?_⟩
        · intro ha
          exact h2 (ha hc)
        · intro ha
          exact h3 (ha hc)
      · rw [if_neg hc] at h
        have hr := Option.some.inj h
        subst hr
        simp [Control.d]

theorem Control_eta (c : Control) : Control.mk c.d c.controls = c := by
  cases c
  rfl

theorem fits_child (n : Nat) (d d1 : ControlData) (cs : List Control) (c : Control)
    (h : (Control.mk d cs).fits (n + 1)) (hc : c ∈ cs) : (Control.mk d1 c.controls).fits n := by
  obtain ⟨i, hi⟩ := List.getElem?_of_mem hc
  intro path m hm
  cases path with
  | nil =>
    have := h [i] c (by simp [Control.getPath, Control.controls, hi])
    simpa using this
  | cons j rest =>
    have h2 : (Control.mk d cs).getPath (i :: j :: rest) = some m := by
      simp only [Control.getPath, Control.controls, hi] at hm ⊢
      exact hm
    have := h _ m h2
    simp only [List.length_cons] at this ⊢
    omega

theorem ArrangeControls_dock_total (posit : Control → Int → Int → Int → Int → Option Control)
    (hkeep : ∀ c l t w h r, posit c l t w h = some r → r.d.DockStyle = c.d.DockStyle) :
    ∀ (cs : List Control),
      (∀ c ∈ cs, ∀ l t w h, ∃ r, posit c l t w h = some r) →
      ∀ cr, ∃ cr1 cs1, ArrangeControls_dock posit cr cs = some (cr1, cs1) ∧
        ∀ b ∈ cs1, b ∈ cs ∨ (b.d.DockStyle ≠ .dsFill ∧ b.d.DockStyle ≠ .dsNone) := by
  intro cs
  induction cs with
  | nil =>
    intro _ cr
    exact ⟨cr, [], rfl, fun b hb => by simp at hb⟩
  | cons c rest ih =>
    intro hP cr
    have hrest : ∀ c1 ∈ rest, ∀ l t w h, ∃ r, posit c1 l t w h = some r :=
      fun c1 h1 => hP c1 (List.mem_cons_of_mem _ h1)
    -- the head, positioned or left alone
    have hhead : ∃ cr2 c2, ArrangeControls_dockOne posit cr c = some (cr2, c2) ∧
        (c2 = c ∨ (c2.d.DockStyle ≠ .dsFill ∧ c2.d.DockStyle ≠ .dsNone)) := by
      unfold ArrangeControls_dockOne
      by_cases hv : c.d.Visible = true
      · simp only [hv, Bool.not_true, Bool.false_eq_true, if_false]
        cases hd : c.d.DockStyle with
        | dsNone => exact ⟨cr, c, rfl, Or.inl rfl⟩
        | dsFill => exact ⟨cr, c, rfl, Or.inl rfl⟩
        | dsTop =>
          obtain ⟨r, hr⟩ := hP c (List.mem_cons_self _ _) cr.x cr.y cr.w c.d.Height
          simp only [hr]
          exact ⟨_, r, rfl, Or.inr (by rw [hkeep _ _ _ _ _ _ hr, hd]; simp)⟩
        | dsBottom =>
          obtain ⟨r, hr⟩ := hP c (List.mem_cons_self _ _) cr.x (cr.y + cr.h - c.d.Height) cr.w
            c.d.Height
          simp only [hr]
          exact ⟨_, r, rfl, Or.inr (by rw [hkeep _ _ _ _ _ _ hr, hd]; simp)⟩
        | dsLeft =>
          obtain ⟨r, hr⟩ := hP c (List.mem_cons_self _ _) cr.x cr.y c.d.Width cr.h
          simp only [hr]
          exact ⟨_, r, rfl, Or.inr (by rw [hkeep _ _ _ _ _ _ hr, hd]; simp)⟩
        | dsRight =>
          obtain ⟨r, hr⟩ := hP c (List.mem_cons_self _ _) (cr.x + cr.w - c.d.Width) cr.y
            c.d.Width cr.h
          simp only [hr]
          exact ⟨_, r, rfl, Or.inr (by rw [hkeep _ _ _ _ _ _ hr, hd]; simp)⟩
      · have hv2 : c.d.Visible = false := by simpa using hv
        simp only [hv2, Bool.not_false, if_true]
        exact ⟨cr, c, rfl, Or.inl rfl⟩
    obtain ⟨cr2, c2, hh, hc2⟩ := hhead
    obtain ⟨cr1, cs1, hd1, hm1⟩ := ih hrest cr2
    refine ⟨cr1, c2 :: cs1, ?_, ?_⟩
    · unfold ArrangeControls_dock
      rw [hh]
      simp only [hd1]
    · intro b hb
      rcases List.mem_cons.1 hb with h1 | h1
      · subst h1
        rcases hc2 with h2 | h2
        · exact Or.inl (by rw [h2]; exact List.mem_cons_self _ _)
        · exact Or.inr h2
      · rcases hm1 b h1 with h2 | h2
        · exact Or.inl (List.mem_cons_of_mem _ h2)
        · exact Or.inr h2

theorem ArrangeControls_fill_total (posit : Control → Int → Int → Int → Int → Option Control)
    (hkeep : ∀ c l t w h r, posit c l t w h = some r → r.d.DockStyle = c.d.DockStyle)
    (cr : Rect) :
    ∀ (cs : List Control),
      (∀ c ∈ cs, c.d.DockStyle = .dsFill → ∀ l t w h, ∃ r, posit c l t w h = some r) →
      ∃ cs1, ArrangeControls_fill posit cr cs = some cs1 ∧
        ∀ b ∈ cs1, b ∈ cs ∨ b.d.DockStyle = .dsFill := by
  intro cs
  induction cs with
  | nil =>
    intro _
    exact ⟨[], rfl, fun b hb => by simp at hb⟩
  | cons c rest ih =>
    intro hP
    obtain ⟨cs1, hf1, hm1⟩ := ih (fun c1 h1 => hP c1 (List.mem_cons_of_mem _ h1))
    have hhead : ∃ c2, ArrangeControls_fillOne posit cr c = some c2 ∧
        (c2 = c ∨ c2.d.DockStyle = .dsFill) := by
      unfold ArrangeControls_fillOne
      by_cases hd : c.d.DockStyle = .dsFill
      · obtain ⟨r, hr⟩ := hP c (List.mem_cons_self _ _) hd 0 0 cr.w cr.h
        rw [if_pos hd, hr]
        exact ⟨r, rfl, Or.inr (by rw [hkeep _ _ _ _ _ _ hr, hd])⟩
      · rw [if_neg hd]
        exact ⟨c, rfl, Or.inl rfl⟩
    obtain ⟨c2, hh, hc2⟩ := hhead
    refine ⟨c2 :: cs1, ?_, ?_⟩
    · unfold ArrangeControls_fill
      rw [hh]
      simp only [hf1]
    · intro b hb
      rcases List.mem_cons.1 hb with h1 | h1
      · subst h1
        rcases hc2 with h2 | h2
        · exact Or.inl (by rw [h2]; exact List.mem_cons_self _ _)
        · exact Or.inr h2
      · rcases hm1 b h1 with h2 | h2
        · exact Or.inl (List.mem_cons_of_mem _ h2)
        · exact Or.inr h2

theorem ArrangeControls_flow_total (posit : Control → Int → Int → Int → Int → Option Control)
    (layout : ContainerLayoutType) (sw : Int) (cr : Rect) :
    ∀ (cs : List Control),
      (∀ c ∈ cs, c.d.DockStyle = .dsNone →
        ∀ d1 l t w h, ∃ r, posit (.mk d1 c.controls) l t w h = some r) →
      ∀ lx ly mh, ∃ cs1, ArrangeControls_flow posit layout sw cr lx ly mh cs = some cs1 := by
  intro cs
  induction cs with
  | nil =>
    intro _ lx ly mh
    exact ⟨[], rfl⟩
  | cons c rest ih =>
    intro hP lx ly mh
    have hhead : ∃ acc c2, ArrangeControls_flowOne posit layout sw cr lx ly mh c =
        some (acc, c2) := by
      unfold ArrangeControls_flowOne
      by_cases hd : c.d.DockStyle = .dsNone
      · rw [if_pos hd]
        simp only []
        by_cases hs : layout = .Stack
        · rw [if_pos hs]
          obtain ⟨r, hr⟩ := hP c (List.mem_cons_self _ _) hd _ _ _ sw _
          rw [hr]
          exact ⟨_, _, rfl⟩
        · rw [if_neg hs]
          exact ⟨_, _, rfl⟩
      · rw [if_neg hd]
        exact ⟨_, _, rfl⟩
    obtain ⟨⟨lx1, ly1, mh1⟩, c2, hh⟩ := hhead
    obtain ⟨cs1, hf1⟩ := ih (fun c1 h1 => hP c1 (List.mem_cons_of_mem _ h1)) lx1 ly1 mh1
    refine ⟨c2 :: cs1, ?_⟩
    unfold ArrangeControls_flow
    rw [hh]
    simp only [hf1]

theorem Container_ArrangeControls_total
    (posit : Control → Int → Int → Int → Int → Option Control)
    (hkeep : ∀ c l t w h r, posit c l t w h = some r → r.d.DockStyle = c.d.DockStyle)
    (d : ControlData) (cs : List Control) (init : Rect)
    (hP : ∀ c ∈ cs, ∀ d1 l t w h, ∃ r, posit (.mk d1 c.controls) l t w h = some r) :
    ∃ r, Container_ArrangeControls posit d cs init = some r := by
  have hP0 : ∀ c ∈ cs, ∀ l t w h, ∃ r, posit c l t w h = some r := by
    intro c hc l t w h
    have := hP c hc c.d l t w h
    rw [Control_eta] at this
    exact this
  unfold Container_ArrangeControls
  simp only []
  obtain ⟨cr1, cs1, h1, hm1⟩ := ArrangeControls_dock_total posit hkeep cs hP0 _
  rw [h1]
  simp only []
  obtain ⟨cs2, h2, hm2⟩ := ArrangeControls_fill_total posit hkeep cr1 cs1 (by
    intro c hc hd
    rcases hm1 c hc with h | h
    · exact hP0 c h
    · exact absurd hd h.1)
  rw [h2]
  simp only []
  obtain ⟨cs3, h3⟩ : ∃ cs3, (if d.layout = .Flow ∨ d.layout = .Stack then
      ArrangeControls_flow posit d.layout (d.Width - d.Padding.Horizontal) cr1 0 0 0 cs2
      else some cs2) = some cs3 := by
    split
    · refine ArrangeControls_flow_total posit _ _ _ cs2 ?_ 0 0 0
      intro c hc hd
      rcases hm2 c hc with h | h
      · rcases hm1 c h with h0 | h0
        · exact hP c h0
        · exact absurd hd h0.2
      · rw [hd] at h
        cases h
    · exact ⟨cs2, rfl⟩
  rw [h3]
  simp only []
  split <;> exact ⟨_, rfl⟩

theorem setBounds_d (c : Control) (l t w h : Int) :
    (c.setBounds l t w h).d = { c.d with Left := l, Top := t, Height := h, Width := w } := rfl

theorem setBounds_mk (d : ControlData) (cs : List Control) (l t w h : Int) :
    (Control.mk d cs).setBounds l t w h =
      .mk { d with Left := l, Top := t, Height := h, Width := w } cs := rfl

/-- `SizeChanged()` returns on every control tree that the bound `fuel` covers. -/
theorem SizeChanged_isSome : ∀ (fuel : Nat) (x : Control), x.fits fuel →
    ∃ r, Control.SizeChanged fuel x = some r := by
  intro fuel
  induction fuel with
  | zero =>
    intro x hx
    have := hx [] x rfl
    simp at this
  | succ n ih =>
    intro x hx
    cases x with
    | mk d cs =>
      unfold Control.SizeChanged
      simp only []
      split
      · refine Container_ArrangeControls_total _ ?_ _ cs _ ?_
        · intro c l t w h r hr
          rw [(SizeChanged_data n _ r hr).1]
          rfl
        · intro c hc d1 l t w h
          rw [setBounds_mk]
          exact ih _ (fits_child n d _ cs c hx hc)
      · exact ⟨_, rfl⟩

theorem ArrangeControls_fill_skip (posit : Control → Int → Int → Int → Int → Option Control)
    (cr : Rect) : ∀ (cs : List Control), (∀ c ∈ cs, c.d.DockStyle ≠ .dsFill) →
      ArrangeControls_fill posit cr cs = some cs := by
  intro cs
  induction cs with
  | nil => intro _; rfl
  | cons c rest ih =>
    intro h
    unfold ArrangeControls_fill ArrangeControls_fillOne
    rw [if_neg (h c (List.mem_cons_self _ _))]
    simp only [ih (fun c1 h1 => h c1 (List.mem_cons_of_mem _ h1))]

theorem ArrangeControls_flow_skip (posit : Control → Int → Int → Int → Int → Option Control)
    (layout : ContainerLayoutType) (sw : Int) (cr : Rect) :
    ∀ (cs : List Control), (∀ c ∈ cs, c.d.DockStyle ≠ .dsNone) →
      ∀ lx ly mh, ArrangeControls_flow posit layout sw cr lx ly mh cs = some cs := by
  intro cs
  induction cs with
  | nil => intro _ _ _ _; rfl
  | cons c rest ih =>
    intro h lx ly mh
    unfold ArrangeControls_flow ArrangeControls_flowOne
    rw [if_neg (h c (List.mem_cons_self _ _))]
    simp only [ih (fun c1 h1 => h c1 (List.mem_cons_of_mem _ h1))]

/-- What `Container::ArrangeControls` returns when, after the docking loop, no child is
filled or laid out in a flow: the children as the docking loop left them, and the remaining
rectangle as `clientRect`. -/
theorem Container_ArrangeControls_docked
    (posit : Control → Int → Int → Int → Int → Option Control) (d : ControlData)
    (cs cs1 : List Control) (init cr1 : Rect)
    (hdock : ArrangeControls_dock posit
      ⟨init.x + d.Padding.Left, init.y + d.Padding.Top, init.w - d.Padding.Horizontal,
        init.h - d.Padding.Vertical⟩ cs = some (cr1, cs1))
    (hstyle : ∀ c ∈ cs1, c.d.DockStyle ≠ .dsFill ∧ c.d.DockStyle ≠ .dsNone) :
    ∃ r, Container_ArrangeControls posit d cs init = some r ∧ r.controls = cs1 ∧
      r.d.clientRect = cr1 := by
  unfold Container_ArrangeControls
  simp only []
  rw [hdock]
  simp only []
  rw [ArrangeControls_fill_skip posit cr1 cs1 (fun c hc => (hstyle c hc).1)]
  simp only []
  have hflow : (if d.layout = .Flow ∨ d.layout = .Stack then
      ArrangeControls_flow posit d.layout (d.Width - d.Padding.Horizontal) cr1 0 0 0 cs1
      else some cs1) = some cs1 := by
    split
    · exact ArrangeControls_flow_skip posit _ _ _ cs1 (fun c hc => (hstyle c hc).2) 0 0 0
    · rfl
  rw [hflow]
  simp only []
  split
  · refine ⟨_, rfl, rfl, ?_⟩
    by_cases hw : d.AutoWidth = true <;> by_cases hh : d.AutoHeight = true <;>
      simp [hw, hh, Control.d]
  · exact ⟨_, rfl, rfl, rfl⟩

/-- In a tree of `Control` and `Container` objects, `SizeChanged()` on a container is
`Container::SizeChanged` with `Control::Posit` as the `Posit` of the children. -/
theorem SizeChanged_container (fuel : Nat) (c : Control) (hc : c.d.isContainer = true) :
    Control.SizeChanged (fuel + 1) c =
      Container_SizeChanged (fun ch l t w h => Control.Posit fuel ch l t w h) c := by
  cases c with
  | mk d cs =>
    unfold Control.SizeChanged Container_SizeChanged
    simp only []
    rw [if_pos (by exact hc)]
    rfl

/-- In a tree of `Control` and `Container` objects, `Posit` on a container is
`Container_Posit` with `Control::Posit` as the `Posit` of the children. -/
theorem Posit_container (fuel : Nat) (c : Control) (l t w h : Int)
    (hc : c.d.isContainer = true) :
    Control.Posit (fuel + 1) c l t w h =
      Container_Posit (fun ch l t w h => Control.Posit fuel ch l t w h) c l t w h := by
  unfold Control.Posit Container_Posit
  exact SizeChanged_container fuel _ (by cases c; exact hc)

/-- What `Posit` keeps of the control it is called on, whatever the control is. -/
theorem Posit_keeps (fuel : Nat) (c r : Control) (l t w h : Int)
    (hr : Control.SizeChanged fuel (c.setBounds l t w h) = some r) :
    r.d.Left = l ∧ r.d.Top = t ∧ r.d.DockStyle = c.d.DockStyle ∧ r.d.Visible = c.d.Visible ∧
      r.d.Margin = c.d.Margin := by
  obtain ⟨h1, _, _⟩ := SizeChanged_data fuel _ r hr
  refine ⟨?_, ?_, ?_, ?_, ?_⟩ <;> rw [h1] <;> rfl

theorem Posit_PositKeeps (fuel : Nat) :
    PositKeeps (fun c l t w h => Control.Posit fuel c l t w h) :=
  fun c l t w h r hr => Posit_keeps fuel c r l t w h hr

/-- In a tree of `Control` and `Container` objects, `Posit` leaves a control that is not an
auto-sized container with the size it is given. -/
theorem Posit_PositSized (fuel : Nat) (c : Control)
    (hauto : c.d.isContainer = true → c.d.AutoWidth = false ∧ c.d.AutoHeight = false) :
    PositSized (fun c l t w h => Control.Posit fuel c l t w h) c := by
  intro l t w h r hr
  obtain ⟨_, h2, h3⟩ := SizeChanged_data fuel _ r hr
  constructor
  · rw [h2 (fun hc => (hauto hc).1)]; rfl
  · rw [h3 (fun hc => (hauto hc).2)]; rfl

theorem setBounds_fits (fuel : Nat) (c : Control) (l t w h : Int) (hc : c.fits fuel) :
    (c.setBounds l t w h).fits fuel := by
  cases c with
  | mk d cs =>
    intro path n hp
    cases path with
    | nil =>
      have := hc [] _ rfl
      simpa using this
    | cons i rest => exact hc (i :: rest) n hp

/-- In a tree of `Control` and `Container` objects, `Posit` returns on a control that the
bound `fuel` covers. -/
theorem Posit_PositReturns (fuel : Nat) (c : Control)
    (hfit : ∀ d1, (Control.mk d1 c.controls).fits fuel) :
    PositReturns (fun c l t w h => Control.Posit fuel c l t w h) c :=
  fun d1 l t w h => SizeChanged_isSome fuel _ (setBounds_fits fuel _ l t w h (hfit d1))

theorem fits_leaf (d : ControlData) : (Control.mk d []).fits 1 := by
  intro path n hp
  cases path with
  | nil => simp
  | cons i rest => simp [Control.getPath, Control.controls] at hp

/-- A `Posit` that returns and keeps the size it is given leaves the control with exactly the
bounds it is given. -/
theorem PositSized_bounds (posit : Control → Int → Int → Int → Int → Option Control)
    (hkeep : PositKeeps posit) (c : Control) (l t w h : Int)
    (hret : PositReturns posit c) (hs : PositSized posit c) :
    ∃ r, posit c l t w h = some r ∧
      r.d.Left = l ∧ r.d.Top = t ∧ r.d.Width = w ∧ r.d.Height = h ∧
      r.d.DockStyle = c.d.DockStyle ∧ r.d.Visible = c.d.Visible := by
  obtain ⟨r, hr⟩ : ∃ r, posit c l t w h = some r := by
    have := hret c.d l t w h
    rw [Control_eta] at this
    exact this
  obtain ⟨k1, k2, k3, k4, _⟩ := hkeep c l t w h r hr
  obtain ⟨s1, s2⟩ := hs l t w h r hr
  exact ⟨r, hr, k1, k2, s1, s2, k3, k4⟩

/-- C13 (the claim as written fails): the container `autoTopTree` has padding 10 and a single
visible child docked Top with height 20, and is positioned at `(0, 0, 200, 100)`.  The child
is a container with `AutoHeight` whose content is 50 high: its `SizeChanged()` replaces the
height 20 it is given, the child ends at `(10, 10, 180, 50)`, not `(10, 10, 180, 20)`, and the
client rectangle is `(10, 60, 180, 30)`, not `(10, 30, 180, 60)`. -/
theorem ArrangeControls_auto_height_top_child_grows :
    autoTopTree.d.Padding = ⟨10, 10, 10, 10⟩ ∧
    autoTopTree.controls.map (fun c => (c.d.Visible, c.d.DockStyle, c.d.Height)) =
      [(true, .dsTop, 20)] ∧
    (Control.Posit 3 autoTopTree 0 0 200 100).map
        (fun r => (r.controls.map Control.bounds, r.d.clientRect)) =
      some ([⟨10, 10, 180, 50⟩], ⟨10, 60, 180, 30⟩) := by
  decide

/-- C13 (amended): for a container positioned at `(0, 0, W, H)` with uniform padding `p` whose
single child is visible, docked Top and of height `h`, and is left by `Posit` with the width
and height it is given (the child being of any class, its `Posit` the call `posit`), the
arrangement returns with the child at `(p, p, W - 2p, h)` and the client rectangle of the
container `(p, p + h, W - 2p, H - 2p - h)`. -/
theorem ArrangeControls_single_top_child
    (posit : Control → Int → Int → Int → Int → Option Control) (d : ControlData)
    (child : Control) (W H p h : Int) (hpad : d.Padding = ⟨p, p, p, p⟩)
    (hvis : child.d.Visible = true) (hdock : child.d.DockStyle = .dsTop)
    (hh : child.d.Height = h)
    (hkeep : PositKeeps posit) (hret : PositReturns posit child)
    (hsize : PositSized posit child) :
    ∃ r child1, Container_Posit posit (.mk d [child]) 0 0 W H = some r ∧
      r.controls = [child1] ∧
      child1.d.Left = p ∧ child1.d.Top = p ∧ child1.d.Width = W - 2 * p ∧
      child1.d.Height = h ∧
      r.d.clientRect = ⟨p, p + h, W - 2 * p, H - 2 * p - h⟩ := by
  obtain ⟨c1, hc1, hl, ht, hw, hht, hds, _⟩ := PositSized_bounds posit hkeep child p p
    (W - 2 * p) h hret hsize
  have hdk : ArrangeControls_dock posit
      ⟨0 + p, 0 + p, W - (p + p), H - (p + p)⟩ [child] =
      some (⟨p, p + h, W - 2 * p, H - 2 * p - h⟩, [c1]) := by
    unfold ArrangeControls_dock ArrangeControls_dockOne
    simp only [hvis, hdock, hh, Bool.not_true, Bool.false_eq_true, if_false]
    have e1 : (0 : Int) + p = p := by omega
    have e2 : W - (p + p) = W - 2 * p := by omega
    rw [e1, e2, hc1]
    simp only [ArrangeControls_dock, hht, Option.some.injEq, Prod.mk.injEq, and_true,
      Rect.mk.injEq, true_and]
    omega
  obtain ⟨r, hr, hrc, hrr⟩ := Container_ArrangeControls_docked posit
    { d with Left := 0, Top := 0, Height := H, Width := W, clientRect := ⟨0, 0, W, H⟩ }
    [child] [c1] ⟨0, 0, W, H⟩ ⟨p, p + h, W - 2 * p, H - 2 * p - h⟩
    (by
      simp only [hpad, MarginValues.Horizontal, MarginValues.Vertical]
      exact hdk)
    (by
      intro c hc
      rw [List.mem_singleton.1 hc, hds, hdock]
      simp)
  exact ⟨r, c1, hr, hrc, hl, ht, hw, hht, hrr⟩

/-- Witness for C13: the scenario of the specification, a container at `(0, 0, 200, 100)` with
padding 10 and one plain control docked Top with height 20, whose `Posit` is
`Control::Posit`. -/
theorem ArrangeControls_single_top_child_witness :
    ∃ r child1, Container_Posit (fun c l t w h => Control.Posit 1 c l t w h) dockTree
        0 0 200 100 = some r ∧
      r.controls = [child1] ∧
      child1.d.Left = 10 ∧ child1.d.Top = 10 ∧ child1.d.Width = 200 - 2 * 10 ∧
      child1.d.Height = 20 ∧
      r.d.clientRect = ⟨10, 10 + 20, 200 - 2 * 10, 100 - 2 * 10 - 20⟩ :=
  ArrangeControls_single_top_child (fun c l t w h => Control.Posit 1 c l t w h) dockTree.d
    (.mk { (plainControl 0 0 50 20).d with DockStyle := .dsTop } []) 200 100 10 20
    rfl rfl rfl rfl (Posit_PositKeeps 1) (Posit_PositReturns 1 _ fits_leaf)
    (Posit_PositSized 1 _ (fun _ => ⟨rfl, rfl⟩))

theorem ArrangeControls_dockOne_hidden
    (posit : Control → Int → Int → Int → Int → Option Control) (cr : Rect) (c : Control)
    (hv : c.d.Visible = false) : ArrangeControls_dockOne posit cr c = some (cr, c) := by
  unfold ArrangeControls_dockOne
  simp [hv]

theorem ArrangeControls_dockOne_top
    (posit : Control → Int → Int → Int → Int → Option Control) (hkeep : PositKeeps posit)
    (cr : Rect) (c : Control)
    (hv : c.d.Visible = true) (hd : c.d.DockStyle = .dsTop)
    (hret : PositReturns posit c) (hs : PositSized posit c) :
    ∃ c1, ArrangeControls_dockOne posit cr c =
        some ({ cr with y := cr.y + c.d.Height, h := cr.h - c.d.Height }, c1) ∧
      c1.d.DockStyle = .dsTop := by
  obtain ⟨c1, hc1, _, _, _, hh, hds, _⟩ :=
    PositSized_bounds posit hkeep c cr.x cr.y cr.w c.d.Height hret hs
  refine ⟨c1, ?_, by rw [hds, hd]⟩
  unfold ArrangeControls_dockOne
  simp only [hv, hd, Bool.not_true, Bool.false_eq_true, if_false, hc1, hh]

theorem ArrangeControls_dockOne_left
    (posit : Control → Int → Int → Int → Int → Option Control) (hkeep : PositKeeps posit)
    (cr : Rect) (c : Control)
    (hv : c.d.Visible = true) (hd : c.d.DockStyle = .dsLeft)
    (hret : PositReturns posit c) (hs : PositSized posit c) :
    ∃ c1, ArrangeControls_dockOne posit cr c =
        some ({ cr with x := cr.x + c.d.Width, w := cr.w - c.d.Width }, c1) ∧
      c1.d.DockStyle = .dsLeft := by
  obtain ⟨c1, hc1, _, _, hw, _, hds, _⟩ :=
    PositSized_bounds posit hkeep c cr.x cr.y c.d.Width cr.h hret hs
  refine ⟨c1, ?_, by rw [hds, hd]⟩
  unfold ArrangeControls_dockOne
  simp only [hv, hd, Bool.not_true, Bool.false_eq_true, if_false, hc1, hw]

theorem ArrangeControls_dockOne_top_any
    (posit : Control → Int → Int → Int → Int → Option Control) (hkeep : PositKeeps posit)
    (cr : Rect) (c : Control) (hd : c.d.DockStyle = .dsTop)
    (hret : PositReturns posit c) (hs : PositSized posit c) :
    ∃ cr1 c1, ArrangeControls_dockOne posit cr c = some (cr1, c1) ∧
      c1.d.DockStyle = .dsTop ∧ cr1.w = cr.w ∧
      (cr1.h = cr.h ∨ cr1.h = cr.h - c.d.Height) := by
  by_cases hv : c.d.Visible = true
  · obtain ⟨c1, h1, h2⟩ := ArrangeControls_dockOne_top posit hkeep cr c hv hd hret hs
    exact ⟨_, c1, h1, h2, rfl, Or.inr rfl⟩
  · have hv2 : c.d.Visible = false := by simpa using hv
    exact ⟨cr, c, ArrangeControls_dockOne_hidden _ cr c hv2, hd, rfl, Or.inl rfl⟩

theorem ArrangeControls_dockOne_left_any
    (posit : Control → Int → Int → Int → Int → Option Control) (hkeep : PositKeeps posit)
    (cr : Rect) (c : Control) (hd : c.d.DockStyle = .dsLeft)
    (hret : PositReturns posit c) (hs : PositSized posit c) :
    ∃ cr1 c1, ArrangeControls_dockOne posit cr c = some (cr1, c1) ∧
      c1.d.DockStyle = .dsLeft ∧ cr1.h = cr.h ∧
      (cr1.w = cr.w ∨ cr1.w = cr.w - c.d.Width) := by
  by_cases hv : c.d.Visible = true
  · obtain ⟨c1, h1, h2⟩ := ArrangeControls_dockOne_left posit hkeep cr c hv hd hret hs
    exact ⟨_, c1, h1, h2, rfl, Or.inr rfl⟩
  · have hv2 : c.d.Visible = false := by simpa using hv
    exact ⟨cr, c, ArrangeControls_dockOne_hidden _ cr c hv2, hd, rfl, Or.inl rfl⟩

/-- C14 (the claim as written fails): a container of size 20 x 20 with padding 5 holding a
Top child of height 20 and a Left child of width 20 is as large as the docked sizes, and the
client rectangle that `ArrangeControls` leaves is `(25, 25, -10, -10)`.  And without padding:
in `autoDockTwoTree`, 100 x 40, the Top child of height 10 is a container with `AutoHeight`
whose content is 50 high; its `SizeChanged()` replaces the height it is given by 50, and the
client rectangle that is left is `(20, 50, 80, -10)`. -/
theorem ArrangeControls_padding_negative_rect :
    (Control.Posit 2 (dockTwoTree 5) 0 0 20 20).map (fun r => r.d.clientRect) =
      some ⟨25, 25, -10, -10⟩ ∧
    autoDockTwoTree.controls.map (fun c => (c.d.DockStyle, c.d.Width, c.d.Height)) =
      [(.dsTop, 100, 10), (.dsLeft, 20, 50)] ∧
    (Control.Posit 3 autoDockTwoTree 0 0 100 40).map (fun r => r.d.clientRect) =
      some ⟨20, 50, 80, -10⟩ := by
  decide

/-- C14 (amended): for every container whose children are a Top child of height `h >= 0`
followed by a Left child of width `w >= 0`, each left by `Posit` with the width and height it
is given (the children being of any class, their `Posit` the call `posit`), whenever the
container is at least as large as the docked sizes plus its padding
(`Height >= h + Padding.Vertical()` and `Width >= w + Padding.Horizontal()`), the arrangement
returns and the client rectangle that remains has width `>= 0` and height `>= 0`. -/
theorem ArrangeControls_top_left_nonneg
    (posit : Control → Int → Int → Int → Int → Option Control) (d : ControlData)
    (top left : Control) (l t W H h w : Int)
    (htd : top.d.DockStyle = .dsTop) (hth : top.d.Height = h)
    (hld : left.d.DockStyle = .dsLeft) (hlw : left.d.Width = w)
    (hkeep : PositKeeps posit)
    (htr : PositReturns posit top) (hts : PositSized posit top)
    (hlr : PositReturns posit left) (hls : PositSized posit left)
    (h0 : 0 ≤ h) (w0 : 0 ≤ w)
    (hH : h + d.Padding.Vertical ≤ H) (hW : w + d.Padding.Horizontal ≤ W) :
    ∃ r, Container_Posit posit (.mk d [top, left]) l t W H = some r ∧
      0 ≤ r.d.clientRect.w ∧ 0 ≤ r.d.clientRect.h := by
  obtain ⟨crA, topA, hA, hAd, hAw, hAh⟩ := ArrangeControls_dockOne_top_any posit hkeep
    ⟨0 + d.Padding.Left, 0 + d.Padding.Top, W - d.Padding.Horizontal,
      H - d.Padding.Vertical⟩ top htd htr hts
  obtain ⟨crB, leftB, hB, hBd, hBh, hBw⟩ :=
    ArrangeControls_dockOne_left_any posit hkeep crA left hld hlr hls
  have hdk : ArrangeControls_dock posit
      ⟨0 + d.Padding.Left, 0 + d.Padding.Top, W - d.Padding.Horizontal,
        H - d.Padding.Vertical⟩ [top, left] = some (crB, [topA, leftB]) := by
    unfold ArrangeControls_dock
    rw [hA]
    simp only []
    unfold ArrangeControls_dock
    rw [hB]
    simp only [ArrangeControls_dock]
  obtain ⟨r, hr, _, hrr⟩ := Container_ArrangeControls_docked posit
    { d with Left := l, Top := t, Height := H, Width := W, clientRect := ⟨0, 0, W, H⟩ }
    [top, left] [topA, leftB] ⟨0, 0, W, H⟩ crB hdk
    (by
      intro c hc
      simp only [List.mem_cons, List.mem_singleton, List.not_mem_nil, or_false] at hc
      rcases hc with hc | hc
      · rw [hc, hAd]; simp
      · rw [hc, hBd]; simp)
  refine ⟨r, hr, ?_, ?_⟩
  · rw [hrr]
    simp only [] at hAw
    rcases hBw with h1 | h1 <;> rw [h1, hAw] <;> omega
  · rw [hrr, hBh]
    simp only [] at hAh
    rcases hAh with h1 | h1 <;> rw [h1] <;> omega

/-- Witness for C14: a 30 x 30 container with padding 2 holding a plain control docked Top
with height 20 and a plain control docked Left with width 20, whose `Posit` is
`Control::Posit`. -/
theorem ArrangeControls_top_left_nonneg_witness :
    ∃ r, Container_Posit (fun c l t w h => Control.Posit 1 c l t w h) (dockTwoTree 2)
        7 9 30 30 = some r ∧
      0 ≤ r.d.clientRect.w ∧ 0 ≤ r.d.clientRect.h :=
  ArrangeControls_top_left_nonneg (fun c l t w h => Control.Posit 1 c l t w h)
    (dockTwoTree 2).d
    (.mk { (plainControl 0 0 50 20).d with DockStyle := .dsTop } [])
    (.mk { (plainControl 0 0 20 50).d with DockStyle := .dsLeft } [])
    7 9 30 30 20 20 rfl rfl rfl rfl (Posit_PositKeeps 1)
    (Posit_PositReturns 1 _ fits_leaf) (Posit_PositSized 1 _ (fun _ => ⟨rfl, rfl⟩))
    (Posit_PositReturns 1 _ fits_leaf) (Posit_PositSized 1 _ (fun _ => ⟨rfl, rfl⟩))
    (by decide) (by decide) (by decide) (by decide)

theorem forall2_comp {α : Type} {R S T : α → α → Prop}
    (hcomp : ∀ a b c, R a b → S b c → T a c) :
    ∀ {l1 l2 l3 : List α}, List.Forall₂ R l1 l2 → List.Forall₂ S l2 l3 →
      List.Forall₂ T l1 l3 := by
  intro l1 l2 l3 h1
  induction h1 generalizing l3 with
  | nil =>
    intro h2
    cases h2
    exact List.Forall₂.nil
  | cons hab _ ih =>
    intro h2
    cases h2 with
    | cons hbc htl => exact List.Forall₂.cons (hcomp _ _ _ hab hbc) (ih htl)

theorem forall2_mem_right {α : Type} {R : α → α → Prop} :
    ∀ {l1 l2 : List α}, List.Forall₂ R l1 l2 → ∀ b ∈ l2, ∃ a ∈ l1, R a b := by
  intro l1 l2 h
  induction h with
  | nil => intro b hb; simp at hb
  | cons hab _ ih =>
    intro b hb
    rcases List.mem_cons.1 hb with h1 | h1
    · subst h1
      exact ⟨_, List.mem_cons_self _ _, hab⟩
    · obtain ⟨a, ha, hr⟩ := ih b h1
      exact ⟨a, List.mem_cons_of_mem _ ha, hr⟩

theorem ControlData_bounds_self (d : ControlData) (l t w h : Int) (hl : d.Left = l)
    (ht : d.Top = t) (hw : d.Width = w) (hh : d.Height = h) :
    { d with Left := l, Top := t, Height := h, Width := w } = d := by
  subst hl ht hw hh
  cases d
  rfl

theorem ControlData_leftTop_self (d : ControlData) (l t : Int) (hl : d.Left = l)
    (ht : d.Top = t) : { d with Left := l, Top := t } = d := by
  subst hl ht
  cases d
  rfl

theorem ArrangeControls_dockOne_skip
    (posit : Control → Int → Int → Int → Int → Option Control) (cr : Rect) (c : Control)
    (h : ¬ isDocked c) : ArrangeControls_dockOne posit cr c = some (cr, c) := by
  unfold ArrangeControls_dockOne
  by_cases hv : c.d.Visible = true
  · simp only [hv, Bool.not_true, Bool.false_eq_true, if_false]
    cases hd : c.d.DockStyle with
    | dsNone => rfl
    | dsFill => rfl
    | dsTop => exact absurd ⟨hv, Or.inl hd⟩ h
    | dsBottom => exact absurd ⟨hv, Or.inr (Or.inl hd)⟩ h
    | dsLeft => exact absurd ⟨hv, Or.inr (Or.inr (Or.inl hd))⟩ h
    | dsRight => exact absurd ⟨hv, Or.inr (Or.inr (Or.inr hd))⟩ h
  · have hv2 : c.d.Visible = false := by simpa using hv
    simp [hv2]

/-- The body of the docking loop run again on the child it produced, from the same remaining
rectangle, changes nothing. -/
theorem ArrangeControls_dockOne_fix
    (posit : Control → Int → Int → Int → Int → Option Control) (cr crA : Rect)
    (c c1 : Control) (hg : PositStable posit c)
    (h : ArrangeControls_dockOne posit cr c = some (crA, c1)) :
    ArrangeControls_dockOne posit cr c1 = some (crA, c1) ∧
      c1.d.DockStyle = c.d.DockStyle ∧ c1.d.Visible = c.d.Visible ∧
      (¬ isDocked c → c1 = c) := by
  by_cases hdk : isDocked c
  · obtain ⟨hv, hd⟩ := hdk
    unfold ArrangeControls_dockOne at h
    simp only [hv, Bool.not_true, Bool.false_eq_true, if_false] at h
    rcases hd with hd | hd | hd | hd
    · simp only [hd] at h
      cases hp : posit c cr.x cr.y cr.w c.d.Height with
      | none => rw [hp] at h; simp at h
      | some r =>
        rw [hp] at h
        simp only [Option.some.injEq, Prod.mk.injEq] at h
        obtain ⟨h1, h2⟩ := h
        subst h1 h2
        obtain ⟨hdata, hst⟩ := hg _ _ _ _ r hp
        have e1 : r.d.Visible = true := by rw [hdata]; exact hv
        have e2 : r.d.DockStyle = .dsTop := by rw [hdata]; exact hd
        have e3 : r.d.Height = c.d.Height := by rw [hdata]
        refine ⟨?_, by rw [e2, hd], by rw [e1, hv], fun hn => absurd ⟨hv, Or.inl hd⟩ hn⟩
        unfold ArrangeControls_dockOne
        simp only [e1, e2, Bool.not_true, Bool.false_eq_true, if_false]
        rw [e3, hst]
        simp only [e3]
    · simp only [hd] at h
      cases hp : posit c cr.x (cr.y + cr.h - c.d.Height) cr.w c.d.Height with
      | none => rw [hp] at h; simp at h
      | some r =>
        rw [hp] at h
        simp only [Option.some.injEq, Prod.mk.injEq] at h
        obtain ⟨h1, h2⟩ := h
        subst h1 h2
        obtain ⟨hdata, hst⟩ := hg _ _ _ _ r hp
        have e1 : r.d.Visible = true := by rw [hdata]; exact hv
        have e2 : r.d.DockStyle = .dsBottom := by rw [hdata]; exact hd
        have e3 : r.d.Height = c.d.Height := by rw [hdata]
        refine ⟨?_, by rw [e2, hd], by rw [e1, hv],
          fun hn => absurd ⟨hv, Or.inr (Or.inl hd)⟩ hn⟩
        unfold ArrangeControls_dockOne
        simp only [e1, e2, Bool.not_true, Bool.false_eq_true, if_false]
        rw [e3, hst]
        simp only [e3]
    · simp only [hd] at h
      cases hp : posit c cr.x cr.y c.d.Width cr.h with
      | none => rw [hp] at h; simp at h
      | some r =>
        rw [hp] at h
        simp only [Option.some.injEq, Prod.mk.injEq] at h
        obtain ⟨h1, h2⟩ := h
        subst h1 h2
        obtain ⟨hdata, hst⟩ := hg _ _ _ _ r hp
        have e1 : r.d.Visible = true := by rw [hdata]; exact hv
        have e2 : r.d.DockStyle = .dsLeft := by rw [hdata]; exact hd
        have e3 : r.d.Width = c.d.Width := by rw [hdata]
        refine ⟨?_, by rw [e2, hd], by rw [e1, hv],
          fun hn => absurd ⟨hv, Or.inr (Or.inr (Or.inl hd))⟩ hn⟩
        unfold ArrangeControls_dockOne
        simp only [e1, e2, Bool.not_true, Bool.false_eq_true, if_false]
        rw [e3, hst]
        simp only [e3]
    · simp only [hd] at h
      cases hp : posit c (cr.x + cr.w - c.d.Width) cr.y c.d.Width cr.h with
      | none => rw [hp] at h; simp at h
      | some r =>
        rw [hp] at h
        simp only [Option.some.injEq, Prod.mk.injEq] at h
        obtain ⟨h1, h2⟩ := h
        subst h1 h2
        obtain ⟨hdata, hst⟩ := hg _ _ _ _ r hp
        have e1 : r.d.Visible = true := by rw [hdata]; exact hv
        have e2 : r.d.DockStyle = .dsRight := by rw [hdata]; exact hd
        have e3 : r.d.Width = c.d.Width := by rw [hdata]
        refine ⟨?_, by rw [e2, hd], by rw [e1, hv],
          fun hn => absurd ⟨hv, Or.inr (Or.inr (Or.inr hd))⟩ hn⟩
        unfold ArrangeControls_dockOne
        simp only [e1, e2, Bool.not_true, Bool.false_eq_true, if_false]
        rw [e3, hst]
        simp only [e3]
  · rw [ArrangeControls_dockOne_skip posit cr c hdk] at h
    simp only [Option.some.injEq, Prod.mk.injEq] at h
    obtain ⟨h1, h2⟩ := h
    subst h1 h2
    exact ⟨ArrangeControls_dockOne_skip posit cr c hdk, rfl, rfl, fun _ => rfl⟩

theorem ArrangeControls_dock_cons
    (posit : Control → Int → Int → Int → Int → Option Control) (cr cr1 : Rect) (c : Control)
    (rest out : List Control) :
    ArrangeControls_dock posit cr (c :: rest) = some (cr1, out) ↔
      ∃ crA c1 rest1, ArrangeControls_dockOne posit cr c = some (crA, c1) ∧
        ArrangeControls_dock posit crA rest = some (cr1, rest1) ∧ out = c1 :: rest1 := by
  constructor
  · intro h
    unfold ArrangeControls_dock at h
    cases h1 : ArrangeControls_dockOne posit cr c with
    | none => rw [h1] at h; simp at h
    | some p =>
      obtain ⟨crA, c1⟩ := p
      rw [h1] at h
      simp only [] at h
      cases h2 : ArrangeControls_dock posit crA rest with
      | none => rw [h2] at h; simp at h
      | some q =>
        obtain ⟨cr2, rest1⟩ := q
        rw [h2] at h
        simp only [Option.some.injEq, Prod.mk.injEq] at h
        exact ⟨crA, c1, rest1, rfl, by rw [← h.1]; exact h2, h.2.symm⟩
  · rintro ⟨crA, c1, rest1, h1, h2, h3⟩
    unfold ArrangeControls_dock
    rw [h1]
    simp only [h2, h3]

theorem ArrangeControls_fill_cons
    (posit : Control → Int → Int → Int → Int → Option Control) (cr : Rect) (c : Control)
    (rest out : List Control) :
    ArrangeControls_fill posit cr (c :: rest) = some out ↔
      ∃ c1 rest1, ArrangeControls_fillOne posit cr c = some c1 ∧
        ArrangeControls_fill posit cr rest = some rest1 ∧ out = c1 :: rest1 := by
  constructor
  · intro h
    unfold ArrangeControls_fill at h
    cases h1 : ArrangeControls_fillOne posit cr c with
    | none => rw [h1] at h; simp at h
    | some c1 =>
      rw [h1] at h
      simp only [] at h
      cases h2 : ArrangeControls_fill posit cr rest with
      | none => rw [h2] at h; simp at h
      | some rest1 =>
        rw [h2] at h
        simp only [Option.some.injEq] at h
        exact ⟨c1, rest1, rfl, rfl, h.symm⟩
  · rintro ⟨c1, rest1, h1, h2, h3⟩
    unfold ArrangeControls_fill
    rw [h1]
    simp only [h2, h3]

theorem ArrangeControls_flow_cons
    (posit : Control → Int → Int → Int → Int → Option Control) (layout : ContainerLayoutType)
    (sw : Int) (cr : Rect) (lx ly mh : Int) (c : Control) (rest out : List Control) :
    ArrangeControls_flow posit layout sw cr lx ly mh (c :: rest) = some out ↔
      ∃ lx1 ly1 mh1 c1 rest1,
        ArrangeControls_flowOne posit layout sw cr lx ly mh c = some ((lx1, ly1, mh1), c1) ∧
        ArrangeControls_flow posit layout sw cr lx1 ly1 mh1 rest = some rest1 ∧
        out = c1 :: rest1 := by
  constructor
  · intro h
    unfold ArrangeControls_flow at h
    cases h1 : ArrangeControls_flowOne posit layout sw cr lx ly mh c with
    | none => rw [h1] at h; simp at h
    | some p =>
      obtain ⟨⟨lx1, ly1, mh1⟩, c1⟩ := p
      rw [h1] at h
      simp only [] at h
      cases h2 : ArrangeControls_flow posit layout sw cr lx1 ly1 mh1 rest with
      | none => rw [h2] at h; simp at h
      | some rest1 =>
        rw [h2] at h
        simp only [Option.some.injEq] at h
        exact ⟨lx1, ly1, mh1, c1, rest1, rfl, h2, h.symm⟩
  · rintro ⟨lx1, ly1, mh1, c1, rest1, h1, h2, h3⟩
    unfold ArrangeControls_flow
    rw [h1]
    simp only [h2, h3]

/-- The docking loop run again on the children it produced, from the same rectangle, changes
nothing; and it touched the docked children only. -/
theorem ArrangeControls_dock_fix (posit : Control → Int → Int → Int → Int → Option Control) :
    ∀ (cs : List Control) (cr cr1 : Rect) (cs1 : List Control),
      (∀ c ∈ cs, PositStable posit c) →
      ArrangeControls_dock posit cr cs = some (cr1, cs1) →
      ArrangeControls_dock posit cr cs1 = some (cr1, cs1) ∧
        List.Forall₂ (LayoutStep isDocked) cs cs1 := by
  intro cs
  induction cs with
  | nil =>
    intro cr cr1 cs1 _ h
    simp only [ArrangeControls_dock, Option.some.injEq, Prod.mk.injEq] at h
    obtain ⟨h1, h2⟩ := h
    subst h1 h2
    exact ⟨rfl, List.Forall₂.nil⟩
  | cons c rest ih =>
    intro cr cr1 cs1 hg h
    obtain ⟨crA, c1, rest1, h1, h2, h3⟩ := (ArrangeControls_dock_cons _ _ _ _ _ _).1 h
    subst h3
    obtain ⟨f1, f2, f3, f4⟩ := ArrangeControls_dockOne_fix posit cr crA c c1
      (hg c (List.mem_cons_self _ _)) h1
    obtain ⟨g1, g2⟩ := ih crA cr1 rest1 (fun c2 hc2 => hg c2 (List.mem_cons_of_mem _ hc2)) h2
    exact ⟨(ArrangeControls_dock_cons _ _ _ _ _ _).2 ⟨crA, c1, rest1, f1, g1, rfl⟩,
      List.Forall₂.cons ⟨f2, f3, f4⟩ g2⟩

theorem isDocked_congr (a b : Control) (hd : b.d.DockStyle = a.d.DockStyle)
    (hv : b.d.Visible = a.d.Visible) : isDocked b ↔ isDocked a := by
  unfold isDocked
  rw [hd, hv]

/-- The docking loop leaves alone a list that differs from one it leaves alone only in
children that are not docked. -/
theorem ArrangeControls_dock_congr (posit : Control → Int → Int → Int → Int → Option Control) :
    ∀ (cs1 cs3 : List Control),
      List.Forall₂ (LayoutStep (fun c => ¬ isDocked c)) cs1 cs3 →
      ∀ (cr cr1 : Rect), ArrangeControls_dock posit cr cs1 = some (cr1, cs1) →
        ArrangeControls_dock posit cr cs3 = some (cr1, cs3) := by
  intro cs1 cs3 hrel
  induction hrel with
  | nil =>
    intro cr cr1 h
    exact h
  | @cons b e bs es hab _ ih =>
    intro cr cr1 h
    obtain ⟨crA, c1, rest1, h1, h2, h3⟩ := (ArrangeControls_dock_cons _ _ _ _ _ _).1 h
    have hc1 : c1 = b := (List.cons.inj h3).1.symm
    have hr1 : rest1 = bs := (List.cons.inj h3).2.symm
    subst hc1 hr1
    obtain ⟨hd, hv, hsame⟩ := hab
    by_cases hdk : isDocked c1
    · have he : e = c1 := hsame (fun hn => hn hdk)
      subst he
      exact (ArrangeControls_dock_cons _ _ _ _ _ _).2 ⟨crA, e, es, h1, ih crA cr1 h2, rfl⟩
    · rw [ArrangeControls_dockOne_skip posit cr c1 hdk] at h1
      simp only [Option.some.injEq, Prod.mk.injEq] at h1
      have hcr : cr = crA := h1.1
      subst hcr
      have hdk2 : ¬ isDocked e := fun hn => hdk ((isDocked_congr c1 e hd hv).1 hn)
      exact (ArrangeControls_dock_cons _ _ _ _ _ _).2
        ⟨cr, e, es, ArrangeControls_dockOne_skip posit cr e hdk2, ih cr cr1 h2, rfl⟩

theorem ArrangeControls_fillOne_fix
    (posit : Control → Int → Int → Int → Int → Option Control) (cr : Rect) (c c1 : Control)
    (hg : c.d.DockStyle = .dsFill → PositStable posit c)
    (h : ArrangeControls_fillOne posit cr c = some c1) :
    ArrangeControls_fillOne posit cr c1 = some c1 ∧
      LayoutStep (fun c => c.d.DockStyle = .dsFill) c c1 := by
  unfold ArrangeControls_fillOne at h
  by_cases hd : c.d.DockStyle = .dsFill
  · rw [if_pos hd] at h
    obtain ⟨hdata, hst⟩ := hg hd _ _ _ _ c1 h
    have e2 : c1.d.DockStyle = .dsFill := by rw [hdata]; exact hd
    refine ⟨?_, by rw [e2, hd], by rw [hdata], fun hn => absurd hd hn⟩
    unfold ArrangeControls_fillOne
    rw [if_pos e2, hst]
  · rw [if_neg hd] at h
    have := Option.some.inj h
    subst this
    refine ⟨?_, rfl, rfl, fun _ => rfl⟩
    unfold ArrangeControls_fillOne
    rw [if_neg hd]

theorem ArrangeControls_fill_fix (posit : Control → Int → Int → Int → Int → Option Control)
    (cr : Rect) :
    ∀ (cs cs1 : List Control),
      (∀ c ∈ cs, c.d.DockStyle = .dsFill → PositStable posit c) →
      ArrangeControls_fill posit cr cs = some cs1 →
      ArrangeControls_fill posit cr cs1 = some cs1 ∧
        List.Forall₂ (LayoutStep (fun c => c.d.DockStyle = .dsFill)) cs cs1 := by
  intro cs
  induction cs with
  | nil =>
    intro cs1 _ h
    simp only [ArrangeControls_fill, Option.some.injEq] at h
    subst h
    exact ⟨rfl, List.Forall₂.nil⟩
  | cons c rest ih =>
    intro cs1 hg h
    obtain ⟨c1, rest1, h1, h2, h3⟩ := (ArrangeControls_fill_cons _ _ _ _ _).1 h
    subst h3
    obtain ⟨f1, f2⟩ := ArrangeControls_fillOne_fix posit cr c c1
      (hg c (List.mem_cons_self _ _)) h1
    obtain ⟨g1, g2⟩ := ih rest1 (fun c2 hc2 => hg c2 (List.mem_cons_of_mem _ hc2)) h2
    exact ⟨(ArrangeControls_fill_cons _ _ _ _ _).2 ⟨c1, rest1, f1, g1, rfl⟩,
      List.Forall₂.cons f2 g2⟩

theorem ArrangeControls_fill_congr (posit : Control → Int → Int → Int → Int → Option Control)
    (cr : Rect) :
    ∀ (cs2 cs3 : List Control),
      List.Forall₂ (LayoutStep (fun c => c.d.DockStyle ≠ .dsFill)) cs2 cs3 →
      ArrangeControls_fill posit cr cs2 = some cs2 →
        ArrangeControls_fill posit cr cs3 = some cs3 := by
  intro cs2 cs3 hrel
  induction hrel with
  | nil =>
    intro h
    exact h
  | @cons b e bs es hab _ ih =>
    intro h
    obtain ⟨c1, rest1, h1, h2, h3⟩ := (ArrangeControls_fill_cons _ _ _ _ _).1 h
    have hc1 : c1 = b := (List.cons.inj h3).1.symm
    have hr1 : rest1 = bs := (List.cons.inj h3).2.symm
    subst hc1 hr1
    obtain ⟨hd, _, hsame⟩ := hab
    by_cases hf : c1.d.DockStyle = .dsFill
    · have he : e = c1 := hsame (fun hn => hn hf)
      subst he
      exact (ArrangeControls_fill_cons _ _ _ _ _).2 ⟨e, es, h1, ih h2, rfl⟩
    · have hf2 : e.d.DockStyle ≠ .dsFill := by rw [hd]; exact hf
      refine (ArrangeControls_fill_cons _ _ _ _ _).2 ⟨e, es, ?_, ih h2, rfl⟩
      unfold ArrangeControls_fillOne
      rw [if_neg hf2]

theorem Control_d_mk (d : ControlData) (cs : List Control) : (Control.mk d cs).d = d := rfl

theorem Control_controls_mk (d : ControlData) (cs : List Control) :
    (Control.mk d cs).controls = cs := rfl

theorem ArrangeControls_flowOne_fix
    (posit : Control → Int → Int → Int → Int → Option Control) (layout : ContainerLayoutType)
    (sw : Int) (cr : Rect) (lx ly mh : Int) (c c2 : Control) (acc : Int × Int × Int)
    (hg : c.d.DockStyle = .dsNone → ∀ x y : Int,
      PositStable posit (.mk { c.d with Left := x, Top := y } c.controls))
    (h : ArrangeControls_flowOne posit layout sw cr lx ly mh c = some (acc, c2)) :
    ArrangeControls_flowOne posit layout sw cr lx ly mh c2 = some (acc, c2) ∧
      LayoutStep (fun c => c.d.DockStyle = .dsNone) c c2 := by
  cases c with
  | mk d cs =>
  simp only [Control_d_mk, Control_controls_mk] at hg
  by_cases hd : d.DockStyle = .dsNone
  · unfold ArrangeControls_flowOne at h
    simp only [Control_d_mk, Control_controls_mk] at h
    rw [if_pos hd] at h
    by_cases hs : layout = .Stack
    · subst hs
      simp only [decide_True, Bool.true_or, if_true] at h
      cases hp : posit
          (.mk { d with Left := 0 + d.Margin.Left, Top := ly + mh + d.Margin.Top } cs)
          (0 + d.Margin.Left) (ly + mh + d.Margin.Top) sw d.Height with
      | none =>
        rw [hp] at h
        simp at h
      | some r =>
        rw [hp] at h
        simp only [Option.some.injEq, Prod.mk.injEq] at h
        obtain ⟨h1, h2⟩ := h
        subst h2
        obtain ⟨hdata, hst⟩ := hg hd (0 + d.Margin.Left) (ly + mh + d.Margin.Top)
          _ _ _ _ r hp
        simp only [Control_d_mk] at hdata
        have eD : r.d.DockStyle = .dsNone := by rw [hdata]; exact hd
        have eM : r.d.Margin = d.Margin := by rw [hdata]
        have eL : r.d.Left = 0 + d.Margin.Left := by rw [hdata]
        have eT : r.d.Top = ly + mh + d.Margin.Top := by rw [hdata]
        have eH : r.d.Height = d.Height := by rw [hdata]
        refine ⟨?_, by rw [eD, Control_d_mk, hd], by rw [hdata, Control_d_mk],
          fun hn => absurd hd hn⟩
        unfold ArrangeControls_flowOne
        rw [if_pos eD]
        simp only [decide_True, Bool.true_or, if_true, Control_d_mk, Control_controls_mk]
        rw [ControlData_leftTop_self r.d (0 + r.d.Margin.Left) (ly + mh + r.d.Margin.Top)
          (by rw [eL, eM]) (by rw [eT, eM]), Control_eta, eM, eH, hst]
        simp only [h1]
    · rw [if_neg hs] at h
      simp only [Option.some.injEq, Prod.mk.injEq, Control_d_mk] at h
      obtain ⟨h1, h2⟩ := h
      subst h2
      refine ⟨?_, rfl, rfl, fun hn => absurd hd hn⟩
      unfold ArrangeControls_flowOne
      simp only [Control_d_mk, Control_controls_mk]
      rw [if_pos hd, if_neg hs]
      subst h1
      simp only [Control_d_mk, Control_controls_mk]
  · unfold ArrangeControls_flowOne at h
    simp only [Control_d_mk] at h
    rw [if_neg hd] at h
    simp only [Option.some.injEq, Prod.mk.injEq] at h
    obtain ⟨h1, h2⟩ := h
    subst h1 h2
    refine ⟨?_, rfl, rfl, fun _ => rfl⟩
    unfold ArrangeControls_flowOne
    simp only [Control_d_mk]
    rw [if_neg hd]

theorem ArrangeControls_flow_fix (posit : Control → Int → Int → Int → Int → Option Control)
    (layout : ContainerLayoutType) (sw : Int) (cr : Rect) :
    ∀ (cs : List Control) (lx ly mh : Int) (cs1 : List Control),
      (∀ c ∈ cs, c.d.DockStyle = .dsNone → ∀ x y : Int,
        PositStable posit (.mk { c.d with Left := x, Top := y } c.controls)) →
      ArrangeControls_flow posit layout sw cr lx ly mh cs = some cs1 →
      ArrangeControls_flow posit layout sw cr lx ly mh cs1 = some cs1 ∧
        List.Forall₂ (LayoutStep (fun c => c.d.DockStyle = .dsNone)) cs cs1 := by
  intro cs
  induction cs with
  | nil =>
    intro lx ly mh cs1 _ h
    simp only [ArrangeControls_flow, Option.some.injEq] at h
    subst h
    exact ⟨rfl, List.Forall₂.nil⟩
  | cons c rest ih =>
    intro lx ly mh cs1 hg h
    obtain ⟨lx1, ly1, mh1, c1, rest1, h1, h2, h3⟩ :=
      (ArrangeControls_flow_cons _ _ _ _ _ _ _ _ _ _).1 h
    subst h3
    obtain ⟨f1, f2⟩ := ArrangeControls_flowOne_fix posit layout sw cr lx ly mh c c1 _
      (hg c (List.mem_cons_self _ _)) h1
    obtain ⟨g1, g2⟩ := ih lx1 ly1 mh1 rest1
      (fun c2 hc2 => hg c2 (List.mem_cons_of_mem _ hc2)) h2
    exact ⟨(ArrangeControls_flow_cons _ _ _ _ _ _ _ _ _ _).2
      ⟨lx1, ly1, mh1, c1, rest1, f1, g1, rfl⟩, List.Forall₂.cons f2 g2⟩

theorem LayoutStep_refl (touched : Control → Prop) (cs : List Control) :
    List.Forall₂ (LayoutStep touched) cs cs := by
  induction cs with
  | nil => exact List.Forall₂.nil
  | cons c rest ih => exact List.Forall₂.cons ⟨rfl, rfl, fun _ => rfl⟩ ih

/-- A child that a loop produced and did not touch is one of the children the loop was
given. -/
theorem LayoutStep_mem {touched : Control → Prop} {l1 l2 : List Control}
    (h : List.Forall₂ (LayoutStep touched) l1 l2) (b : Control) (hb : b ∈ l2)
    (hn : ∀ a, a.d.DockStyle = b.d.DockStyle → a.d.Visible = b.d.Visible → ¬ touched a) :
    b ∈ l1 := by
  obtain ⟨a, ha, hd, hv, hsame⟩ := forall2_mem_right h b hb
  rw [hsame (hn a hd.symm hv.symm)]
  exact ha

theorem not_isDocked_of_style (a : Control)
    (h : a.d.DockStyle = .dsFill ∨ a.d.DockStyle = .dsNone) : ¬ isDocked a := by
  rintro ⟨_, hd⟩
  rcases h with h | h <;> rw [h] at hd <;> simp at hd

/-- `Container::ArrangeControls` on a container that is not auto-sized and whose children
have a stable `Posit` (wherever the flow loop, which writes `Left` and `Top` before it calls
`Posit`, has put them), run again on its result, changes nothing. -/
theorem Container_ArrangeControls_fix
    (posit : Control → Int → Int → Int → Int → Option Control) (d : ControlData)
    (cs : List Control) (init : Rect) (r : Control)
    (hw : d.AutoWidth = false) (hh : d.AutoHeight = false)
    (hg : ∀ c ∈ cs, ∀ x y : Int,
      PositStable posit (.mk { c.d with Left := x, Top := y } c.controls))
    (h : Container_ArrangeControls posit d cs init = some r) :
    ∃ cr1 cs3, r = .mk { d with clientRect := cr1 } cs3 ∧
      Container_ArrangeControls posit d cs3 init = some r := by
  unfold Container_ArrangeControls at h
  simp only [] at h
  cases h1 : ArrangeControls_dock posit
      ⟨init.x + d.Padding.Left, init.y + d.Padding.Top, init.w - d.Padding.Horizontal,
        init.h - d.Padding.Vertical⟩ cs with
  | none => rw [h1] at h; simp at h
  | some p =>
    obtain ⟨cr1, cs1⟩ := p
    rw [h1] at h
    simp only [] at h
    cases h2 : ArrangeControls_fill posit cr1 cs1 with
    | none => rw [h2] at h; simp at h
    | some cs2 =>
      rw [h2] at h
      simp only [] at h
      cases h3 : (if d.layout = .Flow ∨ d.layout = .Stack then
          ArrangeControls_flow posit d.layout (d.Width - d.Padding.Horizontal) cr1 0 0 0 cs2
          else some cs2) with
      | none => rw [h3] at h; simp at h
      | some cs3 =>
        rw [h3] at h
        have hna : ¬ (d.AutoWidth = true ∨ d.AutoHeight = true) := by simp [hw, hh]
        simp only [] at h
        rw [if_neg hna] at h
        have hr := Option.some.inj h
        subst hr
        -- the stable calls on the original children
        have hg0 : ∀ c ∈ cs, PositStable posit c := by
          intro c hc
          have := hg c hc c.d.Left c.d.Top
          rw [ControlData_leftTop_self c.d _ _ rfl rfl, Control_eta] at this
          exact this
        obtain ⟨e1, r1⟩ := ArrangeControls_dock_fix posit cs _ cr1 cs1 hg0 h1
        have hmem1 : ∀ c ∈ cs1, c.d.DockStyle = .dsFill ∨ c.d.DockStyle = .dsNone → c ∈ cs :=
          fun c hc hs => LayoutStep_mem r1 c hc (fun a hd _ =>
            not_isDocked_of_style a (by rw [hd]; exact hs))
        obtain ⟨e2, r2⟩ := ArrangeControls_fill_fix posit cr1 cs1 cs2
          (fun c hc hf => hg0 c (hmem1 c hc (Or.inl hf))) h2
        have hmem2 : ∀ c ∈ cs2, c.d.DockStyle = .dsNone → c ∈ cs := by
          intro c hc hs
          refine hmem1 c (LayoutStep_mem r2 c hc (fun a hd _ hf => ?_)) (Or.inr hs)
          rw [hd, hs] at hf
          cases hf
        -- the flow loop
        obtain ⟨e3, r3⟩ : (if d.layout = .Flow ∨ d.layout = .Stack then
            ArrangeControls_flow posit d.layout (d.Width - d.Padding.Horizontal) cr1 0 0 0 cs3
            else some cs3) = some cs3 ∧
            List.Forall₂ (LayoutStep (fun c => c.d.DockStyle = .dsNone)) cs2 cs3 := by
          by_cases hl : d.layout = .Flow ∨ d.layout = .Stack
          · rw [if_pos hl] at h3 ⊢
            exact ArrangeControls_flow_fix posit _ _ _ cs2 0 0 0 cs3
              (fun c hc hs => hg c (hmem2 c hc hs)) h3
          · rw [if_neg hl] at h3 ⊢
            have := Option.some.inj h3
            subst this
            exact ⟨rfl, LayoutStep_refl _ _⟩
        have e1b := ArrangeControls_dock_congr posit cs1 cs3
          (forall2_comp (T := LayoutStep (fun c => ¬ isDocked c)) (by
            intro a b c hab hbc
            obtain ⟨a1, a2, a3⟩ := hab
            obtain ⟨b1, b2, b3⟩ := hbc
            refine ⟨by rw [b1, a1], by rw [b2, a2], ?_⟩
            intro hdk
            have hdk2 : isDocked a := by
              by_contra hn
              exact hdk hn
            obtain ⟨_, hsty⟩ := hdk2
            have hba : b = a := a3 (by
              intro hf
              rcases hsty with h | h | h | h <;> rw [h] at hf <;> cases hf)
            subst hba
            exact b3 (by
              intro hf
              rcases hsty with h | h | h | h <;> rw [h] at hf <;> cases hf)) r2 r3) _ cr1 e1
        have e2b := ArrangeControls_fill_congr posit cr1 cs2 cs3
          (List.Forall₂.imp (by
            intro b c hbc
            obtain ⟨b1, b2, b3⟩ := hbc
            refine ⟨b1, b2, ?_⟩
            intro hf
            have hf2 : b.d.DockStyle = .dsFill := by
              by_contra hn
              exact hf hn
            exact b3 (by
              intro hn
              have hn2 : b.d.DockStyle = .dsNone := hn
              rw [hf2] at hn2
              cases hn2)) r3) e2
        refine ⟨cr1, cs3, rfl, ?_⟩
        unfold Container_ArrangeControls
        simp only []
        rw [e1b]
        simp only []
        rw [e2b]
        simp only []
        rw [e3]
        simp only []
        rw [if_neg hna]

theorem noAutoSize_mem (d : ControlData) (cs : List Control) (c : Control)
    (h : (Control.mk d cs).noAutoSize) (hc : c ∈ cs) :
    c.d.AutoWidth = false ∧ c.d.AutoHeight = false := by
  obtain ⟨i, hi⟩ := List.getElem?_of_mem hc
  exact h [i] c (by simp [Control.getPath, Control.controls, hi])

theorem noAutoSize_child (d d1 : ControlData) (cs : List Control) (c : Control)
    (h : (Control.mk d cs).noAutoSize) (hc : c ∈ cs)
    (hw : d1.AutoWidth = false) (hh : d1.AutoHeight = false) :
    (Control.mk d1 c.controls).noAutoSize := by
  obtain ⟨i, hi⟩ := List.getElem?_of_mem hc
  intro path m hm
  cases path with
  | nil =>
    simp only [Control.getPath, Option.some.injEq] at hm
    subst hm
    exact ⟨hw, hh⟩
  | cons j rest =>
    have h2 : (Control.mk d cs).getPath (i :: j :: rest) = some m := by
      simp only [Control.getPath, Control.controls, hi] at hm ⊢
      exact hm
    exact h _ m h2

theorem setBounds_self (r : Control) (l t w h : Int) (hl : r.d.Left = l) (ht : r.d.Top = t)
    (hw : r.d.Width = w) (hh : r.d.Height = h) : r.setBounds l t w h = r := by
  unfold Control.setBounds
  rw [ControlData_bounds_self r.d l t w h hl ht hw hh, Control_eta]

/-- `SizeChanged()` on a control tree without auto-sized containers, run again on its result,
changes nothing. -/
theorem SizeChanged_fix : ∀ (fuel : Nat) (x r : Control), x.noAutoSize →
    Control.SizeChanged fuel x = some r → Control.SizeChanged fuel r = some r := by
  intro fuel
  induction fuel with
  | zero =>
    intro x r _ h
    simp [Control.SizeChanged] at h
  | succ n ih =>
    intro x r hx h
    cases x with
    | mk d cs =>
      have hroot := hx [] _ rfl
      simp only [Control_d_mk] at hroot
      unfold Control.SizeChanged at h
      simp only [] at h
      by_cases hc : d.isContainer = true
      · rw [if_pos hc] at h
        obtain ⟨cr1, cs3, hr, hfix⟩ := Container_ArrangeControls_fix _ _ cs _ r
          hroot.1 hroot.2 (by
            intro c hcmem x y
            obtain ⟨hcw, hch⟩ := noAutoSize_mem d cs c hx hcmem
            have hw2 : ({ c.d with Left := x, Top := y } : ControlData).AutoWidth = false := hcw
            have hh2 : ({ c.d with Left := x, Top := y } : ControlData).AutoHeight = false := hch
            intro l t w h r1 hp
            have hx1 : ((Control.mk { c.d with Left := x, Top := y } c.controls).setBounds
                l t w h).noAutoSize :=
              noAutoSize_child d
                { ({ c.d with Left := x, Top := y } : ControlData) with
                  Left := l, Top := t, Height := h, Width := w } cs c hx hcmem hw2 hh2
            obtain ⟨hd1, hd2, hd3⟩ := SizeChanged_data n _ r1 hp
            have eW : r1.d.Width = w := hd2 (fun _ => hw2)
            have eH : r1.d.Height = h := hd3 (fun _ => hh2)
            have edata := hd1
            rw [eW, eH] at edata
            refine ⟨edata, ?_⟩
            show Control.SizeChanged n (r1.setBounds l t w h) = some r1
            rw [setBounds_self r1 l t w h (by rw [edata]; rfl) (by rw [edata]; rfl) eW eH]
            exact ih _ r1 hx1 hp) h
        subst hr
        unfold Control.SizeChanged
        simp only []
        rw [if_pos (by exact hc)]
        exact hfix
      · rw [if_neg hc] at h
        have hr := Option.some.inj h
        subst hr
        unfold Control.SizeChanged
        simp only []
        rw [if_neg hc]

theorem setBounds_noAutoSize (c : Control) (l t w h : Int) (hc : c.noAutoSize) :
    (c.setBounds l t w h).noAutoSize := by
  cases c with
  | mk d cs =>
    intro path n hp
    cases path with
    | nil =>
      simp only [Control.getPath, Option.some.injEq] at hp
      subst hp
      exact hc [] (Control.mk d cs) rfl
    | cons i rest => exact hc (i :: rest) n hp

/-- C19 (the claim as written fails): a container with `AutoWidth` holding one child with the
bounds `(5, 5, 40, 10)` comes out of `Posit(0, 0, 100, 100)` with `Width` 45 and the client
rectangle `(0, 0, 100, 100)`, and a further `SizeChanged()` changes the client rectangle to
`(0, 0, 45, 100)`.  And a container that is not auto-sized itself: the Top child of
`autoTopTree` resizes itself in `SizeChanged()` from the height 20 it is given to 50, leaves
`Posit(0, 0, 200, 100)` of the container with the client rectangle `(0, 0, 180, 20)`, and the
further `SizeChanged()` of the container, which positions it with the height 50 it has now,
changes the child's client rectangle to `(0, 0, 180, 50)`. -/
theorem Posit_auto_width_not_stable :
    (Control.Posit 2 autoTree 0 0 100 100).map (fun r => (r.d.Width, r.d.clientRect)) =
      some (45, ⟨0, 0, 100, 100⟩) ∧
    ((Control.Posit 2 autoTree 0 0 100 100).bind (Control.SizeChanged 2)).map
      (fun r => (r.d.Width, r.d.clientRect)) = some (45, ⟨0, 0, 45, 100⟩) ∧
    (autoTopTree.d.AutoWidth, autoTopTree.d.AutoHeight) = (false, false) ∧
    (Control.Posit 3 autoTopTree 0 0 200 100).map
      (fun r => r.controls.map (fun c => c.d.clientRect)) = some [⟨0, 0, 180, 20⟩] ∧
    ((Control.Posit 3 autoTopTree 0 0 200 100).bind (Control.SizeChanged 3)).map
      (fun r => r.controls.map (fun c => c.d.clientRect)) = some [⟨0, 0, 180, 50⟩] := by
  decide

theorem noAutoSize_leaf (d : ControlData) (hw : d.AutoWidth = false)
    (hh : d.AutoHeight = false) : (Control.mk d []).noAutoSize := by
  intro path n hp
  cases path with
  | nil =>
    simp only [Control.getPath, Option.some.injEq] at hp
    subst hp
    exact ⟨hw, hh⟩
  | cons i rest => simp [Control.getPath, Control.controls] at hp

/-- In a tree of `Control` and `Container` objects without auto-sized containers, `Posit`
leaves a control with the bounds it is given, and the same call again changes nothing. -/
theorem Posit_PositStable (fuel : Nat) (c : Control) (hna : c.noAutoSize) :
    PositStable (fun c l t w h => Control.Posit fuel c l t w h) c := by
  cases c with
  | mk d cs =>
    intro l t w h r hp
    have hflags := hna [] _ rfl
    simp only [Control_d_mk] at hflags
    obtain ⟨hd1, hd2, hd3⟩ := SizeChanged_data fuel _ r hp
    have eW : r.d.Width = w := hd2 (fun _ => hflags.1)
    have eH : r.d.Height = h := hd3 (fun _ => hflags.2)
    have edata := hd1
    rw [eW, eH] at edata
    refine ⟨edata, ?_⟩
    show Control.SizeChanged fuel (r.setBounds l t w h) = some r
    rw [setBounds_self r l t w h (by rw [edata]; rfl) (by rw [edata]; rfl) eW eH]
    exact SizeChanged_fix fuel _ r (setBounds_noAutoSize _ l t w h hna) hp

/-- C19 (amended): for every container without `AutoWidth` and `AutoHeight` (with any mix of
docked, filled and flow- or stack-laid-out children) whose children have a stable `Posit` -
the child comes out of `Posit` with the bounds it is given, and the same call again changes
nothing; the children being of any class, their `Posit` the call `posit` - and every
`(l, t, w, h)`, `Posit(l, t, w, h)` returns with the bounds `(l, t, w, h)`, and a further
`SizeChanged()` returns the same tree: `Left`, `Top`, `Width`, `Height` and `ClientRect()` of
the container and of each of its children are unchanged. -/
theorem Posit_then_SizeChanged_stable
    (posit : Control → Int → Int → Int → Int → Option Control) (c : Control)
    (l t w h : Int) (haw : c.d.AutoWidth = false) (hah : c.d.AutoHeight = false)
    (hkeep : PositKeeps posit) (hret : ∀ ch ∈ c.controls, PositReturns posit ch)
    (hst : ∀ ch ∈ c.controls, ∀ x y : Int,
      PositStable posit (.mk { ch.d with Left := x, Top := y } ch.controls)) :
    ∃ r, Container_Posit posit c l t w h = some r ∧
      r.d.Left = l ∧ r.d.Top = t ∧ r.d.Width = w ∧ r.d.Height = h ∧
      Container_SizeChanged posit r = some r := by
  cases c with
  | mk d cs =>
    simp only [Control_d_mk, Control_controls_mk] at haw hah hret hst
    obtain ⟨r, hr⟩ := Container_ArrangeControls_total posit
      (fun c l t w h r hr => (hkeep c l t w h r hr).2.2.1)
      { d with Left := l, Top := t, Height := h, Width := w, clientRect := ⟨0, 0, w, h⟩ }
      cs ⟨0, 0, w, h⟩ hret
    obtain ⟨h1, h2, h3⟩ := Container_ArrangeControls_data posit _ cs _ r hr
    obtain ⟨cr1, cs3, e, hfix⟩ := Container_ArrangeControls_fix posit
      { d with Left := l, Top := t, Height := h, Width := w, clientRect := ⟨0, 0, w, h⟩ }
      cs ⟨0, 0, w, h⟩ r haw hah hst hr
    refine ⟨r, hr, by rw [h1], by rw [h1], h2 haw, h3 hah, ?_⟩
    subst e
    exact hfix

/-- Witness for C19: `mixedTree`, a container with stack layout holding plain controls docked
Top and Left, undocked and filling, whose `Posit` is `Control::Posit`. -/
theorem Posit_then_SizeChanged_stable_witness :
    ∃ r, Container_Posit (fun c l t w h => Control.Posit 1 c l t w h) mixedTree
        3 4 100 100 = some r ∧
      r.d.Left = 3 ∧ r.d.Top = 4 ∧ r.d.Width = 100 ∧ r.d.Height = 100 ∧
      Container_SizeChanged (fun c l t w h => Control.Posit 1 c l t w h) r = some r :=
  Posit_then_SizeChanged_stable (fun c l t w h => Control.Posit 1 c l t w h) mixedTree
    3 4 100 100 rfl rfl (Posit_PositKeeps 1)
    (by
      intro ch hch
      obtain ⟨dc, _, he⟩ := List.mem_map.1 hch
      subst he
      exact Posit_PositReturns 1 _ fits_leaf)
    (by
      intro ch hch x y
      obtain ⟨dc, hdc, he⟩ := List.mem_map.1 hch
      subst he
      simp only [List.mem_cons, List.mem_singleton, List.not_mem_nil, or_false] at hdc
      refine Posit_PositStable 1 _ (noAutoSize_leaf _ ?_ ?_) <;>
        rcases hdc with h | h | h | h | h | h <;> subst h <;> rfl)


/-! ## C21: the intersection of the clip stack is commutative -/

/-- The top entry after `Clear(); AddRect(A); AddRect(B)` on a stack of capacity at least two:
left/top edge `max A B 0`, right/bottom edge the smaller of the two. -/
theorem AddRects_pair_top (s : ClipRectStack) (A B : Rect) (h : 2 ≤ s.Buffer.length) :
    (ClipRectStack.AddRects (ClipRectStack.Clear s) [A, B]).bind ClipRectStack.GetTop =
      some ⟨max (max A.x B.x) 0, max (max A.y B.y) 0,
        min (A.x + A.w) (B.x + B.w) - max (max A.x B.x) 0,
        min (A.y + A.h) (B.y + B.h) - max (max A.y B.y) 0⟩ := by
  have h0 : (0 : Nat) < s.Buffer.length := by omega
  have h1 : (1 : Nat) < s.Buffer.length := by omega
  have h1' : (1 : Nat) < (s.Buffer.set 0 (if (if A.x < 0 then ({ A with w := A.w + A.x, x := 0 } : Rect) else A).y < 0 then
      { (if A.x < 0 then ({ A with w := A.w + A.x, x := 0 } : Rect) else A) with
        h := (if A.x < 0 then ({ A with w := A.w + A.x, x := 0 } : Rect) else A).h +
          (if A.x < 0 then ({ A with w := A.w + A.x, x := 0 } : Rect) else A).y, y := 0 }
      else (if A.x < 0 then ({ A with w := A.w + A.x, x := 0 } : Rect) else A))).length := by
    simpa using h1
  simp only [ClipRectStack.AddRects, ClipRectStack.AddRect, ClipRectStack.AddRect_cRect,
    ClipRectStack.Clear, ClipRectStack.PushRect, ne_eq, not_true_eq_false, if_false, if_true,
    h0, Nat.zero_add, Nat.add_one_ne_zero, not_false_eq_true, Nat.add_sub_cancel,
    List.getElem?_set_self h0, h1', Option.bind_some, Option.some_bind, ClipRectStack.GetTop,
    List.length_set, h1, List.getElem?_set_self h1]
  by_cases hax : A.x < 0 <;> by_cases hay : A.y < 0 <;>
    simp only [hax, hay, if_true, if_false] <;>
    (rw [List.getElem?_set_self (by simpa using h1)]
     simp only [Option.some.injEq]
     split_ifs <;> simp only [Rect.mk.injEq] <;>
      refine ⟨?_, ?_, ?_, ?_⟩ <;> (try dsimp only at *) <;> omega)

/-- C21: on a stack with room for two entries, the top entry after
`Clear(); AddRect(A); AddRect(B)` equals the top entry after `Clear(); AddRect(B); AddRect(A)`,
and both sequences produce one. -/
theorem AddRect_intersection_commutative (s : ClipRectStack) (A B : Rect)
    (h : 2 ≤ s.Buffer.length) :
    ∃ t, (ClipRectStack.AddRects (ClipRectStack.Clear s) [A, B]).bind ClipRectStack.GetTop
          = some t ∧
      (ClipRectStack.AddRects (ClipRectStack.Clear s) [B, A]).bind ClipRectStack.GetTop
          = some t := by
  refine ⟨_, AddRects_pair_top s A B h, ?_⟩
  rw [AddRects_pair_top s B A h, max_comm B.x A.x, max_comm B.y A.y,
    min_comm (B.x + B.w) (A.x + A.w), min_comm (B.y + B.h) (A.y + A.h)]

theorem AddRect_intersection_commutative_witness :
    2 ≤ sampleClipStack.Buffer.length ∧
    ∃ t, (ClipRectStack.AddRects (ClipRectStack.Clear sampleClipStack)
            [⟨-5, 2, 30, 30⟩, ⟨3, -4, 20, 50⟩]).bind ClipRectStack.GetTop = some t ∧
      (ClipRectStack.AddRects (ClipRectStack.Clear sampleClipStack)
            [⟨3, -4, 20, 50⟩, ⟨-5, 2, 30, 30⟩]).bind ClipRectStack.GetTop = some t :=
  ⟨by decide, AddRect_intersection_commutative sampleClipStack _ _ (by decide)⟩


/-! ## C22: Menu::Popup flips the menu on its absolute position -/

/-- `GetRelativePos` reads only the data of the controls on the parent chain. -/
theorem GetRelativePos_congr (root root1 : Control) :
    ∀ r : Ptr, (∀ q, q <:+ r → (root1.get? q).map Control.d = (root.get? q).map Control.d) →
      Control_GetRelativePos root1 r = Control_GetRelativePos root r := by
  intro r
  induction r with
  | nil =>
    intro h
    have h0 := h [] (List.suffix_refl _)
    simp only [Control_GetRelativePos]
    cases h1 : root1.get? [] <;> cases h2 : root.get? [] <;> rw [h1, h2] at h0 <;>
      simp at h0 ⊢
    rw [h0]
    exact ⟨rfl, rfl⟩
  | cons i parent ih =>
    intro h
    have hself := h (i :: parent) (List.suffix_refl _)
    have hpar := h parent (List.suffix_cons i parent)
    have hrec := ih (fun q hq => h q (hq.trans (List.suffix_cons i parent)))
    simp only [Control_GetRelativePos, hrec]
    cases h1 : root1.get? (i :: parent) with
    | none =>
      cases h2 : root.get? (i :: parent) with
      | none => rfl
      | some c2 => rw [h1, h2] at hself; simp at hself
    | some c1 =>
      cases h2 : root.get? (i :: parent) with
      | none => rw [h1, h2] at hself; simp at hself
      | some c2 =>
        rw [h1, h2] at hself
        have hd : c1.d = c2.d := by simpa using hself
        cases h3 : root1.get? parent with
        | none =>
          cases h4 : root.get? parent with
          | none => rfl
          | some p2 => rw [h3, h4] at hpar; simp at hpar
        | some p1 =>
          cases h4 : root.get? parent with
          | none => rw [h3, h4] at hpar; simp at hpar
          | some p2 =>
            rw [h3, h4] at hpar
            have hp : p1.d = p2.d := by simpa using hpar
            cases h5 : Control_GetRelativePos root parent with
            | none => rfl
            | some pq =>
              obtain ⟨px, py⟩ := pq
              simp only [hd, hp]

theorem suffix_ne_cons (q parent : Ptr) (i : Nat) (h : q <:+ parent) : q ≠ i :: parent := by
  intro he
  have := h.length_le
  rw [he] at this
  simp at this

theorem modify_get?_d_ne (root : Control) (p q : Ptr) (f : ControlData → ControlData)
    (hne : q ≠ p) :
    ((root.modify p f).get? q).map Control.d = (root.get? q).map Control.d := by
  rw [modify_get?_d]
  simp only [if_neg hne]

/-- Writing `Left = x; Top = y` on a control moves its absolute position by the same
amount. -/
theorem GetRelativePos_set_position (root : Control) (self : Ptr) (c4 : Control) (x y : Int)
    (ax0 ay0 : Int) (hc4 : root.get? self = some c4)
    (hpos : Control_GetRelativePos root self = some (ax0, ay0)) :
    Control_GetRelativePos (root.modify self (fun d => { d with Left := x, Top := y })) self =
      some (x + (ax0 - c4.d.Left), y + (ay0 - c4.d.Top)) := by
  obtain ⟨c5, hc5, hd5⟩ := modify_get_self root self (fun d => { d with Left := x, Top := y })
    c4 hc4
  cases self with
  | nil =>
    simp only [Control_GetRelativePos, hc4, Option.some.injEq, Prod.mk.injEq] at hpos
    simp only [Control_GetRelativePos, hc5, hd5, Option.some.injEq, Prod.mk.injEq]
    constructor <;> omega
  | cons i parent =>
    have hrec := GetRelativePos_congr root
      (root.modify (i :: parent) (fun d => { d with Left := x, Top := y })) parent
      (fun q hq => modify_get?_d_ne root _ q _ (suffix_ne_cons q parent i hq))
    have hpar := modify_get?_d_ne root (i :: parent) parent
      (fun d => { d with Left := x, Top := y })
      (suffix_ne_cons parent parent i (List.suffix_refl _))
    simp only [Control_GetRelativePos, hc4] at hpos
    simp only [Control_GetRelativePos, hc5, hrec]
    cases h3 : root.get? parent with
    | none => rw [h3] at hpos; simp at hpos
    | some p2 =>
      rw [h3] at hpos hpar
      cases h4 : (root.modify (i :: parent) (fun d => { d with Left := x, Top := y })).get?
          parent with
      | none => rw [h4] at hpar; simp at hpar
      | some p1 =>
        rw [h4] at hpar
        have hp : p1.d = p2.d := by simpa using hpar
        cases h5 : Control_GetRelativePos root parent with
        | none => rw [h5] at hpos; simp at hpos
        | some pq =>
          obtain ⟨px, py⟩ := pq
          rw [h5] at hpos
          simp only [hd5, hp] at hpos ⊢
          split_ifs at hpos ⊢ <;>
            simp only [Option.some.injEq, Prod.mk.injEq] at hpos ⊢ <;>
            constructor <;> omega

theorem cond_modify_get_self (cond : Prop) [Decidable cond] (t : UIState) (self : Ptr)
    (f : ControlData → ControlData) (c : Control) (hc : t.root.get? self = some c) :
    ∃ c1, (if cond then { t with root := t.root.modify self f } else t).root.get? self = some c1 ∧
      c1.d = if cond then f c.d else c.d := by
  by_cases h : cond
  · simp only [if_pos h]
    exact modify_get_self t.root self f c hc
  · simp only [if_neg h]
    exact ⟨c, hc, rfl⟩

/-- The horizontal placement made by `Menu::Popup`: the menu is flipped to the left of `x`
exactly when its absolute x position for `Left = x`, plus its width, exceeds the width of the
`UIEntry`. -/
theorem Menu_Popup_show_left (V : Virtuals) (self : Ptr) (x y : Int) (s4 : UIState)
    (c4 entry : Control) (ax0 ay0 : Int)
    (hc4 : s4.root.get? self = some c4) (hentry : s4.root.get? [] = some entry)
    (hpos : Control_GetRelativePos s4.root self = some (ax0, ay0))
    (hfocus : ∀ t c, t.root.get? self = some c →
      ∃ c1, (V.SetFocus self t).root.get? self = some c1 ∧ c1.d.Left = c.d.Left) :
    ∃ s1 c1, Menu_Popup_show V self x y s4 = some s1 ∧ s1.root.get? self = some c1 ∧
      c1.d.Left = if x + (ax0 - c4.d.Left) + c4.d.Width > entry.d.Width then x - c4.d.Width
        else x := by
  have hrel := GetRelativePos_set_position s4.root self c4 x y ax0 ay0 hc4 hpos
  obtain ⟨c5, hc5, hd5⟩ := modify_get_self s4.root self
    (fun d => { d with Left := x, Top := y }) c4 hc4
  obtain ⟨e5, he5, hw5⟩ : ∃ e5, (s4.root.modify self
      (fun d => { d with Left := x, Top := y })).get? [] = some e5 ∧
      e5.d.Width = entry.d.Width := by
    have h := modify_get?_d s4.root self [] (fun d => { d with Left := x, Top := y })
    rw [hentry] at h
    cases h1 : (s4.root.modify self (fun d => { d with Left := x, Top := y })).get? [] with
    | none => rw [h1] at h; simp at h
    | some e5 =>
      rw [h1] at h
      refine ⟨e5, rfl, ?_⟩
      simp only [Option.map_some', Option.some.injEq] at h
      rw [h]
      split <;> rfl
  have hw : c5.d.Width = c4.d.Width := by rw [hd5]
  have hl : c5.d.Left = x := by rw [hd5]
  simp only [Menu_Popup_show, hrel, hc5, he5]
  let S5 : UIState :=
    { s4 with root := s4.root.modify self (fun d => { d with Left := x, Top := y }) }
  let S6 : UIState :=
    if x + (ax0 - c4.d.Left) + c5.d.Width > e5.d.Width then
      { S5 with root := S5.root.modify self (fun d => { d with Left := d.Left - d.Width }) }
    else S5
  let S7 : UIState :=
    if y + (ay0 - c4.d.Top) + c5.d.Height > e5.d.Height then
      { S6 with root := S6.root.modify self (fun d => { d with Top := d.Top - d.Height }) }
    else S6
  let S8 : UIState :=
    { S7 with root := S7.root.modify self (fun d => { d with Visible := true }) }
  obtain ⟨c6, hc6, hd6⟩ := cond_modify_get_self
    (x + (ax0 - c4.d.Left) + c5.d.Width > e5.d.Width) S5 self
    (fun d => { d with Left := d.Left - d.Width }) c5 hc5
  obtain ⟨c7, hc7, hd7⟩ := cond_modify_get_self
    (y + (ay0 - c4.d.Top) + c5.d.Height > e5.d.Height) S6 self
    (fun d => { d with Top := d.Top - d.Height }) c6 hc6
  obtain ⟨c8, hc8, hd8⟩ := modify_get_self S7.root self (fun d => { d with Visible := true })
    c7 hc7
  obtain ⟨c9, hc9, hl9⟩ := hfocus S8 c8 hc8
  refine ⟨_, c9, rfl, hc9, ?_⟩
  rw [hl9, hd8]
  show c7.d.Left = _
  rw [hd7]
  have h76 : (if y + (ay0 - c4.d.Top) + c5.d.Height > e5.d.Height then
      { c6.d with Top := c6.d.Top - c6.d.Height } else c6.d).Left = c6.d.Left := by
    split <;> rfl
  rw [h76, hd6, hw, hw5]
  split
  · show c5.d.Left - c4.d.Width = _
    rw [hl]
  · exact hl

theorem Menu_Popup_eq_show (V : Virtuals) (self : Ptr) (x y : Int) (s : UIState) (c : Control)
    (hc : s.root.get? self = some c) (hvis : c.d.Visible = false) :
    Menu_Popup V self x y s = (Menu_Popup_prepared V self s).bind (Menu_Popup_show V self x y) := by
  simp only [Menu_Popup, Menu_Popup_prepared, hc, hvis, if_true]
  split <;> rfl

/-- C22 (the claim as written fails): the hidden menu of `popupState` is 30 wide and lives in a
form at `Left = -50` under a root of width 100.  `Popup(80, 0)` has `x + Width = 110 > 100`,
but the menu's absolute x position is 30, so it is not flipped: its final `Left` is 80, not
`x - Width = 50`. -/
theorem Popup_not_flipped_inside_offset_parent :
    (popupState.root.get? [0, 0]).map (fun c => (c.d.Visible, c.d.Width)) = some (false, 30) ∧
    (popupState.root.get? []).map (fun c => c.d.Width) = some 100 ∧
    ((Menu_Popup (idleVirtuals none) [0, 0] 80 0 popupState).bind
      (fun s1 => s1.root.get? [0, 0])).map (fun c => (c.d.Left, c.d.Width)) = some (80, 30) := by
  refine ⟨rfl, rfl, rfl⟩

/-- C22 (amended): when `Menu::Popup(x, y)` is called on a hidden menu and `ax + Width` exceeds
the width of the `UIEntry`, where `Width` is the menu's width when the position is written
(after `PositMenuItems`) and `ax` is the menu's absolute x position for `Left = x` (`x` plus
the absolute position of the origin the menu is placed in, which is its current absolute
position minus its current `Left`), the call returns and the menu's final `Left` is
`x - Width`.  (`SetFocus` leaves the menu's `Left` alone.) -/
theorem Popup_flips_left_on_absolute_overflow (V : Virtuals) (self : Ptr) (x y : Int)
    (s s4 : UIState) (c c4 entry : Control) (ax0 ay0 : Int)
    (hc : s.root.get? self = some c) (hvis : c.d.Visible = false)
    (hprep : Menu_Popup_prepared V self s = some s4)
    (hc4 : s4.root.get? self = some c4) (hentry : s4.root.get? [] = some entry)
    (hpos : Control_GetRelativePos s4.root self = some (ax0, ay0))
    (hfocus : ∀ t c, t.root.get? self = some c →
      ∃ c1, (V.SetFocus self t).root.get? self = some c1 ∧ c1.d.Left = c.d.Left)
    (hover : x + (ax0 - c4.d.Left) + c4.d.Width > entry.d.Width) :
    ∃ s1 c1, Menu_Popup V self x y s = some s1 ∧ s1.root.get? self = some c1 ∧
      c1.d.Left = x - c4.d.Width := by
  obtain ⟨s1, c1, h1, h2, h3⟩ := Menu_Popup_show_left V self x y s4 c4 entry ax0 ay0 hc4 hentry
    hpos hfocus
  refine ⟨s1, c1, ?_, h2, ?_⟩
  · rw [Menu_Popup_eq_show V self x y s c hc hvis, hprep]
    exact h1
  · rw [h3, if_pos hover]

theorem Popup_flips_left_on_absolute_overflow_witness :
    ∃ c c4 entry, popupState.root.get? [0, 0] = some c ∧ c.d.Visible = false ∧
      Menu_Popup_prepared (idleVirtuals none) [0, 0] popupState = some popupState ∧
      popupState.root.get? [0, 0] = some c4 ∧ popupState.root.get? [] = some entry ∧
      Control_GetRelativePos popupState.root [0, 0] = some (-50, 0) ∧
      (130 : Int) + (-50 - c4.d.Left) + c4.d.Width > entry.d.Width ∧
      ∃ s1 c1, Menu_Popup (idleVirtuals none) [0, 0] 130 0 popupState = some s1 ∧
        s1.root.get? [0, 0] = some c1 ∧ c1.d.Left = 130 - c4.d.Width :=
  ⟨_, _, _, rfl, rfl, rfl, rfl, rfl, rfl, by decide,
    Popup_flips_left_on_absolute_overflow (idleVirtuals none) [0, 0] 130 0 popupState popupState
      _ _ _ (-50) 0 rfl rfl rfl rfl rfl (by rfl) (fun t c h => ⟨c, h, rfl⟩) (by decide)⟩


/-! ## C23: mouse dispatch and GetRelativePos compute the same offset -/

/-- Both `GetRelativePos(nullptr)` and the coordinate loop of `BroadcastMouseMessage` compute
the chain offset; `GetRelativePos` adds the root's own `(Left, Top)`. -/
theorem chainOffset_both (root r : Control) (X Y : Int) (hr : root.get? [] = some r) :
    ∀ p : Ptr, (root.get? p).isSome = true →
      ∃ off : Int × Int, spec_chainOffset root p = some off ∧
        Control_GetRelativePos root p = some (off.1 + r.d.Left, off.2 + r.d.Top) ∧
        BroadcastMouseMessage_coords root X Y p = some (X - off.1, Y - off.2) := by
  intro p
  induction p with
  | nil =>
    intro _
    refine ⟨(0, 0), rfl, ?_, ?_⟩
    · simp only [Control_GetRelativePos, hr, Int.zero_add]
    · simp only [BroadcastMouseMessage_coords, Int.sub_zero]
  | cons i parent ih =>
    intro h
    have hp := get?_parent_isSome root i parent h
    obtain ⟨c, hc⟩ := Option.isSome_iff_exists.1 h
    obtain ⟨par, hpar⟩ := Option.isSome_iff_exists.1 hp
    obtain ⟨⟨ox, oy⟩, h1, h2, h3⟩ := ih hp
    simp only [spec_chainOffset, Control_GetRelativePos, BroadcastMouseMessage_coords, hc, hpar,
      h1, h2, h3]
    by_cases hd : c.d.DockStyle = .dsNone ∨ c.d.DockStyle = .dsFill
    · have hd2 : c.d.DockStyle = .dsFill ∨ c.d.DockStyle = .dsNone := hd.symm
      simp only [if_pos hd, if_pos hd2]
      refine ⟨_, rfl, ?_, ?_⟩ <;>
        simp only [Option.some.injEq, Prod.mk.injEq] <;> constructor <;> omega
    · have hd2 : ¬ (c.d.DockStyle = .dsFill ∨ c.d.DockStyle = .dsNone) := fun h => hd h.symm
      simp only [if_neg hd, if_neg hd2]
      refine ⟨_, rfl, ?_, ?_⟩ <;>
        simp only [Option.some.injEq, Prod.mk.injEq] <;> constructor <;> omega

theorem items_coords (root : Control) (X Y : Int) :
    ∀ (l : List Ptr) (items : List MouseMessageStack),
      BroadcastMouseMessage_items root X Y l = some items →
      ∀ m ∈ items, m.Ctrl ∈ l ∧ BroadcastMouseMessage_coords root X Y m.Ctrl = some (m.X, m.Y) := by
  intro l
  induction l with
  | nil =>
    intro items h m hm
    simp only [BroadcastMouseMessage_items, Option.some.injEq] at h
    subst h
    simp at hm
  | cons p rest ih =>
    intro items h m hm
    simp only [BroadcastMouseMessage_items] at h
    cases h1 : BroadcastMouseMessage_coords root X Y p with
    | none => rw [h1] at h; simp at h
    | some xy =>
      obtain ⟨cx, cy⟩ := xy
      cases h2 : BroadcastMouseMessage_items root X Y rest with
      | none => rw [h1, h2] at h; simp at h
      | some its =>
        rw [h1, h2] at h
        simp only [Option.some.injEq] at h
        subst h
        rcases List.mem_cons.1 hm with hm | hm
        · subst hm
          exact ⟨List.mem_cons_self _ _, h1⟩
        · obtain ⟨ha, hb⟩ := ih its h2 m hm
          exact ⟨List.mem_cons_of_mem _ ha, hb⟩

theorem dispatch_calls_mem {α : Type} (f : Ptr → Int → Int → α → Bool × α) :
    ∀ (items : List MouseMessageStack) (a : α),
      ∀ call ∈ (BroadcastMouseMessage_dispatch f items a).1, call.1 ∈ items := by
  intro items
  induction items with
  | nil => intro a call h; simp [BroadcastMouseMessage_dispatch] at h
  | cons m rest ih =>
    intro a call h
    simp only [BroadcastMouseMessage_dispatch] at h
    split at h
    · simp only [List.mem_singleton] at h
      subst h
      exact List.mem_cons_self _ _
    · rcases List.mem_cons.1 h with h | h
      · subst h
        exact List.mem_cons_self _ _
      · exact List.mem_cons_of_mem _ (ih _ call h)

/-- C23: in a tree whose root has `Left = Top = 0`, `BroadcastMouseMessage` towards an existing
control returns, and every call `f(c, x, y)` it makes passes `(x, y) = (X, Y) - off`, where
`off` is both `c.GetRelativePos(nullptr)` and the sum described by the specification (over `c`
and each of its non-root ancestors `n`: `n`'s `(Left, Top)` plus the client-rect origin of
`n`'s parent when `n`'s `DockStyle` is `dsNone` or `dsFill`). -/
theorem BroadcastMouseMessage_coords_refine_GetRelativePos {α : Type} (s : UIState)
    (X Y : Int) (f : Ptr → Int → Int → α → Bool × α) (a : α) (r : Control)
    (hr : s.root.get? [] = some r) (hl : r.d.Left = 0) (ht : r.d.Top = 0)
    (hcap : ∀ c, s.MouseCaptureControl = some c → (s.root.get? c).isSome = true)
    (hpt : ∀ c, s.PointedComponent = some c → (s.root.get? c).isSome = true) :
    ∃ res, BroadcastMouseMessage s X Y f a = some res ∧
      ∀ call ∈ res.1, ∃ off : Int × Int,
        spec_chainOffset s.root call.1.Ctrl = some off ∧
        Control_GetRelativePos s.root call.1.Ctrl = some off ∧
        call.1.X = X - off.1 ∧ call.1.Y = Y - off.2 := by
  have key : ∀ c, (s.root.get? c).isSome = true →
      ∃ items, BroadcastMouseMessage_items s.root X Y (BroadcastMouseMessage_stack c).dropLast =
          some items ∧
        ∀ call ∈ (BroadcastMouseMessage_dispatch f items a).1, ∃ off : Int × Int,
          spec_chainOffset s.root call.1.Ctrl = some off ∧
          Control_GetRelativePos s.root call.1.Ctrl = some off ∧
          call.1.X = X - off.1 ∧ call.1.Y = Y - off.2 := by
    intro c hc
    have hvalid : ∀ q ∈ (BroadcastMouseMessage_stack c).dropLast, (s.root.get? q).isSome = true :=
      fun q hq => stack_valid s.root c hc q (List.dropLast_subset _ hq)
    obtain ⟨items, hitems, _⟩ := items_isSome s.root X Y _ hvalid
    refine ⟨items, hitems, ?_⟩
    intro call hcall
    have hmem := dispatch_calls_mem f items a call hcall
    obtain ⟨hin, hco⟩ := items_coords s.root X Y _ items hitems call.1 hmem
    obtain ⟨off, h1, h2, h3⟩ := chainOffset_both s.root r X Y hr call.1.Ctrl (hvalid _ hin)
    rw [hl, ht, Int.add_zero, Int.add_zero] at h2
    rw [hco] at h3
    simp only [Option.some.injEq, Prod.mk.injEq] at h3
    exact ⟨off, h1, h2, h3.1, h3.2⟩
  unfold BroadcastMouseMessage
  cases hm : s.MouseCaptureControl with
  | some c =>
    obtain ⟨items, hitems, hall⟩ := key c (hcap c hm)
    simp only [hitems]
    exact ⟨_, rfl, hall⟩
  | none =>
    cases hp : s.PointedComponent with
    | none =>
      simp only []
      exact ⟨_, rfl, fun call h => by simp at h⟩
    | some c =>
      obtain ⟨items, hitems, hall⟩ := key c (hpt c hp)
      simp only [hitems]
      exact ⟨_, rfl, hall⟩

theorem BroadcastMouseMessage_coords_refine_GetRelativePos_witness :
    ∃ r, (nestedState (some [0, 0])).root.get? [] = some r ∧ r.d.Left = 0 ∧ r.d.Top = 0 ∧
      ∃ res, BroadcastMouseMessage (nestedState (some [0, 0])) 50 60
          (fun _ _ _ (n : Nat) => (false, n + 1)) 0 = some res ∧
        ∀ call ∈ res.1, ∃ off : Int × Int,
          spec_chainOffset (nestedState (some [0, 0])).root call.1.Ctrl = some off ∧
          Control_GetRelativePos (nestedState (some [0, 0])).root call.1.Ctrl = some off ∧
          call.1.X = 50 - off.1 ∧ call.1.Y = 60 - off.2 :=
  ⟨_, rfl, rfl, rfl,
    BroadcastMouseMessage_coords_refine_GetRelativePos (nestedState (some [0, 0])) 50 60
      (fun _ _ _ (n : Nat) => (false, n + 1)) 0 _ rfl rfl rfl
      (fun c h => by
        have h1 : some [0, 0] = some c := h
        rw [← Option.some.inj h1]
        rfl)
      (fun c h => by cases h)⟩


/-! ## C27: the depth guard of FindNextFocus -/

/-- C27 (evaluation at the failing input): in `labelRowTree` the 33 siblings that follow the
edit box are Enabled and Visible but not tab stops, so each of them is searched by a recursive
call one level deeper; the call for the 32nd of them (pointer `[32]`) enters with
`level == 32` and is answered by the guard with that control itself, which is not a
`TabStop`. -/
theorem FindNextFocus_guard_returns_non_tab_stop :
    FindNextFocus labelRowTree [0] = some (some [32]) ∧
    (labelRowTree.get? [32]).map (fun c => (c.d.Enabled, c.d.Visible, c.d.TabStop)) =
      some (true, true, false) := by
  decide


/-! ## C28: access keys reach disabled menu items -/

/-- C28 (evaluation at the failing input): in the visible popup menu of `accessKeyMenuState`
the item `&Save` (pointer `[1, 0]`, access key `S` = 83) is disabled.  `DoKeyDown('S')` takes
the letter branch, calls `Hit(MouseUp)` on that item and returns `true`; `DoKeyDown(Return)`
with the same item selected calls `Hit` on nothing. -/
theorem DoKeyDown_access_key_hits_disabled_item :
    (accessKeyMenuState.root.get? [1, 0]).map (fun c => (c.d.Enabled, c.d.accKey)) =
      some (false, 83) ∧
    (Menu_DoKeyDown sampleKeys sampleConsts (idleVirtuals none)
        (Menu_DoKeyDown_hitKeys sampleKeys (fun _ t => some t)) [0] 83 0
        accessKeyMenuState).map Prod.fst = some true ∧
    (Menu_DoKeyDown_accessKey (fun _ t => some t) [0] 83 accessKeyMenuState).map Prod.snd =
      some [[1, 0]] ∧
    (Menu_DoKeyDown_activate (fun _ t => some t) [0] accessKeyMenuState).map Prod.snd =
      some [] := by
  decide


/-! ## C24: mouse leave / enter when the pointed control changes -/

/-- C24 (evaluation at the failing input): in `nestedTree` = root[ panel[ button ] ] the
pointer moves from the button (`[0, 0]`) onto the panel (`[0]`), which contains it before and
after the move.  The claim has `DoMouseLeave` on the button only and no `DoMouseEnter`; the
code calls `DoMouseLeave` on the button and on the panel and then `DoMouseEnter` on the panel.
Moving the other way, from the panel onto the button, the code does as the claim says. -/
theorem DoMouseMove_leaves_and_enters_new_ancestor :
    spec_chainBelowCommon [0, 0] [0] = [[0, 0]] ∧ spec_chainBelowCommon [0] [0, 0] = [] ∧
    (UIEntry_DoMouseMove_track { nestedState none with PointedComponent := some [0, 0] }
        (some [0])).map (fun r => (r.1, r.2.1, r.2.2.PointedComponent)) =
      some ([[0, 0], [0]], [[0]], some [0]) ∧
    (UIEntry_DoMouseMove_track { nestedState none with PointedComponent := some [0] }
        (some [0, 0])).map (fun r => (r.1, r.2.1, r.2.2.PointedComponent)) =
      some (spec_chainBelowCommon [0] [0, 0], spec_chainBelowCommon [0, 0] [0],
        some [0, 0]) := by
  decide


/-! ## C26: flow and stack layout -/

theorem spec_newRow_flow (cw lx : Int) (c : Control) :
    spec_newRow true false cw lx c =
      (decide (lx > 0) && decide (lx + c.d.Width + c.d.Margin.Left > cw)) := by
  simp only [spec_newRow, Bool.false_or, Bool.not_true]
  congr 1
  simp only [decide_eq_decide]
  constructor <;> intro hh <;> omega

/-- The third loop of `ArrangeControls` places the `dsNone` children along the rows of the
specification, the new-row rule asking for a positive row offset. -/
theorem ArrangeControls_flow_rows (posit : Control → Int → Int → Int → Int → Option Control)
    (hkeep : PositKeeps posit) (layout : ContainerLayoutType) (sw : Int) (cr : Rect) :
    ∀ (cs : List Control) (lx ly mh : Int) (rs : List Control),
      ArrangeControls_flow posit layout sw cr lx ly mh cs = some rs →
      spec_flowRows true (decide (layout = .Stack)) cr.w lx ly mh rs = true := by
  intro cs
  induction cs with
  | nil =>
    intro lx ly mh rs h
    simp only [ArrangeControls_flow, Option.some.injEq] at h
    subst h
    rfl
  | cons c rest ih =>
    intro lx ly mh rs h
    obtain ⟨lx1, ly1, mh1, c1, rest1, h1, h2, h3⟩ :=
      (ArrangeControls_flow_cons _ _ _ _ _ _ _ _ _ _).1 h
    subst h3
    have hrest := ih lx1 ly1 mh1 rest1 h2
    cases c with
    | mk d cs0 =>
      unfold ArrangeControls_flowOne at h1
      simp only [Control_d_mk, Control_controls_mk] at h1
      by_cases hn : d.DockStyle = .dsNone
      · rw [if_pos hn] at h1
        by_cases hs : layout = .Stack
        · -- Stack: a new row before every child, and the child is positioned
          simp only [hs, decide_True, Bool.true_or, if_true] at h1
          split at h1
          · simp at h1
          · rename_i c2 hp
            simp only [Option.some.injEq, Prod.mk.injEq] at h1
            obtain ⟨⟨e1, e2, e3⟩, e4⟩ := h1
            subst e4
            obtain ⟨k1, k2, k3, _, k4⟩ := hkeep _ _ _ _ _ _ hp
            simp only [Control_d_mk] at k3 k4
            have hm : c2.d.Margin = d.Margin := k4
            unfold spec_flowRows
            rw [if_pos (by rw [k3]; exact hn)]
            simp only [spec_newRow, hs, decide_True, Bool.true_or, if_true]
            rw [hm] at e1 e3 ⊢
            rw [e1, e2, e3]
            simp only [hs, decide_True] at hrest
            simp only [hrest, Bool.and_true, Bool.and_eq_true, decide_eq_true_eq]
            exact ⟨k1, by rw [← e2]; exact k2⟩
        · -- Flow: a new row when the offset is positive and the child does not fit
          simp only [hs, decide_False, Bool.false_or, if_false] at h1
          simp only [Option.some.injEq, Prod.mk.injEq] at h1
          obtain ⟨⟨e1, e2, e3⟩, e4⟩ := h1
          subst e4
          unfold spec_flowRows
          simp only [Control_d_mk]
          rw [if_pos hn]
          have hsd : decide (layout = .Stack) = false := by simp [hs]
          rw [hsd] at hrest ⊢
          simp only [spec_newRow_flow, Control_d_mk]
          simp only [Control_d_mk] at e1 e3
          rw [e1, e2, e3, hrest]
          simp only [decide_True, Bool.and_true]
      · rw [if_neg hn] at h1
        simp only [Option.some.injEq, Prod.mk.injEq] at h1
        obtain ⟨⟨e1, e2, e3⟩, e4⟩ := h1
        subst e1 e2 e3 e4
        unfold spec_flowRows
        simp only [Control_d_mk]
        rw [if_neg hn]
        exact hrest

/-- The outcome of the body of the docking loop on a visible child, by `DockStyle`. -/
theorem ArrangeControls_dockOne_docked
    (posit : Control → Int → Int → Int → Int → Option Control) (cr crA : Rect)
    (c c1 : Control) (hv : c.d.Visible = true)
    (h : ArrangeControls_dockOne posit cr c = some (crA, c1)) :
    (c.d.DockStyle = .dsTop → posit c cr.x cr.y cr.w c.d.Height = some c1 ∧
      crA = { cr with y := cr.y + c1.d.Height, h := cr.h - c1.d.Height }) ∧
    (c.d.DockStyle = .dsBottom →
      posit c cr.x (cr.y + cr.h - c.d.Height) cr.w c.d.Height = some c1 ∧
      crA = { cr with h := cr.h - c1.d.Height }) ∧
    (c.d.DockStyle = .dsLeft → posit c cr.x cr.y c.d.Width cr.h = some c1 ∧
      crA = { cr with x := cr.x + c1.d.Width, w := cr.w - c1.d.Width }) ∧
    (c.d.DockStyle = .dsRight →
      posit c (cr.x + cr.w - c.d.Width) cr.y c.d.Width cr.h = some c1 ∧
      crA = { cr with w := cr.w - c1.d.Width }) := by
  unfold ArrangeControls_dockOne at h
  simp only [hv, Bool.not_true, Bool.false_eq_true, if_false] at h
  refine ⟨?_, ?_, ?_, ?_⟩ <;> intro hd <;> simp only [hd] at h <;> split at h <;>
    first
    | (simp only [Option.some.injEq, Prod.mk.injEq] at h
       obtain ⟨h1, h2⟩ := h
       subst h1 h2
       rename_i hp
       exact ⟨hp, rfl⟩)
    | simp at h

theorem ArrangeControls_dockOne_kept
    (posit : Control → Int → Int → Int → Int → Option Control) (hk : PositKeeps posit)
    (cr crA : Rect) (c c1 : Control)
    (h : ArrangeControls_dockOne posit cr c = some (crA, c1)) :
    LayoutKept isDocked c c1 := by
  by_cases hdk : isDocked c
  · obtain ⟨hv, hd⟩ := hdk
    obtain ⟨a1, a2, a3, a4⟩ := ArrangeControls_dockOne_docked posit cr crA c c1 hv h
    have hp : ∃ l t w h, posit c l t w h = some c1 := by
      rcases hd with hd | hd | hd | hd
      · exact ⟨_, _, _, _, (a1 hd).1⟩
      · exact ⟨_, _, _, _, (a2 hd).1⟩
      · exact ⟨_, _, _, _, (a3 hd).1⟩
      · exact ⟨_, _, _, _, (a4 hd).1⟩
    obtain ⟨l, t, w, h0, hp⟩ := hp
    obtain ⟨_, _, k3, k4, k5⟩ := hk _ _ _ _ _ _ hp
    exact ⟨k3, k4, k5, fun hn => absurd ⟨hv, hd⟩ hn⟩
  · rw [ArrangeControls_dockOne_skip posit cr c hdk] at h
    simp only [Option.some.injEq, Prod.mk.injEq] at h
    obtain ⟨h1, h2⟩ := h
    subst h1 h2
    exact ⟨rfl, rfl, rfl, fun _ => rfl⟩

theorem ArrangeControls_dock_kept
    (posit : Control → Int → Int → Int → Int → Option Control) (hk : PositKeeps posit) :
    ∀ (cs : List Control) (cr cr1 : Rect) (cs1 : List Control),
      ArrangeControls_dock posit cr cs = some (cr1, cs1) →
      List.Forall₂ (LayoutKept isDocked) cs cs1 := by
  intro cs
  induction cs with
  | nil =>
    intro cr cr1 cs1 h
    simp only [ArrangeControls_dock, Option.some.injEq, Prod.mk.injEq] at h
    obtain ⟨_, h2⟩ := h
    subst h2
    exact List.Forall₂.nil
  | cons c rest ih =>
    intro cr cr1 cs1 h
    obtain ⟨crA, c1, rest1, h1, h2, h3⟩ := (ArrangeControls_dock_cons _ _ _ _ _ _).1 h
    subst h3
    exact List.Forall₂.cons (ArrangeControls_dockOne_kept posit hk cr crA c c1 h1)
      (ih crA cr1 rest1 h2)

theorem ArrangeControls_fill_kept
    (posit : Control → Int → Int → Int → Int → Option Control) (hk : PositKeeps posit)
    (cr : Rect) :
    ∀ (cs cs1 : List Control), ArrangeControls_fill posit cr cs = some cs1 →
      List.Forall₂ (LayoutKept (fun c => c.d.DockStyle = .dsFill)) cs cs1 := by
  intro cs
  induction cs with
  | nil =>
    intro cs1 h
    simp only [ArrangeControls_fill, Option.some.injEq] at h
    subst h
    exact List.Forall₂.nil
  | cons c rest ih =>
    intro cs1 h
    obtain ⟨c1, rest1, h1, h2, h3⟩ := (ArrangeControls_fill_cons _ _ _ _ _).1 h
    subst h3
    refine List.Forall₂.cons ?_ (ih rest1 h2)
    unfold ArrangeControls_fillOne at h1
    by_cases hf : c.d.DockStyle = .dsFill
    · rw [if_pos hf] at h1
      obtain ⟨_, _, k3, k4, k5⟩ := hk _ _ _ _ _ _ h1
      exact ⟨k3, k4, k5, fun hn => absurd hf hn⟩
    · rw [if_neg hf] at h1
      have := Option.some.inj h1
      subst this
      exact ⟨rfl, rfl, rfl, fun _ => rfl⟩

theorem ArrangeControls_flow_kept
    (posit : Control → Int → Int → Int → Int → Option Control) (hk : PositKeeps posit)
    (layout : ContainerLayoutType) (sw : Int) (cr : Rect) :
    ∀ (cs : List Control) (lx ly mh : Int) (cs1 : List Control),
      ArrangeControls_flow posit layout sw cr lx ly mh cs = some cs1 →
      List.Forall₂ (LayoutKept (fun c => c.d.DockStyle = .dsNone)) cs cs1 := by
  intro cs
  induction cs with
  | nil =>
    intro lx ly mh cs1 h
    simp only [ArrangeControls_flow, Option.some.injEq] at h
    subst h
    exact List.Forall₂.nil
  | cons c rest ih =>
    intro lx ly mh cs1 h
    obtain ⟨lx1, ly1, mh1, c1, rest1, h1, h2, h3⟩ :=
      (ArrangeControls_flow_cons _ _ _ _ _ _ _ _ _ _).1 h
    subst h3
    refine List.Forall₂.cons ?_ (ih lx1 ly1 mh1 rest1 h2)
    cases c with
    | mk d cs0 =>
      unfold ArrangeControls_flowOne at h1
      simp only [Control_d_mk, Control_controls_mk] at h1
      by_cases hn : d.DockStyle = .dsNone
      · rw [if_pos hn] at h1
        split at h1
        · simp at h1
        · rename_i c2 hp
          simp only [Option.some.injEq, Prod.mk.injEq] at h1
          obtain ⟨_, e4⟩ := h1
          subst e4
          split at hp
          · obtain ⟨_, _, k3, k4, k5⟩ := hk _ _ _ _ _ _ hp
            exact ⟨k3, k4, k5, fun hnn => absurd hn hnn⟩
          · have := Option.some.inj hp
            subst this
            exact ⟨rfl, rfl, rfl, fun hnn => absurd hn hnn⟩
      · rw [if_neg hn] at h1
        simp only [Option.some.injEq, Prod.mk.injEq] at h1
        obtain ⟨_, e4⟩ := h1
        subst e4
        exact ⟨rfl, rfl, rfl, fun _ => rfl⟩

/-- The three loops of `Container::ArrangeControls`, read off a call that returned. -/
theorem Container_ArrangeControls_loops
    (posit : Control → Int → Int → Int → Int → Option Control) (d : ControlData)
    (cs : List Control) (init : Rect) (r : Control)
    (h : Container_ArrangeControls posit d cs init = some r) :
    ∃ cs1 cs2,
      ArrangeControls_dock posit
        ⟨init.x + d.Padding.Left, init.y + d.Padding.Top, init.w - d.Padding.Horizontal,
          init.h - d.Padding.Vertical⟩ cs = some (r.d.clientRect, cs1) ∧
      ArrangeControls_fill posit r.d.clientRect cs1 = some cs2 ∧
      (if d.layout = .Flow ∨ d.layout = .Stack then
        ArrangeControls_flow posit d.layout (d.Width - d.Padding.Horizontal) r.d.clientRect
          0 0 0 cs2
        else some cs2) = some r.controls := by
  unfold Container_ArrangeControls at h
  simp only [] at h
  split at h
  · simp at h
  · rename_i cr1 cs1 hdock
    split at h
    · simp at h
    · rename_i cs2 hfill
      split at h
      · simp at h
      · rename_i cs3 hflow
        have hr : r.d.clientRect = cr1 ∧ r.controls = cs3 := by
          split at h
          · have hr := Option.some.inj h
            subst hr
            refine ⟨?_, rfl⟩
            by_cases hw : d.AutoWidth = true <;> by_cases hh : d.AutoHeight = true <;>
              simp [hw, hh, Control.d]
          · have hr := Option.some.inj h
            subst hr
            exact ⟨rfl, rfl⟩
        rw [hr.1, hr.2]
        exact ⟨cs1, cs2, hdock, hfill, hflow⟩

/-- In flow mode the third loop leaves the size of every child alone. -/
theorem ArrangeControls_flow_size
    (posit : Control → Int → Int → Int → Int → Option Control)
    (layout : ContainerLayoutType) (hl : layout ≠ .Stack) (sw : Int) (cr : Rect) :
    ∀ (cs : List Control) (lx ly mh : Int) (cs1 : List Control),
      ArrangeControls_flow posit layout sw cr lx ly mh cs = some cs1 →
      List.Forall₂ (fun c b => b.d.Width = c.d.Width ∧ b.d.Height = c.d.Height) cs cs1 := by
  intro cs
  induction cs with
  | nil =>
    intro lx ly mh cs1 h
    simp only [ArrangeControls_flow, Option.some.injEq] at h
    subst h
    exact List.Forall₂.nil
  | cons c rest ih =>
    intro lx ly mh cs1 h
    obtain ⟨lx1, ly1, mh1, c1, rest1, h1, h2, h3⟩ :=
      (ArrangeControls_flow_cons _ _ _ _ _ _ _ _ _ _).1 h
    subst h3
    refine List.Forall₂.cons ?_ (ih lx1 ly1 mh1 rest1 h2)
    cases c with
    | mk d cs0 =>
      unfold ArrangeControls_flowOne at h1
      simp only [Control_d_mk, Control_controls_mk] at h1
      by_cases hn : d.DockStyle = .dsNone
      · rw [if_pos hn] at h1
        simp only [if_neg hl] at h1
        simp only [Option.some.injEq, Prod.mk.injEq] at h1
        obtain ⟨_, e4⟩ := h1
        subst e4
        exact ⟨rfl, rfl⟩
      · rw [if_neg hn] at h1
        simp only [Option.some.injEq, Prod.mk.injEq] at h1
        obtain ⟨_, e4⟩ := h1
        subst e4
        exact ⟨rfl, rfl⟩

theorem forall2_and {α : Type} {R S : α → α → Prop} :
    ∀ {l1 l2 : List α}, List.Forall₂ R l1 l2 → List.Forall₂ S l1 l2 →
      List.Forall₂ (fun a b => R a b ∧ S a b) l1 l2 := by
  intro l1 l2 h
  induction h with
  | nil => intro _; exact List.Forall₂.nil
  | @cons a b l1 l2 hab _ ih =>
    intro h2
    cases h2 with
    | cons hs hrest => exact List.Forall₂.cons ⟨hab, hs⟩ (ih hrest)

theorem forall2_imp {α : Type} {R S : α → α → Prop} (himp : ∀ a b, R a b → S a b) :
    ∀ {l1 l2 : List α}, List.Forall₂ R l1 l2 → List.Forall₂ S l1 l2 := by
  intro l1 l2 h
  induction h with
  | nil => exact List.Forall₂.nil
  | @cons a b l1 l2 hab _ ih => exact List.Forall₂.cons (himp a b hab) ih

theorem Posit_total (fuel : Nat) (cs : List Control)
    (hfit : ∀ c ∈ cs, ∀ d1, (Control.mk d1 c.controls).fits fuel) :
    ∀ c ∈ cs, ∀ d1 l t w h, ∃ r, Control.Posit fuel (.mk d1 c.controls) l t w h = some r :=
  fun c hc d1 l t w h =>
    SizeChanged_isSome fuel _ (setBounds_fits fuel _ l t w h (hfit c hc d1))

/-- C26 (the claim as written fails): in `flowTree` (client width 40) the first child has
width 0 and height 10, so the row offset is still 0 when the second child, 50 wide, is
placed.  Its width exceeds the remaining row width, and the claim starts a new row for it
(`Top = 10`, which satisfies the recurrence of the claim); the code keeps it in the first row
at `Top = 0`, which does not. -/
theorem ArrangeControls_flow_wide_child_same_row :
    (Control.SizeChanged 2 flowTree).map
      (fun r => (r.d.clientRect.w, r.controls.map (fun c => (c.d.Left, c.d.Top)))) =
      some (40, [(0, 0), (0, 0)]) ∧
    (Control.SizeChanged 2 flowTree).map
      (fun r => spec_flowRows false false r.d.clientRect.w 0 0 0 r.controls) = some false ∧
    spec_flowRows false false 40 0 0 0
      [plainControl 0 0 0 10, plainControl 0 10 50 10] = true := by
  decide

/-- C26 (amended): `Container::ArrangeControls` with layout Flow or Stack returns (the bound
`fuel` covering the children), and the `dsNone` children are placed in child order at
`Left = rowOffset + Margin.Left`, `Top = rowTop + Margin.Top`, where the row offset advances
by each placed child's width plus horizontal margin and a new row (row offset 0, row top
increased by the height of the row before, the maximum of height plus vertical margin over
its children) is started before a child exactly when the mode is Stack, or the row offset is
positive and the child's width plus its left margin exceeds the remaining row width (client
width minus row offset).  The children keep their order, `DockStyle` and `Margin`, and in
flow mode the `dsNone` children keep their size. -/
theorem ArrangeControls_flow_stack_rows (fuel : Nat) (d : ControlData) (cs : List Control)
    (init : Rect) (hlayout : d.layout = .Flow ∨ d.layout = .Stack)
    (hfit : ∀ c ∈ cs, ∀ d1, (Control.mk d1 c.controls).fits fuel) :
    ∃ r, Container_ArrangeControls (fun c l t w h => Control.Posit fuel c l t w h) d cs init =
        some r ∧
      spec_flowRows true (decide (d.layout = .Stack)) r.d.clientRect.w 0 0 0 r.controls = true ∧
      List.Forall₂ (fun c b => b.d.DockStyle = c.d.DockStyle ∧ b.d.Margin = c.d.Margin ∧
        (d.layout = .Flow → c.d.DockStyle = .dsNone →
          b.d.Width = c.d.Width ∧ b.d.Height = c.d.Height)) cs r.controls := by
  have hk := Posit_PositKeeps fuel
  obtain ⟨r, hr⟩ := Container_ArrangeControls_total
    (fun c l t w h => Control.Posit fuel c l t w h)
    (fun c l t w h r hr => (hk c l t w h r hr).2.2.1) d cs init (Posit_total fuel cs hfit)
  obtain ⟨cs1, cs2, h1, h2, h3⟩ := Container_ArrangeControls_loops _ d cs init r hr
  rw [if_pos hlayout] at h3
  refine ⟨r, hr, ArrangeControls_flow_rows _ hk _ _ _ _ _ _ _ _ h3, ?_⟩
  have k1 := ArrangeControls_dock_kept _ hk _ _ _ _ h1
  have k2 := ArrangeControls_fill_kept _ hk _ _ _ h2
  have k3 := ArrangeControls_flow_kept _ hk _ _ _ _ _ _ _ _ h3
  have k12 : List.Forall₂ (fun c b => b.d.DockStyle = c.d.DockStyle ∧
      b.d.Margin = c.d.Margin ∧ (c.d.DockStyle = .dsNone → b = c)) cs cs2 :=
    forall2_comp (fun a b c hab hbc => by
      obtain ⟨a1, _, a3, a4⟩ := hab
      obtain ⟨b1, _, b3, b4⟩ := hbc
      refine ⟨by rw [b1, a1], by rw [b3, a3], fun hn => ?_⟩
      have hba : b = a := a4 (not_isDocked_of_style a (Or.inr hn))
      have hcb : c = b := b4 (by
        show ¬ (b.d.DockStyle = .dsFill)
        rw [hba, hn]
        decide)
      rw [hcb, hba]) k1 k2
  by_cases hs : d.layout = .Stack
  · refine forall2_comp (fun a b c hab hbc => ?_) k12 k3
    obtain ⟨a1, a3, _⟩ := hab
    obtain ⟨b1, _, b3, _⟩ := hbc
    refine ⟨by rw [b1, a1], by rw [b3, a3], fun hf => ?_⟩
    rw [hs] at hf
    cases hf
  · have k4 := ArrangeControls_flow_size _ d.layout hs _ _ _ _ _ _ _ h3
    refine forall2_comp (fun a b c hab hbc => ?_) k12 (forall2_and k3 k4)
    obtain ⟨a1, a3, a4⟩ := hab
    obtain ⟨⟨b1, _, b3, _⟩, b5, b6⟩ := hbc
    refine ⟨by rw [b1, a1], by rw [b3, a3], fun _ hn => ?_⟩
    rw [b5, b6, a4 hn]
    exact ⟨rfl, rfl⟩

theorem ArrangeControls_flow_stack_rows_witness :
    (mixedTree.d.layout = .Flow ∨ mixedTree.d.layout = .Stack) ∧
    ∃ r, Container_ArrangeControls (fun c l t w h => Control.Posit 2 c l t w h) mixedTree.d
        mixedTree.controls ⟨0, 0, 100, 100⟩ = some r ∧
      spec_flowRows true (decide (mixedTree.d.layout = .Stack)) r.d.clientRect.w 0 0 0
        r.controls = true ∧
      List.Forall₂ (fun c b => b.d.DockStyle = c.d.DockStyle ∧ b.d.Margin = c.d.Margin ∧
        (mixedTree.d.layout = .Flow → c.d.DockStyle = .dsNone →
          b.d.Width = c.d.Width ∧ b.d.Height = c.d.Height)) mixedTree.controls r.controls :=
  ⟨Or.inr rfl, ArrangeControls_flow_stack_rows 2 mixedTree.d mixedTree.controls ⟨0, 0, 100, 100⟩
    (Or.inr rfl) (by
      intro c hc d1 path n hp
      have hleaf : c.controls = [] := by
        simp only [mixedTree, Control.controls, List.map_cons, List.map_nil, List.mem_cons,
          List.mem_singleton, List.not_mem_nil, or_false] at hc
        rcases hc with h | h | h | h | h | h <;> rw [h] <;> rfl
      rw [hleaf] at hp
      cases path with
      | nil => simp
      | cons i rest => simp [Control.getPath, Control.controls] at hp)⟩


/-! ## C25: the docked children are disjoint strips of the padded rectangle -/

theorem Rect.inside_refl (a : Rect) : a.inside a := by
  simp only [Rect.inside]
  omega

theorem Rect.inside_trans {a b c : Rect} (h1 : a.inside b) (h2 : b.inside c) : a.inside c := by
  simp only [Rect.inside] at *
  omega

/-- The body of the docking loop on a child docked to a side that fits in the remaining
rectangle: the child becomes a strip on its side of the rectangle, and what remains is the
rest of the rectangle. -/
theorem ArrangeControls_dockOne_strip
    (posit : Control → Int → Int → Int → Int → Option Control) (hkeep : PositKeeps posit)
    (cr : Rect) (c : Control)
    (hv : c.d.Visible = true) (hd : dockStyled c)
    (hw : 0 ≤ c.d.Width) (hh : 0 ≤ c.d.Height)
    (hret : PositReturns posit c) (hs : PositSized posit c)
    (hcw : spec_dockedWidth c ≤ cr.w) (hch : spec_dockedHeight c ≤ cr.h) :
    ∃ crA c1, ArrangeControls_dockOne posit cr c = some (crA, c1) ∧
      c1.d.DockStyle = c.d.DockStyle ∧ c1.d.Visible = c.d.Visible ∧
      c1.bounds.inside cr ∧ crA.inside cr ∧
      (∀ q : Rect, q.inside crA → ¬ c1.bounds.overlaps q) ∧
      crA.w = cr.w - spec_dockedWidth c ∧ crA.h = cr.h - spec_dockedHeight c := by
  unfold ArrangeControls_dockOne
  simp only [hv, Bool.not_true, Bool.false_eq_true, if_false]
  rcases hd with hd | hd | hd | hd
  · obtain ⟨r, hr, e1, e2, e3, e4, e5, e6⟩ := PositSized_bounds posit hkeep c cr.x cr.y cr.w c.d.Height
      hret hs
    simp only [hd, hr]
    simp only [spec_dockedWidth, spec_dockedHeight, hd] at hcw hch ⊢
    simp only [if_true, if_false, reduceCtorEq, or_self, or_false, true_or, or_true] at hcw hch ⊢
    refine ⟨_, r, rfl, by rw [e5, hd], by rw [e6, hv], ?_, ?_, ?_, ?_, ?_⟩
    · simp only [Rect.inside, Control.bounds, e1, e2, e3, e4]; omega
    · simp only [Rect.inside, e4]; omega
    · intro q hq
      simp only [Rect.inside, Rect.overlaps, Control.bounds, e1, e2, e3, e4] at hq ⊢
      omega
    · simp only [Int.sub_zero]
    · simp only [e4]
  · obtain ⟨r, hr, e1, e2, e3, e4, e5, e6⟩ := PositSized_bounds posit hkeep c cr.x
      (cr.y + cr.h - c.d.Height) cr.w c.d.Height hret hs
    simp only [hd, hr]
    simp only [spec_dockedWidth, spec_dockedHeight, hd] at hcw hch ⊢
    simp only [if_true, if_false, reduceCtorEq, or_self, or_false, true_or, or_true] at hcw hch ⊢
    refine ⟨_, r, rfl, by rw [e5, hd], by rw [e6, hv], ?_, ?_, ?_, ?_, ?_⟩
    · simp only [Rect.inside, Control.bounds, e1, e2, e3, e4]; omega
    · simp only [Rect.inside, e4]; omega
    · intro q hq
      simp only [Rect.inside, Rect.overlaps, Control.bounds, e1, e2, e3, e4] at hq ⊢
      omega
    · simp only [Int.sub_zero]
    · simp only [e4]
  · obtain ⟨r, hr, e1, e2, e3, e4, e5, e6⟩ := PositSized_bounds posit hkeep c cr.x cr.y c.d.Width cr.h
      hret hs
    simp only [hd, hr]
    simp only [spec_dockedWidth, spec_dockedHeight, hd] at hcw hch ⊢
    simp only [if_true, if_false, reduceCtorEq, or_self, or_false, true_or, or_true] at hcw hch ⊢
    refine ⟨_, r, rfl, by rw [e5, hd], by rw [e6, hv], ?_, ?_, ?_, ?_, ?_⟩
    · simp only [Rect.inside, Control.bounds, e1, e2, e3, e4]; omega
    · simp only [Rect.inside, e3]; omega
    · intro q hq
      simp only [Rect.inside, Rect.overlaps, Control.bounds, e1, e2, e3, e4] at hq ⊢
      omega
    · simp only [e3]
    · simp only [Int.sub_zero]
  · obtain ⟨r, hr, e1, e2, e3, e4, e5, e6⟩ := PositSized_bounds posit hkeep c (cr.x + cr.w - c.d.Width) cr.y
      c.d.Width cr.h hret hs
    simp only [hd, hr]
    simp only [spec_dockedWidth, spec_dockedHeight, hd] at hcw hch ⊢
    simp only [if_true, if_false, reduceCtorEq, or_self, or_false, true_or, or_true] at hcw hch ⊢
    refine ⟨_, r, rfl, by rw [e5, hd], by rw [e6, hv], ?_, ?_, ?_, ?_, ?_⟩
    · simp only [Rect.inside, Control.bounds, e1, e2, e3, e4]; omega
    · simp only [Rect.inside, e3]; omega
    · intro q hq
      simp only [Rect.inside, Rect.overlaps, Control.bounds, e1, e2, e3, e4] at hq ⊢
      omega
    · simp only [e3]
    · simp only [Int.sub_zero]

theorem spec_docked_nonneg (c : Control)
    (h : dockStyled c → 0 ≤ c.d.Width ∧ 0 ≤ c.d.Height) :
    0 ≤ spec_dockedWidth c ∧ 0 ≤ spec_dockedHeight c := by
  unfold spec_dockedWidth spec_dockedHeight
  constructor
  · split
    · rename_i hd
      exact (h (by rcases hd with hd | hd
                   · exact Or.inr (Or.inr (Or.inl hd))
                   · exact Or.inr (Or.inr (Or.inr hd)))).1
    · exact le_refl 0
  · split
    · rename_i hd
      exact (h (by rcases hd with hd | hd
                   · exact Or.inl hd
                   · exact Or.inr (Or.inl hd))).2
    · exact le_refl 0

theorem spec_dockedSums_nonneg : ∀ (cs : List Control),
    (∀ c ∈ cs, dockStyled c → 0 ≤ c.d.Width ∧ 0 ≤ c.d.Height) →
      0 ≤ (cs.map spec_dockedWidth).sum ∧ 0 ≤ (cs.map spec_dockedHeight).sum := by
  intro cs
  induction cs with
  | nil => intro _; simp
  | cons c rest ih =>
    intro h
    obtain ⟨a1, a2⟩ := spec_docked_nonneg c (h c (List.mem_cons_self _ _))
    obtain ⟨b1, b2⟩ := ih (fun c1 h1 => h c1 (List.mem_cons_of_mem _ h1))
    simp only [List.map_cons, List.sum_cons]
    constructor <;> omega

theorem spec_docked_zero (c : Control) (h : ¬ dockStyled c) :
    spec_dockedWidth c = 0 ∧ spec_dockedHeight c = 0 := by
  unfold spec_dockedWidth spec_dockedHeight
  constructor
  · rw [if_neg]
    rintro (hd | hd)
    · exact h (Or.inr (Or.inr (Or.inl hd)))
    · exact h (Or.inr (Or.inr (Or.inr hd)))
  · rw [if_neg]
    rintro (hd | hd)
    · exact h (Or.inl hd)
    · exact h (Or.inr (Or.inl hd))

/-- The docking loop on children that fit: the docked children become pairwise disjoint
strips inside the rectangle the loop starts from, disjoint from what remains of it. -/
theorem ArrangeControls_dock_strips
    (posit : Control → Int → Int → Int → Int → Option Control) (hkeep : PositKeeps posit) :
    ∀ (cs : List Control) (cr : Rect),
    (∀ c ∈ cs, dockStyled c → c.d.Visible = true ∧ 0 ≤ c.d.Width ∧ 0 ≤ c.d.Height ∧
      PositSized posit c) →
    (∀ c ∈ cs, PositReturns posit c) →
    (cs.map spec_dockedWidth).sum ≤ cr.w → (cs.map spec_dockedHeight).sum ≤ cr.h →
    ∃ cr1 cs1, ArrangeControls_dock posit cr cs = some (cr1, cs1) ∧
      cr1.inside cr ∧
      cr1.w = cr.w - (cs.map spec_dockedWidth).sum ∧
      cr1.h = cr.h - (cs.map spec_dockedHeight).sum ∧
      (∀ b ∈ cs1, isDocked b →
        b.bounds.inside cr ∧ ∀ q : Rect, q.inside cr1 → ¬ b.bounds.overlaps q) ∧
      cs1.Pairwise (fun a b => isDocked a → isDocked b → ¬ a.bounds.overlaps b.bounds) := by
  intro cs
  induction cs with
  | nil =>
    intro cr _ _ _ _
    refine ⟨cr, [], rfl, Rect.inside_refl cr, by simp, by simp, fun b hb => by simp at hb,
      List.Pairwise.nil⟩
  | cons c rest ih =>
    intro cr hdk hfit hsw hsh
    have hdkr : ∀ c1 ∈ rest, dockStyled c1 → c1.d.Visible = true ∧ 0 ≤ c1.d.Width ∧
        0 ≤ c1.d.Height ∧ PositSized posit c1 :=
      fun c1 h1 => hdk c1 (List.mem_cons_of_mem _ h1)
    have hfitr : ∀ c1 ∈ rest, PositReturns posit c1 :=
      fun c1 h1 => hfit c1 (List.mem_cons_of_mem _ h1)
    obtain ⟨n1, n2⟩ := spec_dockedSums_nonneg rest
      (fun c1 h1 hs => ⟨(hdkr c1 h1 hs).2.1, (hdkr c1 h1 hs).2.2.1⟩)
    obtain ⟨m1, m2⟩ := spec_docked_nonneg c
      (fun hs => ⟨(hdk c (List.mem_cons_self _ _) hs).2.1,
        (hdk c (List.mem_cons_self _ _) hs).2.2.1⟩)
    simp only [List.map_cons, List.sum_cons] at hsw hsh ⊢
    by_cases hs : dockStyled c
    · obtain ⟨hv, hw, hh, hauto⟩ := hdk c (List.mem_cons_self _ _) hs
      obtain ⟨crA, c1, h1, e1, e2, e3, e4, e5, e6, e7⟩ := ArrangeControls_dockOne_strip posit
        hkeep cr c hv hs hw hh (hfit c (List.mem_cons_self _ _)) hauto (by omega) (by omega)
      obtain ⟨cr1, rest1, g1, g2, g3, g4, g5, g6⟩ := ih crA hdkr hfitr (by omega) (by omega)
      refine ⟨cr1, c1 :: rest1, (ArrangeControls_dock_cons _ _ _ _ _ _).2
        ⟨crA, c1, rest1, h1, g1, rfl⟩, Rect.inside_trans g2 e4, by omega, by omega, ?_, ?_⟩
      · intro b hb hbd
        rcases List.mem_cons.1 hb with hb | hb
        · subst hb
          exact ⟨e3, fun q hq => e5 q (Rect.inside_trans hq g2)⟩
        · obtain ⟨k1, k2⟩ := g5 b hb hbd
          exact ⟨Rect.inside_trans k1 e4, k2⟩
      · refine List.Pairwise.cons ?_ g6
        intro b hb _ hbd
        exact e5 _ (g5 b hb hbd).1
    · have hnd : ¬ isDocked c := fun hd => hs hd.2
      obtain ⟨z1, z2⟩ := spec_docked_zero c hs
      obtain ⟨cr1, rest1, g1, g2, g3, g4, g5, g6⟩ := ih cr hdkr hfitr (by omega) (by omega)
      refine ⟨cr1, c :: rest1, (ArrangeControls_dock_cons _ _ _ _ _ _).2
        ⟨cr, c, rest1, ArrangeControls_dockOne_skip _ cr c hnd, g1, rfl⟩, g2, by omega,
        by omega, ?_, ?_⟩
      · intro b hb hbd
        rcases List.mem_cons.1 hb with hb | hb
        · subst hb
          exact absurd hbd hnd
        · exact g5 b hb hbd
      · refine List.Pairwise.cons ?_ g6
        intro b _ hcd _
        exact absurd hcd hnd

theorem pairwise_forall2 {α : Type} {R T : α → α → Prop} {S : α → α → Prop}
    (hst : ∀ a a1 b b1, S a a1 → S b b1 → R a b → T a1 b1) :
    ∀ {l1 l2 : List α}, List.Forall₂ S l1 l2 → l1.Pairwise R → l2.Pairwise T := by
  intro l1 l2 h
  induction h with
  | nil => intro _; exact List.Pairwise.nil
  | @cons a a1 l1 l2 hab hrest ih =>
    intro hp
    obtain ⟨hp1, hp2⟩ := List.pairwise_cons.1 hp
    refine List.Pairwise.cons ?_ (ih hp2)
    intro b1 hb1
    obtain ⟨b, hb, hsb⟩ := forall2_mem_right hrest b1 hb1
    exact hst a a1 b b1 hab hsb (hp1 b hb)

theorem forall2_refl {α : Type} {R : α → α → Prop} (h : ∀ a, R a a) :
    ∀ l : List α, List.Forall₂ R l l := by
  intro l
  induction l with
  | nil => exact List.Forall₂.nil
  | cons a rest ih => exact List.Forall₂.cons (h a) ih

/-- C25 (the claim as written fails): the one docked child of `autoDockTree` is visible, docked
Top with height 10 in a container 100 x 40 without padding, so it fits.  It is a container
with `AutoHeight` whose content is 50 high: `Posit` leaves it 50 high, its rectangle
`(0, 0, 100, 50)` does not lie inside the padded bounds `(0, 0, 100, 40)`, and the remaining
client rectangle has height -10, not 40 - 10. -/
theorem ArrangeControls_auto_sized_docked_child_overflows :
    autoDockTree.controls.map
        (fun c => (c.d.DockStyle, c.d.Visible, c.d.Width, c.d.Height)) =
      [(.dsTop, true, 100, 10)] ∧
    (autoDockTree.controls.map spec_dockedHeight).sum ≤
      autoDockTree.d.Height - autoDockTree.d.Padding.Vertical ∧
    (Control.SizeChanged 3 autoDockTree).map
        (fun r => (r.d.clientRect, r.controls.map Control.bounds)) =
      some (⟨0, 50, 100, -10⟩, [⟨0, 0, 100, 50⟩]) ∧
    ¬ Rect.inside ⟨0, 0, 100, 50⟩ ⟨0, 0, 100, 40⟩ := by
  decide

/-- C25 (amended): for every container whose children docked Top, Bottom, Left or Right are
visible, have non-negative sizes, are left by `Posit` with the width and height they are
given (the children being of any class, their `Posit` the call `posit`) and fit (the
Top/Bottom heights sum to at most the height of the padded rectangle and the Left/Right
widths to at most its width), `ArrangeControls` returns, the
children keep their order and `DockStyle`, each docked child's rectangle lies inside the
padded bounds and does not overlap the remaining client rectangle, no two docked children's
rectangles overlap, and the remaining client rectangle has the padded width less the summed
Left/Right widths and the padded height less the summed Top/Bottom heights. -/
theorem ArrangeControls_docked_strips
    (posit : Control → Int → Int → Int → Int → Option Control) (d : ControlData)
    (cs : List Control) (init : Rect)
    (hk : PositKeeps posit) (hret : ∀ c ∈ cs, PositReturns posit c)
    (hdk : ∀ c ∈ cs, dockStyled c → c.d.Visible = true ∧ 0 ≤ c.d.Width ∧ 0 ≤ c.d.Height ∧
      PositSized posit c)
    (hw : (cs.map spec_dockedWidth).sum ≤ init.w - d.Padding.Horizontal)
    (hh : (cs.map spec_dockedHeight).sum ≤ init.h - d.Padding.Vertical) :
    ∃ r, Container_ArrangeControls posit d cs init = some r ∧
      List.Forall₂ (fun c b => b.d.DockStyle = c.d.DockStyle ∧ b.d.Visible = c.d.Visible)
        cs r.controls ∧
      (∀ b ∈ r.controls, dockStyled b →
        b.bounds.inside ⟨init.x + d.Padding.Left, init.y + d.Padding.Top,
          init.w - d.Padding.Horizontal, init.h - d.Padding.Vertical⟩ ∧
        ¬ b.bounds.overlaps r.d.clientRect) ∧
      r.controls.Pairwise
        (fun a b => dockStyled a → dockStyled b → ¬ a.bounds.overlaps b.bounds) ∧
      r.d.clientRect.w = init.w - d.Padding.Horizontal - (cs.map spec_dockedWidth).sum ∧
      r.d.clientRect.h = init.h - d.Padding.Vertical - (cs.map spec_dockedHeight).sum := by
  obtain ⟨r, hr⟩ := Container_ArrangeControls_total posit
    (fun c l t w h r hr => (hk c l t w h r hr).2.2.1) d cs init hret
  obtain ⟨cs1, cs2, h1, h2, h3⟩ := Container_ArrangeControls_loops _ d cs init r hr
  obtain ⟨cr1, cs1a, g1, g2, g3, g4, g5, g6⟩ := ArrangeControls_dock_strips posit hk cs
    ⟨init.x + d.Padding.Left, init.y + d.Padding.Top, init.w - d.Padding.Horizontal,
      init.h - d.Padding.Vertical⟩ hdk hret hw hh
  rw [h1] at g1
  simp only [Option.some.injEq, Prod.mk.injEq] at g1
  obtain ⟨ea, eb⟩ := g1
  subst eb
  rw [← ea] at g3 g4 g5
  have k1 := ArrangeControls_dock_kept _ hk _ _ _ _ h1
  have k2 := ArrangeControls_fill_kept _ hk _ _ _ h2
  have k3 : List.Forall₂ (LayoutKept (fun c => c.d.DockStyle = .dsNone)) cs2 r.controls := by
    split at h3
    · exact ArrangeControls_flow_kept _ hk _ _ _ _ _ _ _ _ h3
    · have := Option.some.inj h3
      rw [← this]
      exact forall2_refl (fun a => ⟨rfl, rfl, rfl, fun _ => rfl⟩) cs2
  -- from the docking loop's output to the result: docked children are not touched again
  have k23 : List.Forall₂ (fun a b => b.d.DockStyle = a.d.DockStyle ∧
      b.d.Visible = a.d.Visible ∧ (isDocked a → b = a)) cs1 r.controls :=
    forall2_comp (fun a b c hab hbc => by
      obtain ⟨a1, a2, _, a4⟩ := hab
      obtain ⟨b1, b2, _, b4⟩ := hbc
      refine ⟨by rw [b1, a1], by rw [b2, a2], fun hd => ?_⟩
      obtain ⟨_, hst⟩ := hd
      have hba : b = a := a4 (by
        show ¬ (a.d.DockStyle = .dsFill)
        rcases hst with h | h | h | h <;> rw [h] <;> decide)
      have hcb : c = b := b4 (by
        show ¬ (b.d.DockStyle = .dsNone)
        rw [hba]
        rcases hst with h | h | h | h <;> rw [h] <;> decide)
      rw [hcb, hba]) k2 k3
  have k0 : List.Forall₂ (fun c b => b.d.DockStyle = c.d.DockStyle ∧
      b.d.Visible = c.d.Visible) cs r.controls :=
    forall2_comp (fun a b c hab hbc => by
      obtain ⟨a1, a2, _, _⟩ := hab
      obtain ⟨b1, b2, _⟩ := hbc
      exact ⟨by rw [b1, a1], by rw [b2, a2]⟩) k1 k23
  have hvis : ∀ b ∈ r.controls, dockStyled b → isDocked b := by
    intro b hb hs
    obtain ⟨c, hc, e1, e2⟩ := forall2_mem_right k0 b hb
    have hsc : dockStyled c := by
      unfold dockStyled at hs ⊢
      rw [← e1]
      exact hs
    exact ⟨by rw [e2]; exact (hdk c hc hsc).1, hs⟩
  have hmem : ∀ b ∈ r.controls, isDocked b → b ∈ cs1 := by
    intro b hb hd
    obtain ⟨a, ha, e1, e2, e3⟩ := forall2_mem_right k23 b hb
    have hda : isDocked a := (isDocked_congr a b e1 e2).1 hd
    rw [e3 hda]
    exact ha
  refine ⟨r, hr, k0, ?_, ?_, g3, g4⟩
  · intro b hb hs
    obtain ⟨i1, i2⟩ := g5 b (hmem b hb (hvis b hb hs)) (hvis b hb hs)
    exact ⟨i1, i2 r.d.clientRect (Rect.inside_refl _)⟩
  · have hp : r.controls.Pairwise
        (fun a b => isDocked a → isDocked b → ¬ a.bounds.overlaps b.bounds) :=
      pairwise_forall2 (fun a a1 b b1 ha hb hab hda hdb => by
        obtain ⟨e1, e2, e3⟩ := ha
        obtain ⟨f1, f2, f3⟩ := hb
        have hda0 := (isDocked_congr a a1 e1 e2).1 hda
        have hdb0 := (isDocked_congr b b1 f1 f2).1 hdb
        rw [e3 hda0, f3 hdb0]
        exact hab hda0 hdb0) k23 g6
    have hall : ∀ a ∈ r.controls, ∀ b ∈ r.controls,
        (isDocked a → isDocked b → ¬ a.bounds.overlaps b.bounds) →
        (dockStyled a → dockStyled b → ¬ a.bounds.overlaps b.bounds) :=
      fun a ha b hb hab hsa hsb => hab (hvis a ha hsa) (hvis b hb hsb)
    exact List.Pairwise.imp_of_mem (fun {a b} ha hb hab => hall a ha b hb hab) hp

/-- Witness for C25: a 100 x 100 container with padding 2 holding a plain control docked Top
with height 20 and a plain control docked Left with width 20, whose `Posit` is
`Control::Posit`. -/
theorem ArrangeControls_docked_strips_witness :
    ∃ r, Container_ArrangeControls (fun c l t w h => Control.Posit 1 c l t w h)
        (dockTwoTree 2).d (dockTwoTree 2).controls ⟨0, 0, 100, 100⟩ = some r ∧
      List.Forall₂ (fun c b => b.d.DockStyle = c.d.DockStyle ∧ b.d.Visible = c.d.Visible)
        (dockTwoTree 2).controls r.controls ∧
      (∀ b ∈ r.controls, dockStyled b →
        b.bounds.inside ⟨0 + (dockTwoTree 2).d.Padding.Left, 0 + (dockTwoTree 2).d.Padding.Top,
          100 - (dockTwoTree 2).d.Padding.Horizontal,
          100 - (dockTwoTree 2).d.Padding.Vertical⟩ ∧
        ¬ b.bounds.overlaps r.d.clientRect) ∧
      r.controls.Pairwise
        (fun a b => dockStyled a → dockStyled b → ¬ a.bounds.overlaps b.bounds) ∧
      r.d.clientRect.w = 100 - (dockTwoTree 2).d.Padding.Horizontal -
        ((dockTwoTree 2).controls.map spec_dockedWidth).sum ∧
      r.d.clientRect.h = 100 - (dockTwoTree 2).d.Padding.Vertical -
        ((dockTwoTree 2).controls.map spec_dockedHeight).sum :=
  ArrangeControls_docked_strips (fun c l t w h => Control.Posit 1 c l t w h)
    (dockTwoTree 2).d (dockTwoTree 2).controls ⟨0, 0, 100, 100⟩ (Posit_PositKeeps 1)
    (by
      intro c hc
      simp only [dockTwoTree, Control.controls, List.map_cons, List.map_nil, List.mem_cons,
        List.mem_singleton, List.not_mem_nil, or_false] at hc
      rcases hc with h | h <;> rw [h] <;> exact Posit_PositReturns 1 _ fits_leaf)
    (by
      intro c hc _
      simp only [dockTwoTree, Control.controls, List.map_cons, List.map_nil, List.mem_cons,
        List.mem_singleton, List.not_mem_nil, or_false] at hc
      rcases hc with h | h <;> rw [h] <;>
        exact ⟨rfl, by decide, by decide, Posit_PositSized 1 _ (fun _ => ⟨rfl, rfl⟩)⟩)
    (by decide) (by decide)

end GraphicsUI

namespace GameEngine

/-! ## C29: BinarySearchForKeyFrame -/

theorem keyTime_cast {α : Type} (Times : List α) (i : Nat) :
    keyTime Times (i : Int) = Times[i]? := by
  unfold keyTime
  rw [if_neg (by omega), Int.toNat_natCast]

theorem sorted_getElem? {α : Type} [LinearOrder α] (Times : List α)
    (hs : Times.Pairwise (fun a b => a < b)) (i j : Nat) (a c : α) (hij : i < j)
    (ha : Times[i]? = some a) (hc : Times[j]? = some c) : a < c := by
  obtain ⟨hi, rfl⟩ := List.getElem?_eq_some.1 ha
  obtain ⟨hj, rfl⟩ := List.getElem?_eq_some.1 hc
  exact List.pairwise_iff_getElem.1 hs i j hi hj hij

theorem FloatVal.gt_num {α : Type} [LinearOrder α] (a b : α) :
    (FloatVal.num a).gt (FloatVal.num b) = decide (a > b) := rfl

theorem FloatVal.eq_num {α : Type} [LinearOrder α] (a b : α) :
    (FloatVal.num a).eq (FloatVal.num b) = decide (a = b) := rfl

theorem FloatVal.lt_num {α : Type} [LinearOrder α] (a b : α) :
    (FloatVal.num a).lt (FloatVal.num b) = decide (a < b) := rfl

theorem FloatVal.le_num {α : Type} [LinearOrder α] (a b : α) :
    (FloatVal.num a).le (FloatVal.num b) = decide (a ≤ b) := rfl

/-- A list of `float` values without NaN is a list of numbers. -/
theorem FloatVal.exists_nums {α : Type} : ∀ (Times : List (FloatVal α)),
    (∀ k ∈ Times, k ≠ FloatVal.nan) → ∃ ts : List α, Times = ts.map FloatVal.num := by
  intro Times
  induction Times with
  | nil => intro _; exact ⟨[], rfl⟩
  | cons k rest ih =>
    intro h
    obtain ⟨ts, hts⟩ := ih (fun k1 h1 => h k1 (List.mem_cons_of_mem _ h1))
    cases k with
    | nan => exact absurd rfl (h _ (List.mem_cons_self _ _))
    | num v => exact ⟨v :: ts, by rw [hts]; rfl⟩

/-- The loop of `BinarySearchForKeyFrame` on strictly increasing numbers: it ends within
`last - first + 1` iterations, reads inside the list, and either returns the index of a key
frame at `time` or ends at the index that separates the earlier from the later key frames. -/
theorem BinarySearchForKeyFrame_loop_spec {α : Type} [LinearOrder α] (ts : List α)
    (time : α) (hs : ts.Pairwise (fun a b => a < b)) (hlen : ts.length < 2 ^ 30) :
    ∀ (fuel first last : Nat), first ≤ last → last ≤ ts.length → last - first < fuel →
      (∀ i, i < first → ∀ k, ts[i]? = some k → k < time) →
      (∀ i, last ≤ i → ∀ k, ts[i]? = some k → time < k) →
      ∃ res, BinarySearchForKeyFrame_loop (ts.map FloatVal.num) (FloatVal.num time) fuel
          first last = some res ∧
        ((res.1 = true ∧ ∃ m : Nat, res.2 = m ∧ ts[m]? = some time) ∨
         (res.1 = false ∧ ∃ p : Nat, res.2 = p ∧ p ≤ ts.length ∧
            (∀ i, i < p → ∀ k, ts[i]? = some k → k < time) ∧
            (∀ i, p ≤ i → ∀ k, ts[i]? = some k → time < k))) := by
  intro fuel
  induction fuel with
  | zero => intro first last _ _ h; omega
  | succ n ih =>
    intro first last hfl hle hfuel hlo hhi
    unfold BinarySearchForKeyFrame_loop
    by_cases hlt : first < last
    · have hlt2 : (first : Int) < (last : Int) := by omega
      have hov : ¬ ((first : Int) + (last : Int) ≥ 2 ^ 31) := by omega
      have hmid : ((first : Int) + (last : Int)) / 2 = (((first + last) / 2 : Nat) : Int) := by
        omega
      have hm1 : first ≤ (first + last) / 2 := by omega
      have hm2 : (first + last) / 2 < last := by omega
      obtain ⟨k, hk⟩ : ∃ k, ts[(first + last) / 2]? = some k :=
        ⟨_, List.getElem?_eq_getElem (by omega)⟩
      rw [if_pos hlt2, if_neg hov]
      simp only [hmid, keyTime_cast, List.getElem?_map, hk, Option.map_some', FloatVal.gt_num,
        FloatVal.eq_num, decide_eq_true_eq]
      by_cases hgt : k > time
      · rw [if_pos hgt]
        refine ih first ((first + last) / 2) hm1 (by omega) (by omega) hlo ?_
        intro i hi ki hki
        rcases Nat.eq_or_lt_of_le hi with h | h
        · rw [← h, hk] at hki
          rw [← Option.some.inj hki]
          exact hgt
        · exact lt_trans hgt (sorted_getElem? ts hs _ _ _ _ h hk hki)
      · rw [if_neg hgt]
        by_cases heq : k = time
        · rw [if_pos heq]
          exact ⟨_, rfl, Or.inl ⟨rfl, _, rfl, by rw [hk, heq]⟩⟩
        · rw [if_neg heq]
          have hklt : k < time := lt_of_le_of_ne (not_lt.1 hgt) heq
          have hcast : (((first + last) / 2 : Nat) : Int) + 1 =
              (((first + last) / 2 + 1 : Nat) : Int) := by omega
          rw [hcast]
          refine ih ((first + last) / 2 + 1) last (by omega) hle (by omega) ?_ hhi
          intro i hi ki hki
          rcases Nat.eq_or_lt_of_le (Nat.le_of_lt_succ hi) with h | h
          · rw [h, hk] at hki
            rw [← Option.some.inj hki]
            exact hklt
          · exact lt_trans (sorted_getElem? ts hs _ _ _ _ h hki hk) hklt
    · have hlt2 : ¬ ((first : Int) < (last : Int)) := by omega
      rw [if_neg hlt2]
      have hfe : first = last := by omega
      refine ⟨_, rfl, Or.inr ⟨rfl, first, rfl, by omega, hlo, ?_⟩⟩
      rw [hfe]
      exact hhi

/-- `BinarySearchForKeyFrame` on a non-empty list of strictly increasing numbers and a query
time that is a number. -/
theorem BinarySearchForKeyFrame_num_spec {α : Type} [LinearOrder α] (ts : List α)
    (time : α) (fuel : Nat) (hne : ts ≠ []) (hs : ts.Pairwise (fun a b => a < b))
    (hlen : ts.length < 2 ^ 30) (hfuel : ts.length < fuel) :
    ∃ r : Nat, BinarySearchForKeyFrame fuel (ts.map FloatVal.num) (FloatVal.num time) =
        some (r : Int) ∧ r < ts.length ∧
      ∃ k0 kr, ts[0]? = some k0 ∧ ts[r]? = some kr ∧
        (time < k0 → r = 0) ∧
        (¬ time < k0 → kr ≤ time ∧
          (r = ts.length - 1 ∨ ∃ kn, ts[r + 1]? = some kn ∧ time < kn)) := by
  have hn : 0 < ts.length := List.length_pos.2 hne
  obtain ⟨k0, hk0⟩ : ∃ k0, ts[0]? = some k0 := ⟨_, List.getElem?_eq_getElem hn⟩
  obtain ⟨res, hres, hpost⟩ := BinarySearchForKeyFrame_loop_spec ts time hs hlen fuel 0
    ts.length (Nat.zero_le _) (Nat.le_refl _) (by omega)
    (fun i hi => absurd hi (Nat.not_lt_zero i))
    (fun i hi k hk => by
      have := (List.getElem?_eq_some.1 hk).1
      omega)
  have hres2 : BinarySearchForKeyFrame_loop (ts.map FloatVal.num) (FloatVal.num time) fuel 0
      (((ts.map FloatVal.num).length : Nat) : Int) = some res := by
    rw [List.length_map]
    exact hres
  unfold BinarySearchForKeyFrame
  rw [hres2]
  obtain ⟨flag, idx⟩ := res
  rcases hpost with ⟨hflag, m, hm, hkm⟩ | ⟨hflag, p, hp, hpn, hlo, hhi⟩
  · -- the loop returned `mid`
    simp only [] at hflag hm
    subst hflag hm
    have hmn : m < ts.length := (List.getElem?_eq_some.1 hkm).1
    refine ⟨m, rfl, hmn, k0, time, hk0, hkm, ?_, ?_⟩
    · intro hlt
      by_contra hne0
      have := sorted_getElem? ts hs 0 m k0 time (Nat.pos_of_ne_zero hne0) hk0 hkm
      exact absurd hlt (not_lt.2 (le_of_lt this))
    · intro _
      refine ⟨le_refl _, ?_⟩
      by_cases hlast : m = ts.length - 1
      · exact Or.inl hlast
      · obtain ⟨kn, hkn⟩ : ∃ kn, ts[m + 1]? = some kn :=
          ⟨_, List.getElem?_eq_getElem (by omega)⟩
        exact Or.inr ⟨kn, hkn, sorted_getElem? ts hs m (m + 1) time kn (by omega) hkm hkn⟩
  · -- the loop ended with `begin = p`
    simp only [] at hflag hp
    subst hflag hp
    simp only [List.length_map]
    by_cases hpe : p = ts.length
    · -- every key frame is earlier than `time`
      have h1 : ((p : Int) ≥ (ts.length : Int)) := by omega
      have h2 : (ts.length : Int) - 1 = ((ts.length - 1 : Nat) : Int) := by omega
      obtain ⟨k, hk⟩ : ∃ k, ts[ts.length - 1]? = some k :=
        ⟨_, List.getElem?_eq_getElem (by omega)⟩
      have hklt : k < time := hlo _ (by omega) k hk
      rw [if_pos h1, h2, keyTime_cast, List.getElem?_map, hk]
      simp only [Option.map_some', FloatVal.gt_num, decide_eq_true_eq]
      rw [if_neg (not_lt.2 (le_of_lt hklt)), if_neg (by omega)]
      refine ⟨ts.length - 1, rfl, by omega, k0, k, hk0, hk, ?_, ?_⟩
      · intro hlt
        exact absurd (hlo 0 (by omega) k0 hk0) (not_lt.2 (le_of_lt hlt))
      · intro _
        exact ⟨le_of_lt hklt, Or.inl rfl⟩
    · have hplt : p < ts.length := by omega
      have h1 : ¬ ((p : Int) ≥ (ts.length : Int)) := by omega
      obtain ⟨k, hk⟩ : ∃ k, ts[p]? = some k := ⟨_, List.getElem?_eq_getElem hplt⟩
      have hkgt : time < k := hhi p (Nat.le_refl _) k hk
      rw [if_neg h1, keyTime_cast, List.getElem?_map, hk]
      simp only [Option.map_some', FloatVal.gt_num, decide_eq_true_eq]
      rw [if_pos hkgt]
      by_cases hp0 : p = 0
      · subst hp0
        rw [if_pos (by omega)]
        have hkk : k = k0 := by
          rw [hk0] at hk
          exact (Option.some.inj hk).symm
        refine ⟨0, rfl, hn, k0, k0, hk0, hk0, fun _ => rfl, fun hnlt => ?_⟩
        rw [hkk] at hkgt
        exact absurd hkgt hnlt
      · have h3 : (p : Int) - 1 = ((p - 1 : Nat) : Int) := by omega
        rw [h3, if_neg (by omega)]
        obtain ⟨kr, hkr⟩ : ∃ kr, ts[p - 1]? = some kr :=
          ⟨_, List.getElem?_eq_getElem (by omega)⟩
        have hkrlt : kr < time := hlo _ (by omega) kr hkr
        refine ⟨p - 1, rfl, by omega, k0, kr, hk0, hkr, ?_, ?_⟩
        · intro hlt
          exact absurd (hlo 0 (by omega) k0 hk0) (not_lt.2 (le_of_lt hlt))
        · intro _
          refine ⟨le_of_lt hkrlt, Or.inr ⟨k, ?_, hkgt⟩⟩
          rw [show p - 1 + 1 = p by omega]
          exact hk

/-- C29 (the claim as written fails): the query time NaN on the key frames with the times 0
and 10, which are strictly increasing.  Every comparison with NaN is false, so the loop moves
`begin` up to `Count` and the function returns `Count - 1 = 1`; `t < Time[0]` is false, and
`Time[1] <= t` is false too. -/
theorem BinarySearchForKeyFrame_nan_time :
    ([.num 0, .num 10] : List (FloatVal Int)).Pairwise (fun a b => a.lt b = true) ∧
    BinarySearchForKeyFrame 3 ([.num 0, .num 10] : List (FloatVal Int)) .nan = some 1 ∧
    FloatVal.lt (.nan : FloatVal Int) (.num 0) = false ∧
    FloatVal.le (.num 10 : FloatVal Int) .nan = false := by
  decide

/-- C29 (amended): on a non-empty list of key frames whose times are not NaN and strictly
increasing (shorter than `2 ^ 30`, so that `begin + end` stays an `int`) and for a query time
that is not NaN, `BinarySearchForKeyFrame` returns once the fuel exceeds the length, every
read is inside the list, and the index `r` returned satisfies `0 <= r < Count`, `r = 0` when
`time < Time[0]`, and otherwise `Time[r] <= time` and (`r = Count - 1` or
`time < Time[r + 1]`). -/
theorem BinarySearchForKeyFrame_finds_frame {α : Type} [LinearOrder α]
    (Times : List (FloatVal α)) (time : FloatVal α) (fuel : Nat) (hne : Times ≠ [])
    (hnan : ∀ k ∈ Times, k ≠ FloatVal.nan) (htime : time ≠ FloatVal.nan)
    (hs : Times.Pairwise (fun a b => a.lt b = true))
    (hlen : Times.length < 2 ^ 30) (hfuel : Times.length < fuel) :
    ∃ r : Nat, BinarySearchForKeyFrame fuel Times time = some (r : Int) ∧ r < Times.length ∧
      ∃ k0 kr, Times[0]? = some k0 ∧ Times[r]? = some kr ∧
        (time.lt k0 = true → r = 0) ∧
        (time.lt k0 = false → kr.le time = true ∧
          (r = Times.length - 1 ∨ ∃ kn, Times[r + 1]? = some kn ∧ time.lt kn = true)) := by
  obtain ⟨ts, rfl⟩ := FloatVal.exists_nums Times hnan
  cases time with
  | nan => exact absurd rfl htime
  | num t =>
    have hs2 : ts.Pairwise (fun a b => a < b) := by
      rw [List.pairwise_map] at hs
      exact hs.imp (fun {a b} hab => by simpa [FloatVal.lt_num] using hab)
    have hne2 : ts ≠ [] := by
      intro he
      exact hne (by rw [he]; rfl)
    rw [List.length_map] at hlen hfuel ⊢
    obtain ⟨r, h1, h2, k0, kr, h3, h4, h5, h6⟩ :=
      BinarySearchForKeyFrame_num_spec ts t fuel hne2 hs2 hlen hfuel
    refine ⟨r, h1, h2, FloatVal.num k0, FloatVal.num kr, by rw [List.getElem?_map, h3]; rfl,
      by rw [List.getElem?_map, h4]; rfl, ?_, ?_⟩
    · intro hlt
      exact h5 (by simpa [FloatVal.lt_num] using hlt)
    · intro hlt
      obtain ⟨h7, h8⟩ := h6 (by simpa [FloatVal.lt_num] using hlt)
      refine ⟨by simpa [FloatVal.le_num] using h7, ?_⟩
      rcases h8 with h8 | ⟨kn, h9, h10⟩
      · exact Or.inl h8
      · exact Or.inr ⟨FloatVal.num kn, by rw [List.getElem?_map, h9]; rfl,
          by simpa [FloatVal.lt_num] using h10⟩

/-- Witness for C29: the key frames with the times 0, 10, 25 and 40 and the query time 30. -/
theorem BinarySearchForKeyFrame_finds_frame_witness :
    ∃ r : Nat, BinarySearchForKeyFrame 5
        ([.num 0, .num 10, .num 25, .num 40] : List (FloatVal Int)) (.num 30) =
        some (r : Int) ∧
      r < ([.num 0, .num 10, .num 25, .num 40] : List (FloatVal Int)).length ∧
      ∃ k0 kr, ([.num 0, .num 10, .num 25, .num 40] : List (FloatVal Int))[0]? = some k0 ∧
        ([.num 0, .num 10, .num 25, .num 40] : List (FloatVal Int))[r]? = some kr ∧
        ((FloatVal.num 30).lt k0 = true → r = 0) ∧
        ((FloatVal.num 30).lt k0 = false → kr.le (FloatVal.num 30) = true ∧
          (r = ([.num 0, .num 10, .num 25, .num 40] : List (FloatVal Int)).length - 1 ∨
            ∃ kn, ([.num 0, .num 10, .num 25, .num 40] : List (FloatVal Int))[r + 1]? =
              some kn ∧ (FloatVal.num 30).lt kn = true)) :=
  BinarySearchForKeyFrame_finds_frame [.num 0, .num 10, .num 25, .num 40] (.num 30) 5
    (by decide) (by decide) (by decide) (by decide) (by decide) (by decide)


/-! ## C30: Skeleton::TopologySort -/

theorem HashSet_Contains_iff (s : List Nat) (x : Int) :
    HashSet_Contains s x = true ↔ ∃ v ∈ s, (v : Int) = x := by
  unfold HashSet_Contains
  rw [List.any_eq_true]
  constructor
  · rintro ⟨v, hv, h⟩
    exact ⟨v, hv, of_decide_eq_true h⟩
  · rintro ⟨v, hv, h⟩
    exact ⟨v, hv, decide_eq_true h⟩

theorem Dictionary_get_set (dict : List (Nat × Nat)) (key value : Nat) (k : Int) :
    Dictionary_get (Dictionary_set dict key value) k =
      if (key : Int) = k then some value else Dictionary_get dict k := by
  unfold Dictionary_get Dictionary_set
  rw [List.find?_cons]
  by_cases h : (key : Int) = k
  · simp only [h, decide_True, if_true]
  · simp only [h, decide_False, if_false]

theorem drop_head {α : Type} (l : List α) (j : Nat) (b : α) (rest : List α)
    (h : l.drop j = b :: rest) : l[j]? = some b ∧ l.drop (j + 1) = rest := by
  constructor
  · have h0 : (l.drop j)[0]? = some b := by rw [h]; simp
    rw [List.getElem?_drop] at h0
    simpa using h0
  · have := congrArg List.tail h
    rw [List.tail_drop] at this
    simpa using this

theorem SortGood_add {T : Type} (Bones : List (Bone T)) (W V : List Nat) (j : Nat)
    (b : Bone T) (hg : SortGood Bones W V) (hj : Bones[j]? = some b) (hnew : j ∉ V)
    (hpar : b.ParentId = -1 ∨ ∃ y ∈ V, (y : Int) = b.ParentId) :
    SortGood Bones (W ++ [j]) (j :: V) := by
  obtain ⟨g1, g2, g3, g4⟩ := hg
  have hjW : j ∉ W := fun h => hnew ((g1 j).2 h)
  refine ⟨?_, ?_, ?_, ?_⟩
  · intro x
    rw [List.mem_cons, List.mem_append, List.mem_singleton, g1 x]
    exact Or.comm
  · rw [List.nodup_append]
    refine ⟨g2, List.nodup_singleton j, ?_⟩
    intro x hx hx2
    rw [List.mem_singleton] at hx2
    exact hjW (hx2 ▸ hx)
  · intro x hx
    rcases List.mem_append.1 hx with h | h
    · exact g3 x h
    · rw [List.mem_singleton] at h
      rw [h]
      exact (List.getElem?_eq_some.1 hj).1
  · intro k x b1 hk hb1
    by_cases hkl : k < W.length
    · rw [List.getElem?_append_left hkl] at hk
      rcases g4 k x b1 hk hb1 with h | ⟨k1, y, h1, h2, h3⟩
      · exact Or.inl h
      · exact Or.inr ⟨k1, y, h1, by rw [List.getElem?_append_left (by omega)]; exact h2, h3⟩
    · have hkl2 : W.length ≤ k := by omega
      rw [List.getElem?_append_right hkl2] at hk
      have hk0 : k - W.length = 0 := by
        by_contra hne
        rw [List.getElem?_eq_none (by simp; omega)] at hk
        cases hk
      rw [hk0] at hk
      have hxj : x = j := by simpa using hk.symm
      rw [hxj, hj] at hb1
      have hbb : b1 = b := (Option.some.inj hb1).symm
      rw [hbb]
      rcases hpar with h | ⟨y, hy, hyp⟩
      · exact Or.inl h
      · obtain ⟨k1, hk1⟩ := List.mem_iff_getElem?.1 ((g1 y).1 hy)
        have hk1l : k1 < W.length := (List.getElem?_eq_some.1 hk1).1
        exact Or.inr ⟨k1, y, by omega, by rw [List.getElem?_append_left hk1l]; exact hk1, hyp⟩

/-- One pass of the inner loop: `workList` grows at its end, the invariant is kept, and when
nothing is added every bone from `j` on whose parent has been visited has been visited. -/
theorem TopologySort_visit_spec {T : Type} (Bones : List (Bone T)) :
    ∀ (rest : List (Bone T)) (j : Nat) (W V : List Nat), Bones.drop j = rest →
      SortGood Bones W V →
      ∃ A, (TopologySort_visit rest j (W, V)).1 = W ++ A ∧
        SortGood Bones (TopologySort_visit rest j (W, V)).1
          (TopologySort_visit rest j (W, V)).2 ∧
        (A = [] → (TopologySort_visit rest j (W, V)).2 = V ∧
          ∀ j1 b, j ≤ j1 → Bones[j1]? = some b →
            HashSet_Contains V b.ParentId = true → j1 ∈ V) := by
  intro rest
  induction rest with
  | nil =>
    intro j W V hdrop hg
    refine ⟨[], by simp [TopologySort_visit], hg, fun _ => ⟨rfl, ?_⟩⟩
    intro j1 b hj1 hb _
    have hlen : Bones.length ≤ j := List.drop_eq_nil_iff.1 hdrop
    rw [List.getElem?_eq_none (by omega)] at hb
    cases hb
  | cons b rest ih =>
    intro j W V hdrop hg
    obtain ⟨hbj, hdrop1⟩ := drop_head Bones j b rest hdrop
    unfold TopologySort_visit
    by_cases hc : HashSet_Contains V b.ParentId = true
    · rw [if_pos hc]
      by_cases hjV : j ∈ V
      · have hadd : HashSet_Add V j = (false, V) := by simp [HashSet_Add, hjV]
        simp only [hadd, Bool.false_eq_true, if_false]
        obtain ⟨A, a1, a2, a3⟩ := ih (j + 1) W V hdrop1 hg
        refine ⟨A, a1, a2, fun hA => ⟨(a3 hA).1, ?_⟩⟩
        intro j1 b1 hj1 hb1 hc1
        rcases Nat.eq_or_lt_of_le hj1 with h | h
        · rw [← h]
          exact hjV
        · exact (a3 hA).2 j1 b1 h hb1 hc1
      · have hadd : HashSet_Add V j = (true, j :: V) := by simp [HashSet_Add, hjV]
        simp only [hadd, if_true]
        have hg1 : SortGood Bones (W ++ [j]) (j :: V) :=
          SortGood_add Bones W V j b hg hbj hjV (Or.inr ((HashSet_Contains_iff V _).1 hc))
        obtain ⟨A, a1, a2, _⟩ := ih (j + 1) (W ++ [j]) (j :: V) hdrop1 hg1
        refine ⟨j :: A, by rw [a1, List.append_assoc]; rfl, a2, fun hA => by cases hA⟩
    · rw [if_neg hc]
      obtain ⟨A, a1, a2, a3⟩ := ih (j + 1) W V hdrop1 hg
      refine ⟨A, a1, a2, fun hA => ⟨(a3 hA).1, ?_⟩⟩
      intro j1 b1 hj1 hb1 hc1
      rcases Nat.eq_or_lt_of_le hj1 with h | h
      · rw [← h, hbj] at hb1
        rw [← Option.some.inj hb1] at hc1
        exact absurd hc1 hc
      · exact (a3 hA).2 j1 b1 h hb1 hc1

theorem SortGood_length {T : Type} (Bones : List (Bone T)) (W V : List Nat)
    (hg : SortGood Bones W V) : W.length ≤ Bones.length := by
  obtain ⟨_, g2, g3, _⟩ := hg
  have hsub : W ⊆ List.range Bones.length := fun x hx => List.mem_range.2 (g3 x hx)
  have := (List.subperm_of_subset g2 hsub).length_le
  rwa [List.length_range] at this

/-- The first loop: the invariant holds afterwards and every bone without parent has been
visited. -/
theorem TopologySort_roots_spec {T : Type} (Bones : List (Bone T)) :
    ∀ (rest : List (Bone T)) (i : Nat) (W V : List Nat), Bones.drop i = rest →
      SortGood Bones W V → (∀ x ∈ W, x < i) →
      SortGood Bones (TopologySort_roots rest i (W, V)).1 (TopologySort_roots rest i (W, V)).2 ∧
      (∀ x, x ∈ V → x ∈ (TopologySort_roots rest i (W, V)).2) ∧
      (∀ j b, i ≤ j → Bones[j]? = some b → b.ParentId = -1 →
        j ∈ (TopologySort_roots rest i (W, V)).2) := by
  intro rest
  induction rest with
  | nil =>
    intro i W V hdrop hg _
    refine ⟨hg, fun x hx => hx, ?_⟩
    intro j b hj hb _
    have hlen : Bones.length ≤ i := List.drop_eq_nil_iff.1 hdrop
    rw [List.getElem?_eq_none (by omega)] at hb
    cases hb
  | cons b rest ih =>
    intro i W V hdrop hg hlt
    obtain ⟨hbi, hdrop1⟩ := drop_head Bones i b rest hdrop
    unfold TopologySort_roots
    by_cases hr : b.ParentId = -1
    · rw [if_pos hr]
      have hiV : i ∉ V := fun h => Nat.lt_irrefl i (hlt i ((hg.1 i).1 h))
      have hadd : HashSet_Add V i = (true, i :: V) := by simp [HashSet_Add, hiV]
      rw [hadd]
      have hg1 : SortGood Bones (W ++ [i]) (i :: V) :=
        SortGood_add Bones W V i b hg hbi hiV (Or.inl hr)
      obtain ⟨a1, a2, a3⟩ := ih (i + 1) (W ++ [i]) (i :: V) hdrop1 hg1 (by
        intro x hx
        rcases List.mem_append.1 hx with h | h
        · exact Nat.lt_succ_of_lt (hlt x h)
        · rw [List.mem_singleton] at h
          omega)
      refine ⟨a1, fun x hx => a2 x (List.mem_cons_of_mem _ hx), ?_⟩
      intro j b1 hj hb1 hr1
      rcases Nat.eq_or_lt_of_le hj with h | h
      · rw [← h]
        exact a2 i (List.mem_cons_self _ _)
      · exact a3 j b1 h hb1 hr1
    · rw [if_neg hr]
      obtain ⟨a1, a2, a3⟩ := ih (i + 1) W V hdrop1 hg
        (fun x hx => Nat.lt_succ_of_lt (hlt x hx))
      refine ⟨a1, a2, ?_⟩
      intro j b1 hj hb1 hr1
      rcases Nat.eq_or_lt_of_le hj with h | h
      · rw [← h, hbi] at hb1
        rw [← Option.some.inj hb1] at hr1
        exact absurd hr1 hr
      · exact a3 j b1 h hb1 hr1

/-- The main loop returns once the fuel covers the bones, with the invariant at the end of
`workList`. -/
theorem TopologySort_loop_spec {T M : Type} (self : Skeleton T M)
    (hinv : self.InversePose.length = self.Bones.length) :
    ∀ (fuel i : Nat) (st : SortState T M), SortInv self i st →
      self.Bones.length < fuel + i →
      ∃ st1, TopologySort_loop self fuel i st = some st1 ∧
        SortInv self st1.workList.length st1 := by
  intro fuel
  induction fuel with
  | zero =>
    intro i st hI hf
    have := SortGood_length _ _ _ hI.1
    have := hI.2.1
    omega
  | succ n ih =>
    intro i st hI hf
    obtain ⟨hg, hi, hb, hp, hcopy, hclosed, hroots⟩ := hI
    unfold TopologySort_loop
    by_cases hlt : i < st.workList.length
    · rw [if_pos hlt]
      obtain ⟨orig, horig⟩ : ∃ orig, st.workList[i]? = some orig :=
        ⟨_, List.getElem?_eq_getElem hlt⟩
      have horigW : orig ∈ st.workList := List.mem_iff_getElem?.2 ⟨i, horig⟩
      have horign : orig < self.Bones.length := hg.2.2.1 orig horigW
      obtain ⟨bone, hbone⟩ : ∃ bone, self.Bones[orig]? = some bone :=
        ⟨_, List.getElem?_eq_getElem horign⟩
      obtain ⟨pose, hpose⟩ : ∃ pose, self.InversePose[orig]? = some pose :=
        ⟨_, List.getElem?_eq_getElem (by omega)⟩
      simp only [horig, hbone, hpose]
      obtain ⟨A, a1, a2, a3⟩ := TopologySort_visit_spec self.Bones self.Bones 0 st.workList
        st.visitedBones rfl hg
      refine ih (i + 1) _ ⟨a2, ?_, ?_, ?_, ?_, ?_, ?_⟩ (by omega)
      · simp only [a1, List.length_append]
        omega
      · simp only [List.length_append, List.length_singleton, hb]
      · simp only [List.length_append, List.length_singleton, hp]
      · intro k x hk hx
        simp only [a1] at hx
        rw [List.getElem?_append_left (by omega)] at hx
        rw [Dictionary_get_set]
        rcases Nat.eq_or_lt_of_le (Nat.le_of_lt_succ hk) with h | h
        · subst h
          rw [horig] at hx
          have hxo : orig = x := Option.some.inj hx
          subst hxo
          rw [List.getElem?_append_right (by omega), List.getElem?_append_right (by omega), hb,
            hp, Nat.sub_self, if_pos rfl, hbone, hpose]
          exact ⟨rfl, rfl, rfl⟩
        · obtain ⟨c1, c2, c3⟩ := hcopy k x h hx
          have hne : ¬ ((orig : Int) = (x : Int)) := by
            intro he
            have hox : orig = x := by omega
            rw [← hox, ← horig] at hx
            have := List.getElem?_inj (by omega) hg.2.1 hx
            omega
          rw [List.getElem?_append_left (by omega), List.getElem?_append_left (by omega),
            if_neg hne]
          exact ⟨c1, c2, c3⟩
      · intro hlast j b hjb hc
        have hA : A = [] := by
          have h1 : (TopologySort_visit self.Bones 0 (st.workList, st.visitedBones)).1.length =
              i + 1 := hlast.symm
          rw [a1, List.length_append] at h1
          exact List.length_eq_zero.1 (by omega)
        obtain ⟨e1, e2⟩ := a3 hA
        simp only [e1] at hc ⊢
        exact e2 j b (Nat.zero_le _) hjb hc
      · intro j b hjb hr
        have hjV := hroots j b hjb hr
        have hjW := (hg.1 j).1 hjV
        refine (a2.1 j).2 ?_
        rw [a1]
        exact List.mem_append_left _ hjW
    · rw [if_neg hlt]
      have hie : i = st.workList.length := by omega
      refine ⟨st, rfl, ?_⟩
      rw [← hie]
      exact ⟨hg, hi, hb, hp, hcopy, hclosed, hroots⟩

/-- A set of bones that holds every bone without parent and every bone whose parent it holds
contains every bone from which the parent links lead to a bone without parent. -/
theorem reachesRoot_visited {T : Type} (Bones : List (Bone T)) (V : List Nat)
    (hroots : ∀ (j : Nat) (b : Bone T), Bones[j]? = some b → b.ParentId = -1 → j ∈ V)
    (hclosed : ∀ (j : Nat) (b : Bone T), Bones[j]? = some b →
      HashSet_Contains V b.ParentId = true → j ∈ V) :
    ∀ (steps j : Nat), spec_reachesRoot Bones steps j = true → j ∈ V := by
  intro steps
  induction steps with
  | zero => intro j h; simp [spec_reachesRoot] at h
  | succ n ih =>
    intro j h
    unfold spec_reachesRoot at h
    cases hb : Bones[j]? with
    | none => rw [hb] at h; simp at h
    | some b =>
      rw [hb] at h
      simp only [] at h
      by_cases hr : b.ParentId = -1
      · exact hroots j b hb hr
      · rw [if_neg hr] at h
        by_cases hneg : b.ParentId < 0
        · rw [if_pos hneg] at h
          cases h
        · rw [if_neg hneg] at h
          have hp := ih _ h
          refine hclosed j b hb ((HashSet_Contains_iff V _).2 ⟨_, hp, ?_⟩)
          omega

theorem TopologySort_remap_spec {T : Type} (boneMapping : List (Nat × Nat)) :
    ∀ (l : List (Bone T)),
      (∀ bone ∈ l, bone.ParentId = -1 ∨ ∃ v, Dictionary_get boneMapping bone.ParentId = some v) →
      ∃ l1, TopologySort_remap boneMapping l = some l1 ∧ l1.length = l.length ∧
        ∀ (k : Nat) (bone : Bone T), l[k]? = some bone →
          ∃ rb, l1[k]? = some rb ∧ rb.Name = bone.Name ∧ rb.BindPose = bone.BindPose ∧
            (bone.ParentId = -1 → rb.ParentId = -1) ∧
            (bone.ParentId ≠ -1 →
              ∃ v, Dictionary_get boneMapping bone.ParentId = some v ∧ rb.ParentId = (v : Int)) := by
  intro l
  induction l with
  | nil =>
    intro _
    exact ⟨[], rfl, rfl, fun k bone h => by simp at h⟩
  | cons bone rest ih =>
    intro h
    obtain ⟨rest1, r1, r2, r3⟩ := ih (fun b hb => h b (List.mem_cons_of_mem _ hb))
    unfold TopologySort_remap
    rw [r1]
    by_cases hr : bone.ParentId = -1
    · rw [if_pos hr]
      refine ⟨_, rfl, by simp [r2], ?_⟩
      intro k b hk
      cases k with
      | zero =>
        simp only [List.getElem?_cons_zero, Option.some.injEq] at hk
        subst hk
        exact ⟨{ bone with ParentId := -1 }, List.getElem?_cons_zero, rfl, rfl, fun _ => rfl,
          fun hne => absurd hr hne⟩
      | succ k =>
        simp only [List.getElem?_cons_succ] at hk ⊢
        exact r3 k b hk
    · rcases h bone (List.mem_cons_self _ _) with h1 | ⟨v, hv⟩
      · exact absurd h1 hr
      · rw [if_neg hr, hv]
        refine ⟨_, rfl, by simp [r2], ?_⟩
        intro k b hk
        cases k with
        | zero =>
          simp only [List.getElem?_cons_zero, Option.some.injEq] at hk
          subst hk
          exact ⟨{ bone with ParentId := (v : Int) }, List.getElem?_cons_zero, rfl, rfl,
            fun h0 => absurd h0 hr, fun _ => ⟨v, hv, rfl⟩⟩
        | succ k =>
          simp only [List.getElem?_cons_succ] at hk ⊢
          exact r3 k b hk

theorem TopologySort_names_spec (boneMapping : List (Nat × Nat)) :
    ∀ (l : List (String × Int)),
      (∀ e ∈ l, ∃ v, Dictionary_get boneMapping e.2 = some v) →
      ∃ l1, TopologySort_names boneMapping l = some l1 := by
  intro l
  induction l with
  | nil => intro _; exact ⟨[], rfl⟩
  | cons e rest ih =>
    intro h
    obtain ⟨rest1, r1⟩ := ih (fun b hb => h b (List.mem_cons_of_mem _ hb))
    obtain ⟨v, hv⟩ := h e (List.mem_cons_self _ _)
    unfold TopologySort_names
    rw [r1, hv]
    exact ⟨_, rfl⟩

/-- C30: for a skeleton whose `ParentId` links form a forest (following them from any bone
leads to a bone with `ParentId == -1`), with one inverse pose per bone and `BoneMapping`
values that are bone indices, `TopologySort` returns once the fuel covers the bones; the
result has the same number of bones and is a reordering of the input (bone `k` of the result
is bone `W[k]` of the input, for a permutation `W` of the bone indices, with the same `Name`
and `BindPose`); a bone without parent stays without parent, and otherwise its `ParentId` is
an index smaller than its own, that of the bone that was its parent in the input (which has
the same name there). -/
theorem TopologySort_parents_first {T M : Type} (self : Skeleton T M) (fuel : Nat)
    (hforest : ∀ j, j < self.Bones.length →
      spec_reachesRoot self.Bones self.Bones.length j = true)
    (hinv : self.InversePose.length = self.Bones.length)
    (hmap : ∀ e ∈ self.BoneMapping, 0 ≤ e.2 ∧ e.2 < self.Bones.length)
    (hfuel : self.Bones.length < fuel) :
    ∃ (result : Skeleton T M) (W : List Nat), self.TopologySort fuel = some result ∧
      result.Bones.length = self.Bones.length ∧ W.Perm (List.range self.Bones.length) ∧
      ∀ k, k < self.Bones.length →
        ∃ (x : Nat) (b rb : Bone T), W[k]? = some x ∧ self.Bones[x]? = some b ∧
          result.Bones[k]? = some rb ∧
          rb.Name = b.Name ∧ rb.BindPose = b.BindPose ∧
          (b.ParentId = -1 → rb.ParentId = -1) ∧
          (b.ParentId ≠ -1 → ∃ (k1 y : Nat) (pb rpb : Bone T), rb.ParentId = (k1 : Int) ∧
            k1 < k ∧ W[k1]? = some y ∧ (y : Int) = b.ParentId ∧ self.Bones[y]? = some pb ∧
            result.Bones[k1]? = some rpb ∧ rpb.Name = pb.Name) := by
  -- the first loop
  have hg0 : SortGood self.Bones [] [] :=
    ⟨fun _ => Iff.rfl, List.nodup_nil, fun x hx => by simp at hx,
      fun k x b hk _ => by simp at hk⟩
  obtain ⟨s1, _, s3⟩ := TopologySort_roots_spec self.Bones self.Bones 0 [] [] rfl hg0
    (fun x hx => by simp at hx)
  -- the main loop
  have hI0 : SortInv self 0
      { workList := (TopologySort_roots self.Bones 0 ([], [])).1
        visitedBones := (TopologySort_roots self.Bones 0 ([], [])).2
        boneMapping := [], Bones := [], InversePose := [] } := by
    refine ⟨s1, Nat.zero_le _, rfl, rfl, fun k x hk => absurd hk (Nat.not_lt_zero k), ?_,
      fun j b hb hr => s3 j b (Nat.zero_le _) hb hr⟩
    intro hz j b _ hc
    obtain ⟨v, hv, _⟩ := (HashSet_Contains_iff _ _).1 hc
    have hvW := (s1.1 v).1 hv
    have hnil := List.length_eq_zero.1 hz.symm
    simp only [] at hnil
    rw [hnil] at hvW
    simp at hvW
  obtain ⟨st, hst, hI⟩ := TopologySort_loop_spec self hinv fuel 0 _ hI0 (by omega)
  obtain ⟨hg, _, hb, _, hcopy, hclosed, hroots⟩ := hI
  -- every bone has been visited
  have hall : ∀ j, j < self.Bones.length → j ∈ st.workList := fun j hj =>
    (hg.1 j).1 (reachesRoot_visited self.Bones st.visitedBones hroots (hclosed rfl) _ j
      (hforest j hj))
  have hperm : st.workList.Perm (List.range self.Bones.length) :=
    (List.perm_ext_iff_of_nodup hg.2.1 (List.nodup_range _)).2 (fun a =>
      ⟨fun h => List.mem_range.2 (hg.2.2.1 a h), fun h => hall a (List.mem_range.1 h)⟩)
  have hlen : st.workList.length = self.Bones.length := by
    rw [hperm.length_eq, List.length_range]
  -- the copies and the new indices
  have hget : ∀ k, k < self.Bones.length → ∃ x b, st.workList[k]? = some x ∧
      self.Bones[x]? = some b ∧ st.Bones[k]? = some b ∧
      Dictionary_get st.boneMapping (x : Int) = some k := by
    intro k hk
    obtain ⟨x, hx⟩ : ∃ x, st.workList[k]? = some x :=
      ⟨_, List.getElem?_eq_getElem (by omega)⟩
    have hxn : x < self.Bones.length := hg.2.2.1 x (List.mem_iff_getElem?.2 ⟨k, hx⟩)
    obtain ⟨b, hbx⟩ : ∃ b, self.Bones[x]? = some b := ⟨_, List.getElem?_eq_getElem hxn⟩
    obtain ⟨c1, _, c3⟩ := hcopy k x (by omega) hx
    exact ⟨x, b, hx, hbx, by rw [c1, hbx], c3⟩
  have hparent : ∀ (k x : Nat) (b : Bone T), st.workList[k]? = some x →
      self.Bones[x]? = some b →
      b.ParentId ≠ -1 → ∃ k1 y, k1 < k ∧ st.workList[k1]? = some y ∧
        (y : Int) = b.ParentId ∧ Dictionary_get st.boneMapping b.ParentId = some k1 := by
    intro k x b hx hbx hne
    rcases hg.2.2.2 k x b hx hbx with h | ⟨k1, y, h1, h2, h3⟩
    · exact absurd h hne
    · have hk : k < st.workList.length := (List.getElem?_eq_some.1 hx).1
      obtain ⟨_, _, c3⟩ := hcopy k1 y (by omega) h2
      exact ⟨k1, y, h1, h2, h3, by rw [← h3]; exact c3⟩
  -- the two loops at the end
  obtain ⟨bones, hbones, hblen, hbget⟩ := TopologySort_remap_spec st.boneMapping st.Bones (by
    intro bone hbone
    obtain ⟨k, hk⟩ := List.mem_iff_getElem?.1 hbone
    have hkn : k < self.Bones.length := by
      have := (List.getElem?_eq_some.1 hk).1
      omega
    obtain ⟨x, b, hx, hbx, hsb, _⟩ := hget k hkn
    rw [hsb] at hk
    have hbb : b = bone := Option.some.inj hk
    subst hbb
    by_cases hr : b.ParentId = -1
    · exact Or.inl hr
    · obtain ⟨k1, _, _, _, _, h4⟩ := hparent k x b hx hbx hr
      exact Or.inr ⟨k1, h4⟩)
  obtain ⟨names, hnames⟩ := TopologySort_names_spec st.boneMapping self.BoneMapping (by
    intro e he
    obtain ⟨h0, h1⟩ := hmap e he
    have hmem := hall e.2.toNat (by omega)
    obtain ⟨k, hk⟩ := List.mem_iff_getElem?.1 hmem
    have hkn : k < self.Bones.length := by
      have := (List.getElem?_eq_some.1 hk).1
      omega
    obtain ⟨_, _, c3⟩ := hcopy k _ (by omega) hk
    refine ⟨k, ?_⟩
    rw [← c3]
    congr 1
    omega)
  have hres : self.TopologySort fuel = some
      { Name := "", Bones := bones, InversePose := st.InversePose, BoneMapping := names } := by
    unfold Skeleton.TopologySort
    simp only [hst, hbones, hnames]
  refine ⟨_, st.workList, hres, by rw [hblen, hb, hlen], hperm, ?_⟩
  intro k hk
  obtain ⟨x, b, hx, hbx, hsb, _⟩ := hget k hk
  obtain ⟨rb, r1, r2, r3, r4, r5⟩ := hbget k b hsb
  refine ⟨x, b, rb, hx, hbx, r1, r2, r3, r4, ?_⟩
  intro hne
  obtain ⟨k1, y, h1, h2, h3, h4⟩ := hparent k x b hx hbx hne
  obtain ⟨v, hv, hrv⟩ := r5 hne
  rw [h4] at hv
  have hvk : k1 = v := Option.some.inj hv
  obtain ⟨y1, pb, hy1, hpb, hspb, _⟩ := hget k1 (by omega)
  rw [h2] at hy1
  have hyy : y = y1 := Option.some.inj hy1
  subst hyy
  obtain ⟨rpb, q1, q2, _⟩ := hbget k1 pb hspb
  exact ⟨k1, y, pb, rpb, by rw [hrv, hvk], h1, h2, h3, hpb, q1, q2⟩

theorem TopologySort_parents_first_witness :
    ∃ (result : Skeleton Nat Nat) (W : List Nat),
      sampleSkeleton.TopologySort 5 = some result ∧
      result.Bones.length = sampleSkeleton.Bones.length ∧
      W.Perm (List.range sampleSkeleton.Bones.length) ∧
      ∀ k, k < sampleSkeleton.Bones.length →
        ∃ (x : Nat) (b rb : Bone Nat), W[k]? = some x ∧ sampleSkeleton.Bones[x]? = some b ∧
          result.Bones[k]? = some rb ∧ rb.Name = b.Name ∧ rb.BindPose = b.BindPose ∧
          (b.ParentId = -1 → rb.ParentId = -1) ∧
          (b.ParentId ≠ -1 → ∃ (k1 y : Nat) (pb rpb : Bone Nat), rb.ParentId = (k1 : Int) ∧
            k1 < k ∧ W[k1]? = some y ∧ (y : Int) = b.ParentId ∧
            sampleSkeleton.Bones[y]? = some pb ∧
            result.Bones[k1]? = some rpb ∧ rpb.Name = pb.Name) :=
  TopologySort_parents_first sampleSkeleton 5 (by decide) rfl (by decide) (by decide)

end GameEngine
